import Mathlib

/-!
# Luau VM library layer: a shallow embedding

The definitions below follow the C++ sources of the VM library layer
(`ltablib.cpp`, `lbaselib.cpp`, `lcorolib.cpp`, `lbuflib.cpp`, `ldebug.cpp`,
`laux.cpp`, `ltm.cpp`, `lgcdebug.cpp`, `lutf8lib.cpp`, `SCrypt.h`).  Stateful code is written as explicit state passing
over `lua_State`; a raised error keeps the state reached at the moment of the
throw, so that partial mutation is observable.  Machine integers are `Int` or
`Nat` with explicit wrap-around where the source relies on it.
-/

namespace Luau

/-! ## SCrypt.h -/

/-- The byte loop of `scrypt` in SCrypt.h: every byte `c` before the
terminating NUL is replaced by `(char)(256 - c)`. -/
def scryptBytes : List Nat → List Nat
  | [] => []
  | c :: s => if c = 0 then [] else (256 - c) % 256 :: scryptBytes s

/-- The function `scrypt` of SCrypt.h, from the bytes of the encoded literal to
the decoded `std::string`. -/
def scrypt (s : List Nat) : String :=
  String.mk ((scryptBytes s).map Char.ofNat)

/-! ## Values -/

/-- Type tags of `lua_type`; `LUA_TNONE` is the tag of an absent argument. -/
inductive lua_Type where
  | LUA_TNONE
  | LUA_TNIL
  | LUA_TBOOLEAN
  | LUA_TLIGHTUSERDATA
  | LUA_TNUMBER
  | LUA_TVECTOR
  | LUA_TSTRING
  | LUA_TTABLE
  | LUA_TFUNCTION
  | LUA_TUSERDATA
  | LUA_TTHREAD
  | LUA_TBUFFER
  deriving DecidableEq, Repr

/-- The tagged value `TValue`.  Collectable values carry the address of their
heap object.  Numbers are carried by their integral value: the library paths
embedded here only store, move and compare them with integer bounds. -/
inductive TValue where
  | nil
  | boolean (b : Bool)
  | lightuserdata (p : Nat)
  | number (n : Int)
  | vector (v : Nat)
  | string (s : String)
  | table (h : Nat)
  | function (f : Nat)
  | userdata (u : Nat)
  | thread (th : Nat)
  | buffer (b : Nat)
  deriving DecidableEq, Repr

/-- The macro `ttype`. -/
def ttype : TValue → lua_Type
  | .nil => .LUA_TNIL
  | .boolean _ => .LUA_TBOOLEAN
  | .lightuserdata _ => .LUA_TLIGHTUSERDATA
  | .number _ => .LUA_TNUMBER
  | .vector _ => .LUA_TVECTOR
  | .string _ => .LUA_TSTRING
  | .table _ => .LUA_TTABLE
  | .function _ => .LUA_TFUNCTION
  | .userdata _ => .LUA_TUSERDATA
  | .thread _ => .LUA_TTHREAD
  | .buffer _ => .LUA_TBUFFER

/-- The macro `ttisnil`. -/
def ttisnil (v : TValue) : Bool :=
  match v with
  | .nil => true
  | _ => false

/-- The constant `INT_MAX` of a 32-bit `int`. -/
def INT_MAX : Int := 2147483647

/-- The constant `INT_MIN` of a 32-bit `int`. -/
def INT_MIN : Int := -2147483648

/-- The C conversion `unsigned(x)` of an `int` to a 32-bit unsigned value. -/
def toUnsigned (x : Int) : Nat :=
  (x % 4294967296).toNat

/-! ## Tables -/

/-- The object `LuaTable`: array part (`sizearray` is its length), hash part as
key/value pairs (the node layout is not modelled), the read-only flag and the
metatable reference. -/
structure LuaTable where
  array : List TValue
  node : List (TValue × TValue)
  readonly : Bool
  metatable : Option Nat
  deriving DecidableEq, Repr

/-- Status codes stored in `L->status` and returned by `lua_resume` and
`luaD_pcall`; `LUA_OK` is the value 0. -/
inductive lua_Status where
  | LUA_OK
  | LUA_YIELD
  | LUA_ERRRUN
  | LUA_ERRSYNTAX
  | LUA_ERRMEM
  | LUA_ERRERR
  | LUA_BREAK
  deriving DecidableEq, Repr

/-- The thread state `lua_State`, restricted to what the library layer reads
and writes: the slots `L->base .. L->top - 1`, the table objects of the heap
(addressed by position), `L->status`, the number of call frames above
`L->base_ci`, the identity of the thread object and `L->singlestep`. -/
structure lua_State where
  stack : List TValue
  tables : List LuaTable
  status : lua_Status
  nci : Nat
  tid : Nat
  singlestep : Bool
  deriving DecidableEq, Repr

/-- The errors a library function can throw, by the raising function of
`ldebug.cpp` / `laux.cpp` that was called and the formatted text it was given:
`luaG_runerror` (thrown with `LUA_ERRRUN`), `luaL_error`, `luaL_argerror`,
`luaL_typeerror` with the expected type name, and `tag_error` with the expected
tag.  A library function that calls one of them raises in the state of the
call; the message that `luaL_error` builds from the position of
`luaL_where(L, 1)` and the text, and leaves on the stack, is that of
`luaL_errorL`. -/
inductive LuaError where
  | runerror (msg : String)
  | error (msg : String)
  | argerror (narg : Int) (extramsg : String)
  | typeerror (narg : Int) (tname : String)
  | tagerror (narg : Int) (expected : lua_Type)
  deriving DecidableEq, Repr

/-- Result of running a piece of library code: normal completion with a value,
or a throw; both carry the state reached. -/
inductive Step (α : Type) where
  | ok (L : lua_State) (a : α)
  | raise (L : lua_State) (e : LuaError)
  deriving DecidableEq, Repr

/-- State of a `Step`, whichever way it ended. -/
def Step.state {α : Type} : Step α → lua_State
  | .ok L _ => L
  | .raise L _ => L

/-- Sequencing of library code: a throw skips the continuation. -/
def Step.andThen {α β : Type} (s : Step α) (k : lua_State → α → Step β) : Step β :=
  match s with
  | .ok L a => k L a
  | .raise L e => .raise L e

/-- An empty table object, used for addresses outside the heap. -/
def emptyTable : LuaTable :=
  { array := [], node := [], readonly := false, metatable := none }

/-- The macro `hvalue` followed by the dereference of the table pointer; an
address outside the heap reads as an empty table. -/
def getTable (L : lua_State) (h : Nat) : LuaTable :=
  L.tables.getD h emptyTable

/-- Store through a table pointer. -/
def setTable (L : lua_State) (h : Nat) (t : LuaTable) : lua_State :=
  { L with tables := L.tables.set h t }

/-- Lookup in the hash part: the value stored under `key`, or nil. -/
def nodeGet : List (TValue × TValue) → TValue → TValue
  | [], _ => .nil
  | (k, v) :: rest, key => if k = key then v else nodeGet rest key

/-- Store in the hash part: overwrite the entry of `key`, or add one. -/
def nodeSet : List (TValue × TValue) → TValue → TValue → List (TValue × TValue)
  | [], key, val => [(key, val)]
  | (k, v) :: rest, key, val =>
    if k = key then (k, val) :: rest else (k, v) :: nodeSet rest key val

/-- Whether the hash part has an entry for `key`. -/
def nodeHas : List (TValue × TValue) → TValue → Bool
  | [], _ => false
  | (k, _) :: rest, key => if k = key then true else nodeHas rest key

/-- Modelled from the spec: `luaH_getnum` of ltable.cpp is not among the
sources.  A table is a dense array part (index 1..sizearray) plus a hash part;
an integer key inside the array bound is read from the array part, any other
from the hash part. -/
def luaH_getnum (t : LuaTable) (key : Int) : TValue :=
  if 1 ≤ key ∧ key ≤ t.array.length then t.array.getD (key - 1).toNat .nil
  else nodeGet t.node (.number key)

/-- Modelled from the spec: `luaH_get` of ltable.cpp is not among the sources.
Raw read of an arbitrary key: integer keys go through `luaH_getnum`, every
other key is looked up in the hash part. -/
def luaH_get (t : LuaTable) (key : TValue) : TValue :=
  match key with
  | .number n => luaH_getnum t n
  | k => nodeGet t.node k

/-- Values that move from the hash part into the slots `from_ + 1 .. from_ + cnt`
of a grown array part. -/
def migrated (node : List (TValue × TValue)) (from_ : Nat) : Nat → List TValue
  | 0 => []
  | cnt + 1 => nodeGet node (.number ((from_ : Int) + 1)) :: migrated node (from_ + 1) cnt

/-- Whether `key` is an integer key in `lo + 1 .. hi`. -/
def inArrayRange (lo hi : Nat) (key : TValue) : Bool :=
  match key with
  | .number n => decide ((lo : Int) < n ∧ n ≤ (hi : Int))
  | _ => false

/-- Entries that move from the slots `from_ + 1 ..` of a shrunk array part into
the hash part. -/
def spilled (node : List (TValue × TValue)) (from_ : Nat) : List TValue → List (TValue × TValue)
  | [] => node
  | v :: vs =>
    spilled (if ttisnil v then node else nodeSet node (.number ((from_ : Int) + 1)) v) (from_ + 1) vs

/-- Modelled from the spec: `luaH_resizearray` of ltable.cpp is not among the
sources.  It sets the size of the array part; keys that are small positive
integers live in the array part, so entries whose keys enter the array range
move there from the hash part, and entries that leave it move to the hash
part.  No key changes its value. -/
def luaH_resizearray (t : LuaTable) (nasize : Nat) : LuaTable :=
  if t.array.length ≤ nasize then
    { t with
      array := t.array ++ migrated t.node t.array.length (nasize - t.array.length),
      node := t.node.filter (fun e => !inArrayRange t.array.length nasize e.1) }
  else
    { t with
      array := t.array.take nasize,
      node := spilled t.node nasize (t.array.drop nasize) }

/-- Modelled from the spec: `luaH_setnum` of ltable.cpp followed by the store
is not among the sources.  A key inside the array bound is stored in the array
part; the array part grows by doubling when a positive-integer key one past
the current array bound is inserted; any other key is stored in the hash
part. -/
def luaH_setnum (t : LuaTable) (key : Int) (v : TValue) : LuaTable :=
  if 1 ≤ key ∧ key ≤ t.array.length then
    { t with array := t.array.set (key - 1).toNat v }
  else if key = (t.array.length : Int) + 1 ∧ nodeHas t.node (.number key) = false then
    let g := luaH_resizearray t (max 1 (2 * t.array.length))
    { g with array := g.array.set t.array.length v }
  else
    { t with node := nodeSet t.node (.number key) v }

/-- Binary search for a border inside the array part: on entry slot `i` is
non-nil (or `i = 0`) and slot `j` is nil. -/
def arrayBorder (array : List TValue) : Nat → Nat → Nat → Nat
  | 0, i, _ => i
  | fuel + 1, i, j =>
    if j - i > 1 then
      let m := (i + j) / 2
      if ttisnil (array.getD (m - 1) .nil) then arrayBorder array fuel i m
      else arrayBorder array fuel m j
    else i

/-- Search for a border in the hash part, upward from index `j`, which is
non-nil or 0. -/
def hashBorder (node : List (TValue × TValue)) : Nat → Nat → Nat
  | 0, j => j
  | fuel + 1, j =>
    if ttisnil (nodeGet node (.number ((j : Int) + 1))) then j
    else hashBorder node fuel (j + 1)

/-- Modelled from the spec: `luaH_getn` of ltable.cpp is not among the sources.
The length is a border, an index n where t[n] is non-nil and t[n+1] is nil,
found via binary search over the array part, with hash-part fallback only if
the array part is fully occupied. -/
def luaH_getn (t : LuaTable) : Nat :=
  let j := t.array.length
  if 0 < j ∧ ttisnil (t.array.getD (j - 1) .nil) then
    arrayBorder t.array j 0 j
  else
    hashBorder t.node t.node.length j

/-! ## The stack interface (lapi.cpp is not among the sources)

Modelled from the spec, section 6: push/read typed values onto a thread's
stack by position, query a value's tag, raw table access bypassing
metamethods. -/

/-- Modelled from the spec: `index2addr` of lapi.cpp is not among the sources.
Values are read on a thread's stack by position: positive indices count from
`L->base`, negative ones from `L->top`; `none` for an index outside the
frame. -/
def index2addr (L : lua_State) (idx : Int) : Option TValue :=
  if 0 < idx then L.stack[(idx - 1).toNat]?
  else if idx < 0 ∧ -idx ≤ (L.stack.length : Int) then L.stack[L.stack.length - (-idx).toNat]?
  else none

/-- Modelled from the spec: `lua_type` of lapi.cpp is not among the sources.
It queries the tag of the value at a position; `LUA_TNONE` outside the
frame. -/
def lua_type (L : lua_State) (idx : Int) : lua_Type :=
  match index2addr L idx with
  | some v => ttype v
  | none => .LUA_TNONE

/-- The macro `lua_isnoneornil`. -/
def lua_isnoneornil (L : lua_State) (idx : Int) : Bool :=
  decide (lua_type L idx = .LUA_TNONE ∨ lua_type L idx = .LUA_TNIL)

/-- Modelled from the spec: `lua_gettop` of lapi.cpp is not among the sources.
The number of values in the frame, `L->top - L->base`. -/
def lua_gettop (L : lua_State) : Nat :=
  L.stack.length

/-- Modelled from the spec: the push functions of lapi.cpp (`lua_pushnil`,
`lua_pushboolean`, `lua_pushvalue`, `lua_pushfstring`) are not among the
sources.  They push one typed value onto the thread's stack. -/
def push (L : lua_State) (v : TValue) : lua_State :=
  { L with stack := L.stack ++ [v] }

/-- Modelled from the spec: `lua_settop` of lapi.cpp is not among the sources.
For a non-negative index the frame is cut to that many values, or padded with
nil. -/
def lua_settop (L : lua_State) (n : Nat) : lua_State :=
  { L with stack := L.stack.take n ++ List.replicate (n - L.stack.length) .nil }

/-- The table pointer held by the slot at `idx` (`hvalue`). -/
def tableAt (L : lua_State) (idx : Int) : Option Nat :=
  match index2addr L idx with
  | some (.table h) => some h
  | _ => none

/-- The function `luaL_checktype` of laux.cpp. -/
def luaL_checktype (L : lua_State) (narg : Int) (t : lua_Type) : Step Unit :=
  if lua_type L narg ≠ t then .raise L (.tagerror narg t) else .ok L ()

/-- Modelled from the spec: the macro `luai_num2int` of lnumutils.h, the C cast
of a number to `int`, is not among the sources.  A number that fits an `int`
converts to itself.  For a number that does not fit, C leaves the conversion
undefined; the value here is the one the x86 conversion instruction gives,
`INT_MIN`. -/
def luai_num2int (n : Int) : Int :=
  if INT_MIN ≤ n ∧ n ≤ INT_MAX then n else INT_MIN

/-- Modelled from the spec: `lua_tointegerx` of lapi.cpp is not among the
sources.  Values are coerced between compatible representations: a number
converts to its integer value as a C `int` (`luai_num2int`), a string through
the string-to-number coercion `cvt2num`, which is a parameter, and then like
a number; no other value converts. -/
def lua_tointegerx (cvt2num : String → Option Int) (L : lua_State) (idx : Int) : Option Int :=
  match index2addr L idx with
  | some (.number n) => some (luai_num2int n)
  | some (.string s) => (cvt2num s).map luai_num2int
  | _ => none

/-- The function `luaL_checkinteger` of laux.cpp. -/
def luaL_checkinteger (cvt2num : String → Option Int) (L : lua_State) (narg : Int) : Step Int :=
  match lua_tointegerx cvt2num L narg with
  | some d => .ok L d
  | none => .raise L (.tagerror narg .LUA_TNUMBER)

/-- The function `luaL_optinteger` of laux.cpp (macro `luaL_opt`). -/
def luaL_optinteger (cvt2num : String → Option Int) (L : lua_State) (narg : Int) (d : Int) :
    Step Int :=
  if lua_isnoneornil L narg then .ok L d else luaL_checkinteger cvt2num L narg

/-- The macro `luaL_argcheck` of lualib.h: `luaL_argerror` unless `cond`. -/
def luaL_argcheck (L : lua_State) (cond : Bool) (narg : Int) (extramsg : String) : Step Unit :=
  if cond then .ok L () else .raise L (.argerror narg extramsg)

/-- The message of `luaG_readonlyerror` in ldebug.cpp, decoded from its
literal. -/
def readonlyMessage : String :=
  scrypt [0x9f, 0x8c, 0x8c, 0x9b, 0x93, 0x90, 0x8c, 0xe0, 0x8c, 0x91, 0xe0, 0x93, 0x91, 0x9c,
    0x97, 0x9a, 0x87, 0xe0, 0x9f, 0xe0, 0x8e, 0x9b, 0x9f, 0x9c, 0x91, 0x92, 0x94, 0x87, 0xe0,
    0x8c, 0x9f, 0x9e, 0x94, 0x9b]

/-- The function `luaG_readonlyerror` of ldebug.cpp: `luaG_runerror` with the
read-only message; it does not return. -/
def luaG_readonlyerror {α : Type} (L : lua_State) : Step α :=
  .raise L (.runerror readonlyMessage)

/-- Modelled from the spec: `lua_objlen` of lapi.cpp is not among the sources.
The length query of the raw-access interface, on a table argument:
`luaH_getn`; 0 for a slot that holds no table. -/
def lua_objlen (L : lua_State) (idx : Int) : Int :=
  match tableAt L idx with
  | some h => (luaH_getn (getTable L h) : Int)
  | none => 0

/-- Modelled from the spec: `lua_rawgeti` of lapi.cpp is not among the sources.
Raw table read bypassing metamethods: push `t[n]` for the table at `idx`. -/
def lua_rawgeti (L : lua_State) (idx : Int) (n : Int) : lua_State :=
  match tableAt L idx with
  | some h => push L (luaH_getnum (getTable L h) n)
  | none => push L .nil

/-- Modelled from the spec: `lua_rawseti` of lapi.cpp is not among the sources.
The read-only flag is checked on every mutating entry point, before any
mutation; otherwise the value on top of the stack is stored as `t[n]` of the
table at `idx` and popped. -/
def lua_rawseti (L : lua_State) (idx : Int) (n : Int) : Step Unit :=
  match tableAt L idx with
  | some h =>
    if (getTable L h).readonly then luaG_readonlyerror L
    else
      let v := L.stack.getLastD .nil
      let L1 := setTable L h (luaH_setnum (getTable L h) n v)
      .ok { L1 with stack := L1.stack.dropLast } ()
  | none => .ok { L with stack := L.stack.dropLast } ()

/-! ## ltablib.cpp -/

/-- One `setobj2t(L, &dstarray[di], &srcarray[si])` of the array path of
`moveelements`. -/
def copySlot (L : lua_State) (src dst : Nat) (si di : Int) : lua_State :=
  let v := (getTable L src).array.getD si.toNat .nil
  let d := getTable L dst
  setTable L dst { d with array := d.array.set di.toNat v }

/-- The loop `for (int i = 0; i < n; ++i)` of the array path, from index `i`
for `cnt` more iterations. -/
def copyUp (src dst : Nat) (f t : Int) : Nat → Nat → lua_State → lua_State
  | 0, _, L => L
  | cnt + 1, i, L => copyUp src dst f t cnt (i + 1) (copySlot L src dst (f + i - 1) (t + i - 1))

/-- The loop `for (int i = n - 1; i >= 0; i--)` of the array path; the
argument is `i + 1`. -/
def copyDown (src dst : Nat) (f t : Int) : Nat → lua_State → lua_State
  | 0, L => L
  | i + 1, L => copyDown src dst f t i (copySlot L src dst (f + i - 1) (t + i - 1))

/-- The loop `for (int i = 0; i < n; ++i)` of the generic path:
`lua_rawgeti(L, srct, f + i); lua_rawseti(L, dstt, t + i)`. -/
def rawMoveUp (srct dstt : Int) (f t : Int) : Nat → Nat → lua_State → Step Unit
  | 0, _, L => .ok L ()
  | cnt + 1, i, L =>
    (lua_rawseti (lua_rawgeti L srct (f + i)) dstt (t + i)).andThen
      fun L1 _ => rawMoveUp srct dstt f t cnt (i + 1) L1

/-- The loop `for (int i = n - 1; i >= 0; i--)` of the generic path; the
argument is `i + 1`. -/
def rawMoveDown (srct dstt : Int) (f t : Int) : Nat → lua_State → Step Unit
  | 0, L => .ok L ()
  | i + 1, L =>
    (lua_rawseti (lua_rawgeti L srct (f + i)) dstt (t + i)).andThen
      fun L1 _ => rawMoveDown srct dstt f t i L1

/-- The function `moveelements` of ltablib.cpp. -/
def moveelements (L : lua_State) (srct dstt : Int) (f e t : Int) : Step Unit :=
  let src := (tableAt L srct).getD 0
  let dst := (tableAt L dstt).getD 0
  if (getTable L dst).readonly then luaG_readonlyerror L
  else
    let n := e - f + 1
    let srcsize := (getTable L src).array.length
    let dstsize := (getTable L dst).array.length
    if (toUnsigned f + 4294967295) % 4294967296 < srcsize ∧
        (toUnsigned t + 4294967295) % 4294967296 < dstsize ∧
        (toUnsigned f + 4294967295 + toUnsigned n) % 4294967296 ≤ srcsize ∧
        (toUnsigned t + 4294967295 + toUnsigned n) % 4294967296 ≤ dstsize then
      if t > e ∨ t ≤ f ∨ (dstt ≠ srct ∧ dst ≠ src) then
        .ok (copyUp src dst f t n.toNat 0 L) ()
      else
        .ok (copyDown src dst f t n.toNat L) ()
    else
      if t > e ∨ t ≤ f ∨ dst ≠ src then rawMoveUp srct dstt f t n.toNat 0 L
      else rawMoveDown srct dstt f t n.toNat L

/-- The message of the default case of `tinsert`, decoded from its literal. -/
def tinsertMessage : String :=
  scrypt [0x89, 0x8e, 0x91, 0x92, 0x99, 0xe0, 0x92, 0x8b, 0x93, 0x9e, 0x9b, 0x8e, 0xe0, 0x91,
    0x9a, 0xe0, 0x9f, 0x8e, 0x99, 0x8b, 0x93, 0x9b, 0x92, 0x8c, 0x8d, 0xe0, 0x8c, 0x91, 0xe0,
    0xd9, 0x97, 0x92, 0x8d, 0x9b, 0x8e, 0x8c, 0xd9]

/-- The function `tinsert` of ltablib.cpp (`table.insert`); the value of the
`Step` is the number of results. -/
def tinsert (cvt2num : String → Option Int) (L : lua_State) : Step Int :=
  (luaL_checktype L 1 .LUA_TTABLE).andThen fun L _ =>
    let n := lua_objlen L 1
    match lua_gettop L with
    | 2 => (lua_rawseti L 1 (n + 1)).andThen fun L _ => .ok L 0
    | 3 =>
      (luaL_checkinteger cvt2num L 2).andThen fun L pos =>
        (if 1 ≤ pos ∧ pos ≤ n then moveelements L 1 1 pos n (pos + 1) else .ok L ()).andThen
          fun L _ => (lua_rawseti L 1 pos).andThen fun L _ => .ok L 0
    | _ => .raise L (.error tinsertMessage)

/-- The function `tremove` of ltablib.cpp (`table.remove`). -/
def tremove (cvt2num : String → Option Int) (L : lua_State) : Step Int :=
  (luaL_checktype L 1 .LUA_TTABLE).andThen fun L _ =>
    let n := lua_objlen L 1
    (luaL_optinteger cvt2num L 2 n).andThen fun L pos =>
      if ¬ (1 ≤ pos ∧ pos ≤ n) then .ok L 0
      else
        (moveelements (lua_rawgeti L 1 pos) 1 1 (pos + 1) n pos).andThen fun L _ =>
          (lua_rawseti (push L .nil) 1 n).andThen fun L _ => .ok L 1

/-- The literal `STR_0` of `tmove`, decoded. -/
def tmoveTooMany : String :=
  scrypt [0x8c, 0x91, 0x91, 0xe0, 0x93, 0x9f, 0x92, 0x87, 0xe0, 0x9b, 0x94, 0x9b, 0x93, 0x9b,
    0x92, 0x8c, 0x8d, 0xe0, 0x8c, 0x91, 0xe0, 0x93, 0x91, 0x8a, 0x9b]

/-- The literal `STR_1` of `tmove`, decoded. -/
def tmoveWrapAround : String :=
  scrypt [0x9c, 0x9b, 0x8d, 0x8c, 0x97, 0x92, 0x9f, 0x8c, 0x97, 0x91, 0x92, 0xe0, 0x89, 0x8e,
    0x9f, 0x90, 0xe0, 0x9f, 0x8e, 0x91, 0x8b, 0x92, 0x9c]

/-- The function `tmove` of ltablib.cpp (`table.move`). -/
def tmove (cvt2num : String → Option Int) (L : lua_State) : Step Int :=
  (luaL_checktype L 1 .LUA_TTABLE).andThen fun L _ =>
  (luaL_checkinteger cvt2num L 2).andThen fun L f =>
  (luaL_checkinteger cvt2num L 3).andThen fun L e =>
  (luaL_checkinteger cvt2num L 4).andThen fun L t =>
    let tt : Int := if ! lua_isnoneornil L 5 then 5 else 1
    (luaL_checktype L tt .LUA_TTABLE).andThen fun L _ =>
      (if e ≥ f then
        (luaL_argcheck L (decide (f > 0 ∨ e < INT_MAX + f)) 3 tmoveTooMany).andThen fun L _ =>
          let n := e - f + 1
          (luaL_argcheck L (decide (t ≤ INT_MAX - n + 1)) 4 tmoveWrapAround).andThen fun L _ =>
            let dst := (tableAt L tt).getD 0
            if (getTable L dst).readonly then luaG_readonlyerror L
            else
              let size : Int := (getTable L dst).array.length
              let L1 :=
                if t > 0 ∧ t - 1 ≤ size ∧ t - 1 + n > size then
                  setTable L dst (luaH_resizearray (getTable L dst) (t - 1 + n).toNat)
                else L
              moveelements L1 1 tt f e t
      else .ok L ()).andThen fun L _ =>
        .ok (push L ((index2addr L tt).getD .nil)) 1

/-- The type `SortPredicate` of ltablib.cpp: the comparison may run script
code, so it passes the state and may throw. -/
abbrev SortPredicate := lua_State → TValue → TValue → Step Bool

/-- The function `sort_func` of ltablib.cpp: call the function in slot 2 with
the two operands; `luaD_call` is the interpreter, a parameter here. -/
def sort_func (luaD_call : lua_State → TValue → List TValue → Step (List TValue)) :
    SortPredicate :=
  fun L l r =>
    (luaD_call L (L.stack.getD 1 .nil) [l, r]).andThen fun L res =>
      match res.headD .nil with
      | .nil => .ok L false
      | .boolean false => .ok L false
      | _ => .ok L true

/-- The function `sort_swap` of ltablib.cpp. -/
def sort_swap (L : lua_State) (h : Nat) (i j : Nat) : lua_State :=
  let t := getTable L h
  let temp := t.array.getD i .nil
  let arr1 := t.array.set i (t.array.getD j .nil)
  setTable L h { t with array := arr1.set j temp }

/-- The literal of `sort_less`, decoded. -/
def sortModifiedMessage : String :=
  scrypt [0x8c, 0x9f, 0x9e, 0x94, 0x9b, 0xe0, 0x93, 0x91, 0x9c, 0x97, 0x9a, 0x97, 0x9b, 0x9c,
    0xe0, 0x9c, 0x8b, 0x8e, 0x97, 0x92, 0x99, 0xe0, 0x8d, 0x91, 0x8e, 0x8c, 0x97, 0x92, 0x99]

/-- The function `sort_less` of ltablib.cpp. -/
def sort_less (L : lua_State) (h : Nat) (i j : Nat) (pred : SortPredicate) : Step Bool :=
  let t := getTable L h
  let n := t.array.length
  (pred L (t.array.getD i .nil) (t.array.getD j .nil)).andThen fun L res =>
    if (getTable L h).array.length ≠ n then .raise L (.error sortModifiedMessage)
    else .ok L res

/-- The loop `while (root * 2 + 2 < count)` of `sort_siftheap`; the value is
the root at loop exit.  The root grows in every iteration, so `count`
iterations of fuel are enough. -/
def siftLoop (pred : SortPredicate) (h l count : Nat) : Nat → lua_State → Nat → Step Nat
  | 0, L, root => .ok L root
  | fuel + 1, L, root =>
    if root * 2 + 2 < count then
      let left := root * 2 + 1
      let right := root * 2 + 2
      (sort_less L h (l + root) (l + left) pred).andThen fun L b1 =>
        let next1 := if b1 then left else root
        (sort_less L h (l + next1) (l + right) pred).andThen fun L b2 =>
          let next := if b2 then right else next1
          if next = root then .ok L root
          else siftLoop pred h l count fuel (sort_swap L h (l + root) (l + next)) next
    else .ok L root

/-- The function `sort_siftheap` of ltablib.cpp. -/
def sort_siftheap (L : lua_State) (h l u : Nat) (pred : SortPredicate) (root : Nat) :
    Step Unit :=
  let count := u - l + 1
  (siftLoop pred h l count count L root).andThen fun L root =>
    let lastleft := root * 2 + 1
    if lastleft = count - 1 then
      (sort_less L h (l + root) (l + lastleft) pred).andThen fun L b =>
        if b then .ok (sort_swap L h (l + root) (l + lastleft)) () else .ok L ()
    else .ok L ()

/-- The loop `for (int i = count / 2 - 1; i >= 0; --i)` of `sort_heap`; the
argument is `i + 1`. -/
def heapBuild (pred : SortPredicate) (h l u : Nat) : Nat → lua_State → Step Unit
  | 0, L => .ok L ()
  | i + 1, L => (sort_siftheap L h l u pred i).andThen fun L _ => heapBuild pred h l u i L

/-- The loop `for (int i = count - 1; i > 0; --i)` of `sort_heap`; the
argument is `i`. -/
def heapDrain (pred : SortPredicate) (h l : Nat) : Nat → lua_State → Step Unit
  | 0, L => .ok L ()
  | i + 1, L =>
    (sort_siftheap (sort_swap L h l (l + (i + 1))) h l (l + (i + 1) - 1) pred 0).andThen
      fun L _ => heapDrain pred h l i L

/-- The function `sort_heap` of ltablib.cpp. -/
def sort_heap (L : lua_State) (h l u : Nat) (pred : SortPredicate) : Step Unit :=
  let count := u - l + 1
  (heapBuild pred h l u (count / 2) L).andThen fun L _ => heapDrain pred h l (count - 1) L

/-- The literal of the partition loops of `sort_rec`, decoded. -/
def sortInvalidOrder : String :=
  scrypt [0x97, 0x92, 0x8a, 0x9f, 0x94, 0x97, 0x9c, 0xe0, 0x91, 0x8e, 0x9c, 0x9b, 0x8e, 0xe0,
    0x9a, 0x8b, 0x92, 0x9d, 0x8c, 0x97, 0x91, 0x92, 0xe0, 0x9a, 0x91, 0x8e, 0xe0, 0x8d, 0x91,
    0x8e, 0x8c, 0x97, 0x92, 0x99]

/-- The loop `while (sort_less(L, t, ++i, p, pred))` of `sort_rec`, entered
with the value of `i` before the increment; the value is `i` at exit. -/
def scanUp (pred : SortPredicate) (h p u : Nat) : Nat → lua_State → Nat → Step Nat
  | 0, L, i => .ok L i
  | fuel + 1, L, i =>
    (sort_less L h (i + 1) p pred).andThen fun L b =>
      if b then
        if i + 1 ≥ u then .raise L (.error sortInvalidOrder)
        else scanUp pred h p u fuel L (i + 1)
      else .ok L (i + 1)

/-- The loop `while (sort_less(L, t, p, --j, pred))` of `sort_rec`, entered
with the value of `j` before the decrement; the value is `j` at exit. -/
def scanDown (pred : SortPredicate) (h p l : Nat) : Nat → lua_State → Nat → Step Nat
  | 0, L, j => .ok L j
  | fuel + 1, L, j =>
    (sort_less L h p (j - 1) pred).andThen fun L b =>
      if b then
        if j - 1 ≤ l then .raise L (.error sortInvalidOrder)
        else scanDown pred h p l fuel L (j - 1)
      else .ok L (j - 1)

/-- The partition loop `for (;;)` of `sort_rec`; the value is the pair
`(i, j)` at the `break`. -/
def partitionLoop (pred : SortPredicate) (h p l u : Nat) :
    Nat → lua_State → Nat → Nat → Step (Nat × Nat)
  | 0, L, i, j => .ok L (i, j)
  | fuel + 1, L, i, j =>
    (scanUp pred h p u (u - i) L i).andThen fun L i1 =>
      (scanDown pred h p l (j - l) L j).andThen fun L j1 =>
        if j1 < i1 then .ok L (i1, j1)
        else partitionLoop pred h p l u fuel (sort_swap L h i1 j1) i1 j1

/-- The function `sort_rec` of ltablib.cpp: the `while (l < u)` loop and its
recursive call both consume fuel; the range shrinks each time, so
`u - l + 1` is enough. -/
def sort_rec (pred : SortPredicate) (h : Nat) :
    Nat → lua_State → Nat → Nat → Nat → Step Unit
  | 0, L, _, _, _ => .ok L ()
  | fuel + 1, L, l, u, limit =>
    if l < u then
      if limit = 0 then sort_heap L h l u pred
      else
        (sort_less L h u l pred).andThen fun L b =>
          let L := if b then sort_swap L h u l else L
          if u - l = 1 then .ok L ()
          else
            let m := l + ((u - l) >>> 1)
            (sort_less L h m l pred).andThen fun L b1 =>
              (if b1 then Step.ok (sort_swap L h m l) ()
               else (sort_less L h u m pred).andThen fun L b2 =>
                 if b2 then .ok (sort_swap L h m u) () else .ok L ()).andThen fun L _ =>
                if u - l = 2 then .ok L ()
                else
                  let p := u - 1
                  let L := sort_swap L h m (u - 1)
                  (partitionLoop pred h p l u (u - l) L l (u - 1)).andThen fun L ij =>
                    let i := ij.1
                    let L := sort_swap L h p i
                    let limit := (limit >>> 1) + (limit >>> 2)
                    if i - l < u - i then
                      (sort_rec pred h fuel L l (i - 1) limit).andThen fun L _ =>
                        sort_rec pred h fuel L (i + 1) u limit
                    else
                      (sort_rec pred h fuel L (i + 1) u limit).andThen fun L _ =>
                        sort_rec pred h fuel L l (i - 1) limit
    else .ok L ()

/-- The function `tsort` of ltablib.cpp (`table.sort`).  `luaV_lessthan` and
`luaD_call` belong to the interpreter and are parameters. -/
def tsort (luaV_lessthan : SortPredicate)
    (luaD_call : lua_State → TValue → List TValue → Step (List TValue))
    (L : lua_State) : Step Int :=
  (luaL_checktype L 1 .LUA_TTABLE).andThen fun L _ =>
    let h := (tableAt L 1).getD 0
    let n := luaH_getn (getTable L h)
    if (getTable L h).readonly then luaG_readonlyerror L
    else
      (if ! lua_isnoneornil L 2 then
        (luaL_checktype L 2 .LUA_TFUNCTION).andThen fun L _ =>
          Step.ok L (sort_func luaD_call)
       else Step.ok L luaV_lessthan).andThen fun L pred =>
        let L := lua_settop L 2
        (if n > 0 then sort_rec pred h n L 0 (n - 1) n else .ok L ()).andThen fun L _ =>
          .ok L 0

/-- Modelled from the spec: `luaH_clear` of ltable.cpp is not among the
sources.  It removes every entry of the table; the sizes of its parts stay. -/
def luaH_clear (t : LuaTable) : LuaTable :=
  { t with array := List.replicate t.array.length .nil, node := [] }

/-- The function `tclear` of ltablib.cpp (`table.clear`). -/
def tclear (L : lua_State) : Step Int :=
  (luaL_checktype L 1 .LUA_TTABLE).andThen fun L _ =>
    let h := (tableAt L 1).getD 0
    if (getTable L h).readonly then luaG_readonlyerror L
    else .ok (setTable L h (luaH_clear (getTable L h))) 0

/-! ## lbaselib.cpp: protected calls -/

/-- Modelled from the spec: `lua_insert` of lapi.cpp is not among the sources.
Values live on the thread's stack by position: the top value moves to
position `idx`, the values from there on shift up by one. -/
def lua_insert (L : lua_State) (idx : Int) : lua_State :=
  match L.stack.getLast? with
  | none => L
  | some v =>
    let below := L.stack.dropLast
    let p : Nat := if 0 < idx then (idx - 1).toNat else L.stack.length - (-idx).toNat
    { L with stack := below.take p ++ v :: below.drop p }

/-- The values a C function hands back when it returns `n`: the top `n` slots
of its frame. -/
def results (L : lua_State) (n : Int) : List TValue :=
  L.stack.drop (L.stack.length - n.toNat)

/-- What running a function value in the interpreter (`luaD_call` with
`LUA_MULTRET`) comes to: it returns its results, it throws with an error status
and an error object, or it suspends the thread (`LUA_YIELD` or `LUA_BREAK`)
leaving some stack behind. -/
inductive CallOutcome where
  | returns (vs : List TValue)
  | throws (status : lua_Status) (err : TValue)
  | suspends (status : lua_Status) (stack : List TValue)
  deriving DecidableEq, Repr

/-- Modelled from the spec: `luaD_pcall` of ldo.cpp is not among the sources.
A protected call runs the function at the bottom of the frame with the
arguments above it.  On return the results replace the function and its
arguments and the status is 0.  An error raised below the barrier unwinds the
register stack back to the barrier and converts the error into a single value
on the stack; the status is the error status.  A suspension leaves status 0
and records the suspension in `L->status`.  The interpreter itself is the
parameter `run`. -/
def luaD_pcall (run : TValue → List TValue → CallOutcome) (L : lua_State) :
    lua_Status × lua_State :=
  match L.stack with
  | [] => (.LUA_OK, L)
  | func :: args =>
    match run func args with
    | .returns vs => (.LUA_OK, { L with stack := vs })
    | .throws st err => (st, { L with stack := [err] })
    | .suspends st stk => (.LUA_OK, { L with stack := stk, status := st })

/-- The literal of `luaL_checkany` in laux.cpp, decoded: `missing argument #%d`. -/
def checkanyFormat : String :=
  scrypt [0x93, 0x97, 0x8d, 0x8d, 0x97, 0x92, 0x99, 0xe0, 0x9f, 0x8e, 0x99, 0x8b, 0x93, 0x9b,
    0x92, 0x8c, 0xe0, 0xdd, 0xdb, 0x9c]

/-- Substitution of the first `%s` or `%d` directive of a format by `arg`. -/
def formatDirective : List Char → List Char → List Char
  | [], _ => []
  | [c], _ => [c]
  | c :: d :: rest, arg =>
    if c = '%' ∧ (d = 's' ∨ d = 'd') then arg ++ rest
    else c :: formatDirective (d :: rest) arg

/-- A format with one directive, applied to a string argument. -/
def format1 (fmt : String) (arg : String) : String :=
  String.mk (formatDirective fmt.toList arg.toList)

/-- The function `luaL_checkany` of laux.cpp. -/
def luaL_checkany (L : lua_State) (narg : Int) : Step Unit :=
  if lua_type L narg = .LUA_TNONE then .raise L (.error (format1 checkanyFormat (toString narg)))
  else .ok L ()

/-- The function `luaB_pcally` of lbaselib.cpp (`pcall`); the value -1 is the
marker for yielding from C. -/
def luaB_pcally (run : TValue → List TValue → CallOutcome) (L : lua_State) : Step Int :=
  (luaL_checkany L 1).andThen fun L _ =>
    let r := luaD_pcall run L
    let status := r.1
    let L := r.2
    if status = .LUA_OK ∧ (L.status = .LUA_YIELD ∨ L.status = .LUA_BREAK) then .ok L (-1)
    else
      let L := lua_insert (push L (.boolean (decide (status = .LUA_OK)))) 1
      .ok L (lua_gettop L)

/-- The function `luaB_pcallcont` of lbaselib.cpp, the continuation of `pcall`
after a yield; `status` is the status the protected call ended with. -/
def luaB_pcallcont (L : lua_State) (status : lua_Status) : Step Int :=
  if status = .LUA_OK then
    let L := lua_insert (push L (.boolean true)) 1
    .ok L (lua_gettop L)
  else
    let L := lua_insert (push L (.boolean false)) (-2)
    .ok L 2

/-! ## lbuflib.cpp: buffers

The library functions are embedded after argument decoding: the buffer is the
byte sequence that `luaL_checkbuffer` returns (its length is `len`), offsets
and counts are the `int` values of `luaL_checkinteger`, values the `unsigned`
of `luaL_checkunsigned`, and an optional argument is an `Option`. -/

/-- Result of a buffer library call: normal completion or a throw, both with
the bytes of the buffer afterwards. -/
inductive BufStep (α : Type) where
  | ok (buf : List Nat) (a : α)
  | raise (buf : List Nat) (e : LuaError)
  deriving DecidableEq, Repr

/-- Bytes of the buffer after the call, whichever way it ended. -/
def BufStep.buffer {α : Type} : BufStep α → List Nat
  | .ok b _ => b
  | .raise b _ => b

/-- The macro `isoutofbounds` of lbuflib.cpp:
`uint64_t(unsigned(offset)) + (accessize) > uint64_t(len)`, the sum taken in
64-bit unsigned arithmetic. -/
def isoutofbounds (offset : Int) (len : Nat) (accessize : Nat) : Bool :=
  decide ((toUnsigned offset + accessize) % 18446744073709551616 > len % 18446744073709551616)

/-- The literal `buffer access out of bounds` of lbuflib.cpp, decoded. -/
def outOfBounds : String :=
  scrypt [0x9e, 0x8b, 0x9a, 0x9a, 0x9b, 0x8e, 0xe0, 0x9f, 0x9d, 0x9d, 0x9b, 0x8d, 0x8d, 0xe0,
    0x91, 0x8b, 0x8c, 0xe0, 0x91, 0x9a, 0xe0, 0x9e, 0x91, 0x8b, 0x92, 0x9c, 0x8d]

/-- The literal `bit count is out of range of [0; 32]` of lbuflib.cpp, decoded. -/
def bitCountRange : String :=
  scrypt [0x9e, 0x97, 0x8c, 0xe0, 0x9d, 0x91, 0x8b, 0x92, 0x8c, 0xe0, 0x97, 0x8d, 0xe0, 0x91,
    0x8b, 0x8c, 0xe0, 0x91, 0x9a, 0xe0, 0x8e, 0x9f, 0x92, 0x99, 0x9b, 0xe0, 0x91, 0x9a, 0xe0,
    0xa5, 0xd0, 0xc5, 0xe0, 0xcd, 0xce, 0xa3]

/-- The literal `string length overflow` of `buffer_writestring`, decoded. -/
def stringLengthOverflow : String :=
  scrypt [0x8d, 0x8c, 0x8e, 0x97, 0x92, 0x99, 0xe0, 0x94, 0x9b, 0x92, 0x99, 0x8c, 0x98, 0xe0,
    0x91, 0x8a, 0x9b, 0x8e, 0x9a, 0x94, 0x91, 0x89]

/-- The literal `count` of `buffer_writestring`, decoded. -/
def countName : String :=
  scrypt [0x9d, 0x91, 0x8b, 0x92, 0x8c]

/-- The template parameter `T` of the integer accessors: its `sizeof` and
whether it is a signed type. -/
structure IntType where
  size : Nat
  signed : Bool
  deriving DecidableEq, Repr

/-- The type `int8_t`. -/
def int8_t : IntType := { size := 1, signed := true }

/-- The type `uint8_t`. -/
def uint8_t : IntType := { size := 1, signed := false }

/-- The type `int16_t`. -/
def int16_t : IntType := { size := 2, signed := true }

/-- The type `uint16_t`. -/
def uint16_t : IntType := { size := 2, signed := false }

/-- The type `int32_t`. -/
def int32_t : IntType := { size := 4, signed := true }

/-- The type `uint32_t`. -/
def uint32_t : IntType := { size := 4, signed := false }

/-- Value of a little-endian byte sequence. -/
def fromLittleEndian : List Nat → Nat
  | [] => 0
  | b :: bs => b + 256 * fromLittleEndian bs

/-- The `size` bytes of a value in little-endian order. -/
def toLittleEndian : Nat → Nat → List Nat
  | 0, _ => []
  | size + 1, v => v % 256 :: toLittleEndian size (v / 256)

/-- The call `memcpy(&val, (char*)buf + offset, size)`: the bytes read. -/
def readBytes (buf : List Nat) (offset size : Nat) : List Nat :=
  (buf.drop offset).take size

/-- The call `memcpy((char*)buf + offset, src, size)`: the buffer after the
bytes `src` are stored from `offset` on. -/
def writeBytes (buf : List Nat) (offset : Nat) (src : List Nat) : List Nat :=
  buf.take offset ++ src ++ buf.drop (offset + src.length)

/-- The function `buffer_readinteger<T>` of lbuflib.cpp; the value is the
integer that `lua_pushnumber(L, double(val))` pushes. -/
def buffer_readinteger (T : IntType) (buf : List Nat) (offset : Int) : BufStep Int :=
  if isoutofbounds offset buf.length T.size then .raise buf (.error outOfBounds)
  else
    let val := fromLittleEndian (readBytes buf offset.toNat T.size)
    if T.signed ∧ val ≥ 2 ^ (8 * T.size - 1) then .ok buf ((val : Int) - 2 ^ (8 * T.size))
    else .ok buf val

/-- The function `buffer_writeinteger<T>` of lbuflib.cpp; `value` is the
result of `luaL_checkunsigned`, and `T(value)` keeps its low `8 * sizeof(T)`
bits, stored in little-endian order. -/
def buffer_writeinteger (T : IntType) (buf : List Nat) (offset : Int) (value : Nat) :
    BufStep Unit :=
  if isoutofbounds offset buf.length T.size then .raise buf (.error outOfBounds)
  else .ok (writeBytes buf offset.toNat (toLittleEndian T.size (value % 2 ^ (8 * T.size)))) ()

/-- The function `buffer_readfp<T, StorageType>` of lbuflib.cpp for a type of
`size` bytes; the value is the little-endian storage of the number read, whose
decoding as a floating-point number is not modelled. -/
def buffer_readfp (size : Nat) (buf : List Nat) (offset : Int) : BufStep (List Nat) :=
  if isoutofbounds offset buf.length size then .raise buf (.error outOfBounds)
  else .ok buf (readBytes buf offset.toNat size)

/-- The function `buffer_writefp<T, StorageType>` of lbuflib.cpp for a type of
`size` bytes; `storage i` is byte `i` of the little-endian storage of
`T(value)`, whose encoding as a floating-point number is not modelled. -/
def buffer_writefp (size : Nat) (buf : List Nat) (offset : Int) (storage : Nat → Nat) :
    BufStep Unit :=
  if isoutofbounds offset buf.length size then .raise buf (.error outOfBounds)
  else .ok (writeBytes buf offset.toNat ((List.range size).map fun i => storage i % 256)) ()

/-- The C conversion to a 32-bit `int`, wrapping. -/
def toInt32 (x : Int) : Int :=
  (x + 2147483648) % 4294967296 - 2147483648

/-- The function `buffer_writestring` of lbuflib.cpp; `val` holds the bytes of
the string and `count` the optional fourth argument. -/
def buffer_writestring (buf : List Nat) (offset : Int) (val : List Nat) (count : Option Int) :
    BufStep Unit :=
  let count := count.getD (toInt32 val.length)
  if ¬ (count ≥ 0) then .raise buf (.argerror 4 countName)
  else if count.toNat > val.length then .raise buf (.error stringLengthOverflow)
  else if isoutofbounds offset buf.length (toUnsigned count) then
    .raise buf (.error outOfBounds)
  else .ok (writeBytes buf offset.toNat (val.take count.toNat)) ()

/-- The function `buffer_copy` of lbuflib.cpp; the value of the step is the
target buffer after the `memmove`, which reads all source bytes before it
stores any (source and target may be the same buffer). -/
def buffer_copy (tbuf : List Nat) (toffset : Int) (sbuf : List Nat) (soffset : Option Int)
    (size : Option Int) : BufStep Unit :=
  let soffset := soffset.getD 0
  let size := size.getD (toInt32 (toInt32 sbuf.length - soffset))
  if size < 0 then .raise tbuf (.error outOfBounds)
  else if isoutofbounds soffset sbuf.length (toUnsigned size) then
    .raise tbuf (.error outOfBounds)
  else if isoutofbounds toffset tbuf.length (toUnsigned size) then
    .raise tbuf (.error outOfBounds)
  else .ok (writeBytes tbuf toffset.toNat (readBytes sbuf soffset.toNat size.toNat)) ()

/-- The function `buffer_fill` of lbuflib.cpp. -/
def buffer_fill (buf : List Nat) (offset : Int) (value : Nat) (size : Option Int) :
    BufStep Unit :=
  let size := size.getD (toInt32 (toInt32 buf.length - offset))
  if size < 0 then .raise buf (.error outOfBounds)
  else if isoutofbounds offset buf.length (toUnsigned size) then
    .raise buf (.error outOfBounds)
  else .ok (writeBytes buf offset.toNat (List.replicate size.toNat (value % 256))) ()

/-- The checks shared by `buffer_readbits` and `buffer_writebits`, in source
order: `bitoffset < 0`, `unsigned(bitcount) > 32`, and
`uint64_t(bitoffset + bitcount) > uint64_t(len) * 8`. -/
def bitsCheck (len : Nat) (bitoffset bitcount : Int) : Option LuaError :=
  if bitoffset < 0 then some (.error outOfBounds)
  else if toUnsigned bitcount > 32 then some (.error bitCountRange)
  else if ((bitoffset + bitcount) % 18446744073709551616).toNat >
      (len * 8) % 18446744073709551616 then some (.error outOfBounds)
  else none

/-- The function `buffer_readbits` of lbuflib.cpp; `bitoffset` is the
`int64_t` the second argument converts to. -/
def buffer_readbits (buf : List Nat) (bitoffset bitcount : Int) : BufStep Nat :=
  match bitsCheck buf.length bitoffset bitcount with
  | some e => .raise buf e
  | none =>
    let startbyte := toUnsigned (bitoffset / 8)
    let endbyte := toUnsigned ((bitoffset + bitcount + 7) / 8)
    let data := fromLittleEndian (readBytes buf startbyte (endbyte - startbyte))
    let subbyteoffset := (bitoffset % 8).toNat
    let mask := 2 ^ bitcount.toNat - 1
    .ok buf (((data >>> subbyteoffset) &&& mask) % 4294967296)

/-- The function `buffer_writebits` of lbuflib.cpp. -/
def buffer_writebits (buf : List Nat) (bitoffset bitcount : Int) (value : Nat) :
    BufStep Unit :=
  match bitsCheck buf.length bitoffset bitcount with
  | some e => .raise buf e
  | none =>
    let startbyte := toUnsigned (bitoffset / 8)
    let endbyte := toUnsigned ((bitoffset + bitcount + 7) / 8)
    let data := fromLittleEndian (readBytes buf startbyte (endbyte - startbyte))
    let subbyteoffset := (bitoffset % 8).toNat
    let mask := ((2 ^ bitcount.toNat - 1) <<< subbyteoffset) % 18446744073709551616
    let data := (data &&& (18446744073709551615 - mask)) |||
      (((value <<< subbyteoffset) % 18446744073709551616) &&& mask)
    .ok (writeBytes buf startbyte (toLittleEndian (endbyte - startbyte) data)) ()

/-- The range of a 32-bit `int`, the type of decoded offsets and counts. -/
def isInt32 (x : Int) : Prop :=
  -2147483648 ≤ x ∧ x ≤ 2147483647

instance isInt32.decidable (x : Int) : Decidable (isInt32 x) :=
  inferInstanceAs (Decidable (-2147483648 ≤ x ∧ x ≤ 2147483647))

/-! ## lcorolib.cpp: coroutines -/

/-- Constants and dynamic flags that the coroutine library reads and that are
declared outside the sources at hand: `LUAI_MAXCSTACK` and `LUA_MINSTACK` of
luaconf.h, the messages `LUA_MEMERRMSG` and `LUA_ERRERRMSG`, and the flags
`DFFlag::LuauCoroCheckStack` and `DFFlag::LuauStackLimit`. -/
structure Config where
  LUAI_MAXCSTACK : Nat
  LUA_MINSTACK : Nat
  LUA_MEMERRMSG : String
  LUA_ERRERRMSG : String
  LuauCoroCheckStack : Bool
  LuauStackLimit : Bool
  deriving DecidableEq, Repr

/-- The coroutine statuses returned by `lua_costatus`, in the order of the
`statnames` table: `LUA_CORUN`, `LUA_COSUS`, `LUA_CONOR`, `LUA_COFIN`,
`LUA_COERR`. -/
inductive lua_CoStatus where
  | LUA_CORUN
  | LUA_COSUS
  | LUA_CONOR
  | LUA_COFIN
  | LUA_COERR
  deriving DecidableEq, Repr

/-- The position of a coroutine status in the `statnames` table. -/
def lua_CoStatus.toNat : lua_CoStatus → Nat
  | .LUA_CORUN => 0
  | .LUA_COSUS => 1
  | .LUA_CONOR => 2
  | .LUA_COFIN => 3
  | .LUA_COERR => 4

/-- The function `statnames` of lcorolib.cpp: the vector built from the decoded
literals `STR_0 .. STR_3`, the last one pushed twice, indexed by `i`. -/
def statnames (i : Nat) : String :=
  let STR_0 := scrypt [0x8e, 0x8b, 0x92, 0x92, 0x97, 0x92, 0x99]
  let STR_1 := scrypt [0x8d, 0x8b, 0x8d, 0x90, 0x9b, 0x92, 0x9c, 0x9b, 0x9c]
  let STR_2 := scrypt [0x92, 0x91, 0x8e, 0x93, 0x9f, 0x94]
  let STR_3 := scrypt [0x9c, 0x9b, 0x9f, 0x9c]
  [STR_0, STR_1, STR_2, STR_3, STR_3].getD i ""

/-- Modelled from the spec: `lua_costatus` of lapi.cpp is not among the sources.
A thread is Running when it is the calling thread, Suspended when it has
yielded, Normal when it is interrupted or has resumed another thread and still
has call frames, Dead-errored when its status is an error, Dead-finished when
it has returned and its stack is empty, and Suspended when freshly created. -/
def lua_costatus (L co : lua_State) : lua_CoStatus :=
  if co.tid = L.tid then .LUA_CORUN
  else if co.status = .LUA_YIELD then .LUA_COSUS
  else if co.status = .LUA_BREAK then .LUA_CONOR
  else if co.status ≠ .LUA_OK then .LUA_COERR
  else if co.nci ≠ 0 then .LUA_CONOR
  else if co.stack.length = 0 then .LUA_COFIN
  else .LUA_COSUS

/-- Modelled from the spec: `lua_checkstack` of lapi.cpp is not among the
sources.  It reports whether `size` more slots fit under the limit on the
frame, `LUAI_MAXCSTACK`; exceeding it is the StackOverflow condition. -/
def lua_checkstack (cfg : Config) (L : lua_State) (size : Int) : Bool :=
  ! decide (size > (cfg.LUAI_MAXCSTACK : Int) ∨
    (L.stack.length : Int) + size > (cfg.LUAI_MAXCSTACK : Int))

/-- Modelled from the spec: `lua_xmove` of lapi.cpp is not among the sources.
Cross-thread value transfer is an explicit stack-to-stack move: the top `n`
values of `src` are popped and pushed onto `dst` in the same order; the value
is the pair of the two threads after it. -/
def lua_xmove (src dst : lua_State) (n : Int) : lua_State × lua_State :=
  let k := src.stack.length - n.toNat
  ({ src with stack := src.stack.take k }, { dst with stack := dst.stack ++ src.stack.drop k })

/-- The function `costatus` of lcorolib.cpp (`coroutine.status`); `co` is the
result of `lua_tothread(L, 1)`. -/
def costatus (L : lua_State) (co : Option lua_State) : Step Int :=
  match co with
  | none => .raise L (.typeerror 1 (scrypt [0x8c, 0x98, 0x8e, 0x9b, 0x9f, 0x9c]))
  | some co => .ok (push L (.string (statnames (lua_costatus L co).toNat))) 1

/-- The literal of `auxresume`, decoded: `cannot resume %s coroutine`. -/
def cannotResumeFormat : String :=
  scrypt [0x9d, 0x9f, 0x92, 0x92, 0x91, 0x8c, 0xe0, 0x8e, 0x9b, 0x8d, 0x8b, 0x93, 0x9b, 0xe0,
    0xdb, 0x8d, 0xe0, 0x9d, 0x91, 0x8e, 0x91, 0x8b, 0x8c, 0x97, 0x92, 0x9b]

/-- The literal `STR_1` of `auxresume`, decoded. -/
def tooManyArguments : String :=
  scrypt [0x8c, 0x91, 0x91, 0xe0, 0x93, 0x9f, 0x92, 0x87, 0xe0, 0x9f, 0x8e, 0x99, 0x8b, 0x93,
    0x9b, 0x92, 0x8c, 0x8d, 0xe0, 0x8c, 0x91, 0xe0, 0x8e, 0x9b, 0x8d, 0x8b, 0x93, 0x9b]

/-- The literal `STR_2` of `auxresume`, decoded. -/
def tooManyResults : String :=
  scrypt [0x8c, 0x91, 0x91, 0xe0, 0x93, 0x9f, 0x92, 0x87, 0xe0, 0x8e, 0x9b, 0x8d, 0x8b, 0x94,
    0x8c, 0x8d, 0xe0, 0x8c, 0x91, 0xe0, 0x8e, 0x9b, 0x8d, 0x8b, 0x93, 0x9b]

/-- The literal of `coclose`, decoded: `cannot close %s coroutine`. -/
def cannotCloseFormat : String :=
  scrypt [0x9d, 0x9f, 0x92, 0x92, 0x91, 0x8c, 0xe0, 0x9d, 0x94, 0x91, 0x8d, 0x9b, 0xe0, 0xdb,
    0x8d, 0xe0, 0x9d, 0x91, 0x8e, 0x91, 0x8b, 0x8c, 0x97, 0x92, 0x9b]

/-- The literal `thread` of `coresumey` and `coclose`, decoded. -/
def threadName : String :=
  scrypt [0x8c, 0x98, 0x8e, 0x9b, 0x9f, 0x9c]

/-- The constant `CO_STATUS_ERROR` of lcorolib.cpp. -/
def CO_STATUS_ERROR : Int := -1

/-- The constant `CO_STATUS_BREAK` of lcorolib.cpp. -/
def CO_STATUS_BREAK : Int := -2

/-- The interpreter entry `lua_resume(co, from, narg)`, a parameter of the
library: the status it returns and the coroutine after the run. -/
abbrev Resume := lua_State → lua_State → Int → lua_Status × lua_State

/-- The function `auxresume` of lcorolib.cpp.  The state of the `Step` is the
resumer `L`; the value is the returned integer and the coroutine after the
call. -/
def auxresume (cfg : Config) (lua_resume : Resume) (L co : lua_State) (narg : Int) :
    Step (Int × lua_State) :=
  if co.status ≠ .LUA_YIELD ∧ lua_costatus L co ≠ .LUA_COSUS then
    .ok (push L (.string (format1 cannotResumeFormat (statnames (lua_costatus L co).toNat))))
      (CO_STATUS_ERROR, co)
  else
    (if narg ≠ 0 then
      if ! lua_checkstack cfg co narg then Step.raise L (.error tooManyArguments)
      else
        let m := lua_xmove L co narg
        Step.ok m.1 m.2
     else if cfg.LuauCoroCheckStack ∧ co.stack.length > cfg.LUAI_MAXCSTACK then
       Step.raise L (.error tooManyArguments)
     else Step.ok L co).andThen fun L co =>
      let co := { co with singlestep := L.singlestep }
      let r := lua_resume co L narg
      let status := r.1
      let co := r.2
      if status = .LUA_OK ∨ status = .LUA_YIELD then
        let nres : Int := co.stack.length
        if nres ≠ 0 then
          if nres + 1 > (cfg.LUA_MINSTACK : Int) ∧ ! lua_checkstack cfg L (nres + 1) then
            .raise L (.error tooManyResults)
          else
            let m := lua_xmove co L nres
            .ok m.2 (nres, m.1)
        else .ok L (nres, co)
      else if status = .LUA_BREAK then .ok L (CO_STATUS_BREAK, co)
      else
        let m := lua_xmove co L 1
        .ok m.2 (CO_STATUS_ERROR, m.1)

/-- Modelled from the spec: `lua_break` of ldo.cpp is not among the sources.
`interruptThread` of lcorolib.cpp notifies the debugger and returns
`lua_break(L)`, which puts the thread in the Break pseudo-status, a
debugger-interrupted thread awaiting externally triggered continuation, and
returns the marker -1. -/
def interruptThread (L co : lua_State) : Step (Int × lua_State) :=
  .ok { L with status := .LUA_BREAK } (-1, co)

/-- The function `coresumefinish` of lcorolib.cpp. -/
def coresumefinish (L : lua_State) (r : Int) : lua_State × Int :=
  if r < 0 then (lua_insert (push L (.boolean false)) (-2), 2)
  else (lua_insert (push L (.boolean true)) (-(r + 1)), r + 1)

/-- The function `coresumey` of lcorolib.cpp (`coroutine.resume`); `co` is the
result of `lua_tothread(L, 1)`, `none` for a null pointer. -/
def coresumey (cfg : Config) (lua_resume : Resume) (L : lua_State) (co : Option lua_State) :
    Step (Int × Option lua_State) :=
  match co with
  | none => .raise L (.typeerror 1 threadName)
  | some co =>
    let narg : Int := (L.stack.length : Int) - 1
    (auxresume cfg lua_resume L co narg).andThen fun L rc =>
      if rc.1 = CO_STATUS_BREAK then
        (interruptThread L rc.2).andThen fun L q => .ok L (q.1, some q.2)
      else
        let f := coresumefinish L rc.1
        .ok f.1 (f.2, some rc.2)

/-- Modelled from the spec: `lua_resetthread` of lstate.cpp is not among the
sources.  It forcibly resets the thread, releasing its stack. -/
def lua_resetthread (co : lua_State) : lua_State :=
  { co with stack := [], status := .LUA_OK, nci := 0 }

/-- The function `coclose` of lcorolib.cpp (`coroutine.close`); `co` is the
result of `lua_tothread(L, 1)`. -/
def coclose (cfg : Config) (L : lua_State) (co : Option lua_State) :
    Step (Int × Option lua_State) :=
  match co with
  | none => .raise L (.typeerror 1 threadName)
  | some co =>
    let status := lua_costatus L co
    if status ≠ .LUA_COFIN ∧ status ≠ .LUA_COERR ∧ status ≠ .LUA_COSUS then
      .raise L (.error (format1 cannotCloseFormat (statnames status.toNat)))
    else if co.status = .LUA_OK ∨ co.status = .LUA_YIELD then
      .ok (push L (.boolean true)) (1, some (lua_resetthread co))
    else
      let L := push L (.boolean false)
      let m : lua_State × lua_State :=
        if cfg.LuauStackLimit then
          if co.status = .LUA_ERRMEM then (co, push L (.string cfg.LUA_MEMERRMSG))
          else if co.status = .LUA_ERRERR then (co, push L (.string cfg.LUA_ERRERRMSG))
          else if lua_gettop co ≠ 0 then lua_xmove co L 1
          else (co, L)
        else
          if lua_gettop co ≠ 0 then lua_xmove co L 1 else (co, L)
      .ok m.2 (2, some (lua_resetthread m.1))

/-! ## ltm.cpp: type names, event names and tag methods -/

/-- The vector filled by `luaT_typenames` of ltm.cpp on its first call: the
decoded literals `STR_0 .. STR_10`, pushed in that order. -/
def typenamesVector : List String :=
  [scrypt [0x92, 0x97, 0x94],
   scrypt [0x9e, 0x91, 0x91, 0x94, 0x9b, 0x9f, 0x92],
   scrypt [0x8b, 0x8d, 0x9b, 0x8e, 0x9c, 0x9f, 0x8c, 0x9f],
   scrypt [0x92, 0x8b, 0x93, 0x9e, 0x9b, 0x8e],
   scrypt [0x8a, 0x9b, 0x9d, 0x8c, 0x91, 0x8e],
   scrypt [0x8d, 0x8c, 0x8e, 0x97, 0x92, 0x99],
   scrypt [0x8c, 0x9f, 0x9e, 0x94, 0x9b],
   scrypt [0x9a, 0x8b, 0x92, 0x9d, 0x8c, 0x97, 0x91, 0x92],
   scrypt [0x8b, 0x8d, 0x9b, 0x8e, 0x9c, 0x9f, 0x8c, 0x9f],
   scrypt [0x8c, 0x98, 0x8e, 0x9b, 0x9f, 0x9c],
   scrypt [0x9e, 0x8b, 0x9a, 0x9a, 0x9b, 0x8e]]

/-- The function `luaT_typenames` of ltm.cpp: element `i` of the vector. -/
def luaT_typenames (i : Nat) : String :=
  typenamesVector.getD i ""

/-- The vector filled by `luaT_eventname` of ltm.cpp on its first call: the
decoded literals `STR_0 .. STR_20`, pushed in that order. -/
def eventnameVector : List String :=
  [scrypt [0xa1, 0xa1, 0x97, 0x92, 0x9c, 0x9b, 0x88],
   scrypt [0xa1, 0xa1, 0x92, 0x9b, 0x89, 0x97, 0x92, 0x9c, 0x9b, 0x88],
   scrypt [0xa1, 0xa1, 0x93, 0x91, 0x9c, 0x9b],
   scrypt [0xa1, 0xa1, 0x92, 0x9f, 0x93, 0x9b, 0x9d, 0x9f, 0x94, 0x94],
   scrypt [0xa1, 0xa1, 0x9d, 0x9f, 0x94, 0x94],
   scrypt [0xa1, 0xa1, 0x97, 0x8c, 0x9b, 0x8e],
   scrypt [0xa1, 0xa1, 0x94, 0x9b, 0x92],
   scrypt [0xa1, 0xa1, 0x9b, 0x8f],
   scrypt [0xa1, 0xa1, 0x9f, 0x9c, 0x9c],
   scrypt [0xa1, 0xa1, 0x8d, 0x8b, 0x9e],
   scrypt [0xa1, 0xa1, 0x93, 0x8b, 0x94],
   scrypt [0xa1, 0xa1, 0x9c, 0x97, 0x8a],
   scrypt [0xa1, 0xa1, 0x97, 0x9c, 0x97, 0x8a],
   scrypt [0xa1, 0xa1, 0x93, 0x91, 0x9c],
   scrypt [0xa1, 0xa1, 0x90, 0x91, 0x89],
   scrypt [0xa1, 0xa1, 0x8b, 0x92, 0x93],
   scrypt [0xa1, 0xa1, 0x94, 0x8c],
   scrypt [0xa1, 0xa1, 0x94, 0x9b],
   scrypt [0xa1, 0xa1, 0x9d, 0x91, 0x92, 0x9d, 0x9f, 0x8c],
   scrypt [0xa1, 0xa1, 0x8c, 0x87, 0x90, 0x9b],
   scrypt [0xa1, 0xa1, 0x93, 0x9b, 0x8c, 0x9f, 0x8c, 0x9f, 0x9e, 0x94, 0x9b]]

/-- The function `luaT_eventname` of ltm.cpp: element `i` of the vector. -/
def luaT_eventname (i : Nat) : String :=
  eventnameVector.getD i ""

/-- Modelled from the spec: the numbering of the type tags in lua.h is not
among the sources.  The tags are Nil, Boolean, LightUserdata, Number, Vector,
String, Table, Function, Userdata, Thread, Buffer, numbered from 0 in that
order (the order of the type-name table, `ORDER TYPE`); `LUA_TNONE` is -1. -/
def lua_Type.tag : lua_Type → Int
  | .LUA_TNONE => -1
  | .LUA_TNIL => 0
  | .LUA_TBOOLEAN => 1
  | .LUA_TLIGHTUSERDATA => 2
  | .LUA_TNUMBER => 3
  | .LUA_TVECTOR => 4
  | .LUA_TSTRING => 5
  | .LUA_TTABLE => 6
  | .LUA_TFUNCTION => 7
  | .LUA_TUSERDATA => 8
  | .LUA_TTHREAD => 9
  | .LUA_TBUFFER => 10

/-- The number of type tags, the size of the type-name table. -/
def LUA_T_COUNT : Nat := 11

/-- Modelled from the spec: the enum `TMS` of ltm.h is not among the sources.
Its members are the tag-method slots, in the order of the event-name table of
ltm.cpp (`ORDER TM`). -/
inductive TMS where
  | TM_INDEX
  | TM_NEWINDEX
  | TM_MODE
  | TM_NAMECALL
  | TM_CALL
  | TM_ITER
  | TM_LEN
  | TM_EQ
  | TM_ADD
  | TM_SUB
  | TM_MUL
  | TM_DIV
  | TM_IDIV
  | TM_MOD
  | TM_POW
  | TM_UNM
  | TM_LT
  | TM_LE
  | TM_CONCAT
  | TM_TYPE
  | TM_METATABLE
  deriving DecidableEq, Repr

/-- The integer value of a member of `TMS`. -/
def TMS.toNat : TMS → Nat
  | .TM_INDEX => 0
  | .TM_NEWINDEX => 1
  | .TM_MODE => 2
  | .TM_NAMECALL => 3
  | .TM_CALL => 4
  | .TM_ITER => 5
  | .TM_LEN => 6
  | .TM_EQ => 7
  | .TM_ADD => 8
  | .TM_SUB => 9
  | .TM_MUL => 10
  | .TM_DIV => 11
  | .TM_IDIV => 12
  | .TM_MOD => 13
  | .TM_POW => 14
  | .TM_UNM => 15
  | .TM_LT => 16
  | .TM_LE => 17
  | .TM_CONCAT => 18
  | .TM_TYPE => 19
  | .TM_METATABLE => 20

/-- The number of tag-method slots, the size of the event-name table. -/
def TM_N : Nat := 21

/-- The header of a userdata object `Udata`: its tag and its metatable. -/
structure Udata where
  tag : Nat
  metatable : Option Nat
  deriving DecidableEq, Repr

/-- The part of `global_State` that ltm.cpp reads and writes: the interned type
names `ttname` and event names `tmname`, the per-type metatables `mt` (indexed
by type tag), the names registered for light userdata tags, and the userdata
objects of the heap (addressed by position). -/
structure global_State where
  ttname : List String
  tmname : List String
  mt : List (Option Nat)
  lightuserdataname : List (Option String)
  udata : List Udata
  deriving DecidableEq, Repr

/-- Constants and macros of lua.h, luaconf.h and lobject.h used by ltm.cpp that
are not among the sources: the userdata tag of `newproxy` objects, the limit of
light userdata tags, and the macro that reads the tag of a light userdata
value. -/
structure TagConfig where
  UTAG_PROXY : Nat
  LUA_LUTAG_LIMIT : Nat
  lightuserdatatag : TValue → Int

/-- The function `luaT_init` of ltm.cpp: the names of the two tables are
interned into `ttname` and `tmname`. -/
def luaT_init (g : global_State) : global_State :=
  { g with
    ttname := (List.range LUA_T_COUNT).map luaT_typenames,
    tmname := (List.range TM_N).map luaT_eventname }

/-- Modelled from the spec: `luaH_getstr` of ltable.cpp is not among the
sources.  Raw read of a string key; strings are interned, so the key is found
by its bytes, in the hash part. -/
def luaH_getstr (t : LuaTable) (key : String) : TValue :=
  nodeGet t.node (.string key)

/-- The macro `cast_byte`. -/
def cast_byte (x : Nat) : Nat :=
  x % 256

/-- A metatable as `luaT_gettm` sees it: the table and its byte `tmcache`, the
cached bitmask of absent tag-method slots. -/
structure Events where
  h : LuaTable
  tmcache : Nat
  deriving DecidableEq, Repr

/-- The function `luaT_gettm` of ltm.cpp; the result is the returned pointer
(`none` for NULL) and the table after the call. -/
def luaT_gettm (events : Events) (event : TMS) (ename : String) : Option TValue × Events :=
  let tm := luaH_getstr events.h ename
  if ttisnil tm then
    (none, { events with
      tmcache := (events.tmcache ||| cast_byte ((1 <<< event.toNat) % 4294967296)) % 256 })
  else
    (some tm, events)

/-- The metatable that the `switch` of `luaT_gettmbyobj` selects for a value:
the table own metatable, the userdata own metatable, or the per-type
metatable of `global_State`. -/
def objMetatable (g : global_State) (L : lua_State) (o : TValue) : Option Nat :=
  match o with
  | .table h => (getTable L h).metatable
  | .userdata u => (g.udata.getD u { tag := 0, metatable := none }).metatable
  | _ => (g.mt.getD (ttype o).tag.toNat none)

/-- The function `luaT_gettmbyobj` of ltm.cpp; `luaO_nilobject` is nil. -/
def luaT_gettmbyobj (g : global_State) (L : lua_State) (o : TValue) (event : TMS) : TValue :=
  match objMetatable g L o with
  | some mt => luaH_getstr (getTable L mt) (g.tmname.getD event.toNat "")
  | none => .nil

/-- The type name `L->global->ttname[ttype(o)]`. -/
def ttnameOf (g : global_State) (o : TValue) : String :=
  g.ttname.getD (ttype o).tag.toNat ""

/-- The function `luaT_objtypenamestr` of ltm.cpp. -/
def luaT_objtypenamestr (cfg : TagConfig) (g : global_State) (L : lua_State) (o : TValue) :
    String :=
  let named : Option String :=
    match o with
    | .lightuserdata _ =>
      let tag := cfg.lightuserdatatag o
      if toUnsigned tag < cfg.LUA_LUTAG_LIMIT then
        (g.lightuserdataname.getD tag.toNat none)
      else none
    | _ => none
  let global : String :=
    match named with
    | some name => name
    | none =>
      match g.mt.getD (ttype o).tag.toNat none with
      | some mt =>
        match luaH_getstr (getTable L mt) (g.tmname.getD TMS.TM_TYPE.toNat "") with
        | .string s => s
        | _ => ttnameOf g o
      | none => ttnameOf g o
  match o with
  | .userdata u =>
    let ud := g.udata.getD u { tag := 0, metatable := none }
    match ud.metatable with
    | some mt =>
      if ud.tag ≠ cfg.UTAG_PROXY then
        match luaH_getstr (getTable L mt) (g.tmname.getD TMS.TM_TYPE.toNat "") with
        | .string s => s
        | _ => ttnameOf g o
      else global
    | none => global
  | _ => global

/-- The macro `getstr` read as a C string, the way `%s`, `strcmp` and
`lua_pushstring` read a `const char*`: the bytes before the first NUL. -/
def getstr (ts : String) : String :=
  String.mk (ts.toList.takeWhile (fun c => c != Char.ofNat 0))

/-- The function `luaT_objtypename` of ltm.cpp. -/
def luaT_objtypename (cfg : TagConfig) (g : global_State) (L : lua_State) (o : TValue) :
    String :=
  getstr (luaT_objtypenamestr cfg g L o)

/-- The literal of `luaL_typename` in laux.cpp, decoded: `no value`. -/
def noValueName : String :=
  scrypt [0x92, 0x91, 0xe0, 0x8a, 0x9f, 0x94, 0x8b, 0x9b]

/-- Modelled from the spec: `lua_typename` of lapi.cpp is not among the
sources.  The raw type primitive always reports the tag name: the entry of the
type-name table for the tag, and `no value` for `LUA_TNONE`. -/
def lua_typename (t : lua_Type) : String :=
  if t = .LUA_TNONE then noValueName else luaT_typenames t.tag.toNat

/-- The function `luaL_typename` of laux.cpp; `luaA_toobject` is the slot at
`idx`, NULL outside the frame. -/
def luaL_typename (cfg : TagConfig) (g : global_State) (L : lua_State) (idx : Int) : String :=
  match index2addr L idx with
  | some obj => luaT_objtypename cfg g L obj
  | none => noValueName

/-- The function `luaB_type` of lbaselib.cpp. -/
def luaB_type (L : lua_State) : Step Int :=
  (luaL_checkany L 1).andThen fun L _ =>
    .ok (push L (.string (lua_typename (lua_type L 1)))) 1

/-- The function `luaB_typeof` of lbaselib.cpp. -/
def luaB_typeof (cfg : TagConfig) (g : global_State) (L : lua_State) : Step Int :=
  (luaL_checkany L 1).andThen fun L _ =>
    .ok (push L (.string (luaL_typename cfg g L 1))) 1

/-! ## ltablib.cpp: freezing -/

/-- Modelled from the spec: `lua_getreadonly` of lapi.cpp is not among the
sources.  It reads the read-only flag of the table at `idx`. -/
def lua_getreadonly (L : lua_State) (idx : Int) : Bool :=
  match tableAt L idx with
  | some h => (getTable L h).readonly
  | none => false

/-- Modelled from the spec: `lua_setreadonly` of lapi.cpp is not among the
sources.  It sets the read-only flag of the table at `idx`, an attribute of
the table next to its array part, hash part and metatable reference. -/
def lua_setreadonly (L : lua_State) (idx : Int) (enabled : Bool) : lua_State :=
  match tableAt L idx with
  | some h => setTable L h { getTable L h with readonly := enabled }
  | none => L

/-- Modelled from the spec: `lua_getmetatable` of lapi.cpp is not among the
sources.  It pushes the metatable reference of the value at `objindex` and
returns 1, or pushes nothing and returns 0 when the value has none. -/
def lua_getmetatable (g : global_State) (L : lua_State) (objindex : Int) : Bool × lua_State :=
  match index2addr L objindex with
  | some o =>
    match objMetatable g L o with
    | some mt => (true, push L (.table mt))
    | none => (false, L)
  | none => (false, L)

/-- Modelled from the spec: `lua_rawget` of lapi.cpp is not among the sources.
Raw table read bypassing metamethods: the key on top of the stack is replaced
by the value stored under it in the table at `idx`. -/
def lua_rawget (L : lua_State) (idx : Int) : lua_State :=
  match tableAt L idx with
  | some h =>
    { L with stack := L.stack.dropLast ++ [luaH_get (getTable L h) (L.stack.getLastD .nil)] }
  | none => { L with stack := L.stack.dropLast ++ [.nil] }

/-- The macro `lua_pop`: the top `n` values leave the stack. -/
def lua_pop (L : lua_State) (n : Nat) : lua_State :=
  { L with stack := L.stack.take (L.stack.length - n) }

/-- Modelled from the spec: `lua_remove` of lapi.cpp is not among the sources.
The value at position `idx` leaves the stack, the values above it shift down
by one. -/
def lua_remove (L : lua_State) (idx : Int) : lua_State :=
  let p : Nat := if 0 < idx then (idx - 1).toNat else L.stack.length - (-idx).toNat
  { L with stack := L.stack.eraseIdx p }

/-- Modelled from the spec: `lua_pushvalue` of lapi.cpp is not among the
sources.  It pushes a copy of the value at position `idx`. -/
def lua_pushvalue (L : lua_State) (idx : Int) : lua_State :=
  push L ((index2addr L idx).getD .nil)

/-- The function `luaL_getmetafield` of laux.cpp: the result is the returned
flag and the stack it leaves. -/
def luaL_getmetafield (g : global_State) (L : lua_State) (obj : Int) (event : String) :
    Bool × lua_State :=
  let r := lua_getmetatable g L obj
  if !r.1 then (false, r.2)
  else
    let L1 := lua_rawget (push r.2 (.string event)) (-2)
    if lua_type L1 (-1) = .LUA_TNIL then (false, lua_pop L1 2)
    else (true, lua_remove L1 (-2))

/-- The literal `STR_0` of `tfreeze`, decoded. -/
def alreadyFrozen : String :=
  scrypt [0x8c, 0x9f, 0x9e, 0x94, 0x9b, 0xe0, 0x97, 0x8d, 0xe0, 0x9f, 0x94, 0x8e, 0x9b, 0x9f,
    0x9c, 0x87, 0xe0, 0x9a, 0x8e, 0x91, 0x86, 0x9b, 0x92]

/-- The literal `STR_1` of `tfreeze`, decoded. -/
def metatableField : String :=
  scrypt [0xa1, 0xa1, 0x93, 0x9b, 0x8c, 0x9f, 0x8c, 0x9f, 0x9e, 0x94, 0x9b]

/-- The literal `STR_2` of `tfreeze`, decoded. -/
def protectedMetatable : String :=
  scrypt [0x8c, 0x9f, 0x9e, 0x94, 0x9b, 0xe0, 0x98, 0x9f, 0x8d, 0xe0, 0x9f, 0xe0, 0x90, 0x8e,
    0x91, 0x8c, 0x9b, 0x9d, 0x8c, 0x9b, 0x9c, 0xe0, 0x93, 0x9b, 0x8c, 0x9f, 0x8c, 0x9f, 0x9e,
    0x94, 0x9b]

/-- The function `tfreeze` of ltablib.cpp (`table.freeze`). -/
def tfreeze (g : global_State) (L : lua_State) : Step Int :=
  (luaL_checktype L 1 .LUA_TTABLE).andThen fun L _ =>
    (luaL_argcheck L (!lua_getreadonly L 1) 1 alreadyFrozen).andThen fun L _ =>
      let r := luaL_getmetafield g L 1 metatableField
      (luaL_argcheck r.2 (!r.1) 1 protectedMetatable).andThen fun L _ =>
        let L := lua_setreadonly L 1 true
        .ok (lua_pushvalue L 1) 1

/-- The function `tisfrozen` of ltablib.cpp (`table.isfrozen`). -/
def tisfrozen (L : lua_State) : Step Int :=
  (luaL_checktype L 1 .LUA_TTABLE).andThen fun L _ =>
    .ok (push L (.boolean (lua_getreadonly L 1))) 1

/-! ## ldebug.cpp and laux.cpp: error messages -/

/-- An argument of a printf-style call: a `const char*`, carried as the text
before its terminating NUL, or an `int`. -/
inductive FmtArg where
  | str (s : String)
  | int (n : Int)
  deriving DecidableEq, Repr

/-- The text a `%s` or `%d` directive writes for an argument. -/
def FmtArg.render : FmtArg → List Char
  | .str s => s.toList
  | .int n => (toString n).toList

/-- The text a printf-style format describes: each `%s` or `%d` directive is
replaced by the next argument, every other byte is copied. -/
def formatChars : List Char → List FmtArg → List Char
  | [], _ => []
  | [c], _ => [c]
  | c :: d :: rest, args =>
    if c = '%' ∧ (d = 's' ∨ d = 'd') then
      match args with
      | a :: more => a.render ++ formatChars rest more
      | [] => formatChars rest []
    else c :: formatChars (d :: rest) args

/-- The C library call `vsnprintf(result, size, fmt, argp)`: the buffer receives
the formatted text cut to `size - 1` bytes (and the terminating NUL). -/
def vsnprintf (size : Nat) (fmt : String) (args : List FmtArg) : String :=
  String.mk ((formatChars fmt.toList args).take (size - 1))

/-- Modelled from the spec: `luaO_pushfstring` of lobject.cpp and
`lua_pushvfstring` of lapi.cpp are not among the sources.  They form a string
from a printf-style format and its arguments. -/
def pushfstringText (fmt : String) (args : List FmtArg) : String :=
  String.mk (formatChars fmt.toList args)

/-- Constants and helpers of luaconf.h and lobject.cpp used by ldebug.cpp that
are not among the sources: the size of the message buffer, the size of the
chunk-id buffer, and `luaO_chunkid`, which renders the source name of a chunk
into a buffer of the given size. -/
structure DebugConfig where
  LUA_BUFFERSIZE : Nat
  LUA_IDSIZE : Nat
  luaO_chunkid : Nat → String → String

/-- The fields of a function prototype `Proto` that the line lookup reads:
the source name, the per-instruction line offsets `lineinfo` (NULL when the
chunk has no line information), the base lines `abslineinfo` and the gap
`linegaplog2`. -/
structure Proto where
  source : String
  lineinfo : Option (List Nat)
  abslineinfo : List Int
  linegaplog2 : Nat
  deriving DecidableEq, Repr

/-- A closure `Closure`: native (`isC`) with its `c.debugname` (NULL when it
has none), or a script closure with its prototype `l.p`. -/
structure Closure where
  isC : Bool
  debugname : Option String
  p : Proto
  deriving DecidableEq, Repr

/-- A call-info frame `CallInfo`: the function it runs (`ci_func`) and the
index of the current instruction, the value of `pcRel(ci->savedpc, p)`. -/
structure CallInfo where
  func : Closure
  pc : Nat
  deriving DecidableEq, Repr

/-- The macro `isLua`: the frame runs a script function. -/
def isLua (ci : CallInfo) : Bool :=
  !ci.func.isC

/-- The function `luaG_getline` of ldebug.cpp. -/
def luaG_getline (p : Proto) (pc : Nat) : Int :=
  match p.lineinfo with
  | none => 0
  | some lineinfo => p.abslineinfo.getD (pc >>> p.linegaplog2) 0 + (lineinfo.getD pc 0 : Int)

/-- The function `currentline` of ldebug.cpp. -/
def currentline (ci : CallInfo) : Int :=
  luaG_getline ci.func.p ci.pc

/-- The literal `STR_0` of `pusherror`, decoded: `%s:%d: %s`. -/
def sourceLineFormat : String :=
  scrypt [0xdb, 0x8d, 0xc6, 0xdb, 0x9c, 0xc6, 0xe0, 0xdb, 0x8d]

/-- The function `pusherror` of ldebug.cpp; `ci` is `L->ci`. -/
def pusherror (cfg : DebugConfig) (ci : CallInfo) (L : lua_State) (msg : String) : lua_State :=
  if isLua ci then
    let source := ci.func.p.source
    let chunkid := cfg.luaO_chunkid cfg.LUA_IDSIZE source
    let line := currentline ci
    push L (.string (pushfstringText sourceLineFormat [.str chunkid, .int line, .str msg]))
  else
    push L (.string msg)

/-- The function `luaG_runerrorL` of ldebug.cpp: the message is formatted into
`result`, pushed by `pusherror` and thrown with `LUA_ERRRUN`. -/
def luaG_runerrorL {α : Type} (cfg : DebugConfig) (ci : CallInfo) (L : lua_State) (fmt : String)
    (args : List FmtArg) : Step α :=
  let result := vsnprintf cfg.LUA_BUFFERSIZE fmt args
  .raise (pusherror cfg ci L result) (.runerror result)

/-- The function `luaG_pusherror` of ldebug.cpp. -/
def luaG_pusherror (cfg : DebugConfig) (ci : CallInfo) (L : lua_State) (error : String) :
    lua_State :=
  pusherror cfg ci L error

/-- The literal `STR_0` of `currfuncname`, decoded: `__namecall`. -/
def namecallName : String :=
  scrypt [0xa1, 0xa1, 0x92, 0x9f, 0x93, 0x9b, 0x9d, 0x9f, 0x94, 0x94]

/-- The function `currfuncname` of laux.cpp; `ci` is `L->ci` and `namecall` is
`L->namecall` (NULL when no method name is recorded). -/
def currfuncname (L : lua_State) (ci : CallInfo) (namecall : Option String) : Option String :=
  let cl : Option Closure := if 0 < L.nci then some ci.func else none
  let debugname : Option String :=
    match cl with
    | some c => if c.isC then c.debugname else none
    | none => none
  match debugname with
  | some d => if d = namecallName then namecall.map getstr else some d
  | none => none

/-- The fields of `lua_Debug` that the request `"sl"` fills and `luaL_where`
reads. -/
structure lua_Debug where
  short_src : String
  currentline : Int
  deriving DecidableEq, Repr

/-- The literal `STR_2` of the case `'s'` of `auxgetinfo`, decoded: `[C]`. -/
def nativeShortSrc : String :=
  scrypt [0xa5, 0xbd, 0xa3]

/-- The cases `'s'` and `'l'` of `auxgetinfo` of ldebug.cpp for the frame `ci`
and its closure; `sizeof(ar->ssbuf)` is `LUA_IDSIZE`. -/
def auxgetinfo (cfg : DebugConfig) (ci : CallInfo) : lua_Debug :=
  { short_src :=
      if ci.func.isC then nativeShortSrc
      else cfg.luaO_chunkid cfg.LUA_IDSIZE ci.func.p.source,
    currentline := if isLua ci then currentline ci else -1 }

/-- The function `lua_getinfo` of ldebug.cpp for a level `≥ 0` and the request
`"sl"`; `frame` is the call-info frame `L->ci - level`.  The value is `none`
when the function returns 0. -/
def lua_getinfo (cfg : DebugConfig) (L : lua_State) (frame : CallInfo) (level : Nat) :
    Option lua_Debug :=
  if level < L.nci then some (auxgetinfo cfg frame) else none

/-- The literal `STR_1` of `luaL_where`, decoded: `%s:%d: `. -/
def wherePositionFormat : String :=
  scrypt [0xdb, 0x8d, 0xc6, 0xdb, 0x9c, 0xc6, 0xe0]

/-- The function `luaL_where` of laux.cpp: the string it pushes; `frame` is
the call-info frame `L->ci - level`. -/
def luaL_where (cfg : DebugConfig) (L : lua_State) (frame : CallInfo) (level : Nat) : String :=
  match lua_getinfo cfg L frame level with
  | some ar =>
    if ar.currentline > 0 then
      pushfstringText wherePositionFormat [.str ar.short_src, .int ar.currentline]
    else ""
  | none => ""

/-- The function `luaL_errorL` of laux.cpp (`luaL_error`); `caller` is the
frame `L->ci - 1`.  The position of `luaL_where(L, 1)` and the text that
`lua_pushvfstring` forms from the format and its arguments are concatenated
(`lua_concat`) into the error value, which is on top of the stack when
`lua_error` throws; the error carries the formatted text. -/
def luaL_errorL {α : Type} (cfg : DebugConfig) (caller : CallInfo) (L : lua_State)
    (fmt : String) (args : List FmtArg) : Step α :=
  let text := pushfstringText fmt args
  .raise (push L (.string (luaL_where cfg L caller 1 ++ text))) (.error text)

/-- The literal `STR_0` of `luaL_argerrorL`, decoded. -/
def argerrorNamedFormat : String :=
  scrypt [0x97, 0x92, 0x8a, 0x9f, 0x94, 0x97, 0x9c, 0xe0, 0x9f, 0x8e, 0x99, 0x8b, 0x93, 0x9b,
    0x92, 0x8c, 0xe0, 0xdd, 0xdb, 0x9c, 0xe0, 0x8c, 0x91, 0xe0, 0xd9, 0xdb, 0x8d, 0xd9, 0xe0,
    0xd8, 0xdb, 0x8d, 0xd7]

/-- The literal `STR_1` of `luaL_argerrorL`, decoded. -/
def argerrorPlainFormat : String :=
  scrypt [0x97, 0x92, 0x8a, 0x9f, 0x94, 0x97, 0x9c, 0xe0, 0x9f, 0x8e, 0x99, 0x8b, 0x93, 0x9b,
    0x92, 0x8c, 0xe0, 0xdd, 0xdb, 0x9c, 0xe0, 0xd8, 0xdb, 0x8d, 0xd7]

/-- The function `luaL_argerrorL` of laux.cpp. -/
def luaL_argerrorL {α : Type} (cfg : DebugConfig) (caller : CallInfo) (L : lua_State)
    (ci : CallInfo) (namecall : Option String) (narg : Int) (extramsg : String) : Step α :=
  match currfuncname L ci namecall with
  | some fname =>
    luaL_errorL cfg caller L argerrorNamedFormat [.int narg, .str fname, .str extramsg]
  | none => luaL_errorL cfg caller L argerrorPlainFormat [.int narg, .str extramsg]

/-! ## lgcdebug.cpp: heap validation -/

/-- The phases of the collector, the values of `g->gcstate`. -/
inductive GCState where
  | GCSpause
  | GCSpropagate
  | GCSpropagateagain
  | GCSatomic
  | GCSsweep
  deriving DecidableEq, Repr

/-- The tags `gch.tt` of heap objects: the collectable value tags, the two
internal tags `LUA_TPROTO` and `LUA_TUPVAL`, and `LUA_TDEADKEY`, which marks a
dead key of a table node and is the tag of no heap object. -/
inductive GCTag where
  | LUA_TSTRING
  | LUA_TTABLE
  | LUA_TFUNCTION
  | LUA_TUSERDATA
  | LUA_TTHREAD
  | LUA_TBUFFER
  | LUA_TPROTO
  | LUA_TUPVAL
  | LUA_TDEADKEY
  deriving DecidableEq, Repr

/-- A `TValue` as the collector sees it: nil, another inline value, or a
collectable value with its tag and the address `gcvalue(v)` of its object. -/
inductive GCValue where
  | nil
  | scalar
  | ref (tt : GCTag) (gc : Nat)
  deriving DecidableEq, Repr

/-- A node `LuaNode` of the hash part: value, key and the offset `gnext` to the
next node of its chain. -/
structure LuaNode where
  val : GCValue
  key : GCValue
  next : Int
  deriving DecidableEq, Repr

/-- The fields of a table that `validatetable` reads; `sizearray` is the length
of `array`. -/
structure GCTable where
  lsizenode : Nat
  lastfree : Int
  metatable : Option Nat
  array : List GCValue
  node : List LuaNode
  deriving DecidableEq, Repr

/-- The fields of a closure that `validateclosure` reads: `upvals` stands for
`c.upvals` of a native closure and for `l.uprefs` of a script closure, `p` is
the address of the prototype `l.p`. -/
structure GCClosure where
  env : Nat
  isC : Bool
  nupvalues : Nat
  upvals : List GCValue
  p : Nat
  deriving DecidableEq, Repr

/-- The fields of a prototype that `validateproto` reads; a NULL pointer is
`none`. -/
structure GCProto where
  nups : Nat
  source : Option Nat
  debugname : Option Nat
  k : List GCValue
  upvalues : List (Option Nat)
  p : List (Option Nat)
  locvars : List (Option Nat)
  deriving DecidableEq, Repr

/-- A call-info frame of a thread as `validatestack` reads it: the positions
of `func`, `base` and `top` in the stack. -/
structure GCCallInfo where
  func : Nat
  base : Nat
  top : Nat
  deriving DecidableEq, Repr

/-- The fields of a thread that `validatestack` reads: the global table `gt`,
the positions `stack` and `stack_last`, the frames `base_ci .. ci`, the values
in `stack .. top - 1`, `namecall`, and the chain of open upvalues linked by
`threadnext`. -/
structure GCThread where
  gt : Nat
  stack : Nat
  stack_last : Nat
  ci : List GCCallInfo
  values : List GCValue
  namecall : Option Nat
  openupval : List Nat
  deriving DecidableEq, Repr

/-- The fields of an upvalue: the value `*uv->v`, whether it is open
(`upisopen`), and the links `u.open.next` and `u.open.prev`. -/
structure GCUpVal where
  v : GCValue
  isopen : Bool
  next : Nat
  prev : Nat
  deriving DecidableEq, Repr

/-- The body of a heap object, by its tag. -/
inductive GCPayload where
  | string
  | table (h : GCTable)
  | closure (cl : GCClosure)
  | userdata (metatable : Option Nat)
  | thread (l : GCThread)
  | buffer
  | proto (f : GCProto)
  | upval (uv : GCUpVal)
  | unexpected
  deriving DecidableEq, Repr

/-- A heap object `GCObject`: the mark byte of its header and its body. -/
structure GCObject where
  marked : Nat
  payload : GCPayload
  deriving DecidableEq, Repr

/-- The tag `gch.tt` of an object. -/
def GCObject.tt (o : GCObject) : GCTag :=
  match o.payload with
  | .string => .LUA_TSTRING
  | .table _ => .LUA_TTABLE
  | .closure _ => .LUA_TFUNCTION
  | .userdata _ => .LUA_TUSERDATA
  | .thread _ => .LUA_TTHREAD
  | .buffer => .LUA_TBUFFER
  | .proto _ => .LUA_TPROTO
  | .upval _ => .LUA_TUPVAL
  | .unexpected => .LUA_TDEADKEY

/-- The part of `global_State` the validation reads: the collector state, the
current white, the main thread, the registry, the per-type metatables, the
three gray lists and the open upvalues linked off `uvhead` (each chain as the
list of the addresses on it). -/
structure GCGlobal where
  gcstate : GCState
  currentwhite : Nat
  mainthread : Nat
  registry : GCValue
  mt : List (Option Nat)
  weak : List Nat
  gray : List Nat
  grayagain : List Nat
  uvhead : List Nat
  deriving DecidableEq, Repr

/-- The colour macros of lgc.h, which is not among the sources: `isdead(g, o)`
and `keepinvariant(g)` read the collector state, `isblack`, `iswhite` and
`isgray` read the mark byte of an object. -/
structure GCMacros where
  isdead : GCGlobal → Nat → Bool
  keepinvariant : GCGlobal → Bool
  isblack : Nat → Bool
  iswhite : Nat → Bool
  isgray : Nat → Bool

/-- The heap: the object at each address, and the addresses of the objects in
the pages that `luaM_visitgco` visits. -/
structure GCHeap where
  deref : Nat → GCObject
  pages : List Nat

/-- The function `validateobjref` of lgcdebug.cpp; the result is whether its
assertions hold. -/
def validateobjref (m : GCMacros) (g : GCGlobal) (f t : GCObject) : Bool :=
  !m.isdead g t.marked &&
    (if m.keepinvariant g then !(m.isblack f.marked && m.iswhite t.marked) else true)

/-- The function `validateref` of lgcdebug.cpp. -/
def validateref (m : GCMacros) (g : GCGlobal) (heap : GCHeap) (f : GCObject) (v : GCValue) :
    Bool :=
  match v with
  | .ref tt gc => decide (tt = (heap.deref gc).tt) && validateobjref m g f (heap.deref gc)
  | _ => true

/-- A node outside the node array. -/
def dummynode : LuaNode :=
  { val := .nil, key := .nil, next := 0 }

/-- Whether a key carries the tag `LUA_TDEADKEY`. -/
def isdeadkey (k : GCValue) : Bool :=
  match k with
  | .ref .LUA_TDEADKEY _ => true
  | _ => false

/-- The function `validatetable` of lgcdebug.cpp; `f` is the table as an
object. -/
def validatetable (m : GCMacros) (g : GCGlobal) (heap : GCHeap) (f : GCObject) (h : GCTable) :
    Bool :=
  let sizenode : Nat := 1 <<< h.lsizenode
  decide (h.lastfree ≤ (sizenode : Int)) &&
  (match h.metatable with
   | some mt => validateobjref m g f (heap.deref mt)
   | none => true) &&
  h.array.all (fun v => validateref m g heap f v) &&
  (List.range sizenode).all (fun i =>
    let n := h.node.getD i dummynode
    (!isdeadkey n.key || decide (n.val = .nil)) &&
    decide (0 ≤ (i : Int) + n.next ∧ (i : Int) + n.next < (sizenode : Int)) &&
    (if n.val ≠ .nil then validateref m g heap f n.key && validateref m g heap f n.val
     else true))

/-- The function `validateclosure` of lgcdebug.cpp. -/
def validateclosure (m : GCMacros) (g : GCGlobal) (heap : GCHeap) (f : GCObject)
    (cl : GCClosure) : Bool :=
  validateobjref m g f (heap.deref cl.env) &&
  (if cl.isC then
    (List.range cl.nupvalues).all (fun i => validateref m g heap f (cl.upvals.getD i .nil))
   else
    (match (heap.deref cl.p).payload with
     | .proto p => decide (cl.nupvalues = p.nups)
     | _ => false) &&
    validateobjref m g f (heap.deref cl.p) &&
    (List.range cl.nupvalues).all (fun i => validateref m g heap f (cl.upvals.getD i .nil)))

/-- Modelled from the spec: the macro `checkliveness` of lgc.h is not among the
sources.  Every collectible pointer must reference a live object of matching
tag. -/
def checkliveness (m : GCMacros) (g : GCGlobal) (heap : GCHeap) (v : GCValue) : Bool :=
  match v with
  | .ref tt gc => decide (tt = (heap.deref gc).tt) && !m.isdead g (heap.deref gc).marked
  | _ => true

/-- The assertions on one open upvalue, in `validatestack` and in
`luaC_validate`: it is an upvalue, it is open, its two neighbours link back to
it, and it is not black. -/
def validateopenupval (m : GCMacros) (heap : GCHeap) (a : Nat) : Bool :=
  match (heap.deref a).payload with
  | .upval uv =>
    uv.isopen &&
    (match (heap.deref uv.next).payload, (heap.deref uv.prev).payload with
     | .upval nx, .upval pv => decide (nx.prev = a) && decide (pv.next = a)
     | _, _ => false) &&
    !m.isblack (heap.deref a).marked
  | _ => false

/-- The function `validatestack` of lgcdebug.cpp. -/
def validatestack (m : GCMacros) (g : GCGlobal) (heap : GCHeap) (f : GCObject) (l : GCThread) :
    Bool :=
  validateobjref m g f (heap.deref l.gt) &&
  l.ci.all (fun ci =>
    decide (l.stack ≤ ci.base) && decide (ci.func ≤ ci.base ∧ ci.base ≤ ci.top) &&
    decide (ci.top ≤ l.stack_last)) &&
  l.values.all (fun o => checkliveness m g heap o) &&
  (match l.namecall with
   | some s => validateobjref m g f (heap.deref s)
   | none => true) &&
  l.openupval.all (fun uv => validateopenupval m heap uv)

/-- The function `validateproto` of lgcdebug.cpp. -/
def validateproto (m : GCMacros) (g : GCGlobal) (heap : GCHeap) (f : GCObject) (p : GCProto) :
    Bool :=
  let opt : Option Nat → Bool := fun r =>
    match r with
    | some a => validateobjref m g f (heap.deref a)
    | none => true
  opt p.source && opt p.debugname &&
  p.k.all (fun v => validateref m g heap f v) &&
  p.upvalues.all opt && p.p.all opt && p.locvars.all opt

/-- The function `validateobj` of lgcdebug.cpp. -/
def validateobj (m : GCMacros) (g : GCGlobal) (heap : GCHeap) (o : GCObject) : Bool :=
  if m.isdead g o.marked then decide (g.gcstate = .GCSsweep)
  else
    match o.payload with
    | .string => true
    | .table h => validatetable m g heap o h
    | .closure cl => validateclosure m g heap o cl
    | .userdata metatable =>
      (match metatable with
       | some mt => validateobjref m g o (heap.deref mt)
       | none => true)
    | .thread l => validatestack m g heap o l
    | .buffer => true
    | .proto f => validateproto m g heap o f
    | .upval uv => validateref m g heap o uv.v
    | .unexpected => false

/-- The function `validategraylist` of lgcdebug.cpp, on the chain of objects
linked by `gclist`. -/
def validategraylist (m : GCMacros) (g : GCGlobal) (heap : GCHeap) (chain : List Nat) : Bool :=
  if !m.keepinvariant g then true
  else
    chain.all (fun a =>
      m.isgray (heap.deref a).marked &&
      (match (heap.deref a).payload with
       | .table _ => true
       | .closure _ => true
       | .thread _ => true
       | .proto _ => true
       | _ => false))

/-- The function `validategco` of lgcdebug.cpp, the callback of the heap
visit. -/
def validategco (m : GCMacros) (g : GCGlobal) (heap : GCHeap) (gco : Nat) : Bool :=
  validateobj m g heap (heap.deref gco)

/-- The function `luaC_validate` of lgcdebug.cpp: the heap passes when every
assertion holds. -/
def luaC_validate (m : GCMacros) (g : GCGlobal) (heap : GCHeap) : Bool :=
  !m.isdead g (heap.deref g.mainthread).marked &&
  checkliveness m g heap g.registry &&
  g.mt.all (fun r =>
    match r with
    | some a => !m.isdead g (heap.deref a).marked
    | none => true) &&
  validategraylist m g heap g.weak &&
  validategraylist m g heap g.gray &&
  validategraylist m g heap g.grayagain &&
  validategco m g heap g.mainthread &&
  heap.pages.all (fun a => validategco m g heap a) &&
  g.uvhead.all (fun uv => validateopenupval m heap uv)

/-! ## lutf8lib.cpp: decoding -/

/-- The constant `MAXUNICODE`. -/
def MAXUNICODE : Nat := 0x10FFFF

/-- The macro `iscont` of lutf8lib.cpp, on a byte. -/
def iscont (b : Nat) : Bool :=
  b &&& 0xC0 = 0x80

/-- Byte `i` of a NUL-terminated string given by its bytes before the
terminator: the terminator reads as 0. -/
def byteAt (s : List Nat) (i : Nat) : Nat :=
  s.getD i 0

/-- The table `limits` of `utf8_decode`. -/
def limits : List Nat := [0xFF, 0x7F, 0x7FF, 0xFFFF]

/-- The loop `while (c & 0x40)` of `utf8_decode` on the 32-bit unsigned `c` and
`res`: NULL (`none`) at a byte that is not a continuation byte, otherwise the
values of `c`, `count` and `res` after the loop.  On entry `c` is a byte, so
bit 6 is clear after at most seven shifts and the fuel 8 of `utf8_decode` is
not used up. -/
def decodeLoop (s : List Nat) : Nat → Nat → Nat → Nat → Option (Nat × Nat × Nat)
  | 0, c, count, res => some (c, count, res)
  | fuel + 1, c, count, res =>
    if c &&& 0x40 ≠ 0 then
      let cc := byteAt s (count + 1)
      if cc &&& 0xC0 ≠ 0x80 then none
      else
        decodeLoop s fuel ((c <<< 1) % 4294967296) (count + 1)
          (((res <<< 6) ||| (cc &&& 0x3F)) % 4294967296)
    else some (c, count, res)

/-- The function `utf8_decode` of lutf8lib.cpp on a NUL-terminated string:
`none` for NULL, otherwise the decoded value `*val` and the number of bytes by
which the returned pointer is advanced. -/
def utf8_decode (s : List Nat) : Option (Nat × Nat) :=
  let c := byteAt s 0
  if c < 0x80 then some (c, 1)
  else
    match decodeLoop s 8 c 0 0 with
    | none => none
    | some (c, count, res) =>
      let res := res ||| (((c &&& 0x7F) <<< (count * 5)) % 4294967296)
      if count > 3 ∨ res > MAXUNICODE ∨ res ≤ limits.getD count 0 then none
      else if (res + 4294967296 - 0xD800) % 4294967296 < 0x800 then none
      else some (res, count + 1)

/-! ## lbitlib.cpp -/

/-- Modelled from the spec: `lua_tounsignedx` of lapi.cpp is not among the
sources.  Values are coerced between compatible representations: a number
converts to its value as a 32-bit `unsigned` (reduced modulo 2^32), a string
through the string-to-number coercion `cvt2num`; no other value converts. -/
def lua_tounsignedx (cvt2num : String → Option Int) (L : lua_State) (idx : Int) : Option Nat :=
  match index2addr L idx with
  | some (.number n) => some (toUnsigned n)
  | some (.string s) => (cvt2num s).map toUnsigned
  | _ => none

/-- The function `luaL_checkunsigned` of laux.cpp. -/
def luaL_checkunsigned (cvt2num : String → Option Int) (L : lua_State) (narg : Int) : Step Nat :=
  match lua_tounsignedx cvt2num L narg with
  | some d => .ok L d
  | none => .raise L (.tagerror narg .LUA_TNUMBER)

/-- Modelled from the spec: `lua_pushunsigned` of lapi.cpp is not among the
sources.  It pushes the `unsigned` as a number onto the thread's stack. -/
def lua_pushunsigned (L : lua_State) (u : Nat) : lua_State :=
  push L (.number (u : Int))

/-- The macro `ALLONES` (`~0u`). -/
def ALLONES : Nat := 4294967295

/-- The macro `NBITS` (`int(8 * sizeof(unsigned))`). -/
def NBITS : Int := 32

/-- The macro `trim`. -/
def trim (x : Nat) : Nat :=
  x &&& ALLONES

/-- The operator `~` on a `b_uint`: every one of the 32 bits is flipped. -/
def bnot (x : Nat) : Nat :=
  (x % 4294967296) ^^^ ALLONES

/-- The operator `<<` on a `b_uint`: bits shifted past bit 31 are lost.  The
source only shifts by amounts in `0 .. 31`; outside that range the C result
is undefined and this value is not meant. -/
def shl (x : Nat) (k : Int) : Nat :=
  (x <<< k.toNat) % 4294967296

/-- The operator `>>` on a `b_uint`, with the same proviso as `shl`. -/
def shr (x : Nat) (k : Int) : Nat :=
  (x % 4294967296) >>> k.toNat

/-- The macro `mask`: `~((ALLONES << 1) << ((n)-1))`. -/
def mask (n : Int) : Nat :=
  bnot (shl (shl ALLONES 1) (n - 1))

/-- The function `b_shift` of lbitlib.cpp.  The negation `i = -i` is a 32-bit
`int` negation. -/
def b_shift (L : lua_State) (r : Nat) (i : Int) : Step Int :=
  let r :=
    if i < 0 then
      let i := toInt32 (-i)
      let r := trim r
      if i ≥ NBITS then 0 else shr r i
    else
      let r := if i ≥ NBITS then 0 else shl r i
      trim r
  .ok (lua_pushunsigned L r) 1

/-- The function `b_lshift` of lbitlib.cpp (`bit32.lshift`); the arguments are
read in the order they are written. -/
def b_lshift (cvt2num : String → Option Int) (L : lua_State) : Step Int :=
  (luaL_checkunsigned cvt2num L 1).andThen fun L r =>
    (luaL_checkinteger cvt2num L 2).andThen fun L i => b_shift L r i

/-- The function `b_rshift` of lbitlib.cpp (`bit32.rshift`); the negation is a
32-bit `int` negation. -/
def b_rshift (cvt2num : String → Option Int) (L : lua_State) : Step Int :=
  (luaL_checkunsigned cvt2num L 1).andThen fun L r =>
    (luaL_checkinteger cvt2num L 2).andThen fun L i => b_shift L r (toInt32 (-i))

/-- The function `b_arshift` of lbitlib.cpp (`bit32.arshift`). -/
def b_arshift (cvt2num : String → Option Int) (L : lua_State) : Step Int :=
  (luaL_checkunsigned cvt2num L 1).andThen fun L r =>
    (luaL_checkinteger cvt2num L 2).andThen fun L i =>
      if i < 0 ∨ r &&& shl 1 (NBITS - 1) = 0 then b_shift L r (toInt32 (-i))
      else
        let r := if i ≥ NBITS then ALLONES else trim (shr r i ||| bnot (shr (bnot 0) i))
        .ok (lua_pushunsigned L r) 1

/-- The literal `STR_0` of `fieldargs`, decoded. -/
def fieldNegative : String :=
  scrypt [0x9a, 0x97, 0x9b, 0x94, 0x9c, 0xe0, 0x9d, 0x9f, 0x92, 0x92, 0x91, 0x8c, 0xe0, 0x9e,
    0x9b, 0xe0, 0x92, 0x9b, 0x99, 0x9f, 0x8c, 0x97, 0x8a, 0x9b]

/-- The literal `STR_1` of `fieldargs`, decoded. -/
def widthPositive : String :=
  scrypt [0x89, 0x97, 0x9c, 0x8c, 0x98, 0xe0, 0x93, 0x8b, 0x8d, 0x8c, 0xe0, 0x9e, 0x9b, 0xe0,
    0x90, 0x91, 0x8d, 0x97, 0x8c, 0x97, 0x8a, 0x9b]

/-- The literal `STR_2` of `fieldargs`, decoded. -/
def nonExistentBits : String :=
  scrypt [0x8c, 0x8e, 0x87, 0x97, 0x92, 0x99, 0xe0, 0x8c, 0x91, 0xe0, 0x9f, 0x9d, 0x9d, 0x9b,
    0x8d, 0x8d, 0xe0, 0x92, 0x91, 0x92, 0xd3, 0x9b, 0x88, 0x97, 0x8d, 0x8c, 0x9b, 0x92, 0x8c,
    0xe0, 0x9e, 0x97, 0x8c, 0x8d]

/-- The function `fieldargs` of lbitlib.cpp; the value is the pair
`(f, *width)`.  The sum `f + w` is a 32-bit `int` addition. -/
def fieldargs (cvt2num : String → Option Int) (L : lua_State) (farg : Int) : Step (Int × Int) :=
  (luaL_checkinteger cvt2num L farg).andThen fun L f =>
    (luaL_optinteger cvt2num L (farg + 1) 1).andThen fun L w =>
      (luaL_argcheck L (decide (0 ≤ f)) farg fieldNegative).andThen fun L _ =>
        (luaL_argcheck L (decide (0 < w)) (farg + 1) widthPositive).andThen fun L _ =>
          if toInt32 (f + w) > NBITS then .raise L (.error nonExistentBits)
          else .ok L (f, w)

/-- The function `b_extract` of lbitlib.cpp (`bit32.extract`). -/
def b_extract (cvt2num : String → Option Int) (L : lua_State) : Step Int :=
  (luaL_checkunsigned cvt2num L 1).andThen fun L r =>
    (fieldargs cvt2num L 2).andThen fun L fw =>
      let r := shr r fw.1 &&& mask fw.2
      .ok (lua_pushunsigned L r) 1

/-- The function `b_replace` of lbitlib.cpp (`bit32.replace`).  The mask is
kept in an `int m`; where `m` meets a `b_uint` operand it is converted back
to `unsigned`, and `m << f` keeps the low 32 bits. -/
def b_replace (cvt2num : String → Option Int) (L : lua_State) : Step Int :=
  (luaL_checkunsigned cvt2num L 1).andThen fun L r =>
    (luaL_checkunsigned cvt2num L 2).andThen fun L v =>
      (fieldargs cvt2num L 3).andThen fun L fw =>
        let f := fw.1
        let m : Int := toInt32 (mask fw.2)
        let v := v &&& toUnsigned m
        let r := (r &&& bnot (toUnsigned (toInt32 (m * 2 ^ f.toNat)))) ||| shl v f
        .ok (lua_pushunsigned L r) 1

/-! ## lutf8lib.cpp: encoding -/

/-- Modelled from the spec: `lua_pushlstring` of lapi.cpp is not among the
sources.  It pushes a string value made of the given bytes, one character per
byte, onto the thread's stack. -/
def lua_pushlstring (L : lua_State) (s : List Nat) : lua_State :=
  push L (.string (String.mk (s.map Char.ofNat)))

/-- The buffer `luaL_Strbuf` of laux.cpp, by the bytes added so far.  Where the
bytes live (the internal array, or a boxed string kept on top of the stack
once they outgrow it) is not modelled: either way `luaL_pushresult` leaves
one string on top of the stack. -/
abbrev luaL_Strbuf := List Nat

/-- The function `luaL_buffinit` of laux.cpp. -/
def luaL_buffinit : luaL_Strbuf := []

/-- The function `luaL_addlstring` of laux.cpp. -/
def luaL_addlstring (B : luaL_Strbuf) (s : List Nat) : luaL_Strbuf :=
  B ++ s

/-- The function `luaL_pushresult` of laux.cpp. -/
def luaL_pushresult (L : lua_State) (B : luaL_Strbuf) : lua_State :=
  lua_pushlstring L B

/-- The constant `UTF8BUFFSZ`. -/
def UTF8BUFFSZ : Nat := 8

/-- The `do ... while (x > mfb)` loop of `luaO_utf8esc` on the buffer, `n`, `x`
and `mfb`; a stored `char` is kept as its byte.  For `x ≤ 0x10FFFF`, which
the function asserts, the body runs at most three times and the fuel 8 of
`luaO_utf8esc` is not used up. -/
def escLoop : Nat → List Nat → Nat → Nat → Nat → List Nat × Nat × Nat × Nat
  | 0, buff, n, x, mfb => (buff, n, x, mfb)
  | fuel + 1, buff, n, x, mfb =>
    let buff := buff.set (UTF8BUFFSZ - n) ((0x80 ||| (x &&& 0x3f)) % 256)
    let n := n + 1
    let x := x >>> 6
    let mfb := mfb >>> 1
    if x > mfb then escLoop fuel buff n x mfb else (buff, n, x, mfb)

/-- The function `luaO_utf8esc` of lutf8lib.cpp: the buffer after the call and
the number of bytes put at its end. -/
def luaO_utf8esc (buff : List Nat) (x : Nat) : List Nat × Nat :=
  if x < 0x80 then (buff.set (UTF8BUFFSZ - 1) (x % 256), 1)
  else
    match escLoop 8 buff 1 x 0x3f with
    | (buff, n, x, mfb) => (buff.set (UTF8BUFFSZ - n) ((shl (bnot mfb) 1 ||| x) % 256), n)

/-- The literal `STR_0` of `buffutfchar`, decoded. -/
def valueOutOfRange : String :=
  scrypt [0x8a, 0x9f, 0x94, 0x8b, 0x9b, 0xe0, 0x91, 0x8b, 0x8c, 0xe0, 0x91, 0x9a, 0xe0, 0x8e,
    0x9f, 0x92, 0x99, 0x9b]

/-- The function `buffutfchar` of lutf8lib.cpp: the buffer after the call and
the bytes `*charstr .. *charstr + l - 1`. -/
def buffutfchar (cvt2num : String → Option Int) (L : lua_State) (arg : Int) (buff : List Nat) :
    Step (List Nat × List Nat) :=
  (luaL_checkinteger cvt2num L arg).andThen fun L code =>
    (luaL_argcheck L (decide (0 ≤ code ∧ code ≤ (MAXUNICODE : Int))) arg valueOutOfRange).andThen
      fun L _ =>
        match luaO_utf8esc buff code.toNat with
        | (buff, l) => .ok L (buff, (buff.drop (UTF8BUFFSZ - l)).take l)

/-- The loop `for (int i = 1; i <= n; i++)` of `utfchar`, from argument `i` for
`cnt` more arguments. -/
def utfcharLoop (cvt2num : String → Option Int) :
    Nat → Int → lua_State → List Nat → luaL_Strbuf → Step luaL_Strbuf
  | 0, _, L, _, b => .ok L b
  | cnt + 1, i, L, buff, b =>
    (buffutfchar cvt2num L i buff).andThen fun L r =>
      utfcharLoop cvt2num cnt (i + 1) L r.1 (luaL_addlstring b r.2)

/-- The function `utfchar` of lutf8lib.cpp (`utf8.char`).  The array `buff` is
not initialised by the source; its content on entry is a parameter. -/
def utfchar (cvt2num : String → Option Int) (buff : List Nat) (L : lua_State) : Step Int :=
  let n := lua_gettop L
  if n = 1 then
    (buffutfchar cvt2num L 1 buff).andThen fun L r => .ok (lua_pushlstring L r.2) 1
  else
    (utfcharLoop cvt2num n 1 L buff luaL_buffinit).andThen fun L b => .ok (luaL_pushresult L b) 1

/-! ## loslib.cpp -/

/-- The C structure `struct tm`, by the fields that `os_time` fills; every
field is an `int`. -/
structure tm where
  tm_sec : Int
  tm_min : Int
  tm_hour : Int
  tm_mday : Int
  tm_mon : Int
  tm_year : Int
  tm_isdst : Int
  deriving DecidableEq, Repr

/-- The C conversion to a 64-bit `int64_t`, wrapping. -/
def toInt64 (x : Int) : Int :=
  (x + 9223372036854775808) % 18446744073709551616 - 9223372036854775808

/-- The bytes of a string value, one character per byte. -/
def stringBytes (s : String) : List Nat :=
  s.toList.map Char.toNat

/-- Modelled from the spec: `lua_tolstring` of lapi.cpp is not among the
sources.  Values are coerced between compatible representations: a string
gives its bytes; a number is converted to a string in its stack slot through
the number-to-string conversion `num2str`, which is a parameter, and gives the
bytes of that string; no other value converts. -/
def lua_tolstring (num2str : Int → String) (L : lua_State) (idx : Int) :
    Option (lua_State × List Nat) :=
  match index2addr L idx with
  | some (.string s) => some (L, stringBytes s)
  | some (.number n) =>
    let p : Nat := if 0 < idx then (idx - 1).toNat else L.stack.length - (-idx).toNat
    some ({ L with stack := L.stack.set p (.string (num2str n)) }, stringBytes (num2str n))
  | _ => none

/-- The function `luaL_checklstring` of laux.cpp; the value is the bytes
`s[0 .. *len - 1]`. -/
def luaL_checklstring (num2str : Int → String) (L : lua_State) (narg : Int) :
    Step (List Nat) :=
  match lua_tolstring num2str L narg with
  | some (L1, s) => .ok L1 s
  | none => .raise L (.tagerror narg .LUA_TSTRING)

/-- The function `luaL_optlstring` of laux.cpp. -/
def luaL_optlstring (num2str : Int → String) (L : lua_State) (narg : Int) (d : List Nat) :
    Step (List Nat) :=
  if lua_isnoneornil L narg then .ok L d else luaL_checklstring num2str L narg

/-- Modelled from the spec: `lua_createtable` of lapi.cpp is not among the
sources.  A new empty table object is allocated and pushed onto the thread's
stack. -/
def lua_createtable (L : lua_State) : lua_State :=
  push { L with tables := L.tables ++ [emptyTable] } (.table L.tables.length)

/-- Modelled from the spec: `lua_pushinteger` of lapi.cpp is not among the
sources.  It pushes the integer as a number onto the thread's stack. -/
def lua_pushinteger (L : lua_State) (n : Int) : lua_State :=
  push L (.number n)

/-- Modelled from the spec: `lua_settable` of lapi.cpp is not among the
sources.  The value on top of the stack is stored in the table at `idx` under
the key just below it, and both leave the stack; the read-only flag is checked
before the store.  Metamethod dispatch is left out: the table it is called on
here is a fresh table without metatable. -/
def lua_settable (L : lua_State) (idx : Int) : Step Unit :=
  let v := L.stack.getLastD .nil
  let k := L.stack.dropLast.getLastD .nil
  let rest := L.stack.dropLast.dropLast
  match tableAt L idx with
  | some h =>
    if (getTable L h).readonly then luaG_readonlyerror L
    else
      let t := getTable L h
      let t1 :=
        match k with
        | .number n => luaH_setnum t n v
        | _ => { t with node := nodeSet t.node k v }
      .ok { setTable L h t1 with stack := rest } ()
  | none => .ok { L with stack := rest } ()

/-- The `for` loop of `str_split`, on `iter`, `spanStart` (offsets from
`haystack`) and `numMatches`; the value is `(spanStart, numMatches)` at loop
exit.  The bound `end - needleLen` lies before `haystack` when the needle is
the longer string, so the comparison is made on integers.  `iter` grows in
every iteration, so `haystackLen + 1` iterations of fuel are enough. -/
def splitLoop (haystack needle : List Nat) :
    Nat → Nat → Nat → Int → lua_State → Step (Nat × Int)
  | 0, _, spanStart, numMatches, L => .ok L (spanStart, numMatches)
  | fuel + 1, iter, spanStart, numMatches, L =>
    if (iter : Int) ≤ (haystack.length : Int) - (needle.length : Int) then
      if (haystack.drop iter).take needle.length = needle then
        let numMatches := numMatches + 1
        let L := lua_pushinteger L numMatches
        let L := lua_pushlstring L ((haystack.drop spanStart).take (iter - spanStart))
        (lua_settable L (-3)).andThen fun L _ =>
          let spanStart := iter + needle.length
          let iter := if needle.length > 0 then iter + (needle.length - 1) else iter
          splitLoop haystack needle fuel (iter + 1) spanStart numMatches L
      else splitLoop haystack needle fuel (iter + 1) spanStart numMatches L
    else .ok L (spanStart, numMatches)

/-- The function `str_split` of lstrlib.cpp (`string.split`).  The default
separator is the literal `","`. -/
def str_split (num2str : Int → String) (L : lua_State) : Step Int :=
  (luaL_checklstring num2str L 1).andThen fun L haystack =>
    (luaL_optlstring num2str L 2 [44]).andThen fun L needle =>
      let L := lua_createtable L
      let begin : Nat := if needle.length = 0 then 1 else 0
      (splitLoop haystack needle (haystack.length + 1) begin 0 0 L).andThen fun L r =>
        (if needle.length > 0 then
          lua_settable
            (lua_pushlstring (lua_pushinteger L (r.2 + 1))
              ((haystack.drop r.1).take (haystack.length - r.1))) (-3)
         else Step.ok L ()).andThen fun L _ => .ok L 1

/-! ## lstrlib.cpp: packing integers -/

/-- The constant `MAXINTSIZE`. -/
def MAXINTSIZE : Nat := 16

/-- The macro `NB` (`CHAR_BIT`). -/
def NB : Nat := 8

/-- The macro `MC` (`(1 << NB) - 1`). -/
def MC : Nat := 255

/-- The macro `SZINT` (`(int)sizeof(long long)`). -/
def SZINT : Nat := 8

/-- The C conversion to a 64-bit `unsigned long long`. -/
def toUInt64 (x : Int) : Nat :=
  (x % 18446744073709551616).toNat

/-- The index expression `islittle ? i : size - 1 - i` of `packint` and
`unpackint`: where the byte of weight `256^i` lives. -/
def bytePos (islittle : Bool) (size i : Nat) : Nat :=
  if islittle then i else size - 1 - i

/-- The loop `for (i = 1; i < size; i++)` of `packint`, from index `i` for
`cnt` more iterations, on the 64-bit `n` and the array `buff`. -/
def packLoop (islittle : Bool) (size : Nat) : Nat → Nat → Nat → List Nat → List Nat
  | 0, _, _, buff => buff
  | cnt + 1, i, n, buff =>
    let n := n >>> NB
    packLoop islittle size cnt (i + 1) n
      (buff.set (bytePos islittle size i) (n &&& MC))

/-- The loop `for (i = SZINT; i < size; i++)` of `packint`, from index `i` for
`cnt` more iterations. -/
def signLoop (islittle : Bool) (size : Nat) : Nat → Nat → List Nat → List Nat
  | 0, _, buff => buff
  | cnt + 1, i, buff =>
    signLoop islittle size cnt (i + 1) (buff.set (bytePos islittle size i) MC)

/-- The function `packint` of lstrlib.cpp; `n` is the `unsigned long long`
argument.  The array `buff` is not initialised by the source; the `size` bytes
that are added to the buffer are all written first. -/
def packint (b : luaL_Strbuf) (n : Nat) (islittle : Bool) (size : Nat) (neg : Bool) :
    luaL_Strbuf :=
  let buff := List.replicate MAXINTSIZE 0
  let buff := buff.set (bytePos islittle size 0) (n &&& MC)
  let buff := packLoop islittle size (size - 1) 1 n buff
  let buff :=
    if neg ∧ size > SZINT then signLoop islittle size (size - SZINT) SZINT buff else buff
  luaL_addlstring b (buff.take size)

/-- The literal `STR_0` of the case `Kint` of `str_pack`, decoded. -/
def integerOverflow : String :=
  scrypt [0x97, 0x92, 0x8c, 0x9b, 0x99, 0x9b, 0x8e, 0xe0, 0x91, 0x8a, 0x9b, 0x8e, 0x9a, 0x94,
    0x91, 0x89]

/-- The literal `STR_1` of the case `Kuint` of `str_pack`, decoded. -/
def unsignedOverflow : String :=
  scrypt [0x8b, 0x92, 0x8d, 0x97, 0x99, 0x92, 0x9b, 0x9c, 0xe0, 0x91, 0x8a, 0x9b, 0x8e, 0x9a,
    0x94, 0x91, 0x89]

/-- The case `Kint` of the switch of `str_pack`, after the argument was read
as the `long long n`. -/
def packKint (L : lua_State) (b : luaL_Strbuf) (n : Int) (islittle : Bool) (size : Nat)
    (arg : Int) : Step luaL_Strbuf :=
  (if size < SZINT then
    let lim : Int := 2 ^ (size * NB - 1)
    luaL_argcheck L (decide (-lim ≤ n ∧ n < lim)) arg integerOverflow
   else Step.ok L ()).andThen fun L _ =>
    .ok L (packint b (toUInt64 n) islittle size (decide (n < 0)))

/-- The case `Kuint` of the switch of `str_pack`, after the argument was read
as the `long long n`. -/
def packKuint (L : lua_State) (b : luaL_Strbuf) (n : Int) (islittle : Bool) (size : Nat)
    (arg : Int) : Step luaL_Strbuf :=
  (if size < SZINT then
    luaL_argcheck L (decide (toUInt64 n < 2 ^ (size * NB))) arg unsignedOverflow
   else Step.ok L ()).andThen fun L _ =>
    .ok L (packint b (toUInt64 n) islittle size false)

/-- The loop `for (i = limit - 1; i >= 0; i--)` of `unpackint` on the 64-bit
`res`; the argument is `i + 1`. -/
def unpackLoop (str : List Nat) (islittle : Bool) (size : Nat) : Nat → Nat → Nat
  | 0, res => res
  | i + 1, res =>
    let res := (res <<< NB) % 18446744073709551616
    unpackLoop str islittle size i (res ||| str.getD (bytePos islittle size i) 0)

/-- The literal `STR_0` of `unpackint`, decoded. -/
def doesNotFitFormat : String :=
  scrypt [0xdb, 0x9c, 0xd3, 0x9e, 0x87, 0x8c, 0x9b, 0xe0, 0x97, 0x92, 0x8c, 0x9b, 0x99, 0x9b,
    0x8e, 0xe0, 0x9c, 0x91, 0x9b, 0x8d, 0xe0, 0x92, 0x91, 0x8c, 0xe0, 0x9a, 0x97, 0x8c, 0xe0,
    0x97, 0x92, 0x8c, 0x91, 0xe0, 0xb4, 0x8b, 0x9f, 0xe0, 0xb7, 0x92, 0x8c, 0x9b, 0x99, 0x9b,
    0x8e]

/-- The loop `for (i = limit; i < size; i++)` of `unpackint`, from index `i`
for `cnt` more iterations. -/
def fitLoop (L : lua_State) (str : List Nat) (islittle : Bool) (size : Nat) (mask : Nat) :
    Nat → Nat → Step Unit
  | 0, _ => .ok L ()
  | cnt + 1, i =>
    if str.getD (bytePos islittle size i) 0 ≠ mask then
      .raise L (.error (pushfstringText doesNotFitFormat [.int size]))
    else fitLoop L str islittle size mask cnt (i + 1)

/-- The function `unpackint` of lstrlib.cpp on the bytes `str[0 .. size - 1]`;
the value is the `long long`. -/
def unpackint (L : lua_State) (str : List Nat) (islittle : Bool) (size : Nat)
    (issigned : Bool) : Step Int :=
  let limit := if size ≤ SZINT then size else SZINT
  let res := unpackLoop str islittle size limit 0
  if size < SZINT then
    if issigned then
      let mask := (1 <<< (size * NB - 1)) % 18446744073709551616
      .ok L (toInt64
        ((((res ^^^ mask) + 18446744073709551616 - mask) % 18446744073709551616 : Nat) : Int))
    else .ok L (toInt64 (res : Int))
  else if size > SZINT then
    let mask := if ¬ issigned ∨ toInt64 (res : Int) ≥ 0 then 0 else MC
    (fitLoop L str islittle size mask (size - limit) limit).andThen fun L _ =>
      .ok L (toInt64 (res : Int))
  else .ok L (toInt64 (res : Int))

/-- A gap-free sequence with elements at `1..N`: every integer key in `1..N`
holds a non-nil value and every integer key above `N` holds nil. -/
def isSequence (t : LuaTable) (N : Nat) : Prop :=
  (∀ k : Int, 1 ≤ k → k ≤ (N : Int) → luaH_getnum t k ≠ .nil) ∧
  (∀ k : Int, (N : Int) < k → luaH_getnum t k = .nil)

/-- A read-only table holding the sequence 10, 20 in its array part. -/
def frozenTable : LuaTable :=
  { array := [.number 10, .number 20], node := [], readonly := true, metatable := none }

/-- A call frame whose first argument is `frozenTable`, followed by `args`. -/
def frozenCall (args : List TValue) : lua_State :=
  { stack := .table 0 :: args, tables := [frozenTable], status := .LUA_OK, nci := 1, tid := 0,
    singlestep := false }

/-- A call frame whose first argument is a read-only empty table, followed by
`args`. -/
def frozenEmptyCall (args : List TValue) : lua_State :=
  { stack := .table 0 :: args,
    tables := [{ array := [], node := [], readonly := true, metatable := none }],
    status := .LUA_OK, nci := 1, tid := 0, singlestep := false }

/-- A call frame whose first argument is a writable table holding 10, 20 in its
array part and 30 under key 3 of its hash part, followed by `args`. -/
def sequenceCall (args : List TValue) : lua_State :=
  { stack := .table 0 :: args,
    tables := [{ array := [.number 10, .number 20], node := [(.number 3, .number 30)],
                 readonly := false, metatable := none }],
    status := .LUA_OK, nci := 1, tid := 0, singlestep := false }

/-- A comparison that is never reached; stands for `luaV_lessthan`. -/
def noCompare : SortPredicate :=
  fun L _ _ => .ok L false

/-- An interpreter call that returns nothing; stands for `luaD_call`. -/
def noCall : lua_State → TValue → List TValue → Step (List TValue) :=
  fun L _ _ => .ok L []

/-- A running thread whose frame holds `s`. -/
def runningThread (s : List TValue) : lua_State :=
  { stack := s, tables := [], status := .LUA_OK, nci := 1, tid := 0, singlestep := false }

/-- An interpreter for the witness of `pcall`: function 1 returns its arguments
twice over, every other function throws the string `boom`. -/
def sampleRun : TValue → List TValue → CallOutcome :=
  fun f args =>
    if f = .function 1 then .returns (args ++ args) else .throws .LUA_ERRRUN (.string "boom")

/-- The limits of luaconf.h and the default flags. -/
def defaultConfig : Config :=
  { LUAI_MAXCSTACK := 8000, LUA_MINSTACK := 20, LUA_MEMERRMSG := "not enough memory",
    LUA_ERRERRMSG := "error in error handling", LuauCoroCheckStack := false,
    LuauStackLimit := false }

/-- A coroutine object with identity 1. -/
def coroutineThread (s : List TValue) (st : lua_Status) (nci : Nat) : lua_State :=
  { stack := s, tables := [], status := st, nci := nci, tid := 1, singlestep := false }

/-- A resume for the witnesses: the coroutine consumes its stack and yields the
two values 11 and 12. -/
def yieldTwo : Resume :=
  fun co _ _ => (.LUA_YIELD, { co with stack := [.number 11, .number 12], status := .LUA_YIELD })

/-- A resume for the witnesses: the coroutine fails with the error value `boom`
on top of its stack. -/
def failBoom : Resume :=
  fun co _ _ =>
    (.LUA_ERRRUN, { co with stack := co.stack ++ [.string "boom"], status := .LUA_ERRRUN })

/-- A resume for the counterexample: the coroutine returns 7999 values. -/
def returnMany : Resume :=
  fun co _ _ => (.LUA_OK, { co with stack := List.replicate 7999 (.number 0) })

/-- The type name the spec describes for a value `o` whose type name is looked
up in the metatable `mt`: the string that `mt` holds under `__type` when there
is one, otherwise the canonical name of the tag of `o`. -/
def typeNameThrough (L : lua_State) (mt : Option Nat) (o : TValue) : String :=
  match mt with
  | some m =>
    match luaH_getstr (getTable L m) "__type" with
    | .string s => s
    | _ => luaT_typenames (ttype o).tag.toNat
  | none => luaT_typenames (ttype o).tag.toNat

/-- Sample values of the constants of `TagConfig`; every light userdata value
carries tag 0. -/
def sampleTagConfig : TagConfig :=
  { UTAG_PROXY := 128, LUA_LUTAG_LIMIT := 128, lightuserdatatag := fun _ => 0 }

/-- A `global_State` after `luaT_init`, with no per-type metatable, no name
registered for a light userdata tag, and two userdata objects: object 0 has tag
1 and the table at address 1 as metatable, object 1 is a `newproxy` object with
the same metatable. -/
def sampleGlobal : global_State :=
  luaT_init
    { ttname := [], tmname := [], mt := List.replicate 11 none, lightuserdataname := [],
      udata := [{ tag := 1, metatable := some 1 }, { tag := 128, metatable := some 1 }] }

/-- A frame whose first argument is `v`, over a heap of two tables: table 0 has
table 1 as metatable, and table 1 holds the string `Foo` under `__type`. -/
def typedFrame (v : TValue) : lua_State :=
  { stack := [v],
    tables := [{ array := [], node := [], readonly := false, metatable := some 1 },
               { array := [], node := [(.string "__type", .string "Foo")], readonly := false,
                 metatable := none }],
    status := .LUA_OK, nci := 1, tid := 0, singlestep := false }

/-- A frame whose first argument is the table at address 0, followed by `args`,
over a heap of three tables: table 0 holds 1, 2, 3, 4, is writable when
`ro = false` and has the metatable `mt`; table 1 is a metatable without a
`__metatable` field; table 2 is a metatable that holds `false` under
`__metatable`. -/
def freezeFrame (ro : Bool) (mt : Option Nat) (args : List TValue) : lua_State :=
  { stack := .table 0 :: args,
    tables := [{ array := [.number 1, .number 2, .number 3, .number 4], node := [],
                 readonly := ro, metatable := mt },
               { array := [], node := [(.string "__index", .number 0)], readonly := false,
                 metatable := none },
               { array := [], node := [(.string "__metatable", .boolean false)],
                 readonly := false, metatable := none }],
    status := .LUA_OK, nci := 1, tid := 0, singlestep := false }

/-- A metatable that holds a function under `__index` and nothing under
`__eq`, with the cache bits of `__newindex` and `__mode` already set. -/
def sampleEvents : Events :=
  { h := { array := [], node := [(.string "__index", .function 7)], readonly := false,
           metatable := none },
    tmcache := 6 }

/-- The constants of luaconf.h (`LUA_BUFFERSIZE` 512, `LUA_IDSIZE` 256) and a
chunk-id helper that returns the source name as it is. -/
def sampleDebugConfig : DebugConfig :=
  { LUA_BUFFERSIZE := 512, LUA_IDSIZE := 256, luaO_chunkid := fun _ s => s }

/-- A script frame of the chunk `main`, stopped at instruction 2, on line 12. -/
def scriptFrame : CallInfo :=
  { func := { isC := false, debugname := none,
              p := { source := "main", lineinfo := some [0, 1, 2, 2], abslineinfo := [10],
                     linegaplog2 := 24 } },
    pc := 2 }

/-- A native frame of a C function with the debug name `name`. -/
def nativeFrame (name : Option String) : CallInfo :=
  { func := { isC := true, debugname := name,
              p := { source := "", lineinfo := none, abslineinfo := [], linegaplog2 := 0 } },
    pc := 0 }

/-- A running thread with two active frames: the frame of the running function
and, below it, the frame of its caller. -/
def calledThread : lua_State :=
  { stack := [], tables := [], status := .LUA_OK, nci := 2, tid := 0, singlestep := false }

/-- The addresses of the collectable values in a list of values. -/
def gcrefs (vs : List GCValue) : List Nat :=
  vs.filterMap (fun v =>
    match v with
    | .ref _ gc => some gc
    | _ => none)

/-- The references from an object to collectable objects that the heap
validation checks for liveness and colour: the metatable, the array entries
and the keys and values of the non-nil hash entries of a table; the
environment, the upvalues and (for a script closure) the prototype of a
closure; the metatable of a userdata; the constants and sub-prototypes of a
prototype; the value of an upvalue. -/
def checkedRefs (o : GCObject) : List Nat :=
  match o.payload with
  | .table h =>
    h.metatable.toList ++ gcrefs h.array ++
      gcrefs ((((List.range (1 <<< h.lsizenode)).map (fun i => h.node.getD i dummynode)).filter
        (fun n => n.val ≠ .nil)).flatMap (fun n => [n.key, n.val]))
  | .closure cl =>
    cl.env :: ((if cl.isC then [] else [cl.p]) ++
      gcrefs ((List.range cl.nupvalues).map (fun i => cl.upvals.getD i .nil)))
  | .userdata metatable => metatable.toList
  | .proto f => gcrefs f.k ++ f.p.filterMap id
  | .upval uv => gcrefs [uv.v]
  | _ => []

/-- The colour macros of lgc.h on a mark byte with bit 0 and 1 for the two
whites and bit 2 for black; an object is dead when it carries the white that
is not the current one. -/
def sampleMacros : GCMacros :=
  { isdead := fun g marked => decide (marked % 4 ≠ 0 ∧ marked % 4 ≠ g.currentwhite),
    keepinvariant := fun g =>
      decide (g.gcstate = .GCSpropagate ∨ g.gcstate = .GCSpropagateagain ∨
        g.gcstate = .GCSatomic),
    isblack := fun marked => marked.testBit 2,
    iswhite := fun marked => decide (marked % 4 ≠ 0),
    isgray := fun marked => decide (marked % 8 = 0) }

/-- A collector in the propagate phase whose current white is bit 0; the main
thread is the object at address 0. -/
def sampleGCGlobal : GCGlobal :=
  { gcstate := .GCSpropagate, currentwhite := 1, mainthread := 0, registry := .ref .LUA_TTABLE 1,
    mt := [], weak := [], gray := [1], grayagain := [], uvhead := [] }

/-- A heap of three objects: the main thread (gray), a gray table that refers
to a white string from its array part and from a hash node, and that white
string. -/
def sampleHeap : GCHeap :=
  { deref := fun a =>
      if a = 0 then
        { marked := 0,
          payload := .thread { gt := 1, stack := 0, stack_last := 8,
                               ci := [{ func := 0, base := 1, top := 4 }],
                               values := [.ref .LUA_TTABLE 1, .scalar], namecall := none,
                               openupval := [] } }
      else if a = 1 then
        { marked := 0,
          payload := .table { lsizenode := 1, lastfree := 2, metatable := none,
                              array := [.ref .LUA_TSTRING 2, .nil],
                              node := [{ val := .scalar, key := .ref .LUA_TSTRING 2, next := 1 },
                                       { val := .nil, key := .nil, next := 0 }] } }
      else { marked := 1, payload := .string },
    pages := [0, 1, 2] }

/-- The conditions on a decoded value `v` of a sequence with `n` continuation
bytes: above the largest value of a shorter encoding (0x7F, 0x7FF, 0xFFFF for
1, 2, 3 continuation bytes), at most 0x10FFFF, and not a surrogate. -/
def scalarOk (n v : Nat) : Bool :=
  decide (v > [0x7F, 0x7FF, 0xFFFF].getD (n - 1) 0) && decide (v ≤ 0x10FFFF) &&
    !decide (0xD800 ≤ v ∧ v ≤ 0xDFFF)

/-- Well-formed shortest-form UTF-8 at the start of a NUL-terminated string:
the decoded value and the length of the sequence.  A byte below 0x80 stands
for itself; a lead byte `110xxxxx`, `1110xxxx` or `11110xxx` is followed by 1,
2 or 3 continuation bytes `10xxxxxx`, and the value is made of the `x` bits of
the lead byte followed by the low six bits of each continuation byte. -/
def wellFormed (s : List Nat) : Option (Nat × Nat) :=
  let b0 := byteAt s 0
  let b1 := byteAt s 1
  let b2 := byteAt s 2
  let b3 := byteAt s 3
  if b0 < 0x80 then some (b0, 1)
  else if 0xC0 ≤ b0 ∧ b0 < 0xE0 then
    let v := ((b0 &&& 0x1F) <<< 6) ||| (b1 &&& 0x3F)
    if iscont b1 ∧ scalarOk 1 v then some (v, 2) else none
  else if 0xE0 ≤ b0 ∧ b0 < 0xF0 then
    let v := ((b0 &&& 0x0F) <<< 12) ||| ((b1 &&& 0x3F) <<< 6) ||| (b2 &&& 0x3F)
    if iscont b1 ∧ iscont b2 ∧ scalarOk 2 v then some (v, 3) else none
  else if 0xF0 ≤ b0 ∧ b0 < 0xF8 then
    let v := ((b0 &&& 0x07) <<< 18) ||| ((b1 &&& 0x3F) <<< 12) ||| ((b2 &&& 0x3F) <<< 6) |||
      (b3 &&& 0x3F)
    if iscont b1 ∧ iscont b2 ∧ iscont b3 ∧ scalarOk 3 v then some (v, 4) else none
  else none

/-! ## Proof devices for `moveelements` -/

/-- One element move of `moveelements` seen through the raw table functions:
`dst[kt] = src[kf]`. -/
def moveStep (L : lua_State) (src dst : Nat) (kf kt : Int) : lua_State :=
  setTable L dst (luaH_setnum (getTable L dst) kt (luaH_getnum (getTable L src) kf))

/-- The increasing loop of `moveelements` as a sequence of `moveStep`s, from
index `i` for `cnt` more iterations. -/
def stepUp (src dst : Nat) (f t : Int) : Nat → Nat → lua_State → lua_State
  | 0, _, L => L
  | cnt + 1, i, L => stepUp src dst f t cnt (i + 1) (moveStep L src dst (f + i) (t + i))

/-- The decreasing loop of `moveelements` as a sequence of `moveStep`s; the
argument is `i + 1`. -/
def stepDown (src dst : Nat) (f t : Int) : Nat → lua_State → lua_State
  | 0, L => L
  | i + 1, L => stepDown src dst f t i (moveStep L src dst (f + i) (t + i))

/-- A sample call frame `table.move(a, 1, 3, 2)` with `a = {1, 2, 3, 4, 5}`, read-only or
not. -/
def moveSample (frozen : Bool) : lua_State :=
  { stack := [.table 0, .number 1, .number 3, .number 2],
    tables := [{ array := [.number 1, .number 2, .number 3, .number 4, .number 5], node := [],
                 readonly := frozen, metatable := none }],
    status := .LUA_OK, nci := 1, tid := 0, singlestep := false }

/-- The number whose base-256 digits, lowest first, are `f 0 .. f (k - 1)`. -/
def digitsValue (f : Nat → Nat) : Nat → Nat
  | 0 => 0
  | k + 1 => digitsValue f k + f k * 256 ^ k

/-! ## Proof devices and the specification side of `table.sort` -/

/-- The array slot `arr[k]`; nil outside the array. -/
def slot (a : List TValue) (k : Nat) : TValue :=
  a.getD k .nil

/-- The array after `sort_swap` of the slots `i` and `j`. -/
def swapA (a : List TValue) (i j : Nat) : List TValue :=
  (a.set i (slot a j)).set j (slot a i)

/-- The state in which the array part of the table `h` of `L` is `a`. -/
def withArray (L : lua_State) (h : Nat) (a : List TValue) : lua_State :=
  setTable L h { getTable L h with array := a }

/-- A strict weak order on the values that satisfy `E`: irreflexive, transitive, and with a
transitive incomparability relation. -/
structure StrictWeakOrder (E : TValue → Prop) (lt : TValue → TValue → Bool) : Prop where
  irrefl : ∀ x, E x → lt x x = false
  trans : ∀ x y z, E x → E y → E z → lt x y = true → lt y z = true → lt x z = true
  incomp : ∀ x y z, E x → E y → E z → lt x y = false → lt y x = false →
    lt y z = false → lt z y = false → lt x z = false ∧ lt z x = false

/-- The array `b` is a rearrangement of `a` that touches only the slots `l .. u`. -/
def Moved (a b : List TValue) (l u : Nat) : Prop :=
  b.length = a.length ∧ List.Perm b a ∧ ∀ k, k < l ∨ u < k → slot b k = slot a k

/-- No pair of positions `i < j` in `l .. u` has `a[j] < a[i]`. -/
def sortedRange (lt : TValue → TValue → Bool) (a : List TValue) (l u : Nat) : Prop :=
  ∀ i j, l ≤ i → i < j → j ≤ u → lt (slot a j) (slot a i) = false

/-- The heap property of the `c` slots from `l` on, at every node `p ≥ r`: no child is
greater than its parent. -/
def heapFrom (lt : TValue → TValue → Bool) (a : List TValue) (l c r : Nat) : Prop :=
  ∀ p ch, r ≤ p → ch < c → ch = 2 * p + 1 ∨ ch = 2 * p + 2 →
    lt (slot a (l + p)) (slot a (l + ch)) = false

/-- The comparison `pred` is pure on the values that satisfy `E` while the table `h` of `L`
is sorted: on every state that differs from `L` at most in the array part of the table `h`,
it returns `lt x y`, raises nothing and leaves the state as it is. -/
def PurePredicate (pred : SortPredicate) (L : lua_State) (h : Nat) (E : TValue → Prop)
    (lt : TValue → TValue → Bool) : Prop :=
  ∀ (b : List TValue) (x y : TValue), E x → E y →
    pred (withArray L h b) x y = .ok (withArray L h b) (lt x y)

/-- The state of the heap while `sort_siftheap` sifts from the root `r` and is at the node
`x`: the heap property holds at every node `p ≥ r` other than `x`, and the children of `x`
are not greater than the parent of `x`. -/
def siftInv (lt : TValue → TValue → Bool) (a : List TValue) (l c r x : Nat) : Prop :=
  (∀ p ch, r ≤ p → p ≠ x → ch < c → ch = 2 * p + 1 ∨ ch = 2 * p + 2 →
    lt (slot a (l + p)) (slot a (l + ch)) = false) ∧
  (∀ px ch, r ≤ px → x = 2 * px + 1 ∨ x = 2 * px + 2 → ch < c →
    ch = 2 * x + 1 ∨ ch = 2 * x + 2 → lt (slot a (l + px)) (slot a (l + ch)) = false)

/-- The array `b` holds in its first `n` slots a permutation of the first `n` slots of `a`,
with no pair of positions `i < j` such that `b[j] < b[i]`, and the slots from `n` on are
those of `a`. -/
def SortedPermutation (lt : TValue → TValue → Bool) (a b : List TValue) (n : Nat) : Prop :=
  b.length = a.length ∧ List.Perm (b.take n) (a.take n) ∧ b.drop n = a.drop n ∧
    ∀ i j, i < j → j < n → lt (slot b j) (slot b i) = false

/-- A sample order: `<` on two numbers, false on any other pair of values. -/
def numberLess : TValue → TValue → Bool
  | .number x, .number y => decide (x < y)
  | _, _ => false

/-- The order of the strings: `<` on two strings, false on any other pair of values. -/
def stringLess : TValue → TValue → Bool
  | .string s, .string t => decide (s < t)
  | _, _ => false

/-- The order of the numbers, reversed: `x > y` on two numbers. -/
def numberGreater : TValue → TValue → Bool :=
  fun x y => numberLess y x

/-- The comparison of two byte sequences by their first difference; a proper prefix is
less. -/
def bytesLess : List Char → List Char → Bool
  | _, [] => false
  | [], _ :: _ => true
  | a :: s, b :: t => if a = b then bytesLess s t else decide (a < b)

/-- A sample default comparison: `<` on two numbers and on two strings, computed without
touching the state; on any other pair of values it raises. -/
def lessDefault : SortPredicate :=
  fun L x y =>
    match x, y with
    | .number a, .number b => .ok L (decide (a < b))
    | .string s, .string t => .ok L (bytesLess s.toList t.toList)
    | _, _ => .raise L (.runerror "attempt to compare")

/-- A sample interpreter: the function 7 answers whether its first argument is a number
greater than its second; a call of any other value raises. -/
def callGreater : lua_State → TValue → List TValue → Step (List TValue) :=
  fun L f args =>
    if f = .function 7 then
      .ok L [.boolean (numberLess (args.getD 1 .nil) (args.getD 0 .nil))]
    else .raise L (.runerror "attempt to call a value")

/-- A sample call frame `table.sort(a, f)` with `a = {3, 1, 2}` and `f` the function 7. -/
def sortSampleBy : lua_State :=
  { stack := [.table 0, .function 7],
    tables := [{ array := [.number 3, .number 1, .number 2], node := [], readonly := false,
                 metatable := none }],
    status := .LUA_OK, nci := 1, tid := 0, singlestep := false }

/-- A sample call frame `table.sort(a)` with `a = {"b", "c", "a"}`. -/
def sortSampleStrings : lua_State :=
  { stack := [.table 0],
    tables := [{ array := [.string "b", .string "c", .string "a"], node := [],
                 readonly := false, metatable := none }],
    status := .LUA_OK, nci := 1, tid := 0, singlestep := false }

/-- A sample comparison function: `numberLess`, computed without touching the state. -/
def lessNumbers : SortPredicate :=
  fun L x y => .ok L (numberLess x y)

/-- A sample call frame `table.sort(a)` with `a = {3, 1, 2}`, read-only or not. -/
def sortSample (frozen : Bool) : lua_State :=
  { stack := [.table 0],
    tables := [{ array := [.number 3, .number 1, .number 2], node := [], readonly := frozen,
                 metatable := none }],
    status := .LUA_OK, nci := 1, tid := 0, singlestep := false }

/-- The pieces that the loop of `str_split` stores, in the order it stores
them, and `spanStart` at loop exit: the loop of `splitLoop` without the
state. -/
def loopPieces (haystack needle : List Nat) : Nat → Nat → Nat → List (List Nat) × Nat
  | 0, _, spanStart => ([], spanStart)
  | fuel + 1, iter, spanStart =>
    if (iter : Int) ≤ (haystack.length : Int) - (needle.length : Int) then
      if (haystack.drop iter).take needle.length = needle then
        let r := loopPieces haystack needle fuel
          ((if needle.length > 0 then iter + (needle.length - 1) else iter) + 1)
          (iter + needle.length)
        ((haystack.drop spanStart).take (iter - spanStart) :: r.1, r.2)
      else loopPieces haystack needle fuel (iter + 1) spanStart
    else ([], spanStart)

/-- The table `h` after the strings `pieces` are stored under the keys
`k + 1, k + 2, ...`, one `lua_settable` after the other. -/
def storePieces (h : Nat) : Int → List (List Nat) → lua_State → lua_State
  | _, [], L => L
  | k, p :: ps, L =>
    storePieces h (k + 1) ps
      (setTable L h (luaH_setnum (getTable L h) (k + 1) (.string (String.mk (p.map Char.ofNat)))))

/-- The concatenation `p1 .. sep .. p2 .. sep .. ... .. pk` of the pieces with
the separator between neighbours. -/
def joinPieces (sep : List Nat) : List (List Nat) → List Nat
  | [] => []
  | [p] => p
  | p :: q :: rest => p ++ sep ++ joinPieces sep (q :: rest)

theorem readonlyMessage_eq : readonlyMessage = "attempt to modify a readonly table" := by decide

@[simp] theorem andThen_ok {α β : Type} (L : lua_State) (a : α) (k : lua_State → α → Step β) :
    (Step.ok L a).andThen k = k L a := rfl

@[simp] theorem andThen_raise {α β : Type} (L : lua_State) (e : LuaError)
    (k : lua_State → α → Step β) : (Step.raise L e : Step α).andThen k = .raise L e := rfl

theorem lua_type_of_tableAt {L : lua_State} {idx : Int} {h : Nat} (ht : tableAt L idx = some h) :
    lua_type L idx = .LUA_TTABLE := by
  unfold tableAt at ht
  unfold lua_type
  split at ht <;> simp_all [ttype]

theorem luaL_checktype_table {L : lua_State} {narg : Int} {h : Nat}
    (ht : tableAt L narg = some h) : luaL_checktype L narg .LUA_TTABLE = .ok L () := by
  simp [luaL_checktype, lua_type_of_tableAt ht]

theorem lua_rawseti_frozen {L : lua_State} {idx : Int} {h : Nat} (n : Int)
    (ht : tableAt L idx = some h) (hro : (getTable L h).readonly = true) :
    lua_rawseti L idx n = .raise L (.runerror readonlyMessage) := by
  simp [lua_rawseti, ht, hro, luaG_readonlyerror]

theorem moveelements_frozen {L : lua_State} {dstt : Int} {h : Nat} (srct : Int) (f e t : Int)
    (ht : tableAt L dstt = some h) (hro : (getTable L h).readonly = true) :
    moveelements L srct dstt f e t = .raise L (.runerror readonlyMessage) := by
  simp [moveelements, ht, hro, luaG_readonlyerror]

theorem luaL_checkinteger_some {cvt2num : String → Option Int} {L : lua_State} {narg d : Int}
    (hd : lua_tointegerx cvt2num L narg = some d) : luaL_checkinteger cvt2num L narg = .ok L d := by
  simp [luaL_checkinteger, hd]

theorem luaL_checkinteger_none {cvt2num : String → Option Int} {L : lua_State} {narg : Int}
    (hd : lua_tointegerx cvt2num L narg = none) :
    luaL_checkinteger cvt2num L narg = .raise L (.tagerror narg .LUA_TNUMBER) := by
  simp [luaL_checkinteger, hd]

theorem tinsert_frozen (cvt2num : String → Option Int) {L : lua_State} {h : Nat}
    (ht : tableAt L 1 = some h) (hro : (getTable L h).readonly = true) :
    (lua_gettop L = 2 → tinsert cvt2num L = .raise L (.runerror readonlyMessage)) ∧
    (lua_gettop L = 3 → ∀ pos, lua_tointegerx cvt2num L 2 = some pos →
      tinsert cvt2num L = .raise L (.runerror readonlyMessage)) ∧
    (tinsert cvt2num L).state = L := by
  have h1 : luaL_checktype L 1 .LUA_TTABLE = .ok L () := luaL_checktype_table ht
  have key : ∀ pos, lua_tointegerx cvt2num L 2 = some pos → lua_gettop L = 3 →
      tinsert cvt2num L = .raise L (.runerror readonlyMessage) := by
    intro pos hp hn
    by_cases hc : 1 ≤ pos ∧ pos ≤ lua_objlen L 1
    · simp [tinsert, h1, hn, luaL_checkinteger_some hp, hc, moveelements_frozen 1 _ _ _ ht hro]
    · simp [tinsert, h1, hn, luaL_checkinteger_some hp, hc, lua_rawseti_frozen _ ht hro]
  refine ⟨?_, fun hn pos hp => key pos hp hn, ?_⟩
  · intro hn
    simp [tinsert, h1, hn, lua_rawseti_frozen _ ht hro]
  · by_cases h2 : lua_gettop L = 2
    · simp [tinsert, h1, h2, lua_rawseti_frozen _ ht hro, Step.state]
    · by_cases h3 : lua_gettop L = 3
      · cases hp : lua_tointegerx cvt2num L 2 with
        | none => simp [tinsert, h1, h3, luaL_checkinteger_none hp, Step.state]
        | some pos => rw [key pos hp h3]; rfl
      · have : tinsert cvt2num L = .raise L (.error tinsertMessage) := by
          simp only [tinsert, h1, andThen_ok]
        rw [this]; rfl

theorem luaL_optinteger_state (cvt2num : String → Option Int) (L : lua_State) (narg d : Int) :
    (luaL_optinteger cvt2num L narg d).state = L := by
  unfold luaL_optinteger luaL_checkinteger
  split
  · rfl
  · split <;> rfl

theorem lua_rawgeti_tables (L : lua_State) (idx n : Int) :
    (lua_rawgeti L idx n).tables = L.tables := by
  unfold lua_rawgeti push
  split <;> rfl

theorem index2addr_push {L : lua_State} {idx : Int} {v : TValue} (w : TValue)
    (hpos : 0 < idx) (hv : index2addr L idx = some v) : index2addr (push L w) idx = some v := by
  unfold index2addr at hv ⊢
  rw [if_pos hpos] at hv ⊢
  show (L.stack ++ [w])[(idx - 1).toNat]? = some v
  generalize (idx - 1).toNat = k at hv ⊢
  have hlt : k < L.stack.length := (List.getElem?_eq_some_iff.mp hv).1
  rw [List.getElem?_append_left hlt]
  exact hv

theorem tableAt_push {L : lua_State} {idx : Int} {h : Nat} (w : TValue)
    (hpos : 0 < idx) (ht : tableAt L idx = some h) : tableAt (push L w) idx = some h := by
  unfold tableAt at ht ⊢
  cases hq : index2addr L idx with
  | none => simp [hq] at ht
  | some v =>
    rw [index2addr_push w hpos hq]
    rw [hq] at ht
    exact ht

theorem tableAt_rawgeti {L : lua_State} {idx : Int} {h : Nat} (n : Int) (j : Int)
    (hpos : 0 < idx) (ht : tableAt L idx = some h) : tableAt (lua_rawgeti L j n) idx = some h := by
  unfold lua_rawgeti
  split <;> exact tableAt_push _ hpos ht

theorem getTable_rawgeti (L : lua_State) (idx n : Int) (h : Nat) :
    getTable (lua_rawgeti L idx n) h = getTable L h := by
  simp [getTable, lua_rawgeti_tables]

theorem tremove_frozen (cvt2num : String → Option Int) {L : lua_State} {h : Nat}
    (ht : tableAt L 1 = some h) (hro : (getTable L h).readonly = true) :
    (∀ pos, luaL_optinteger cvt2num L 2 (lua_objlen L 1) = .ok L pos →
      (1 ≤ pos ∧ pos ≤ lua_objlen L 1 →
        tremove cvt2num L = .raise (lua_rawgeti L 1 pos) (.runerror readonlyMessage)) ∧
      (¬ (1 ≤ pos ∧ pos ≤ lua_objlen L 1) → tremove cvt2num L = .ok L 0)) ∧
    (tremove cvt2num L).state.tables = L.tables := by
  have h1 : luaL_checktype L 1 .LUA_TTABLE = .ok L () := luaL_checktype_table ht
  have key : ∀ pos, luaL_optinteger cvt2num L 2 (lua_objlen L 1) = .ok L pos →
      (1 ≤ pos ∧ pos ≤ lua_objlen L 1 →
        tremove cvt2num L = .raise (lua_rawgeti L 1 pos) (.runerror readonlyMessage)) ∧
      (¬ (1 ≤ pos ∧ pos ≤ lua_objlen L 1) → tremove cvt2num L = .ok L 0) := by
    intro pos hp
    constructor
    · intro hc
      have hm := moveelements_frozen (L := lua_rawgeti L 1 pos) 1 (pos + 1) (lua_objlen L 1) pos
        (tableAt_rawgeti pos 1 (by decide) ht) (by rw [getTable_rawgeti]; exact hro)
      simp [tremove, h1, hp, hc, hm]
    · intro hc
      simp [tremove, h1, hp, hc]
  refine ⟨key, ?_⟩
  have hst := luaL_optinteger_state cvt2num L 2 (lua_objlen L 1)
  cases hp : luaL_optinteger cvt2num L 2 (lua_objlen L 1) with
  | raise L1 e =>
    rw [hp] at hst
    simp [tremove, h1, hp, Step.state] at hst ⊢
    rw [hst]
  | ok L1 pos =>
    rw [hp] at hst
    simp only [Step.state] at hst
    subst hst
    by_cases hc : 1 ≤ pos ∧ pos ≤ lua_objlen L1 1
    · rw [(key pos hp).1 hc]
      simp [Step.state, lua_rawgeti_tables]
    · rw [(key pos hp).2 hc]
      rfl
theorem tsort_frozen (luaV_lessthan : SortPredicate)
    (luaD_call : lua_State → TValue → List TValue → Step (List TValue)) {L : lua_State} {h : Nat}
    (ht : tableAt L 1 = some h) (hro : (getTable L h).readonly = true) :
    tsort luaV_lessthan luaD_call L = .raise L (.runerror readonlyMessage) := by
  simp [tsort, luaL_checktype_table ht, ht, hro, luaG_readonlyerror]

theorem tclear_frozen {L : lua_State} {h : Nat}
    (ht : tableAt L 1 = some h) (hro : (getTable L h).readonly = true) :
    tclear L = .raise L (.runerror readonlyMessage) := by
  simp [tclear, luaL_checktype_table ht, ht, hro, luaG_readonlyerror]

theorem tmove_frozen (cvt2num : String → Option Int) {L : lua_State} {d : Nat} {f e t : Int}
    (h1 : lua_type L 1 = .LUA_TTABLE)
    (hf : lua_tointegerx cvt2num L 2 = some f) (he : lua_tointegerx cvt2num L 3 = some e)
    (ht : lua_tointegerx cvt2num L 4 = some t)
    (hd : tableAt L (if ! lua_isnoneornil L 5 then 5 else 1) = some d)
    (hro : (getTable L d).readonly = true) :
    (e < f → tmove cvt2num L = .ok (push L (.table d)) 1) ∧
    (f ≤ e → (f > 0 ∨ e < INT_MAX + f) → t ≤ INT_MAX - (e - f + 1) + 1 →
      tmove cvt2num L = .raise L (.runerror readonlyMessage)) ∧
    (f ≤ e → ¬ (f > 0 ∨ e < INT_MAX + f) →
      tmove cvt2num L = .raise L (.argerror 3 tmoveTooMany)) ∧
    (f ≤ e → (f > 0 ∨ e < INT_MAX + f) → ¬ t ≤ INT_MAX - (e - f + 1) + 1 →
      tmove cvt2num L = .raise L (.argerror 4 tmoveWrapAround)) := by
  have c1 : luaL_checktype L 1 .LUA_TTABLE = .ok L () := by simp [luaL_checktype, h1]
  have c5 := luaL_checktype_table hd
  have hv : index2addr L (if ! lua_isnoneornil L 5 then 5 else 1) = some (.table d) := by
    unfold tableAt at hd
    split at hd
    · rename_i h' heq
      simp only [Option.some.injEq] at hd
      rw [heq, hd]
    · simp at hd
  have ci2 := luaL_checkinteger_some hf
  have ci3 := luaL_checkinteger_some he
  have ci4 := luaL_checkinteger_some ht
  refine ⟨?_, ?_, ?_, ?_⟩
  · intro hlt
    have hn : ¬ (e ≥ f) := by omega
    simp only [tmove, c1, ci2, ci3, ci4, c5, andThen_ok, if_neg hn, hv, Option.getD_some]
  · intro hle ha hb
    have hn : e ≥ f := hle
    simp only [tmove, c1, ci2, ci3, ci4, c5, andThen_ok, if_pos hn, luaL_argcheck,
      decide_eq_true ha, decide_eq_true hb, if_true, hd, Option.getD_some, hro,
      luaG_readonlyerror, andThen_raise]
  · intro hle ha
    have hn : e ≥ f := hle
    simp only [tmove, c1, ci2, ci3, ci4, c5, andThen_ok, if_pos hn, luaL_argcheck,
      decide_eq_false ha, andThen_raise]
    rfl
  · intro hle ha hb
    have hn : e ≥ f := hle
    simp only [tmove, c1, ci2, ci3, ci4, c5, andThen_ok, if_pos hn, luaL_argcheck,
      decide_eq_true ha, decide_eq_false hb, if_true, andThen_raise]
    rfl

theorem tmove_frozen_tables (cvt2num : String → Option Int) {L : lua_State} {d : Nat}
    (hd : tableAt L (if ! lua_isnoneornil L 5 then 5 else 1) = some d)
    (hro : (getTable L d).readonly = true) :
    (tmove cvt2num L).state.tables = L.tables := by
  by_cases h1 : lua_type L 1 = .LUA_TTABLE
  swap
  · simp only [tmove, luaL_checktype, ne_eq, h1, not_false_eq_true, if_true, andThen_raise,
      Step.state]
  have c1 : luaL_checktype L 1 .LUA_TTABLE = .ok L () := by simp [luaL_checktype, h1]
  cases hf : lua_tointegerx cvt2num L 2 with
  | none => simp only [tmove, c1, andThen_ok, luaL_checkinteger_none hf, andThen_raise, Step.state]
  | some f =>
  cases he : lua_tointegerx cvt2num L 3 with
  | none =>
    simp only [tmove, c1, andThen_ok, luaL_checkinteger_some hf, luaL_checkinteger_none he,
      andThen_raise, Step.state]
  | some e =>
  cases ht : lua_tointegerx cvt2num L 4 with
  | none =>
    simp only [tmove, c1, andThen_ok, luaL_checkinteger_some hf, luaL_checkinteger_some he,
      luaL_checkinteger_none ht, andThen_raise, Step.state]
  | some t =>
  obtain ⟨a, b, c, e4⟩ := tmove_frozen cvt2num h1 hf he ht hd hro
  by_cases hlt : e < f
  · rw [a hlt]; rfl
  · have hle : f ≤ e := by omega
    by_cases ha : f > 0 ∨ e < INT_MAX + f
    · by_cases hb : t ≤ INT_MAX - (e - f + 1) + 1
      · rw [b hle ha hb]; rfl
      · rw [e4 hle ha hb]; rfl
    · rw [c hle ha]; rfl
theorem ttisnil_iff (v : TValue) : ttisnil v = true ↔ v = .nil := by
  cases v <;> simp [ttisnil]

theorem nodeGet_nodeSet (node : List (TValue × TValue)) (key k : TValue) (v : TValue) :
    nodeGet (nodeSet node key v) k = if k = key then v else nodeGet node k := by
  induction node with
  | nil =>
    by_cases hk : k = key
    · simp [nodeSet, nodeGet, hk]
    · have : ¬ key = k := fun h => hk h.symm
      simp [nodeSet, nodeGet, hk, this]
  | cons e rest ih =>
    obtain ⟨k0, v0⟩ := e
    by_cases h0 : k0 = key
    · by_cases hk : k = key
      · simp [nodeSet, nodeGet, h0, hk]
      · have : ¬ key = k := fun h => hk h.symm
        simp [nodeSet, nodeGet, h0, hk, this]
    · by_cases hk : k = key
      · subst hk
        simp [nodeSet, nodeGet, h0, ih]
      · by_cases h1 : k0 = k
        · simp [nodeSet, nodeGet, h0, hk, h1]
        · simp [nodeSet, nodeGet, h0, hk, h1, ih]

theorem nodeGet_filter (node : List (TValue × TValue)) (p : TValue → Bool) (k : TValue)
    (hk : p k = true) : nodeGet (node.filter (fun e => p e.1)) k = nodeGet node k := by
  induction node with
  | nil => rfl
  | cons e rest ih =>
    obtain ⟨k0, v0⟩ := e
    by_cases h0 : k0 = k
    · subst h0
      simp [List.filter, hk, nodeGet]
    · by_cases hp : p k0 = true
      · simp [List.filter, hp, nodeGet, h0, ih]
      · simp [List.filter, hp, nodeGet, h0, ih]

theorem nodeGet_ne_nil_mem (node : List (TValue × TValue)) (k : TValue)
    (h : nodeGet node k ≠ .nil) : k ∈ node.map Prod.fst := by
  induction node with
  | nil => simp [nodeGet] at h
  | cons e rest ih =>
    obtain ⟨k0, v0⟩ := e
    by_cases h0 : k0 = k
    · simp [h0]
    · simp only [nodeGet, h0, if_false] at h
      simp [ih h]

theorem migrated_length (node : List (TValue × TValue)) (from_ cnt : Nat) :
    (migrated node from_ cnt).length = cnt := by
  induction cnt generalizing from_ with
  | zero => rfl
  | succ c ih => simp [migrated, ih]

theorem migrated_get (node : List (TValue × TValue)) (from_ cnt i : Nat) (hi : i < cnt) :
    (migrated node from_ cnt)[i]? = some (nodeGet node (.number ((from_ : Int) + i + 1))) := by
  induction cnt generalizing from_ i with
  | zero => omega
  | succ c ih =>
    cases i with
    | zero => simp [migrated]
    | succ j =>
      simp only [migrated, List.getElem?_cons_succ]
      rw [ih (from_ + 1) j (by omega)]
      congr 3
      push_cast
      ring
theorem inArrayRange_number (lo hi : Nat) (n : Int) :
    inArrayRange lo hi (.number n) = decide ((lo : Int) < n ∧ n ≤ (hi : Int)) := rfl

theorem luaH_resizearray_length (t : LuaTable) (nasize : Nat) (hg : t.array.length ≤ nasize) :
    (luaH_resizearray t nasize).array.length = nasize := by
  simp [luaH_resizearray, hg, migrated_length]

theorem luaH_getnum_resizearray (t : LuaTable) (nasize : Nat) (hg : t.array.length ≤ nasize)
    (n : Int) : luaH_getnum (luaH_resizearray t nasize) n = luaH_getnum t n := by
  have hlen := luaH_resizearray_length t nasize hg
  unfold luaH_getnum
  rw [hlen]
  by_cases h1 : 1 ≤ n ∧ n ≤ (nasize : Int)
  · rw [if_pos h1]
    have harr : (luaH_resizearray t nasize).array =
        t.array ++ migrated t.node t.array.length (nasize - t.array.length) := by
      simp [luaH_resizearray, hg]
    rw [harr]
    by_cases h2 : n ≤ (t.array.length : Int)
    · rw [if_pos ⟨h1.1, h2⟩]
      have hlt : (n - 1).toNat < t.array.length := by omega
      simp only [List.getD_eq_getElem?_getD]
      rw [List.getElem?_append_left hlt]
    · have hn : ¬ (1 ≤ n ∧ n ≤ (t.array.length : Int)) := fun h => h2 h.2
      rw [if_neg hn]
      have hge : t.array.length ≤ (n - 1).toNat := by omega
      simp only [List.getD_eq_getElem?_getD]
      rw [List.getElem?_append_right hge,
        migrated_get _ _ _ _ (by omega : (n - 1).toNat - t.array.length < nasize - t.array.length)]
      simp only [Option.getD_some]
      congr 2
      omega
  · rw [if_neg h1]
    have hn : ¬ (1 ≤ n ∧ n ≤ (t.array.length : Int)) := by
      intro h
      apply h1
      exact ⟨h.1, by omega⟩
    rw [if_neg hn]
    have hnode : (luaH_resizearray t nasize).node =
        t.node.filter (fun e => !inArrayRange t.array.length nasize e.1) := by
      simp [luaH_resizearray, hg]
    rw [hnode]
    apply nodeGet_filter t.node (fun k => !inArrayRange t.array.length nasize k)
    simp only [inArrayRange_number, Bool.not_eq_true', decide_eq_false_iff_not]
    intro h
    by_cases h0 : 1 ≤ n
    · exact h1 ⟨h0, h.2⟩
    · omega

theorem luaH_get_resizearray (t : LuaTable) (nasize : Nat) (hg : t.array.length ≤ nasize)
    (k : TValue) : luaH_get (luaH_resizearray t nasize) k = luaH_get t k := by
  cases k with
  | number n => exact luaH_getnum_resizearray t nasize hg n
  | _ =>
    simp only [luaH_get]
    have hnode : (luaH_resizearray t nasize).node =
        t.node.filter (fun e => !inArrayRange t.array.length nasize e.1) := by
      simp [luaH_resizearray, hg]
    rw [hnode]
    exact nodeGet_filter t.node (fun k => !inArrayRange t.array.length nasize k) _ rfl

/-- Storing inside the array bound. -/
theorem luaH_getnum_arrayset (t : LuaTable) (key : Int) (v : TValue)
    (hk : 1 ≤ key ∧ key ≤ (t.array.length : Int)) (n : Int) :
    luaH_getnum { t with array := t.array.set (key - 1).toNat v } n =
      if n = key then v else luaH_getnum t n := by
  unfold luaH_getnum
  simp only [List.length_set]
  by_cases hn : 1 ≤ n ∧ n ≤ (t.array.length : Int)
  · simp only [if_pos hn, List.getD_eq_getElem?_getD]
    by_cases he : n = key
    · subst he
      rw [if_pos rfl, List.getElem?_set_self (by omega)]
      rfl
    · rw [if_neg he, List.getElem?_set_ne (by omega)]
  · simp only [if_neg hn]
    have he : n ≠ key := by
      intro h
      subst h
      exact hn hk
    rw [if_neg he]

theorem luaH_getnum_setnum (t : LuaTable) (key : Int) (v : TValue) (n : Int) :
    luaH_getnum (luaH_setnum t key v) n = if n = key then v else luaH_getnum t n := by
  unfold luaH_setnum
  by_cases h1 : 1 ≤ key ∧ key ≤ (t.array.length : Int)
  · rw [if_pos h1]
    exact luaH_getnum_arrayset t key v h1 n
  · rw [if_neg h1]
    by_cases h2 : key = (t.array.length : Int) + 1 ∧ nodeHas t.node (.number key) = false
    · rw [if_pos h2]
      have hg : t.array.length ≤ max 1 (2 * t.array.length) := by omega
      have hlen := luaH_resizearray_length t _ hg
      have hk : 1 ≤ key ∧ key ≤ ((luaH_resizearray t (max 1 (2 * t.array.length))).array.length : Int) := by
        rw [hlen]
        omega
      have hidx : t.array.length = (key - 1).toNat := by omega
      have := luaH_getnum_arrayset (luaH_resizearray t (max 1 (2 * t.array.length))) key v hk n
      simp only [← hidx] at this
      rw [this, luaH_getnum_resizearray t _ hg]
    · rw [if_neg h2]
      unfold luaH_getnum
      simp only
      by_cases hn : 1 ≤ n ∧ n ≤ (t.array.length : Int)
      · simp only [if_pos hn]
        have he : n ≠ key := by
          intro h
          subst h
          exact h1 hn
        rw [if_neg he]
      · simp only [if_neg hn, nodeGet_nodeSet, TValue.number.injEq]

theorem luaH_get_setnum (t : LuaTable) (key : Int) (v : TValue) (k : TValue) :
    luaH_get (luaH_setnum t key v) k = if k = .number key then v else luaH_get t k := by
  cases k with
  | number n =>
    simp only [luaH_get, luaH_getnum_setnum, TValue.number.injEq]
  | _ =>
    simp only [luaH_get]
    unfold luaH_setnum
    split
    · simp
    · split
      · have hg : t.array.length ≤ max 1 (2 * t.array.length) := by omega
        have h := luaH_get_resizearray t _ hg
        simp only [reduceCtorEq, if_false]
        first
          | exact h (.nil)
          | exact h (.boolean _)
          | exact h (.lightuserdata _)
          | exact h (.vector _)
          | exact h (.string _)
          | exact h (.table _)
          | exact h (.function _)
          | exact h (.userdata _)
          | exact h (.thread _)
          | exact h (.buffer _)
      · simp [nodeGet_nodeSet]

theorem arrayBorder_eq (array : List TValue) (N : Nat)
    (hseq : ∀ m : Nat, 1 ≤ m → m ≤ array.length →
      (ttisnil (array.getD (m - 1) .nil) = true ↔ N < m)) :
    ∀ fuel i j : Nat, i ≤ N → N < j → j ≤ array.length → j - i ≤ fuel + 1 →
      arrayBorder array fuel i j = N := by
  intro fuel
  induction fuel with
  | zero =>
    intro i j hi hj _ hf
    simp only [arrayBorder]
    omega
  | succ fuel ih =>
    intro i j hi hj hlen hf
    simp only [arrayBorder]
    by_cases hgap : j - i > 1
    · rw [if_pos hgap]
      have hm1 : i < (i + j) / 2 := by omega
      have hm2 : (i + j) / 2 < j := by omega
      by_cases hnil : ttisnil (array.getD ((i + j) / 2 - 1) .nil) = true
      · simp only [hnil, if_true]
        exact ih i ((i + j) / 2) hi ((hseq _ (by omega) (by omega)).mp hnil) (by omega) (by omega)
      · simp only [hnil]
        have : ¬ N < (i + j) / 2 := fun h => hnil ((hseq _ (by omega) (by omega)).mpr h)
        exact ih ((i + j) / 2) j (by omega) hj hlen (by omega)
    · rw [if_neg hgap]
      omega

theorem hashBorder_eq (node : List (TValue × TValue)) (N : Nat) (len : Nat)
    (hseq : ∀ k : Nat, len < k → (ttisnil (nodeGet node (.number (k : Int))) = true ↔ N < k)) :
    ∀ fuel j : Nat, len ≤ j → j ≤ N → N - j ≤ fuel → hashBorder node fuel j = N := by
  intro fuel
  induction fuel with
  | zero =>
    intro j _ hj hf
    simp only [hashBorder]
    omega
  | succ fuel ih =>
    intro j hl hj hf
    simp only [hashBorder]
    have hkey := hseq (j + 1) (by omega)
    have hcast : ((j : Int) + 1) = ((j + 1 : Nat) : Int) := by push_cast; ring
    rw [hcast]
    by_cases hnil : ttisnil (nodeGet node (.number ((j + 1 : Nat) : Int))) = true
    · rw [if_pos hnil]
      have := hkey.mp hnil
      omega
    · rw [if_neg hnil]
      have : ¬ N < j + 1 := fun h => hnil (hkey.mpr h)
      exact ih (j + 1) (by omega) (by omega) (by omega)

theorem node_keys_count (node : List (TValue × TValue)) (len N : Nat)
    (h : ∀ k : Nat, len < k → k ≤ N → nodeGet node (.number (k : Int)) ≠ .nil) :
    N - len ≤ node.length := by
  have hnd : ((List.range (N - len)).map (fun i => TValue.number ((len + 1 + i : Nat) : Int))).Nodup := by
    apply List.Nodup.map _ (List.nodup_range _)
    intro a b hab
    simp only [TValue.number.injEq, Nat.cast_inj] at hab
    omega
  have hsub : ((List.range (N - len)).map (fun i => TValue.number ((len + 1 + i : Nat) : Int))) ⊆
      node.map Prod.fst := by
    intro x hx
    simp only [List.mem_map, List.mem_range] at hx
    obtain ⟨i, hi, rfl⟩ := hx
    exact nodeGet_ne_nil_mem node _ (h (len + 1 + i) (by omega) (by omega))
  have := (hnd.subperm hsub).length_le
  simpa using this

theorem luaH_getn_of_isSequence (t : LuaTable) (N : Nat) (hseq : isSequence t N) :
    luaH_getn t = N := by
  obtain ⟨hin, hout⟩ := hseq
  have harr : ∀ m : Nat, 1 ≤ m → m ≤ t.array.length →
      (ttisnil (t.array.getD (m - 1) .nil) = true ↔ N < m) := by
    intro m h1 h2
    have hget : luaH_getnum t (m : Int) = t.array.getD (m - 1) .nil := by
      unfold luaH_getnum
      rw [if_pos ⟨by omega, by omega⟩]
      congr 1
      omega
    rw [← hget, ttisnil_iff]
    constructor
    · intro hnil
      by_contra hle
      exact hin m (by omega) (by omega) hnil
    · intro hlt
      exact hout m (by omega)
  have hnode : ∀ k : Nat, t.array.length < k →
      (ttisnil (nodeGet t.node (.number (k : Int))) = true ↔ N < k) := by
    intro k hk
    have hget : luaH_getnum t (k : Int) = nodeGet t.node (.number (k : Int)) := by
      unfold luaH_getnum
      rw [if_neg (by omega)]
    rw [← hget, ttisnil_iff]
    constructor
    · intro hnil
      by_contra hle
      exact hin k (by omega) (by omega) hnil
    · intro hlt
      exact hout k (by omega)
  unfold luaH_getn
  simp only
  by_cases hc : 0 < t.array.length ∧ ttisnil (t.array.getD (t.array.length - 1) .nil) = true
  · rw [if_pos hc]
    have hN : N < t.array.length := (harr _ (by omega) (le_refl _)).mp hc.2
    exact arrayBorder_eq t.array N harr _ 0 _ (by omega) hN (le_refl _) (by omega)
  · rw [if_neg hc]
    have hle : t.array.length ≤ N := by
      by_cases h0 : 0 < t.array.length
      · have hnn : ¬ ttisnil (t.array.getD (t.array.length - 1) .nil) = true := fun h => hc ⟨h0, h⟩
        have := (harr _ (by omega) (le_refl _)).not.mp hnn
        omega
      · omega
    apply hashBorder_eq t.node N t.array.length hnode _ _ (le_refl _) hle
    apply node_keys_count
    intro k hk1 hk2
    intro hnil
    have := (hnode k hk1).mp ((ttisnil_iff _).mpr hnil)
    omega
theorem getTable_setTable_self (L : lua_State) (h : Nat) (t : LuaTable)
    (hv : h < L.tables.length) : getTable (setTable L h t) h = t := by
  simp [getTable, setTable, List.getElem?_set_self hv]

theorem getTable_setTable_ne (L : lua_State) (h h' : Nat) (t : LuaTable) (hne : h' ≠ h) :
    getTable (setTable L h t) h' = getTable L h' := by
  simp [getTable, setTable, List.getElem?_set_ne (Ne.symm hne)]

theorem isSequence_insert (t : LuaTable) (N : Nat) (v : TValue) (hv : v ≠ .nil)
    (hseq : isSequence t N) : isSequence (luaH_setnum t ((N : Int) + 1) v) (N + 1) := by
  obtain ⟨hin, hout⟩ := hseq
  constructor
  · intro k h1 h2
    rw [luaH_getnum_setnum]
    by_cases hk : k = (N : Int) + 1
    · rw [if_pos hk]; exact hv
    · rw [if_neg hk]
      exact hin k h1 (by push_cast at h2; omega)
  · intro k h1
    rw [luaH_getnum_setnum]
    have hk : k ≠ (N : Int) + 1 := by push_cast at h1; omega
    rw [if_neg hk]
    exact hout k (by push_cast at h1; omega)

theorem isSequence_remove (t : LuaTable) (N : Nat) (hN : 1 ≤ N)
    (hseq : isSequence t N) : isSequence (luaH_setnum t (N : Int) .nil) (N - 1) := by
  obtain ⟨hin, hout⟩ := hseq
  constructor
  · intro k h1 h2
    rw [luaH_getnum_setnum]
    have hk : k ≠ (N : Int) := by omega
    rw [if_neg hk]
    exact hin k h1 (by omega)
  · intro k h1
    rw [luaH_getnum_setnum]
    by_cases hk : k = (N : Int)
    · rw [if_pos hk]
    · rw [if_neg hk]
      exact hout k (by omega)

theorem tinsert_append (cvt2num : String → Option Int) (L : lua_State) (h : Nat) (v : TValue)
    (hstack : L.stack = [.table h, v]) (hrw : (getTable L h).readonly = false) :
    tinsert cvt2num L =
      .ok { setTable L h (luaH_setnum (getTable L h) ((luaH_getn (getTable L h) : Int) + 1) v)
            with stack := [.table h] } 0 := by
  have ht : tableAt L 1 = some h := by simp [tableAt, index2addr, hstack]
  have hlen : lua_objlen L 1 = (luaH_getn (getTable L h) : Int) := by simp [lua_objlen, ht]
  have htop : lua_gettop L = 2 := by simp [lua_gettop, hstack]
  simp [tinsert, luaL_checktype_table ht, htop, hlen, lua_rawseti, ht, hrw, hstack, setTable]

theorem moveelements_empty (L : lua_State) (srct dstt : Int) (f e t : Int)
    (hrw : (getTable L ((tableAt L dstt).getD 0)).readonly = false) (hn : e - f + 1 ≤ 0) :
    moveelements L srct dstt f e t = .ok L () := by
  have h0 : (e - f + 1).toNat = 0 := by omega
  unfold moveelements
  simp only [hrw, Bool.false_eq_true, if_false, h0]
  split
  · split <;> rfl
  · split <;> rfl

theorem tremove_last (cvt2num : String → Option Int) (L : lua_State) (h : Nat)
    (hstack : L.stack = [.table h]) (hrw : (getTable L h).readonly = false)
    (hN : 1 ≤ luaH_getn (getTable L h)) :
    tremove cvt2num L =
      .ok { setTable L h (luaH_setnum (getTable L h) (luaH_getn (getTable L h) : Int) .nil)
            with stack := [.table h, luaH_getnum (getTable L h) (luaH_getn (getTable L h) : Int)] }
        1 := by
  have ht : tableAt L 1 = some h := by simp [tableAt, index2addr, hstack]
  have hlen : lua_objlen L 1 = (luaH_getn (getTable L h) : Int) := by simp [lua_objlen, ht]
  have hopt : luaL_optinteger cvt2num L 2 (lua_objlen L 1) = .ok L (lua_objlen L 1) := by
    simp [luaL_optinteger, lua_isnoneornil, lua_type, index2addr, hstack]
  have hin : 1 ≤ lua_objlen L 1 ∧ lua_objlen L 1 ≤ lua_objlen L 1 := by
    rw [hlen]; omega
  have hget : lua_rawgeti L 1 (lua_objlen L 1) =
      push L (luaH_getnum (getTable L h) (lua_objlen L 1)) := by
    simp [lua_rawgeti, ht]
  have ht1 : tableAt (push L (luaH_getnum (getTable L h) (lua_objlen L 1))) 1 = some h :=
    tableAt_push _ (by decide) ht
  have hmove : moveelements (push L (luaH_getnum (getTable L h) (lua_objlen L 1))) 1 1
      (lua_objlen L 1 + 1) (lua_objlen L 1) (lua_objlen L 1) =
      .ok (push L (luaH_getnum (getTable L h) (lua_objlen L 1))) () := by
    apply moveelements_empty
    · rw [ht1]
      exact hrw
    · omega
  have ht2 : tableAt (push (push L (luaH_getnum (getTable L h) (lua_objlen L 1))) .nil) 1 =
      some h := tableAt_push _ (by decide) ht1
  simp only [tremove, luaL_checktype_table ht, andThen_ok, hopt, hin, not_true_eq_false,
    and_self, if_false, hget, hmove]
  simp only [lua_rawseti, ht2]
  have hrw2 : (getTable (push (push L (luaH_getnum (getTable L h) (lua_objlen L 1))) .nil)
      h).readonly = false := hrw
  simp only [hrw2, Bool.false_eq_true, if_false, andThen_ok]
  simp [push, setTable, getTable, hstack, hlen]
theorem lua_insert_push_neg (L : lua_State) (pre vs : List TValue) (v : TValue)
    (hs : L.stack = pre ++ vs) :
    (lua_insert (push L v) (-((vs.length : Int) + 1))).stack = pre ++ v :: vs := by
  have hneg : ¬ (0 < -((vs.length : Int) + 1)) := by omega
  have hp : pre.length + vs.length + 1 - (- -((vs.length : Int) + 1)).toNat = pre.length := by
    omega
  have hlt : ¬ ((vs.length : Int) < -1) := by omega
  simp [lua_insert, push, hs, hneg, hp, hlt]

theorem lua_xmove_all (src dst : lua_State) :
    lua_xmove src dst (src.stack.length : Int) =
      ({ src with stack := [] }, { dst with stack := dst.stack ++ src.stack }) := by
  simp [lua_xmove]

theorem lua_xmove_args (L co : lua_State) (cov : TValue) (args : List TValue)
    (hs : L.stack = cov :: args) :
    lua_xmove L co ((L.stack.length : Int) - 1) =
      ({ L with stack := [cov] }, { co with stack := co.stack ++ args }) := by
  have : ((L.stack.length : Int) - 1).toNat = args.length := by simp [hs]
  simp [lua_xmove, this, hs]

/-- The first part of `auxresume` for a resumable coroutine whose stack check passes: the
arguments are on the coroutine's stack and `lua_resume` is entered. -/
theorem auxresume_enter (cfg : Config) (lua_resume : Resume) (L co : lua_State)
    (cov : TValue) (args : List TValue) (hstack : L.stack = cov :: args)
    (hres : co.status = .LUA_YIELD ∨ lua_costatus L co = .LUA_COSUS)
    (hargs : args ≠ [] → lua_checkstack cfg co (args.length : Int) = true)
    (hnone : args = [] →
      ¬ (cfg.LuauCoroCheckStack = true ∧ co.stack.length > cfg.LUAI_MAXCSTACK)) :
    auxresume cfg lua_resume L co ((L.stack.length : Int) - 1) =
      (let Lr : lua_State := { L with stack := [cov] }
       let r := lua_resume { co with stack := co.stack ++ args, singlestep := L.singlestep } Lr
         ((L.stack.length : Int) - 1)
       if r.1 = .LUA_OK ∨ r.1 = .LUA_YIELD then
         let nres : Int := r.2.stack.length
         if nres ≠ 0 then
           if nres + 1 > (cfg.LUA_MINSTACK : Int) ∧ ! lua_checkstack cfg Lr (nres + 1) then
             .raise Lr (.error tooManyResults)
           else
             .ok (lua_xmove r.2 Lr nres).2 (nres, (lua_xmove r.2 Lr nres).1)
         else .ok Lr (nres, r.2)
       else if r.1 = .LUA_BREAK then .ok Lr (CO_STATUS_BREAK, r.2)
       else .ok (lua_xmove r.2 Lr 1).2 (CO_STATUS_ERROR, (lua_xmove r.2 Lr 1).1)) := by
  have hguard : ¬ (co.status ≠ .LUA_YIELD ∧ lua_costatus L co ≠ .LUA_COSUS) := by
    rintro ⟨h1, h2⟩
    rcases hres with h | h
    · exact h1 h
    · exact h2 h
  have hlen : ((L.stack.length : Int) - 1) = (args.length : Int) := by simp [hstack]
  unfold auxresume
  rw [if_neg hguard]
  by_cases ha : args = []
  · subst ha
    have hz : ((L.stack.length : Int) - 1) = 0 := by simp [hstack]
    have hL : ({ L with stack := [cov] } : lua_State) = L := by
      cases L
      simp_all
    simp only [hz, ne_eq, not_true_eq_false, if_false, hnone rfl, andThen_ok, List.append_nil,
      hL]
  · have hnz : ((L.stack.length : Int) - 1) ≠ 0 := by
      rw [hlen]
      have : args.length ≠ 0 := by simpa using ha
      omega
    have hc := hargs ha
    rw [← hlen] at hc
    simp only [ne_eq, hnz, not_false_eq_true, if_true, hc, Bool.not_true, Bool.false_eq_true,
      if_false, lua_xmove_args L co cov args hstack, andThen_ok]

theorem lua_insert_push_one (L : lua_State) (v : TValue) :
    (lua_insert (push L v) 1).stack = v :: L.stack := by
  simp [lua_insert, push]

theorem lua_insert_push_neg2 (L : lua_State) (pre : List TValue) (E v : TValue)
    (hs : L.stack = pre ++ [E]) :
    (lua_insert (push L v) (-2)).stack = pre ++ [v, E] := by
  simp [lua_insert, push, hs]

theorem results_append (L : lua_State) (pre vs : List TValue) (n : Int)
    (hs : L.stack = pre ++ vs) (hn : n = (vs.length : Int)) : results L n = vs := by
  subst hn
  simp [results, hs]

theorem statnames_resume (s : lua_CoStatus) :
    format1 cannotResumeFormat (statnames s.toNat) =
      "cannot resume " ++ statnames s.toNat ++ " coroutine" := by
  cases s <;> decide

theorem statnames_close (s : lua_CoStatus) :
    format1 cannotCloseFormat (statnames s.toNat) =
      "cannot close " ++ statnames s.toNat ++ " coroutine" := by
  cases s <;> decide

theorem status_ne_yield_of_costatus (L co : lua_State)
    (hwf : co.tid = L.tid → co.status = .LUA_OK)
    (hs : lua_costatus L co ≠ .LUA_COSUS) : co.status ≠ .LUA_YIELD := by
  intro hy
  by_cases hid : co.tid = L.tid
  · rw [hwf hid] at hy
    exact absurd hy (by decide)
  · apply hs
    simp [lua_costatus, hid, hy]

theorem lua_xmove_one (co L : lua_State) (pre : List TValue) (E : TValue)
    (hs : co.stack = pre ++ [E]) :
    lua_xmove co L 1 = ({ co with stack := pre }, { L with stack := L.stack ++ [E] }) := by
  simp [lua_xmove, hs]

theorem isSequence_sequenceCall : isSequence (getTable (sequenceCall []) 0) 3 := by
  constructor
  · intro k h1 h2
    have : k = 1 ∨ k = 2 ∨ k = 3 := by omega
    rcases this with rfl | rfl | rfl <;> decide
  · intro k hk
    have h3 : ¬ (1 ≤ k ∧ k ≤ ((2 : Nat) : Int)) := by omega
    have hne : ¬ ((3 : Int) = k) := by omega
    show luaH_getnum _ k = .nil
    unfold luaH_getnum
    simp [getTable, sequenceCall, nodeGet, hne]
    omega

theorem isSequence_frozenTable : isSequence frozenTable 2 := by
  constructor
  · intro k h1 h2
    have : k = 1 ∨ k = 2 := by omega
    rcases this with rfl | rfl <;> decide
  · intro k hk
    show luaH_getnum _ k = .nil
    unfold luaH_getnum
    simp [frozenTable, nodeGet]
    omega
/-- The guard on the resumer's stack in `auxresume`: more than `LUA_MINSTACK - 1` results
that do not fit make `coroutine.resume` raise. -/
theorem coresumey_results_overflow (cfg : Config) (lua_resume : Resume) (L co : lua_State)
    (cov : TValue) (hstack : L.stack = [cov])
    (hres : co.status = .LUA_YIELD ∨ lua_costatus L co = .LUA_COSUS)
    (hnone : ¬ (cfg.LuauCoroCheckStack = true ∧ co.stack.length > cfg.LUAI_MAXCSTACK))
    (C : lua_State)
    (hrun : lua_resume { co with stack := co.stack ++ [], singlestep := L.singlestep }
      { L with stack := [cov] } 0 = (.LUA_OK, C))
    (hpos : 0 < C.stack.length)
    (hmin : (C.stack.length : Int) + 1 > (cfg.LUA_MINSTACK : Int))
    (hchk : lua_checkstack cfg { L with stack := [cov] } ((C.stack.length : Int) + 1) = false) :
    coresumey cfg lua_resume L (some co) =
      .raise { L with stack := [cov] } (.error tooManyResults) := by
  have henter := auxresume_enter cfg lua_resume L co cov [] hstack hres
    (fun h => absurd rfl h) (fun _ => hnone)
  have hlen : ((L.stack.length : Int) - 1) = 0 := by simp [hstack]
  have hnz : ((C.stack.length : Nat) : Int) ≠ 0 := by omega
  rw [hlen] at henter
  simp only [hrun, true_or, if_true, ne_eq, hnz, not_false_eq_true, hmin, hchk, Bool.not_false,
    and_self] at henter
  simp only [coresumey, hlen, henter, andThen_raise]


theorem outOfBounds_eq : outOfBounds = "buffer access out of bounds" := by decide

theorem bitCountRange_eq : bitCountRange = "bit count is out of range of [0; 32]" := by decide

theorem isoutofbounds_iff (offset : Int) (len w : Nat) (hlen : len ≤ 2147483647)
    (hoff : -2147483648 ≤ offset ∧ offset ≤ 2147483647) (hw : w ≤ 4294967295) :
    (isoutofbounds offset len w = true ↔ (offset < 0 ∨ offset + (w : Int) > (len : Int))) ∧
    toUnsigned offset + w < 18446744073709551616 := by
  unfold isoutofbounds toUnsigned
  simp only [decide_eq_true_eq]
  constructor
  · constructor
    · intro h
      omega
    · intro h
      omega
  · omega

theorem readinteger_cases (T : IntType) (buf : List Nat) (offset : Int) :
    (isoutofbounds offset buf.length T.size = true →
      buffer_readinteger T buf offset = .raise buf (.error outOfBounds)) ∧
    (isoutofbounds offset buf.length T.size = false →
      ∃ v, buffer_readinteger T buf offset = .ok buf v) := by
  unfold buffer_readinteger
  constructor
  · intro h
    rw [if_pos h]
  · intro h
    rw [h]
    simp only [Bool.false_eq_true, if_false]
    split
    · exact ⟨_, rfl⟩
    · exact ⟨_, rfl⟩
theorem writeinteger_cases (T : IntType) (buf : List Nat) (offset : Int) (value : Nat) :
    (isoutofbounds offset buf.length T.size = true →
      buffer_writeinteger T buf offset value = .raise buf (.error outOfBounds)) ∧
    (isoutofbounds offset buf.length T.size = false →
      buffer_writeinteger T buf offset value =
        .ok (writeBytes buf offset.toNat (toLittleEndian T.size (value % 2 ^ (8 * T.size)))) ()) := by
  unfold buffer_writeinteger
  constructor
  · intro h
    rw [if_pos h]
  · intro h
    rw [h]
    rfl

theorem readfp_cases (size : Nat) (buf : List Nat) (offset : Int) :
    (isoutofbounds offset buf.length size = true →
      buffer_readfp size buf offset = .raise buf (.error outOfBounds)) ∧
    (isoutofbounds offset buf.length size = false →
      buffer_readfp size buf offset = .ok buf (readBytes buf offset.toNat size)) := by
  unfold buffer_readfp
  constructor
  · intro h
    rw [if_pos h]
  · intro h
    rw [h]
    rfl

theorem writefp_cases (size : Nat) (buf : List Nat) (offset : Int) (storage : Nat → Nat) :
    (isoutofbounds offset buf.length size = true →
      buffer_writefp size buf offset storage = .raise buf (.error outOfBounds)) ∧
    (isoutofbounds offset buf.length size = false →
      buffer_writefp size buf offset storage =
        .ok (writeBytes buf offset.toNat ((List.range size).map fun i => storage i % 256)) ()) := by
  unfold buffer_writefp
  constructor
  · intro h
    rw [if_pos h]
  · intro h
    rw [h]
    rfl


theorem bitsCheck_cases (len : Nat) (o c : Int) (hlen : len ≤ 2147483647)
    (ho : -9223372036854775808 ≤ o ∧ o ≤ 9223372036854775807)
    (hc : -2147483648 ≤ c ∧ c ≤ 2147483647) :
    (o < 0 → bitsCheck len o c = some (.error outOfBounds)) ∧
    (0 ≤ o → (c < 0 ∨ c > 32) → bitsCheck len o c = some (.error bitCountRange)) ∧
    (0 ≤ o → 0 ≤ c → c ≤ 32 → o + c > 8 * (len : Int) →
      bitsCheck len o c = some (.error outOfBounds)) ∧
    (0 ≤ o → 0 ≤ c → c ≤ 32 → o + c ≤ 8 * (len : Int) → bitsCheck len o c = none) := by
  unfold bitsCheck toUnsigned
  refine ⟨?_, ?_, ?_, ?_⟩
  · intro h
    rw [if_pos h]
  · intro h0 h
    have h1 : ¬ o < 0 := by omega
    have h2 : (c % 4294967296).toNat > 32 := by omega
    rw [if_neg h1, if_pos h2]
  · intro h0 h1 h2 h3
    have g1 : ¬ o < 0 := by omega
    have g2 : ¬ (c % 4294967296).toNat > 32 := by omega
    have g3 : ((o + c) % 18446744073709551616).toNat > len * 8 % 18446744073709551616 := by
      omega
    rw [if_neg g1, if_neg g2, if_pos g3]
  · intro h0 h1 h2 h3
    have g1 : ¬ o < 0 := by omega
    have g2 : ¬ (c % 4294967296).toNat > 32 := by omega
    have g3 : ¬ ((o + c) % 18446744073709551616).toNat > len * 8 % 18446744073709551616 := by
      omega
    rw [if_neg g1, if_neg g2, if_neg g3]

theorem writeBytes_length (buf : List Nat) (offset : Nat) (src : List Nat)
    (h : offset + src.length ≤ buf.length) : (writeBytes buf offset src).length = buf.length := by
  simp only [writeBytes, List.length_append, List.length_take, List.length_drop]
  omega

theorem writeBytes_get_outside (buf : List Nat) (offset : Nat) (src : List Nat) (i : Nat)
    (h : offset + src.length ≤ buf.length) (hi : i < offset ∨ offset + src.length ≤ i) :
    (writeBytes buf offset src)[i]? = buf[i]? := by
  unfold writeBytes
  rcases hi with hi | hi
  · have hlt : i < (List.take offset buf).length := by
      simp only [List.length_take]
      omega
    rw [List.append_assoc, List.getElem?_append_left hlt]
    simp [List.getElem?_take, hi]
  · have hge : (List.take offset buf ++ src).length ≤ i := by
      simp only [List.length_append, List.length_take]
      omega
    rw [List.getElem?_append_right hge]
    simp only [List.length_append, List.length_take, List.getElem?_drop]
    congr 1
    omega

theorem writeBytes_get_inside (buf : List Nat) (offset : Nat) (src : List Nat) (j : Nat)
    (h : offset ≤ buf.length) (hj : j < src.length) :
    (writeBytes buf offset src)[offset + j]? = src[j]? := by
  unfold writeBytes
  have hlt : offset + j < (List.take offset buf ++ src).length := by
    simp only [List.length_append, List.length_take]
    omega
  have hge : (List.take offset buf).length ≤ offset + j := by
    simp only [List.length_take]
    omega
  rw [List.getElem?_append_left hlt, List.getElem?_append_right hge]
  congr 1
  simp only [List.length_take]
  omega

theorem toLittleEndian_length (n v : Nat) : (toLittleEndian n v).length = n := by
  induction n generalizing v with
  | zero => rfl
  | succ n ih => simp [toLittleEndian, ih]

theorem toLittleEndian_get (n v j : Nat) (hj : j < n) :
    (toLittleEndian n v)[j]? = some (v / 256 ^ j % 256) := by
  induction n generalizing v j with
  | zero => omega
  | succ n ih =>
    cases j with
    | zero => simp [toLittleEndian]
    | succ j =>
      simp only [toLittleEndian, List.getElem?_cons_succ]
      rw [ih (v / 256) j (by omega), Nat.div_div_eq_div_mul, pow_succ, mul_comm]

theorem readBytes_length (buf : List Nat) (offset size : Nat) (h : offset + size ≤ buf.length) :
    (readBytes buf offset size).length = size := by
  simp only [readBytes, List.length_take, List.length_drop]
  omega

theorem isoutofbounds_false (offset : Int) (len w : Nat) (hlen : len ≤ 2147483647)
    (hoff : isInt32 offset) (hw : w ≤ 4294967295)
    (h : isoutofbounds offset len w = false) : 0 ≤ offset ∧ offset.toNat + w ≤ len := by
  have := (isoutofbounds_iff offset len w hlen hoff hw).1
  rw [h] at this
  simp only [Bool.false_eq_true, false_iff, not_or, not_lt] at this
  omega

theorem toUnsigned_of_nonneg (x : Int) (h0 : 0 ≤ x) (h1 : isInt32 x) : toUnsigned x = x.toNat := by
  unfold toUnsigned
  unfold isInt32 at h1
  omega
theorem toInt32_isInt32 (x : Int) : isInt32 (toInt32 x) := by
  unfold isInt32 toInt32
  omega

theorem writeinteger_length (T : IntType) (buf : List Nat) (offset : Int) (value : Nat)
    (hlen : buf.length ≤ 2147483647) (hoff : isInt32 offset) (hT : T.size ≤ 8) :
    (buffer_writeinteger T buf offset value).buffer.length = buf.length := by
  obtain ⟨w1, w2⟩ := writeinteger_cases T buf offset value
  cases hb : isoutofbounds offset buf.length T.size with
  | true => rw [w1 hb]; rfl
  | false =>
    rw [w2 hb]
    have := isoutofbounds_false offset buf.length T.size hlen hoff (by omega) hb
    exact writeBytes_length _ _ _ (by rw [toLittleEndian_length]; exact this.2)

theorem writefp_length (w : Nat) (buf : List Nat) (offset : Int) (storage : Nat → Nat)
    (hlen : buf.length ≤ 2147483647) (hoff : isInt32 offset) (hw : w ≤ 8) :
    (buffer_writefp w buf offset storage).buffer.length = buf.length := by
  obtain ⟨w1, w2⟩ := writefp_cases w buf offset storage
  cases hb : isoutofbounds offset buf.length w with
  | true => rw [w1 hb]; rfl
  | false =>
    rw [w2 hb]
    have := isoutofbounds_false offset buf.length w hlen hoff (by omega) hb
    exact writeBytes_length _ _ _ (by simp only [List.length_map, List.length_range]; exact this.2)

theorem writestring_length (buf : List Nat) (offset : Int) (val : List Nat) (count : Option Int)
    (hlen : buf.length ≤ 2147483647) (hoff : isInt32 offset)
    (hcount : ∀ c, count = some c → isInt32 c) :
    (buffer_writestring buf offset val count).buffer.length = buf.length := by
  have hc : isInt32 (count.getD (toInt32 val.length)) := by
    cases count with
    | none => rw [Option.getD_none]; exact toInt32_isInt32 _
    | some c => rw [Option.getD_some]; exact hcount c rfl
  unfold buffer_writestring
  simp only
  generalize count.getD (toInt32 val.length) = c at hc
  by_cases h1 : ¬ (c ≥ 0)
  · rw [if_pos h1]; rfl
  · rw [if_neg h1]
    by_cases h2 : c.toNat > val.length
    · rw [if_pos h2]; rfl
    · rw [if_neg h2]
      cases hb : isoutofbounds offset buf.length (toUnsigned c) with
      | true => simp only [if_true]; rfl
      | false =>
        simp only [Bool.false_eq_true, if_false]
        have h0 : 0 ≤ c := by omega
        have hu := toUnsigned_of_nonneg c h0 hc
        have hc' : c ≤ 2147483647 := hc.2
        have hw : toUnsigned c ≤ 4294967295 := by rw [hu]; omega
        have := isoutofbounds_false offset buf.length (toUnsigned c) hlen hoff hw hb
        rw [hu] at this
        apply writeBytes_length
        rw [List.length_take]
        omega

theorem copy_length (tbuf : List Nat) (toffset : Int) (sbuf : List Nat) (soffset size : Option Int)
    (hlen : tbuf.length ≤ 2147483647) (hslen : sbuf.length ≤ 2147483647)
    (hoff : isInt32 toffset) (hsoff : ∀ s, soffset = some s → isInt32 s)
    (hsize : ∀ s, size = some s → isInt32 s) :
    (buffer_copy tbuf toffset sbuf soffset size).buffer.length = tbuf.length := by
  have hso : isInt32 (soffset.getD 0) := by
    cases soffset with
    | none => rw [Option.getD_none]; exact ⟨by decide, by decide⟩
    | some s => rw [Option.getD_some]; exact hsoff s rfl
  have hsz : isInt32 (size.getD (toInt32 (toInt32 sbuf.length - soffset.getD 0))) := by
    cases size with
    | none => rw [Option.getD_none]; exact toInt32_isInt32 _
    | some s => rw [Option.getD_some]; exact hsize s rfl
  unfold buffer_copy
  simp only
  generalize size.getD (toInt32 (toInt32 sbuf.length - soffset.getD 0)) = n at hsz
  generalize soffset.getD 0 = so at hso
  by_cases h1 : n < 0
  · rw [if_pos h1]; rfl
  · rw [if_neg h1]
    have hu := toUnsigned_of_nonneg n (by omega) hsz
    have hn : toUnsigned n ≤ 4294967295 := by rw [hu]; unfold isInt32 at hsz; omega
    cases hb : isoutofbounds so sbuf.length (toUnsigned n) with
    | true => simp only [if_true]; rfl
    | false =>
      simp only [Bool.false_eq_true, if_false]
      cases hb2 : isoutofbounds toffset tbuf.length (toUnsigned n) with
      | true => simp only [if_true]; rfl
      | false =>
        simp only [Bool.false_eq_true, if_false]
        have s1 := isoutofbounds_false so sbuf.length _ hslen hso hn hb
        have s2 := isoutofbounds_false toffset tbuf.length _ hlen hoff hn hb2
        rw [hu] at s1 s2
        apply writeBytes_length
        rw [readBytes_length _ _ _ s1.2]
        exact s2.2

theorem fill_length (buf : List Nat) (offset : Int) (value : Nat) (size : Option Int)
    (hlen : buf.length ≤ 2147483647) (hoff : isInt32 offset)
    (hsize : ∀ s, size = some s → isInt32 s) :
    (buffer_fill buf offset value size).buffer.length = buf.length := by
  have hsz : isInt32 (size.getD (toInt32 (toInt32 buf.length - offset))) := by
    cases size with
    | none => rw [Option.getD_none]; exact toInt32_isInt32 _
    | some s => rw [Option.getD_some]; exact hsize s rfl
  unfold buffer_fill
  simp only
  generalize size.getD (toInt32 (toInt32 buf.length - offset)) = n at hsz
  by_cases h1 : n < 0
  · rw [if_pos h1]; rfl
  · rw [if_neg h1]
    have hu := toUnsigned_of_nonneg n (by omega) hsz
    have hn : toUnsigned n ≤ 4294967295 := by rw [hu]; unfold isInt32 at hsz; omega
    cases hb : isoutofbounds offset buf.length (toUnsigned n) with
    | true => simp only [if_true]; rfl
    | false =>
      simp only [Bool.false_eq_true, if_false]
      have s1 := isoutofbounds_false offset buf.length _ hlen hoff hn hb
      rw [hu] at s1
      apply writeBytes_length
      rw [List.length_replicate]
      exact s1.2

theorem writebits_length (buf : List Nat) (o c : Int) (value : Nat)
    (hlen : buf.length ≤ 2147483647)
    (ho : -9223372036854775808 ≤ o ∧ o ≤ 9223372036854775807) (hc : isInt32 c) :
    (buffer_writebits buf o c value).buffer.length = buf.length := by
  obtain ⟨k1, k2, k3, k4⟩ := bitsCheck_cases buf.length o c hlen ho hc
  unfold buffer_writebits
  cases hchk : bitsCheck buf.length o c with
  | some e => rfl
  | none =>
    simp only
    have h0 : 0 ≤ o := by
      by_contra h
      rw [k1 (by omega)] at hchk
      exact Option.noConfusion hchk
    have h1 : 0 ≤ c ∧ c ≤ 32 := by
      by_contra h
      rw [k2 h0 (by omega)] at hchk
      exact Option.noConfusion hchk
    have h2 : o + c ≤ 8 * (buf.length : Int) := by
      by_contra h
      rw [k3 h0 h1.1 h1.2 (by omega)] at hchk
      exact Option.noConfusion hchk
    have hs : toUnsigned (o / 8) = (o / 8).toNat := by
      unfold toUnsigned
      omega
    have he : toUnsigned ((o + c + 7) / 8) = ((o + c + 7) / 8).toNat := by
      unfold toUnsigned
      omega
    apply writeBytes_length
    rw [toLittleEndian_length, hs, he]
    omega

theorem sixTypes_size (T : IntType)
    (hT : T ∈ [int8_t, uint8_t, int16_t, uint16_t, int32_t, uint32_t]) : T.size ≤ 8 := by
  simp only [List.mem_cons, List.mem_singleton, List.not_mem_nil, or_false] at hT
  rcases hT with rfl | rfl | rfl | rfl | rfl | rfl <;> decide


theorem ttname_of_init (g : global_State) (hg : luaT_init g = g) (o : TValue) :
    ttnameOf g o = luaT_typenames (ttype o).tag.toNat := by
  have h : g.ttname = (List.range LUA_T_COUNT).map luaT_typenames := by
    rw [← hg]; rfl
  unfold ttnameOf
  rw [h]
  cases o <;> rfl

theorem tmname_type_of_init (g : global_State) (hg : luaT_init g = g) :
    g.tmname.getD TMS.TM_TYPE.toNat "" = "__type" := by
  have h : g.tmname = (List.range TM_N).map luaT_eventname := by
    rw [← hg]; rfl
  rw [h]
  decide

theorem objtypenamestr_cases (cfg : TagConfig) (g : global_State) (L : lua_State)
    (hg : luaT_init g = g) (o : TValue) :
    (∀ u mt, o = .userdata u →
        (g.udata.getD u { tag := 0, metatable := none }).metatable = some mt →
        (g.udata.getD u { tag := 0, metatable := none }).tag ≠ cfg.UTAG_PROXY →
        luaT_objtypenamestr cfg g L o = typeNameThrough L (some mt) o) ∧
    (∀ u, o = .userdata u →
        ((g.udata.getD u { tag := 0, metatable := none }).metatable = none ∨
         (g.udata.getD u { tag := 0, metatable := none }).tag = cfg.UTAG_PROXY) →
        luaT_objtypenamestr cfg g L o =
          typeNameThrough L (g.mt.getD (ttype o).tag.toNat none) o) ∧
    (∀ name, ttype o = .LUA_TLIGHTUSERDATA →
        toUnsigned (cfg.lightuserdatatag o) < cfg.LUA_LUTAG_LIMIT →
        g.lightuserdataname.getD (cfg.lightuserdatatag o).toNat none = some name →
        luaT_objtypenamestr cfg g L o = name) ∧
    (ttype o = .LUA_TLIGHTUSERDATA →
        (cfg.LUA_LUTAG_LIMIT ≤ toUnsigned (cfg.lightuserdatatag o) ∨
         g.lightuserdataname.getD (cfg.lightuserdatatag o).toNat none = none) →
        luaT_objtypenamestr cfg g L o =
          typeNameThrough L (g.mt.getD (ttype o).tag.toNat none) o) ∧
    (ttype o ≠ .LUA_TUSERDATA → ttype o ≠ .LUA_TLIGHTUSERDATA →
        luaT_objtypenamestr cfg g L o =
          typeNameThrough L (g.mt.getD (ttype o).tag.toNat none) o) := by
  have ht := tmname_type_of_init g hg
  have hn := ttname_of_init g hg
  refine ⟨?_, ?_, ?_, ?_, ?_⟩
  · intro u mt ho hmt htag
    subst ho
    simp only [luaT_objtypenamestr, hmt, ht, hn, typeNameThrough, if_pos htag]
  · intro u ho h
    subst ho
    simp only [luaT_objtypenamestr, ht, hn, typeNameThrough]
    rcases h with h | h
    · rw [h]
    · cases hm : (g.udata.getD u { tag := 0, metatable := none }).metatable with
      | none => rfl
      | some m0 => simp only [h, ne_eq, not_true_eq_false, if_false]
  · intro name ho hlt hname
    cases o <;> simp only [ttype] at ho <;> try (exact absurd ho (by decide))
    simp only [luaT_objtypenamestr, if_pos hlt, hname]
  · intro ho h
    cases o <;> simp only [ttype] at ho <;> try (exact absurd ho (by decide))
    rename_i p
    simp only [luaT_objtypenamestr, ht, hn, typeNameThrough]
    have hnone : (if toUnsigned (cfg.lightuserdatatag (TValue.lightuserdata p)) < cfg.LUA_LUTAG_LIMIT
        then g.lightuserdataname.getD (cfg.lightuserdatatag (TValue.lightuserdata p)).toNat none
        else none) = none := by
      rcases h with h | h
      · rw [if_neg (Nat.not_lt.mpr h)]
      · rw [h]; simp
    rw [hnone]
  · intro h1 h2
    cases o
    case userdata => exact absurd rfl h1
    case lightuserdata => exact absurd rfl h2
    all_goals simp only [luaT_objtypenamestr, ht, hn, typeNameThrough]

theorem index2addr_of_tableAt {L : lua_State} {idx : Int} {h : Nat}
    (ht : tableAt L idx = some h) : index2addr L idx = some (.table h) := by
  unfold tableAt at ht
  split at ht
  · rename_i h' heq
    rw [heq]
    injection ht with ht
    rw [ht]
  · exact absurd ht (by simp)

theorem index2addr_neg_two (s : lua_State) (a b : TValue) :
    index2addr (push (push s a) b) (-2) = some a := by
  unfold index2addr push
  simp only [List.length_append, List.length_cons, List.length_nil]
  rw [if_neg (by decide), if_pos (by constructor <;> [decide; (simp only [neg_neg]; push_cast; omega)])]
  have h2 : (-(-2 : Int)).toNat = 2 := by decide
  rw [h2]
  have : s.stack.length + 0 + 1 + (0 + 1) - 2 = s.stack.length := by omega
  rw [this, List.append_assoc, List.getElem?_append_right (le_refl _)]
  simp

theorem index2addr_neg_one (s : lua_State) (a : TValue) :
    index2addr (push s a) (-1) = some a := by
  unfold index2addr push
  simp only [List.length_append, List.length_cons, List.length_nil]
  rw [if_neg (by decide), if_pos (by constructor <;> [decide; (simp only [neg_neg]; push_cast; omega)])]
  have h2 : (-(-1 : Int)).toNat = 1 := by decide
  rw [h2]
  have : s.stack.length + (0 + 1) - 1 = s.stack.length := by omega
  rw [this, List.getElem?_append_right (le_refl _)]
  simp

theorem luaL_getmetafield_table (g : global_State) {L : lua_State} {h : Nat} (event : String)
    (ht : tableAt L 1 = some h) :
    ((getTable L h).metatable = none → luaL_getmetafield g L 1 event = (false, L)) ∧
    (∀ m, (getTable L h).metatable = some m →
      luaL_getmetafield g L 1 event =
        if luaH_getstr (getTable L m) event = .nil then (false, L)
        else (true, push L (luaH_getstr (getTable L m) event))) := by
  have hi := index2addr_of_tableAt ht
  constructor
  · intro hm
    simp [luaL_getmetafield, lua_getmetatable, hi, objMetatable, hm]
  · intro m hm
    have hta : tableAt (push (push L (.table m)) (.string event)) (-2) = some m := by
      simp only [tableAt, index2addr_neg_two]
    have hget : getTable (push (push L (.table m)) (.string event)) m = getTable L m := rfl
    have hraw : lua_rawget (push (push L (.table m)) (.string event)) (-2) =
        push (push L (.table m)) (luaH_getstr (getTable L m) event) := by
      simp only [lua_rawget, hta, hget]
      simp [push, luaH_get, luaH_getstr]
    simp only [luaL_getmetafield, lua_getmetatable, hi, objMetatable, hm, Bool.not_true,
      Bool.false_eq_true, if_false, hraw]
    have hty : lua_type (push (push L (.table m)) (luaH_getstr (getTable L m) event)) (-1) =
        ttype (luaH_getstr (getTable L m) event) := by
      simp only [lua_type, index2addr_neg_one]
    rw [hty]
    by_cases hnil : luaH_getstr (getTable L m) event = .nil
    · rw [hnil]
      simp [ttype, lua_pop, push]
    · rw [if_neg hnil, if_neg]
      · simp [lua_remove, push, List.eraseIdx_append_of_length_le]
      · intro hc
        apply hnil
        cases hv : luaH_getstr (getTable L m) event <;> simp_all [ttype]

theorem tmcache_bit (c e : Nat) (hc : c < 256) (he : e ≤ 7) :
    (c ||| cast_byte ((1 <<< e) % 4294967296)) % 256 = c ||| 2 ^ e := by
  have h2 : 2 ^ e < 256 := by
    calc 2 ^ e ≤ 2 ^ 7 := Nat.pow_le_pow_right (by decide) he
      _ < 256 := by decide
  have h1 : (1 <<< e) = 2 ^ e := by rw [Nat.shiftLeft_eq, one_mul]
  rw [h1, cast_byte, Nat.mod_eq_of_lt (by omega : 2 ^ e < 4294967296), Nat.mod_eq_of_lt h2]
  apply Nat.mod_eq_of_lt
  exact Nat.or_lt_two_pow (n := 8) hc h2


theorem pushfstringText_sourceLine (chunkid : String) (line : Int) (msg : String) :
    pushfstringText sourceLineFormat [.str chunkid, .int line, .str msg] =
      chunkid ++ ":" ++ toString line ++ ": " ++ msg := by
  have h : sourceLineFormat.toList = "%s:%d: %s".toList := by decide
  apply String.ext
  simp only [pushfstringText, h, String.toList]
  simp only [formatChars, FmtArg.render]
  simp

theorem pushfstringText_argNamed (narg : Int) (fname extramsg : String) :
    pushfstringText argerrorNamedFormat [.int narg, .str fname, .str extramsg] =
      "invalid argument #" ++ toString narg ++ " to '" ++ fname ++ "' (" ++ extramsg ++ ")" := by
  have h : argerrorNamedFormat.toList = "invalid argument #%d to '%s' (%s)".toList := by decide
  apply String.ext
  simp only [pushfstringText, h, String.toList]
  simp only [formatChars, FmtArg.render]
  simp

theorem pushfstringText_argPlain (narg : Int) (extramsg : String) :
    pushfstringText argerrorPlainFormat [.int narg, .str extramsg] =
      "invalid argument #" ++ toString narg ++ " (" ++ extramsg ++ ")" := by
  have h : argerrorPlainFormat.toList = "invalid argument #%d (%s)".toList := by decide
  apply String.ext
  simp only [pushfstringText, h, String.toList]
  simp only [formatChars, FmtArg.render]
  simp

theorem pushfstringText_where (src : String) (line : Int) :
    pushfstringText wherePositionFormat [.str src, .int line] =
      src ++ ":" ++ toString line ++ ": " := by
  have h : wherePositionFormat.toList = "%s:%d: ".toList := by decide
  apply String.ext
  simp only [pushfstringText, h, String.toList]
  simp only [formatChars, FmtArg.render]
  simp

theorem push_string_inj (L : lua_State) (a b : String)
    (h : push L (.string a) = push L (.string b)) : a = b := by
  have hs : L.stack ++ [TValue.string a] = L.stack ++ [TValue.string b] :=
    congrArg lua_State.stack h
  have := List.append_cancel_left hs
  injection this with h1 _
  injection h1


theorem validateobjref_spec {m : GCMacros} {g : GCGlobal} {f t : GCObject}
    (h : validateobjref m g f t = true) :
    m.isdead g t.marked = false ∧
    (m.keepinvariant g = true → ¬ (m.isblack f.marked = true ∧ m.iswhite t.marked = true)) := by
  simp only [validateobjref, Bool.and_eq_true, Bool.not_eq_true'] at h
  refine ⟨h.1, ?_⟩
  intro hk
  have h2 := h.2
  rw [if_pos hk] at h2
  intro hc
  simp [hc.1, hc.2] at h2

theorem validateref_spec {m : GCMacros} {g : GCGlobal} {heap : GCHeap} {f : GCObject}
    {vs : List GCValue} (h : vs.all (fun v => validateref m g heap f v) = true) :
    ∀ t ∈ gcrefs vs, validateobjref m g f (heap.deref t) = true := by
  intro t ht
  simp only [gcrefs, List.mem_filterMap] at ht
  obtain ⟨v, hv, hvt⟩ := ht
  have hv2 := List.all_eq_true.mp h v hv
  cases v with
  | ref tt gc =>
    simp only [Option.some.injEq] at hvt
    subst hvt
    simp only [validateref, Bool.and_eq_true] at hv2
    exact hv2.2
  | nil => simp at hvt
  | scalar => simp at hvt
theorem validateobj_of_validate {m : GCMacros} {g : GCGlobal} {heap : GCHeap}
    (hpass : luaC_validate m g heap = true) (a : Nat) (ha : a ∈ heap.pages ∨ a = g.mainthread) :
    validateobj m g heap (heap.deref a) = true := by
  simp only [luaC_validate, Bool.and_eq_true, validategco, List.all_eq_true] at hpass
  rcases ha with ha | ha
  · exact hpass.1.2 a ha
  · rw [ha]; exact hpass.1.1.2

theorem validateobj_refs {m : GCMacros} {g : GCGlobal} {heap : GCHeap} {o : GCObject}
    (hv : validateobj m g heap o = true) (hlive : m.isdead g o.marked = false) :
    ∀ t ∈ checkedRefs o, validateobjref m g o (heap.deref t) = true := by
  intro t ht
  simp only [validateobj, hlive, Bool.false_eq_true, if_false] at hv
  unfold checkedRefs at ht
  cases hp : o.payload with
  | string => rw [hp] at ht; simp at ht
  | buffer => rw [hp] at ht; simp at ht
  | unexpected => rw [hp] at ht; simp at ht
  | thread l => rw [hp] at ht; simp at ht
  | userdata mt =>
    rw [hp] at ht hv
    cases mt with
    | none => simp at ht
    | some a =>
      simp only [Option.toList, List.mem_singleton] at ht
      subst ht
      exact hv
  | upval uv =>
    rw [hp] at ht hv
    simp only at hv ht
    exact @validateref_spec m g heap o [uv.v] (by simp [hv]) t ht
  | proto f =>
    rw [hp] at ht hv
    simp only [validateproto, Bool.and_eq_true] at hv
    simp only [List.mem_append] at ht
    rcases ht with ht | ht
    · exact validateref_spec hv.1.1.1.2 t ht
    · simp only [List.mem_filterMap, id] at ht
      obtain ⟨r, hr, hrt⟩ := ht
      subst hrt
      exact List.all_eq_true.mp hv.1.2 (some t) hr
  | closure cl =>
    rw [hp] at ht hv
    simp only [validateclosure, Bool.and_eq_true] at hv
    simp only [List.mem_cons, List.mem_append] at ht
    have hall : ∀ l : List Nat,
        l.all (fun i => validateref m g heap o (cl.upvals.getD i .nil)) = true →
        (l.map (fun i => cl.upvals.getD i .nil)).all (fun v => validateref m g heap o v) =
          true := by
      intro l hl
      simp only [List.all_eq_true, List.mem_map] at hl ⊢
      rintro v ⟨i, hi, rfl⟩
      exact hl i hi
    cases hc : cl.isC with
    | true =>
      rw [hc] at ht hv
      simp only [if_true, List.not_mem_nil, false_or] at ht hv
      rcases ht with ht | ht
      · rw [ht]; exact hv.1
      · exact validateref_spec (hall _ hv.2) t ht
    | false =>
      rw [hc] at ht hv
      simp only [Bool.false_eq_true, if_false, List.mem_singleton, Bool.and_eq_true] at ht hv
      rcases ht with ht | ht | ht
      · rw [ht]; exact hv.1
      · rw [ht]; exact hv.2.1.2
      · exact validateref_spec (hall _ hv.2.2) t ht
  | table h =>
    rw [hp] at ht hv
    simp only [validatetable, Bool.and_eq_true, List.all_eq_true, List.mem_range] at hv
    simp only [List.mem_append] at ht
    rcases ht with (ht | ht) | ht
    · cases hm : h.metatable with
      | none => rw [hm] at ht; simp at ht
      | some a =>
        rw [hm] at ht hv
        simp only [Option.toList, List.mem_singleton] at ht
        subst ht
        exact hv.1.1.2
    · exact validateref_spec (List.all_eq_true.mpr hv.1.2) t ht
    · simp only [gcrefs, List.mem_filterMap, List.mem_flatMap, List.mem_filter, List.mem_map,
        List.mem_range] at ht
      obtain ⟨v, ⟨n, ⟨⟨i, hi, hin⟩, hnn⟩, hvn⟩, hvt⟩ := ht
      have hnode := (hv.2 i hi).2
      rw [hin] at hnode
      have hnn2 : n.val ≠ .nil := by simpa using hnn
      rw [if_pos hnn2, Bool.and_eq_true] at hnode
      have hvv : validateref m g heap o v = true := by
        simp only [List.mem_cons, List.not_mem_nil, or_false] at hvn
        rcases hvn with hvn | hvn
        · rw [hvn]; exact hnode.1
        · rw [hvn]; exact hnode.2
      cases v with
      | ref tt gc =>
        simp only [Option.some.injEq] at hvt
        subst hvt
        simp only [validateref, Bool.and_eq_true] at hvv
        exact hvv.2
      | nil => simp at hvt
      | scalar => simp at hvt

theorem validateobj_nodes {m : GCMacros} {g : GCGlobal} {heap : GCHeap} {o : GCObject}
    {h : GCTable} (hv : validateobj m g heap o = true) (hlive : m.isdead g o.marked = false)
    (hp : o.payload = .table h) (i : Nat) (hi : i < 1 <<< h.lsizenode) :
    0 ≤ (i : Int) + (h.node.getD i dummynode).next ∧
    (i : Int) + (h.node.getD i dummynode).next < ((1 <<< h.lsizenode : Nat) : Int) := by
  simp only [validateobj, hlive, Bool.false_eq_true, if_false, hp, validatetable,
    Bool.and_eq_true, List.all_eq_true, List.mem_range] at hv
  have := (hv.2 i hi).1.2
  simpa using this

theorem byteAt_lt (s : List Nat) (hs : ∀ b ∈ s, b < 256) (i : Nat) : byteAt s i < 256 := by
  unfold byteAt
  rw [List.getD_eq_getElem?_getD]
  cases h : s[i]? with
  | none => simp
  | some b =>
    simp only [Option.getD_some]
    exact hs b (List.mem_iff_getElem?.mpr ⟨i, h⟩)

theorem shiftLeft_or (a b k : Nat) : (a ||| b) <<< k = a <<< k ||| b <<< k := by
  apply Nat.eq_of_testBit_eq
  intro j
  simp only [Nat.testBit_shiftLeft, Nat.testBit_or, Bool.and_or_distrib_left]

theorem decodeLoop_stop (s : List Nat) (fuel c count res : Nat) (h : c &&& 0x40 = 0) :
    decodeLoop s (fuel + 1) c count res = some (c, count, res) := by
  simp only [decodeLoop, h, ne_eq, not_true_eq_false, if_false]

theorem decodeLoop_step (s : List Nat) (fuel c count res : Nat) (h : c &&& 0x40 ≠ 0) :
    decodeLoop s (fuel + 1) c count res =
      if iscont (byteAt s (count + 1)) then
        decodeLoop s fuel ((c <<< 1) % 4294967296) (count + 1)
          (((res <<< 6) ||| (byteAt s (count + 1) &&& 0x3F)) % 4294967296)
      else none := by
  simp only [decodeLoop, if_pos h, iscont, decide_eq_true_eq]
  by_cases hc : byteAt s (count + 1) &&& 0xC0 = 0x80
  · simp only [hc, ne_eq, not_true_eq_false, if_false, if_true]
  · simp only [hc, ne_eq, not_false_eq_true, if_true, if_false]

theorem decodeLoop_count (s : List Nat) :
    ∀ (fuel c count res c2 count2 res2 : Nat),
      decodeLoop s fuel c count res = some (c2, count2, res2) → count ≤ count2 := by
  intro fuel
  induction fuel with
  | zero =>
    intro c count res c2 count2 res2 h
    simp only [decodeLoop, Option.some.injEq, Prod.mk.injEq] at h
    omega
  | succ n ih =>
    intro c count res c2 count2 res2 h
    by_cases hc : c &&& 0x40 = 0
    · rw [decodeLoop_stop s n c count res hc] at h
      simp only [Option.some.injEq, Prod.mk.injEq] at h
      omega
    · rw [decodeLoop_step s n c count res hc] at h
      split at h
      · have := ih _ _ _ _ _ _ h
        omega
      · exact absurd h (by simp)
theorem lead_stray (b : Nat) (h1 : 0x80 ≤ b) (h2 : b < 0xC0) :
    b &&& 0x40 = 0 ∧ (b &&& 0x7F) ≤ 0xFF := by
  interval_cases b <;> decide

theorem lead_two (b : Nat) (h1 : 0xC0 ≤ b) (h2 : b < 0xE0) :
    b &&& 0x40 ≠ 0 ∧ ((b <<< 1) % 4294967296) &&& 0x40 = 0 ∧
    ((((b <<< 1) % 4294967296) &&& 0x7F) <<< 5) % 4294967296 = (b &&& 0x1F) <<< 6 ∧
    (b &&& 0x1F) <<< 6 < 2048 := by
  interval_cases b <;> decide

theorem lead_three (b : Nat) (h1 : 0xE0 ≤ b) (h2 : b < 0xF0) :
    b &&& 0x40 ≠ 0 ∧ ((b <<< 1) % 4294967296) &&& 0x40 ≠ 0 ∧
    ((((b <<< 1) % 4294967296) <<< 1) % 4294967296) &&& 0x40 = 0 ∧
    ((((((b <<< 1) % 4294967296) <<< 1) % 4294967296) &&& 0x7F) <<< 10) % 4294967296 =
      (b &&& 0x0F) <<< 12 ∧
    (b &&& 0x0F) <<< 12 < 65536 := by
  interval_cases b <;> decide

theorem lead_four (b : Nat) (h1 : 0xF0 ≤ b) (h2 : b < 0xF8) :
    b &&& 0x40 ≠ 0 ∧ ((b <<< 1) % 4294967296) &&& 0x40 ≠ 0 ∧
    ((((b <<< 1) % 4294967296) <<< 1) % 4294967296) &&& 0x40 ≠ 0 ∧
    ((((((b <<< 1) % 4294967296) <<< 1) % 4294967296) <<< 1) % 4294967296) &&& 0x40 = 0 ∧
    ((((((((b <<< 1) % 4294967296) <<< 1) % 4294967296) <<< 1) % 4294967296) &&& 0x7F) <<< 15) %
      4294967296 = (b &&& 0x07) <<< 18 ∧
    (b &&& 0x07) <<< 18 < 2097152 := by
  interval_cases b <;> decide

theorem lead_long (b : Nat) (h1 : 0xF8 ≤ b) (h2 : b < 256) :
    b &&& 0x40 ≠ 0 ∧ ((b <<< 1) % 4294967296) &&& 0x40 ≠ 0 ∧
    ((((b <<< 1) % 4294967296) <<< 1) % 4294967296) &&& 0x40 ≠ 0 ∧
    ((((((b <<< 1) % 4294967296) <<< 1) % 4294967296) <<< 1) % 4294967296) &&& 0x40 ≠ 0 := by
  interval_cases b <;> decide

theorem low6_lt (b : Nat) : b &&& 0x3F < 64 :=
  Nat.lt_succ_of_le Nat.and_le_right

theorem decode_finish (k res : Nat) (hk : 1 ≤ k ∧ k ≤ 3) (hres : res < 4294967296) :
    (if k > 3 ∨ res > MAXUNICODE ∨ res ≤ limits.getD k 0 then none
      else if (res + 4294967296 - 0xD800) % 4294967296 < 0x800 then none
      else some (res, k + 1)) =
    if scalarOk k res = true then some (res, k + 1) else none := by
  have hk3 : k = 1 ∨ k = 2 ∨ k = 3 := by omega
  rcases hk3 with rfl | rfl | rfl <;>
    simp only [scalarOk, limits, MAXUNICODE, Nat.reduceSub, List.getD_cons_succ,
      List.getD_cons_zero, Bool.and_eq_true, decide_eq_true_eq, Bool.not_eq_true', decide_eq_false_iff_not] <;>
    split_ifs <;> first | rfl | omega
theorem chunk_lt (r x k : Nat) (hr : r < 2 ^ k) (hx : x < 64) :
    (r <<< 6 ||| x) < 2 ^ (k + 6) := by
  apply Nat.or_lt_two_pow
  · rw [Nat.shiftLeft_eq, Nat.pow_add]
    exact Nat.mul_lt_mul_of_pos_right hr (by decide)
  · calc x < 64 := hx
      _ = 2 ^ 6 := by decide
      _ ≤ 2 ^ (k + 6) := Nat.pow_le_pow_right (by decide) (by omega)

theorem or_rotate3 (a b c : Nat) : (b ||| c) ||| a = (a ||| b) ||| c := by
  rw [Nat.or_comm (b ||| c) a, Nat.or_assoc]

theorem or_rotate4 (a b c d : Nat) : ((b ||| c) ||| d) ||| a = ((a ||| b) ||| c) ||| d := by
  rw [Nat.or_comm ((b ||| c) ||| d) a]
  simp only [Nat.or_assoc]

theorem long_count (s : List Nat) (b : Nat) (h1 : 0xF8 ≤ b) (h2 : b < 256)
    (c2 count2 res2 : Nat) (hd : decodeLoop s 8 b 0 0 = some (c2, count2, res2)) :
    count2 > 3 := by
  obtain ⟨f1, f2, f3, f4⟩ := lead_long b h1 h2
  rw [decodeLoop_step _ _ _ _ _ f1] at hd
  split at hd
  · rw [decodeLoop_step _ _ _ _ _ f2] at hd
    split at hd
    · rw [decodeLoop_step _ _ _ _ _ f3] at hd
      split at hd
      · rw [decodeLoop_step _ _ _ _ _ f4] at hd
        split at hd
        · have := decodeLoop_count s _ _ _ _ _ _ _ hd
          omega
        · exact absurd hd (by simp)
      · exact absurd hd (by simp)
    · exact absurd hd (by simp)
  · exact absurd hd (by simp)

theorem utf8_decode_eq (s : List Nat) (hs : ∀ b ∈ s, b < 256) :
    utf8_decode s = wellFormed s := by
  have hb0 := byteAt_lt s hs 0
  have hx1 := low6_lt (byteAt s 1)
  have hx2 := low6_lt (byteAt s 2)
  have hx3 := low6_lt (byteAt s 3)
  have h6 : byteAt s 1 &&& 63 < 2 ^ 6 := hx1
  have h12 : (byteAt s 1 &&& 63) <<< 6 ||| (byteAt s 2 &&& 63) < 2 ^ 12 :=
    chunk_lt _ _ 6 h6 hx2
  have h18 : ((byteAt s 1 &&& 63) <<< 6 ||| (byteAt s 2 &&& 63)) <<< 6 |||
      (byteAt s 3 &&& 63) < 2 ^ 18 := chunk_lt _ _ 12 h12 hx3
  have m6 : (byteAt s 1 &&& 63) % 4294967296 = byteAt s 1 &&& 63 :=
    Nat.mod_eq_of_lt (by omega)
  have m12 : ((byteAt s 1 &&& 63) <<< 6 ||| (byteAt s 2 &&& 63)) % 4294967296 =
      (byteAt s 1 &&& 63) <<< 6 ||| (byteAt s 2 &&& 63) :=
    Nat.mod_eq_of_lt (lt_trans h12 (by decide))
  have m18 : (((byteAt s 1 &&& 63) <<< 6 ||| (byteAt s 2 &&& 63)) <<< 6 |||
      (byteAt s 3 &&& 63)) % 4294967296 =
      ((byteAt s 1 &&& 63) <<< 6 ||| (byteAt s 2 &&& 63)) <<< 6 ||| (byteAt s 3 &&& 63) :=
    Nat.mod_eq_of_lt (lt_trans h18 (by decide))
  unfold utf8_decode wellFormed
  simp only
  by_cases h0 : byteAt s 0 < 0x80
  · rw [if_pos h0, if_pos h0]
  · rw [if_neg h0, if_neg h0]
    by_cases h2 : 0xC0 ≤ byteAt s 0 ∧ byteAt s 0 < 0xE0
    · obtain ⟨f1, f2, f3, f4⟩ := lead_two _ h2.1 h2.2
      rw [if_pos h2, decodeLoop_step _ _ _ _ _ f1]
      by_cases hc1 : iscont (byteAt s 1) = true
      · rw [if_pos hc1, decodeLoop_stop _ _ _ _ _ f2]
        simp only [Nat.zero_shiftLeft, Nat.zero_or, Nat.zero_add, Nat.one_mul]
        rw [f3, m6, Nat.or_comm (byteAt s 1 &&& 63)]
        have hv : (byteAt s 0 &&& 31) <<< 6 ||| byteAt s 1 &&& 63 < 4294967296 :=
          lt_trans (Nat.or_lt_two_pow (n := 11) f4 (by omega)) (by decide)
        rw [decode_finish 1 _ (by omega) hv]
        simp only [hc1, true_and]
      · rw [if_neg hc1]
        simp only [hc1, false_and, if_false, Bool.false_eq_true]
    · rw [if_neg h2]
      by_cases h3 : 0xE0 ≤ byteAt s 0 ∧ byteAt s 0 < 0xF0
      · obtain ⟨f1, f2, f3, f4, f5⟩ := lead_three _ h3.1 h3.2
        rw [if_pos h3, decodeLoop_step _ _ _ _ _ f1]
        by_cases hc1 : iscont (byteAt s 1) = true
        · rw [if_pos hc1]
          simp only [Nat.zero_shiftLeft, Nat.zero_or, Nat.zero_add]
          rw [decodeLoop_step _ _ _ _ _ f2]
          by_cases hc2 : iscont (byteAt s 2) = true
          · rw [if_pos hc2, decodeLoop_stop _ _ _ _ _ f3]
            simp only [Nat.reduceAdd, Nat.reduceMul]
            rw [f4, m6, m12, or_rotate3]
            have hv : (byteAt s 0 &&& 15) <<< 12 ||| (byteAt s 1 &&& 63) <<< 6 |||
                byteAt s 2 &&& 63 < 4294967296 := by
              rw [Nat.or_assoc]
              exact lt_trans (Nat.or_lt_two_pow (n := 16) f5 (lt_trans h12 (by decide)))
                (by decide)
            rw [decode_finish 2 _ (by omega) hv]
            simp only [hc1, hc2, true_and]
          · rw [if_neg hc2]
            simp only [hc2, false_and, and_false, if_false, Bool.false_eq_true]
        · rw [if_neg hc1]
          simp only [hc1, false_and, if_false, Bool.false_eq_true]
      · rw [if_neg h3]
        by_cases h4 : 0xF0 ≤ byteAt s 0 ∧ byteAt s 0 < 0xF8
        · obtain ⟨f1, f2, f3, f4, f5, f6⟩ := lead_four _ h4.1 h4.2
          rw [if_pos h4, decodeLoop_step _ _ _ _ _ f1]
          by_cases hc1 : iscont (byteAt s 1) = true
          · rw [if_pos hc1]
            simp only [Nat.zero_shiftLeft, Nat.zero_or, Nat.zero_add]
            rw [decodeLoop_step _ _ _ _ _ f2]
            by_cases hc2 : iscont (byteAt s 2) = true
            · rw [if_pos hc2]
              simp only [Nat.reduceAdd]
              rw [decodeLoop_step _ _ _ _ _ f3]
              by_cases hc3 : iscont (byteAt s 3) = true
              · rw [if_pos hc3, decodeLoop_stop _ _ _ _ _ f4]
                simp only [Nat.reduceAdd, Nat.reduceMul]
                rw [f5, m6, m12, m18, shiftLeft_or, ← Nat.shiftLeft_add, or_rotate4]
                have hv : (byteAt s 0 &&& 7) <<< 18 ||| (byteAt s 1 &&& 63) <<< (6 + 6) |||
                    (byteAt s 2 &&& 63) <<< 6 ||| byteAt s 3 &&& 63 < 4294967296 := by
                  rw [← or_rotate4, Nat.shiftLeft_add, ← shiftLeft_or]
                  exact lt_trans (Nat.or_lt_two_pow (n := 21) (lt_trans h18 (by decide)) f6)
                    (by decide)
                rw [decode_finish 3 _ (by omega) hv]
                simp only [hc1, hc2, hc3, true_and, Nat.reduceAdd]
              · rw [if_neg hc3]
                simp only [hc3, false_and, and_false, if_false, Bool.false_eq_true]
            · rw [if_neg hc2]
              simp only [hc2, false_and, and_false, if_false, Bool.false_eq_true]
          · rw [if_neg hc1]
            simp only [hc1, false_and, if_false, Bool.false_eq_true]
        · rw [if_neg h4]
          by_cases h1 : byteAt s 0 < 0xC0
          · obtain ⟨f1, f2⟩ := lead_stray _ (by omega) h1
            rw [decodeLoop_stop _ _ _ _ _ f1]
            simp only [Nat.zero_mul, Nat.shiftLeft_zero, Nat.zero_or]
            have hm : (byteAt s 0 &&& 127) % 4294967296 = byteAt s 0 &&& 127 :=
              Nat.mod_eq_of_lt (by omega)
            rw [hm, if_pos]
            right; right
            exact f2
          · cases hd : decodeLoop s 8 (byteAt s 0) 0 0 with
            | none => rfl
            | some r =>
              obtain ⟨c2, count2, res2⟩ := r
              have hcount := long_count s (byteAt s 0) (by omega) hb0 c2 count2 res2 hd
              simp only []
              rw [if_pos (Or.inl hcount)]

theorem scalarOk_spec (n v : Nat) (hn : n = 1 ∨ n = 2 ∨ n = 3) (h : scalarOk n v = true) :
    v ≤ 0x10FFFF ∧ ¬ (0xD800 ≤ v ∧ v ≤ 0xDFFF) ∧
    (n = 1 → 0x7F < v) ∧ (n = 2 → 0x7FF < v) ∧ (n = 3 → 0xFFFF < v) := by
  rcases hn with rfl | rfl | rfl <;>
    simp only [scalarOk, Nat.reduceSub, List.getD_cons_succ, List.getD_cons_zero,
      Bool.and_eq_true, decide_eq_true_eq, Bool.not_eq_true', decide_eq_false_iff_not] at h <;>
    omega

theorem toUnsigned_toInt32 (x : Int) : toUnsigned (toInt32 x) = toUnsigned x := by
  unfold toUnsigned toInt32
  omega

theorem toUnsigned_natCast (a : Nat) : toUnsigned (a : Int) = a % 4294967296 := by
  unfold toUnsigned
  omega

theorem toUnsigned_lt (x : Int) : toUnsigned x < 4294967296 := by
  unfold toUnsigned
  omega

theorem trim_eq (x : Nat) : trim x = x % 4294967296 := by
  unfold trim ALLONES
  exact Nat.and_pow_two_sub_one_eq_mod x 32

theorem mask_eq (w : Nat) (h1 : 1 ≤ w) (h2 : w ≤ 32) : mask (w : Int) = 2 ^ w - 1 := by
  interval_cases w <;> rfl

theorem luaL_checkunsigned_number {cvt2num : String → Option Int} {L : lua_State} {narg n : Int}
    (h : index2addr L narg = some (.number n)) :
    luaL_checkunsigned cvt2num L narg = .ok L (toUnsigned n) := by
  simp [luaL_checkunsigned, lua_tounsignedx, h]

theorem luai_num2int_eq {n : Int} (h : INT_MIN ≤ n ∧ n ≤ INT_MAX) : luai_num2int n = n := by
  unfold luai_num2int
  rw [if_pos h]

theorem luai_num2int_out {n : Int} (h : ¬ (INT_MIN ≤ n ∧ n ≤ INT_MAX)) :
    luai_num2int n = INT_MIN := by
  unfold luai_num2int
  rw [if_neg h]

theorem luaL_checkinteger_number {cvt2num : String → Option Int} {L : lua_State} {narg n : Int}
    (h : index2addr L narg = some (.number n)) :
    luaL_checkinteger cvt2num L narg = .ok L (luai_num2int n) := by
  simp [luaL_checkinteger, lua_tointegerx, h]

theorem luaL_optinteger_number {cvt2num : String → Option Int} {L : lua_State} {narg n : Int}
    (d : Int) (h : index2addr L narg = some (.number n)) :
    luaL_optinteger cvt2num L narg d = .ok L (luai_num2int n) := by
  simp [luaL_optinteger, lua_isnoneornil, lua_type, h, ttype, luaL_checkinteger_number h]
theorem b_shift_left (L : lua_State) (n : Nat) (i : Int) (h0 : 0 ≤ i) (h1 : i < 32) :
    b_shift L n i = .ok (push L (.number (((n : Int) * 2 ^ i.toNat) % 4294967296))) 1 := by
  unfold b_shift
  simp only [if_neg (not_lt.mpr h0), NBITS, ge_iff_le, if_neg (not_le.mpr h1), trim_eq, shl,
    lua_pushunsigned, Nat.mod_mod, Nat.shiftLeft_eq]
  push_cast
  rfl

theorem b_shift_right (L : lua_State) (n : Nat) (i : Int) (hn : n < 4294967296) (h0 : -32 < i)
    (h1 : i < 0) :
    b_shift L n i = .ok (push L (.number ((n : Int) / 2 ^ (-i).toNat))) 1 := by
  have ht : toInt32 (-i) = -i := by unfold toInt32; omega
  unfold b_shift
  simp only [if_pos h1, ht, NBITS, ge_iff_le, if_neg (show ¬ (32 : Int) ≤ -i by omega), trim_eq,
    shr, lua_pushunsigned, Nat.mod_mod, Nat.shiftRight_eq_div_pow, Nat.mod_eq_of_lt hn]
  push_cast
  rfl

theorem b_shift_zero (L : lua_State) (n : Nat) (i : Int) (hi0 : -2147483648 < i)
    (hi1 : i < 2147483648) (h : 32 ≤ i ∨ i ≤ -32) :
    b_shift L n i = .ok (push L (.number 0)) 1 := by
  unfold b_shift
  by_cases hneg : i < 0
  · have ht : toInt32 (-i) = -i := by unfold toInt32; omega
    simp only [if_pos hneg, ht, NBITS, ge_iff_le, if_pos (show (32 : Int) ≤ -i by omega),
      lua_pushunsigned]
    rfl
  · simp only [if_neg hneg, NBITS, ge_iff_le, if_pos (show (32 : Int) ≤ i by omega), trim_eq,
      lua_pushunsigned]
    rfl
theorem signFill_eq (i : Nat) (hi : i < 32) :
    bnot (shr (bnot 0) (i : Int)) = 2 ^ (32 - i) * (2 ^ i - 1) := by
  interval_cases i <;> rfl

theorem arshift_value (n i : Nat) (hn0 : 2147483648 ≤ n) (hn : n < 4294967296) (hi : i < 32) :
    ((trim (shr n (i : Int) ||| bnot (shr (bnot 0) (i : Int))) : Nat) : Int) =
      (((n : Int) - 4294967296) / 2 ^ i) % 4294967296 := by
  have hlt : n / 2 ^ i < 2 ^ (32 - i) := by
    apply Nat.div_lt_of_lt_mul
    rw [← pow_add, show i + (32 - i) = 32 by omega]
    exact hn
  rw [signFill_eq i hi, trim_eq]
  unfold shr
  rw [Nat.mod_eq_of_lt hn, Int.toNat_ofNat, Nat.shiftRight_eq_div_pow, Nat.or_comm,
    ← Nat.mul_add_lt_is_or hlt]
  interval_cases i <;> simp only [Nat.reducePow, Nat.reduceSub, Nat.reduceMul] <;> omega
theorem topBit_clear (n : Nat) (hn : n < 4294967296) :
    n &&& shl 1 (NBITS - 1) = 0 ↔ n < 2147483648 := by
  have h : shl 1 (NBITS - 1) = 2 ^ 31 := by rfl
  rw [h, Nat.and_two_pow, Nat.testBit_to_div_mod]
  by_cases c : n / 2 ^ 31 % 2 = 1
  · simp only [c, decide_True, Bool.toNat_true]
    omega
  · simp only [c, decide_False, Bool.toNat_false]
    omega
theorem testBit_of_lt32 (r : Nat) (hr : r < 4294967296) (k : Nat) (hk : 32 ≤ k) :
    r.testBit k = false := by
  apply Nat.testBit_lt_two_pow
  calc r < 2 ^ 32 := hr
    _ ≤ 2 ^ k := Nat.pow_le_pow_right (by decide) hk

theorem allones_testBit (k : Nat) : (4294967295 : Nat).testBit k = decide (k < 32) := by
  have h : (4294967295 : Nat) = 2 ^ 32 - 1 := by decide
  rw [h, Nat.testBit_two_pow_sub_one]

theorem fieldMask_testBit (f w k : Nat) :
    ((2 ^ w - 1) * 2 ^ f).testBit k = (decide (f ≤ k) && decide (k - f < w)) := by
  rw [← Nat.shiftLeft_eq, Nat.testBit_shiftLeft, Nat.testBit_two_pow_sub_one]

theorem replace_testBit (r v f w : Nat) (hr : r < 4294967296) (hfw : f + w ≤ 32) (k : Nat) :
    ((r &&& (((2 ^ w - 1) * 2 ^ f) ^^^ 4294967295)) |||
        (((v &&& (2 ^ w - 1)) <<< f) % 4294967296)).testBit k =
      if f ≤ k ∧ k < f + w then v.testBit (k - f) else r.testBit k := by
  have h32 : (4294967296 : Nat) = 2 ^ 32 := by decide
  rw [Nat.testBit_or, Nat.testBit_and, Nat.testBit_xor, fieldMask_testBit, allones_testBit, h32,
    Nat.testBit_mod_two_pow, Nat.testBit_shiftLeft, Nat.testBit_and, Nat.testBit_two_pow_sub_one]
  by_cases c1 : f ≤ k
  · by_cases c2 : k < f + w
    · have c3 : k - f < w := by omega
      have c4 : k < 32 := by omega
      simp [c1, c2, c3, c4]
    · have c3 : ¬ k - f < w := by omega
      by_cases c4 : k < 32
      · simp [c1, c2, c3, c4]
      · simp [c1, c2, c3, c4, testBit_of_lt32 r hr k (by omega)]
  · have c2 : ¬ (f ≤ k ∧ k < f + w) := fun h => c1 h.1
    have c4 : k < 32 := by omega
    simp [c1, c4]

theorem extract_value (r f w : Nat) (hr : r < 4294967296) (h1 : 1 ≤ w) (h2 : w ≤ 32) :
    shr r (f : Int) &&& mask (w : Int) = r / 2 ^ f % 2 ^ w := by
  rw [mask_eq w h1 h2, Nat.and_pow_two_sub_one_eq_mod]
  unfold shr
  rw [Nat.mod_eq_of_lt hr, Int.toNat_ofNat, Nat.shiftRight_eq_div_pow]

theorem toUnsigned_toInt32_mul (a b : Int) : toUnsigned (toInt32 a * b) = toUnsigned (a * b) := by
  have h : toInt32 a = a + 4294967296 * (-((a + 2147483648) / 4294967296)) := by
    unfold toInt32
    omega
  unfold toUnsigned
  rw [h, add_mul, mul_assoc, Int.add_mul_emod_self_left]

theorem replace_value (r v f w : Nat) (h1 : 1 ≤ w) (hfw : f + w ≤ 32) :
    (r &&& bnot (toUnsigned (toInt32 (toInt32 ((mask (w : Int) : Nat) : Int) * 2 ^ f)))) |||
        shl (v &&& toUnsigned (toInt32 ((mask (w : Int) : Nat) : Int))) (f : Int) =
      (r &&& (((2 ^ w - 1) * 2 ^ f) ^^^ 4294967295)) |||
        (((v &&& (2 ^ w - 1)) <<< f) % 4294967296) := by
  have hm : mask (w : Int) = 2 ^ w - 1 := mask_eq w h1 (by omega)
  have hpos : 1 ≤ 2 ^ w := Nat.one_le_two_pow
  have hlt : (2 ^ w - 1) * 2 ^ f < 4294967296 := by
    calc (2 ^ w - 1) * 2 ^ f < 2 ^ w * 2 ^ f :=
          Nat.mul_lt_mul_of_pos_right (by omega) (Nat.two_pow_pos f)
      _ = 2 ^ (w + f) := (pow_add 2 w f).symm
      _ ≤ 2 ^ 32 := Nat.pow_le_pow_right (by decide) (by omega)
  have hlt2 : 2 ^ w - 1 < 4294967296 := by
    calc 2 ^ w - 1 ≤ (2 ^ w - 1) * 2 ^ f := Nat.le_mul_of_pos_right _ (Nat.two_pow_pos f)
      _ < 4294967296 := hlt
  have e1 : toUnsigned (toInt32 ((mask (w : Int) : Nat) : Int)) = 2 ^ w - 1 := by
    rw [toUnsigned_toInt32, toUnsigned_natCast, hm, Nat.mod_eq_of_lt hlt2]
  have e2 : toUnsigned (toInt32 (toInt32 ((mask (w : Int) : Nat) : Int) * 2 ^ f)) =
      (2 ^ w - 1) * 2 ^ f := by
    rw [toUnsigned_toInt32, toUnsigned_toInt32_mul, hm]
    have : (((2 ^ w - 1 : Nat) : Int) * 2 ^ f) = (((2 ^ w - 1) * 2 ^ f : Nat) : Int) := by
      push_cast
      rfl
    rw [this, toUnsigned_natCast, Nat.mod_eq_of_lt hlt]
  rw [e1, e2]
  unfold bnot shl ALLONES
  rw [Nat.mod_eq_of_lt hlt, Int.toNat_ofNat]
theorem fieldargs_cases (cvt2num : String → Option Int) (L : lua_State) (farg f w : Int)
    (hf : index2addr L farg = some (.number f))
    (hw : index2addr L (farg + 1) = some (.number w))
    (hfr : INT_MIN ≤ f ∧ f ≤ INT_MAX) (hwr : INT_MIN ≤ w ∧ w ≤ INT_MAX) :
    fieldargs cvt2num L farg =
      if f < 0 then .raise L (.argerror farg fieldNegative)
      else if w ≤ 0 then .raise L (.argerror (farg + 1) widthPositive)
      else if toInt32 (f + w) > NBITS then .raise L (.error nonExistentBits)
      else .ok L (f, w) := by
  simp only [fieldargs, luaL_checkinteger_number hf, luaL_optinteger_number 1 hw, andThen_ok,
    luaL_argcheck, luai_num2int_eq hfr, luai_num2int_eq hwr]
  by_cases c1 : f < 0
  · simp only [if_pos c1, decide_eq_true_eq, if_neg (not_le.mpr c1), andThen_raise]
  · simp only [if_neg c1, decide_eq_true_eq, if_pos (not_lt.mp c1), andThen_ok]
    by_cases c2 : w ≤ 0
    · simp only [if_pos c2, if_neg (not_lt.mpr c2), andThen_raise]
    · simp only [if_neg c2, if_pos (not_le.mp c2), andThen_ok]

theorem fieldargs_ok (cvt2num : String → Option Int) (L : lua_State) (farg : Int) (f w : Nat)
    (hf : index2addr L farg = some (.number (f : Int)))
    (hw : index2addr L (farg + 1) = some (.number (w : Int)))
    (h1 : 1 ≤ w) (hfw : f + w ≤ 32) :
    fieldargs cvt2num L farg = .ok L ((f : Int), (w : Int)) := by
  rw [fieldargs_cases cvt2num L farg f w hf hw (by unfold INT_MIN INT_MAX; omega)
    (by unfold INT_MIN INT_MAX; omega), if_neg (by omega), if_neg (by omega), if_neg]
  unfold toInt32 NBITS
  omega

theorem b_extract_value (cvt2num : String → Option Int) (L : lua_State) (n f w : Nat)
    (hn : n < 4294967296) (h1 : 1 ≤ w) (hfw : f + w ≤ 32)
    (a1 : index2addr L 1 = some (.number (n : Int)))
    (a2 : index2addr L 2 = some (.number (f : Int)))
    (a3 : index2addr L 3 = some (.number (w : Int))) :
    b_extract cvt2num L = .ok (push L (.number ((n / 2 ^ f % 2 ^ w : Nat) : Int))) 1 := by
  have hu : toUnsigned (n : Int) = n := by rw [toUnsigned_natCast]; exact Nat.mod_eq_of_lt hn
  simp only [b_extract, luaL_checkunsigned_number a1, andThen_ok, hu,
    fieldargs_ok cvt2num L 2 f w a2 a3 h1 hfw, extract_value n f w hn h1 (by omega),
    lua_pushunsigned]

theorem b_replace_value (cvt2num : String → Option Int) (L : lua_State) (n v f w : Nat)
    (hn : n < 4294967296) (hv : v < 4294967296) (h1 : 1 ≤ w) (hfw : f + w ≤ 32)
    (a1 : index2addr L 1 = some (.number (n : Int)))
    (a2 : index2addr L 2 = some (.number (v : Int)))
    (a3 : index2addr L 3 = some (.number (f : Int)))
    (a4 : index2addr L 4 = some (.number (w : Int))) :
    b_replace cvt2num L = .ok (push L (.number (((n &&& (((2 ^ w - 1) * 2 ^ f) ^^^ 4294967295)) |||
        (((v &&& (2 ^ w - 1)) <<< f) % 4294967296) : Nat) : Int))) 1 := by
  have hu : toUnsigned (n : Int) = n := by rw [toUnsigned_natCast]; exact Nat.mod_eq_of_lt hn
  have hu2 : toUnsigned (v : Int) = v := by rw [toUnsigned_natCast]; exact Nat.mod_eq_of_lt hv
  simp only [b_replace, luaL_checkunsigned_number a1, luaL_checkunsigned_number a2, andThen_ok,
    hu, hu2, fieldargs_ok cvt2num L 3 f w a3 a4 h1 hfw, Int.toNat_ofNat,
    replace_value n v f w h1 hfw, lua_pushunsigned]
theorem replace_lt (r v f w : Nat) (hr : r < 4294967296) :
    (r &&& (((2 ^ w - 1) * 2 ^ f) ^^^ 4294967295)) |||
        (((v &&& (2 ^ w - 1)) <<< f) % 4294967296) < 4294967296 := by
  have h32 : (4294967296 : Nat) = 2 ^ 32 := by decide
  rw [h32] at hr ⊢
  exact Nat.or_lt_two_pow (lt_of_le_of_lt Nat.and_le_left hr) (Nat.mod_lt _ (Nat.two_pow_pos 32))

theorem replace_field (r v f w : Nat) (hr : r < 4294967296) (hfw : f + w ≤ 32) :
    ((r &&& (((2 ^ w - 1) * 2 ^ f) ^^^ 4294967295)) |||
        (((v &&& (2 ^ w - 1)) <<< f) % 4294967296)) / 2 ^ f % 2 ^ w = v % 2 ^ w := by
  apply Nat.eq_of_testBit_eq
  intro j
  rw [Nat.testBit_mod_two_pow, Nat.testBit_mod_two_pow, ← Nat.shiftRight_eq_div_pow,
    Nat.testBit_shiftRight, replace_testBit r v f w hr hfw]
  by_cases c : j < w
  · rw [if_pos ⟨by omega, by omega⟩, show f + j - f = j by omega]
  · simp [c]

theorem replace_other (r v f w f2 w2 : Nat) (hr : r < 4294967296) (hfw : f + w ≤ 32)
    (hd : f2 + w2 ≤ f ∨ f + w ≤ f2) :
    ((r &&& (((2 ^ w - 1) * 2 ^ f) ^^^ 4294967295)) |||
        (((v &&& (2 ^ w - 1)) <<< f) % 4294967296)) / 2 ^ f2 % 2 ^ w2 = r / 2 ^ f2 % 2 ^ w2 := by
  apply Nat.eq_of_testBit_eq
  intro j
  rw [Nat.testBit_mod_two_pow, Nat.testBit_mod_two_pow, ← Nat.shiftRight_eq_div_pow,
    ← Nat.shiftRight_eq_div_pow, Nat.testBit_shiftRight, Nat.testBit_shiftRight,
    replace_testBit r v f w hr hfw]
  by_cases c : j < w2
  · rw [if_neg (by omega)]
  · simp [c]

theorem valueOutOfRange_eq : valueOutOfRange = "value out of range" := by decide

theorem cont_fact (y : Nat) :
    iscont ((0x80 ||| (y &&& 0x3f)) % 256) = true ∧
    ((0x80 ||| (y &&& 0x3f)) % 256) &&& 0x3F = y % 64 ∧
    0x80 ≤ (0x80 ||| (y &&& 0x3f)) % 256 := by
  have h : y &&& 0x3f = y % 64 := Nat.and_pow_two_sub_one_eq_mod y 6
  rw [h]
  have hd : y % 64 < 64 := Nat.mod_lt _ (by decide)
  generalize y % 64 = d at hd
  interval_cases d <;> decide

theorem lead2_fact (a : Nat) (ha : a < 32) :
    0xC0 ≤ (shl (bnot 0x1f) 1 ||| a) % 256 ∧ (shl (bnot 0x1f) 1 ||| a) % 256 < 0xE0 ∧
    ((shl (bnot 0x1f) 1 ||| a) % 256) &&& 0x1F = a := by
  interval_cases a <;> decide

theorem lead3_fact (a : Nat) (ha : a < 16) :
    0xE0 ≤ (shl (bnot 0xf) 1 ||| a) % 256 ∧ (shl (bnot 0xf) 1 ||| a) % 256 < 0xF0 ∧
    ((shl (bnot 0xf) 1 ||| a) % 256) &&& 0x0F = a := by
  interval_cases a <;> decide

theorem lead4_fact (a : Nat) (ha : a < 8) :
    0xF0 ≤ (shl (bnot 0x7) 1 ||| a) % 256 ∧ (shl (bnot 0x7) 1 ||| a) % 256 < 0xF8 ∧
    ((shl (bnot 0x7) 1 ||| a) % 256) &&& 0x07 = a := by
  interval_cases a <;> decide

theorem join6 (p d : Nat) (hd : d < 64) : (p <<< 6) ||| d = p * 64 + d := by
  rw [Nat.shiftLeft_eq, Nat.mul_comm p]
  exact (Nat.mul_add_lt_is_or hd p).symm

theorem join12 (a c d : Nat) (hc : c < 64) (hd : d < 64) :
    (a <<< 12) ||| (c <<< 6) ||| d = (a * 64 + c) * 64 + d := by
  rw [show a <<< 12 = (a <<< 6) <<< 6 from Nat.shiftLeft_add a 6 6, ← shiftLeft_or, join6 a c hc,
    join6 _ d hd]

theorem join18 (a b c d : Nat) (hb : b < 64) (hc : c < 64) (hd : d < 64) :
    (a <<< 18) ||| (b <<< 12) ||| (c <<< 6) ||| d = ((a * 64 + b) * 64 + c) * 64 + d := by
  rw [show a <<< 18 = (a <<< 12) <<< 6 from Nat.shiftLeft_add a 12 6,
    show b <<< 12 = (b <<< 6) <<< 6 from Nat.shiftLeft_add b 6 6, ← shiftLeft_or, ← shiftLeft_or,
    show a <<< 12 = (a <<< 6) <<< 6 from Nat.shiftLeft_add a 6 6, ← shiftLeft_or, join6 a b hb,
    join6 _ c hc, join6 _ d hd]
theorem tail_one (buff : List Nat) (h : buff.length = 8) (a : Nat) :
    ((buff.set 7 a).drop 7).take 1 = [a] := by
  match buff, h with
  | [_, _, _, _, _, _, _, _], _ => rfl

theorem tail_two (buff : List Nat) (h : buff.length = 8) (a b : Nat) :
    ((((buff.set 7 a).set 6 b)).drop 6).take 2 = [b, a] := by
  match buff, h with
  | [_, _, _, _, _, _, _, _], _ => rfl

theorem tail_three (buff : List Nat) (h : buff.length = 8) (a b c : Nat) :
    (((((buff.set 7 a).set 6 b).set 5 c)).drop 5).take 3 = [c, b, a] := by
  match buff, h with
  | [_, _, _, _, _, _, _, _], _ => rfl

theorem tail_four (buff : List Nat) (h : buff.length = 8) (a b c d : Nat) :
    ((((((buff.set 7 a).set 6 b).set 5 c).set 4 d)).drop 4).take 4 = [d, c, b, a] := by
  match buff, h with
  | [_, _, _, _, _, _, _, _], _ => rfl

theorem utf8esc_one (buff : List Nat) (x : Nat) (h : x < 0x80) :
    luaO_utf8esc buff x = (buff.set 7 (x % 256), 1) := by
  simp only [luaO_utf8esc, if_pos h, UTF8BUFFSZ]

theorem utf8esc_two (buff : List Nat) (x : Nat) (h1 : 0x80 ≤ x) (h2 : x < 0x800) :
    luaO_utf8esc buff x =
      ((buff.set 7 ((0x80 ||| (x &&& 0x3f)) % 256)).set 6
        ((shl (bnot 0x1f) 1 ||| (x >>> 6)) % 256), 2) := by
  have c1 : ¬ x >>> 6 > 0x3f >>> 1 := by
    rw [Nat.shiftRight_eq_div_pow]
    have : (0x3f : Nat) >>> 1 = 31 := by decide
    rw [this]
    omega
  simp only [luaO_utf8esc, if_neg (not_lt.mpr h1), escLoop, if_neg c1, UTF8BUFFSZ]
  rfl

theorem utf8esc_three (buff : List Nat) (x : Nat) (h1 : 0x800 ≤ x) (h2 : x < 0x10000) :
    luaO_utf8esc buff x =
      (((buff.set 7 ((0x80 ||| (x &&& 0x3f)) % 256)).set 6
        ((0x80 ||| (x >>> 6 &&& 0x3f)) % 256)).set 5
        ((shl (bnot 0xf) 1 ||| (x >>> 6 >>> 6)) % 256), 3) := by
  have c1 : x >>> 6 > 0x3f >>> 1 := by
    rw [Nat.shiftRight_eq_div_pow]
    have : (0x3f : Nat) >>> 1 = 31 := by decide
    rw [this]
    omega
  have c2 : ¬ x >>> 6 >>> 6 > 0x3f >>> 1 >>> 1 := by
    rw [Nat.shiftRight_eq_div_pow, Nat.shiftRight_eq_div_pow]
    have : (0x3f : Nat) >>> 1 >>> 1 = 15 := by decide
    rw [this]
    omega
  simp only [luaO_utf8esc, if_neg (not_lt.mpr (show 0x80 ≤ x by omega)), escLoop, if_pos c1,
    if_neg c2, UTF8BUFFSZ]
  rfl

theorem utf8esc_four (buff : List Nat) (x : Nat) (h1 : 0x10000 ≤ x) (h2 : x ≤ 0x10FFFF) :
    luaO_utf8esc buff x =
      ((((buff.set 7 ((0x80 ||| (x &&& 0x3f)) % 256)).set 6
        ((0x80 ||| (x >>> 6 &&& 0x3f)) % 256)).set 5
        ((0x80 ||| (x >>> 6 >>> 6 &&& 0x3f)) % 256)).set 4
        ((shl (bnot 0x7) 1 ||| (x >>> 6 >>> 6 >>> 6)) % 256), 4) := by
  have c1 : x >>> 6 > 0x3f >>> 1 := by
    rw [Nat.shiftRight_eq_div_pow]
    have : (0x3f : Nat) >>> 1 = 31 := by decide
    rw [this]
    omega
  have c2 : x >>> 6 >>> 6 > 0x3f >>> 1 >>> 1 := by
    rw [Nat.shiftRight_eq_div_pow, Nat.shiftRight_eq_div_pow]
    have : (0x3f : Nat) >>> 1 >>> 1 = 15 := by decide
    rw [this]
    omega
  have c3 : ¬ x >>> 6 >>> 6 >>> 6 > 0x3f >>> 1 >>> 1 >>> 1 := by
    rw [Nat.shiftRight_eq_div_pow, Nat.shiftRight_eq_div_pow, Nat.shiftRight_eq_div_pow]
    have : (0x3f : Nat) >>> 1 >>> 1 >>> 1 = 7 := by decide
    rw [this]
    omega
  simp only [luaO_utf8esc, if_neg (not_lt.mpr (show 0x80 ≤ x by omega)), escLoop, if_pos c1,
    if_pos c2, if_neg c3, UTF8BUFFSZ]
  rfl
theorem scalarOk_of_range (k x : Nat)
    (hlo : [0x7F, 0x7FF, 0xFFFF].getD (k - 1) 0 < x) (hx : x ≤ 0x10FFFF)
    (hs : ¬ (0xD800 ≤ x ∧ x ≤ 0xDFFF)) : scalarOk k x = true := by
  simp only [scalarOk, Bool.and_eq_true, decide_eq_true_eq, Bool.not_eq_true',
    decide_eq_false_iff_not]
  exact ⟨⟨hlo, hx⟩, hs⟩

theorem decode_two (x : Nat) (h1 : 0x80 ≤ x) (h2 : x < 0x800) :
    utf8_decode [(shl (bnot 0x1f) 1 ||| (x >>> 6)) % 256, (0x80 ||| (x &&& 0x3f)) % 256] =
      some (x, 2) := by
  have ha : x >>> 6 < 32 := by rw [Nat.shiftRight_eq_div_pow]; omega
  obtain ⟨l1, l2, l3⟩ := lead2_fact (x >>> 6) ha
  obtain ⟨k1, k2, -⟩ := cont_fact x
  have hv : ((x >>> 6) <<< 6) ||| (x % 64) = x := by
    rw [join6 _ _ (Nat.mod_lt _ (by decide)), Nat.shiftRight_eq_div_pow]
    omega
  rw [utf8_decode_eq _ (by
    intro b hb
    simp only [List.mem_cons, List.mem_singleton, List.not_mem_nil, or_false] at hb
    rcases hb with rfl | rfl <;> exact Nat.mod_lt _ (by decide))]
  unfold wellFormed
  simp only [byteAt, List.getD_cons_zero, List.getD_cons_succ]
  rw [if_neg (by omega), if_pos ⟨l1, l2⟩, l3, k2, hv, k1,
    scalarOk_of_range 1 x (by simpa using h1) (by omega) (by omega)]
  simp

theorem decode_three (x : Nat) (h1 : 0x800 ≤ x) (h2 : x < 0x10000)
    (hs : ¬ (0xD800 ≤ x ∧ x ≤ 0xDFFF)) :
    utf8_decode [(shl (bnot 0xf) 1 ||| (x >>> 6 >>> 6)) % 256,
      (0x80 ||| (x >>> 6 &&& 0x3f)) % 256, (0x80 ||| (x &&& 0x3f)) % 256] = some (x, 3) := by
  have ha : x >>> 6 >>> 6 < 16 := by
    rw [Nat.shiftRight_eq_div_pow, Nat.shiftRight_eq_div_pow]; omega
  obtain ⟨l1, l2, l3⟩ := lead3_fact (x >>> 6 >>> 6) ha
  obtain ⟨k1, k2, -⟩ := cont_fact x
  obtain ⟨m1, m2, -⟩ := cont_fact (x >>> 6)
  have hv : ((x >>> 6 >>> 6) <<< 12) ||| ((x >>> 6 % 64) <<< 6) ||| (x % 64) = x := by
    rw [join12 _ _ _ (Nat.mod_lt _ (by decide)) (Nat.mod_lt _ (by decide)),
      Nat.shiftRight_eq_div_pow, Nat.shiftRight_eq_div_pow]
    omega
  rw [utf8_decode_eq _ (by
    intro b hb
    simp only [List.mem_cons, List.mem_singleton, List.not_mem_nil, or_false] at hb
    rcases hb with rfl | rfl | rfl <;> exact Nat.mod_lt _ (by decide))]
  unfold wellFormed
  simp only [byteAt, List.getD_cons_zero, List.getD_cons_succ]
  rw [if_neg (by omega), if_neg (by omega), if_pos ⟨l1, l2⟩, l3, k2, m2, hv, k1, m1,
    scalarOk_of_range 2 x (by simpa using h1) (by omega) hs]
  simp

theorem decode_four (x : Nat) (h1 : 0x10000 ≤ x) (h2 : x ≤ 0x10FFFF) :
    utf8_decode [(shl (bnot 0x7) 1 ||| (x >>> 6 >>> 6 >>> 6)) % 256,
      (0x80 ||| (x >>> 6 >>> 6 &&& 0x3f)) % 256, (0x80 ||| (x >>> 6 &&& 0x3f)) % 256,
      (0x80 ||| (x &&& 0x3f)) % 256] = some (x, 4) := by
  have ha : x >>> 6 >>> 6 >>> 6 < 8 := by
    rw [Nat.shiftRight_eq_div_pow, Nat.shiftRight_eq_div_pow, Nat.shiftRight_eq_div_pow]; omega
  obtain ⟨l1, l2, l3⟩ := lead4_fact (x >>> 6 >>> 6 >>> 6) ha
  obtain ⟨k1, k2, -⟩ := cont_fact x
  obtain ⟨m1, m2, -⟩ := cont_fact (x >>> 6)
  obtain ⟨n1, n2, -⟩ := cont_fact (x >>> 6 >>> 6)
  have hv : ((x >>> 6 >>> 6 >>> 6) <<< 18) ||| ((x >>> 6 >>> 6 % 64) <<< 12) |||
      ((x >>> 6 % 64) <<< 6) ||| (x % 64) = x := by
    rw [join18 _ _ _ _ (Nat.mod_lt _ (by decide)) (Nat.mod_lt _ (by decide))
      (Nat.mod_lt _ (by decide)),
      Nat.shiftRight_eq_div_pow, Nat.shiftRight_eq_div_pow, Nat.shiftRight_eq_div_pow]
    omega
  rw [utf8_decode_eq _ (by
    intro b hb
    simp only [List.mem_cons, List.mem_singleton, List.not_mem_nil, or_false] at hb
    rcases hb with rfl | rfl | rfl | rfl <;> exact Nat.mod_lt _ (by decide))]
  unfold wellFormed
  simp only [byteAt, List.getD_cons_zero, List.getD_cons_succ]
  rw [if_neg (by omega), if_neg (by omega), if_neg (by omega), if_pos ⟨l1, l2⟩, l3, k2, m2, n2,
    hv, k1, m1, n1, scalarOk_of_range 3 x (by simpa using h1) (by omega) (by omega)]
  simp

theorem decode_one (x : Nat) (h : x < 0x80) : utf8_decode [x % 256] = some (x, 1) := by
  have hx : x % 256 = x := Nat.mod_eq_of_lt (by omega)
  simp only [utf8_decode, byteAt, List.getD_cons_zero, hx, if_pos h]

theorem utf8esc_roundtrip (buff : List Nat) (hb : buff.length = 8) (x : Nat)
    (hx : x ≤ 0x10FFFF) (hs : ¬ (0xD800 ≤ x ∧ x ≤ 0xDFFF)) :
    (luaO_utf8esc buff x).2 =
      (if x < 0x80 then 1 else if x < 0x800 then 2 else if x < 0x10000 then 3 else 4) ∧
    utf8_decode (((luaO_utf8esc buff x).1.drop (UTF8BUFFSZ - (luaO_utf8esc buff x).2)).take
      (luaO_utf8esc buff x).2) = some (x, (luaO_utf8esc buff x).2) := by
  by_cases c1 : x < 0x80
  · rw [utf8esc_one buff x c1, if_pos c1]
    exact ⟨rfl, by
      show utf8_decode (((buff.set 7 (x % 256)).drop 7).take 1) = _
      rw [tail_one buff hb]; exact decode_one x c1⟩
  · by_cases c2 : x < 0x800
    · rw [utf8esc_two buff x (by omega) c2, if_neg c1, if_pos c2]
      exact ⟨rfl, by
        show utf8_decode ((((buff.set 7 _).set 6 _).drop 6).take 2) = _
        rw [tail_two buff hb]; exact decode_two x (by omega) c2⟩
    · by_cases c3 : x < 0x10000
      · rw [utf8esc_three buff x (by omega) c3, if_neg c1, if_neg c2, if_pos c3]
        exact ⟨rfl, by
          show utf8_decode (((((buff.set 7 _).set 6 _).set 5 _).drop 5).take 3) = _
          rw [tail_three buff hb]; exact decode_three x (by omega) c3 hs⟩
      · rw [utf8esc_four buff x (by omega) hx, if_neg c1, if_neg c2, if_neg c3]
        exact ⟨rfl, by
          show utf8_decode ((((((buff.set 7 _).set 6 _).set 5 _).set 4 _).drop 4).take 4) = _
          rw [tail_four buff hb]; exact decode_four x (by omega) hx⟩
theorem buffutfchar_number (cvt2num : String → Option Int) (L : lua_State) (arg : Int)
    (buff : List Nat) (code : Int) (h : index2addr L arg = some (.number code)) :
    buffutfchar cvt2num L arg buff =
      if 0 ≤ code ∧ code ≤ 0x10FFFF then
        .ok L ((luaO_utf8esc buff code.toNat).1,
          ((luaO_utf8esc buff code.toNat).1.drop
            (UTF8BUFFSZ - (luaO_utf8esc buff code.toNat).2)).take (luaO_utf8esc buff code.toNat).2)
      else .raise L (.argerror arg valueOutOfRange) := by
  simp only [buffutfchar, luaL_checkinteger_number h, andThen_ok, luaL_argcheck, MAXUNICODE]
  by_cases c : 0 ≤ code ∧ code ≤ 0x10FFFF
  · have c2 : (0 ≤ code ∧ code ≤ ((0x10FFFF : Nat) : Int)) := c
    have e : luai_num2int code = code :=
      luai_num2int_eq (by unfold INT_MIN INT_MAX; omega)
    simp only [e, if_pos c, decide_eq_true_eq, if_pos c2, andThen_ok]
  · have c2 : ¬ (0 ≤ luai_num2int code ∧ luai_num2int code ≤ ((0x10FFFF : Nat) : Int)) := by
      by_cases r : INT_MIN ≤ code ∧ code ≤ INT_MAX
      · rw [luai_num2int_eq r]
        exact c
      · rw [luai_num2int_out r]
        unfold INT_MIN
        omega
    simp only [if_neg c, decide_eq_true_eq, if_neg c2, andThen_raise]

theorem utfcharLoop_spec (cvt2num : String → Option Int) (L : lua_State) :
    ∀ (codes : List Int) (i : Int) (buff : List Nat) (b : luaL_Strbuf),
      (∀ (j : Nat) (hj : j < codes.length),
        index2addr L (i + j) = some (.number (codes.get ⟨j, hj⟩))) →
      ((∀ c ∈ codes, 0 ≤ c ∧ c ≤ 0x10FFFF) →
        ∃ bytes, utfcharLoop cvt2num codes.length i L buff b = .ok L bytes) ∧
      ((∃ c ∈ codes, c < 0 ∨ 0x10FFFF < c) →
        ∃ k, utfcharLoop cvt2num codes.length i L buff b =
          .raise L (.argerror k valueOutOfRange)) := by
  intro codes
  induction codes with
  | nil =>
    intro i buff b _
    exact ⟨fun _ => ⟨b, rfl⟩, fun ⟨c, hc, _⟩ => absurd hc (List.not_mem_nil c)⟩
  | cons c cs ih =>
    intro i buff b hidx
    have h0 : index2addr L i = some (.number c) := by
      have := hidx 0 (by simp)
      simpa using this
    have hrest : ∀ (j : Nat) (hj : j < cs.length),
        index2addr L (i + 1 + j) = some (.number (cs.get ⟨j, hj⟩)) := by
      intro j hj
      have := hidx (j + 1) (by simp; omega)
      rw [show i + 1 + (j : Int) = i + ((j + 1 : Nat) : Int) by push_cast; ring]
      simpa using this
    simp only [List.length_cons, utfcharLoop, buffutfchar_number cvt2num L i buff c h0]
    by_cases hc : 0 ≤ c ∧ c ≤ 0x10FFFF
    · simp only [if_pos hc, andThen_ok]
      obtain ⟨ih1, ih2⟩ := ih (i + 1) (luaO_utf8esc buff c.toNat).1
        (luaL_addlstring b (((luaO_utf8esc buff c.toNat).1.drop
          (UTF8BUFFSZ - (luaO_utf8esc buff c.toNat).2)).take (luaO_utf8esc buff c.toNat).2)) hrest
      refine ⟨fun hall => ih1 (fun d hd => hall d (List.mem_cons_of_mem c hd)), ?_⟩
      rintro ⟨d, hd, hbad⟩
      rcases List.mem_cons.mp hd with rfl | hd2
      · omega
      · exact ih2 ⟨d, hd2, hbad⟩
    · simp only [if_neg hc, andThen_raise]
      refine ⟨fun hall => absurd (hall c (List.mem_cons_self c cs)) hc, fun _ => ⟨i, rfl⟩⟩
theorem index2addr_numbers (L : lua_State) (codes : List Int) (hL : L.stack = codes.map .number)
    (j : Nat) (hj : j < codes.length) :
    index2addr L (1 + j) = some (.number (codes.get ⟨j, hj⟩)) := by
  unfold index2addr
  rw [if_pos (by omega), show ((1 : Int) + j - 1).toNat = j by omega, hL]
  simp [hj]

theorem luaH_resizearray_readonly (t : LuaTable) (n : Nat) :
    (luaH_resizearray t n).readonly = t.readonly := by
  unfold luaH_resizearray
  split <;> rfl

theorem luaH_setnum_readonly (t : LuaTable) (k : Int) (v : TValue) :
    (luaH_setnum t k v).readonly = t.readonly := by
  unfold luaH_setnum
  split
  · rfl
  · split
    · exact luaH_resizearray_readonly t _
    · rfl

theorem getTable_setTable (L : lua_State) (h : Nat) (t : LuaTable) (hh : h < L.tables.length) :
    getTable (setTable L h t) h = t := by
  simp [getTable, setTable, List.getD_eq_getElem?_getD, hh]

theorem tableAt_setTable (L : lua_State) (h : Nat) (t : LuaTable) (idx : Int) :
    tableAt (setTable L h t) idx = tableAt L idx := rfl

theorem index2addr_neg_push (L : lua_State) (idx : Int) (w v : TValue) (hneg : idx < 0)
    (hv : index2addr L idx = some v) : index2addr (push L w) (idx - 1) = some v := by
  unfold index2addr at hv ⊢
  rw [if_neg (by omega)] at hv ⊢
  by_cases hb : idx < 0 ∧ -idx ≤ (L.stack.length : Int)
  · rw [if_pos hb] at hv
    have hb2 : idx - 1 < 0 ∧ -(idx - 1) ≤ ((push L w).stack.length : Int) := by
      simp only [push, List.length_append, List.length_singleton]
      push_cast
      omega
    rw [if_pos hb2]
    simp only [push, List.length_append, List.length_singleton]
    have e : L.stack.length + 1 - (-(idx - 1)).toNat = L.stack.length - (-idx).toNat := by omega
    rw [e, List.getElem?_append_left (by omega)]
    exact hv
  · rw [if_neg hb] at hv
    cases hv

theorem tableAt_neg_push (L : lua_State) (idx : Int) (w : TValue) (h : Nat) (hneg : idx < 0)
    (ht : tableAt L idx = some h) : tableAt (push L w) (idx - 1) = some h := by
  unfold tableAt at ht ⊢
  cases hq : index2addr L idx with
  | none => simp [hq] at ht
  | some v =>
    rw [index2addr_neg_push L idx w v hneg hq]
    rw [hq] at ht
    exact ht

theorem lua_settable_top (L : lua_State) (h : Nat) (k : Int) (bytes : List Nat)
    (ht : tableAt L (-1) = some h) (hr : (getTable L h).readonly = false) :
    lua_settable (lua_pushlstring (lua_pushinteger L k) bytes) (-3) =
      .ok (setTable L h (luaH_setnum (getTable L h) k
        (.string (String.mk (bytes.map Char.ofNat))))) () := by
  have h3 : tableAt (lua_pushlstring (lua_pushinteger L k) bytes) (-3) = some h :=
    tableAt_neg_push (push L (.number k)) (-2) _ h (by decide)
      (tableAt_neg_push L (-1) _ h (by decide) ht)
  have hg : getTable (lua_pushlstring (lua_pushinteger L k) bytes) h = getTable L h := rfl
  unfold lua_settable
  simp only [h3, hg, hr, Bool.false_eq_true, if_false]
  simp [lua_pushlstring, lua_pushinteger, push, setTable]
theorem splitLoop_eq (hay needle : List Nat) :
    ∀ (fuel iter spanStart : Nat) (k : Int) (L : lua_State) (h : Nat),
      tableAt L (-1) = some h → (getTable L h).readonly = false → h < L.tables.length →
      splitLoop hay needle fuel iter spanStart k L =
        .ok (storePieces h k (loopPieces hay needle fuel iter spanStart).1 L)
          ((loopPieces hay needle fuel iter spanStart).2,
            k + ((loopPieces hay needle fuel iter spanStart).1.length : Int)) := by
  intro fuel
  induction fuel with
  | zero =>
    intro iter spanStart k L h _ _ _
    simp [splitLoop, loopPieces, storePieces]
  | succ fuel ih =>
    intro iter spanStart k L h ht hr hh
    unfold splitLoop loopPieces
    by_cases c1 : (iter : Int) ≤ (hay.length : Int) - (needle.length : Int)
    · rw [if_pos c1, if_pos c1]
      by_cases c2 : (hay.drop iter).take needle.length = needle
      · rw [if_pos c2, if_pos c2]
        simp only []
        rw [lua_settable_top L h (k + 1) _ ht hr, andThen_ok]
        have hh1 : h < (setTable L h (luaH_setnum (getTable L h) (k + 1)
            (.string (String.mk (((hay.drop spanStart).take (iter - spanStart)).map
              Char.ofNat))))).tables.length := by
          simp [setTable, hh]
        have hr1 : (getTable (setTable L h (luaH_setnum (getTable L h) (k + 1)
            (.string (String.mk (((hay.drop spanStart).take (iter - spanStart)).map
              Char.ofNat))))) h).readonly = false := by
          rw [getTable_setTable L h _ hh, luaH_setnum_readonly, hr]
        rw [ih _ _ (k + 1) _ h (by rw [tableAt_setTable]; exact ht) hr1 hh1]
        simp only [storePieces, List.length_cons]
        push_cast
        rw [show k + 1 + ((loopPieces hay needle fuel
          ((if needle.length > 0 then iter + (needle.length - 1) else iter) + 1)
          (iter + needle.length)).1.length : Int) = k + (((loopPieces hay needle fuel
          ((if needle.length > 0 then iter + (needle.length - 1) else iter) + 1)
          (iter + needle.length)).1.length : Int) + 1) by ring]
      · rw [if_neg c2, if_neg c2]
        exact ih _ _ k L h ht hr hh
    · rw [if_neg c1, if_neg c1]
      simp [storePieces]
theorem storePieces_stack (h : Nat) : ∀ (pieces : List (List Nat)) (k : Int) (L : lua_State),
    (storePieces h k pieces L).stack = L.stack ∧
    (storePieces h k pieces L).tables.length = L.tables.length := by
  intro pieces
  induction pieces with
  | nil => intro k L; exact ⟨rfl, rfl⟩
  | cons p ps ih =>
    intro k L
    obtain ⟨a, b⟩ := ih (k + 1) (setTable L h (luaH_setnum (getTable L h) (k + 1)
      (.string (String.mk (p.map Char.ofNat)))))
    exact ⟨a, by rw [storePieces, b]; simp [setTable]⟩

theorem storePieces_getnum (h : Nat) : ∀ (pieces : List (List Nat)) (k : Int) (L : lua_State),
    h < L.tables.length → ∀ i : Int,
      luaH_getnum (getTable (storePieces h k pieces L) h) i =
        if k < i ∧ i ≤ k + pieces.length then
          .string (String.mk ((pieces.getD (i - k - 1).toNat []).map Char.ofNat))
        else luaH_getnum (getTable L h) i := by
  intro pieces
  induction pieces with
  | nil =>
    intro k L _ i
    rw [if_neg (by simp only [List.length_nil]; push_cast; omega)]
    rfl
  | cons p ps ih =>
    intro k L hh i
    have hh1 : h < (setTable L h (luaH_setnum (getTable L h) (k + 1)
        (.string (String.mk (p.map Char.ofNat))))).tables.length := by
      simp [setTable, hh]
    rw [storePieces, ih (k + 1) _ hh1 i, getTable_setTable L h _ hh, luaH_getnum_setnum]
    simp only [List.length_cons]
    push_cast
    by_cases c1 : k + 1 < i ∧ i ≤ k + 1 + (ps.length : Int)
    · rw [if_pos c1, if_pos (by omega)]
      have e : (i - k - 1).toNat = (i - (k + 1) - 1).toNat + 1 := by omega
      rw [e, List.getD_cons_succ]
    · rw [if_neg c1]
      by_cases c2 : i = k + 1
      · rw [if_pos c2, if_pos (by omega)]
        have e : (i - k - 1).toNat = 0 := by omega
        rw [e, List.getD_cons_zero]
      · rw [if_neg c2, if_neg (by omega)]
theorem joinPieces_cons (sep p : List Nat) (ps : List (List Nat)) (h : ps ≠ []) :
    joinPieces sep (p :: ps) = p ++ sep ++ joinPieces sep ps := by
  cases ps with
  | nil => exact absurd rfl h
  | cons q rest => rfl

theorem infix_take (needle m : List Nat) (j : Nat) (h : needle <:+: m.take j) :
    ∃ q, q + needle.length ≤ j ∧ q + needle.length ≤ m.length ∧
      (m.drop q).take needle.length = needle := by
  obtain ⟨a, b, hab⟩ := h
  have hlen : a.length + needle.length + b.length = (m.take j).length := by
    rw [← hab]
    simp only [List.length_append]
  have hle : (m.take j).length ≤ j ∧ (m.take j).length ≤ m.length := by
    rw [List.length_take]
    omega
  refine ⟨a.length, by omega, by omega, ?_⟩
  have hm : m = a ++ needle ++ b ++ m.drop j := by
    rw [hab]
    exact (List.take_append_drop j m).symm
  have hd : m.drop a.length = needle ++ (b ++ m.drop j) := by
    conv_lhs => rw [hm]
    rw [List.append_assoc, List.append_assoc, List.drop_left]
  rw [hd, List.take_left]
/-- No occurrence of the needle in the tail from `s` when no position from `s` on that leaves
room for it matches. -/
theorem no_infix_tail (hay needle : List Nat) (s : Nat) (hs : s ≤ hay.length)
    (inv : ∀ p, s ≤ p → p + needle.length ≤ hay.length →
      (hay.drop p).take needle.length ≠ needle) :
    ¬ needle <:+: hay.drop s := by
  intro hinf
  have h2 : needle <:+: (hay.drop s).take (hay.drop s).length := by
    rw [List.take_length]
    exact hinf
  obtain ⟨q, -, hq2, hq3⟩ := infix_take needle (hay.drop s) _ h2
  rw [List.drop_drop] at hq3
  rw [List.length_drop] at hq2
  exact inv (s + q) (by omega) (by omega) hq3

/-- No occurrence of the needle in a piece followed by the needle without its last byte. -/
theorem no_infix_piece (hay needle : List Nat) (s i : Nat) (hn : 0 < needle.length)
    (hsi : s ≤ i)
    (hm : (hay.drop i).take needle.length = needle)
    (inv : ∀ p, s ≤ p → p < i → (hay.drop p).take needle.length ≠ needle) :
    ¬ needle <:+: (hay.drop s).take (i - s) ++ needle.dropLast := by
  intro hinf
  have e0 : needle.take (needle.length - 1) =
      ((hay.drop i).take needle.length).take (needle.length - 1) := by rw [hm]
  have e1 : needle.dropLast = ((hay.drop s).drop (i - s)).take (needle.length - 1) := by
    rw [List.dropLast_eq_take, List.drop_drop, show s + (i - s) = i by omega, e0,
      List.take_take, Nat.min_eq_left (by omega)]
  rw [e1, ← List.take_add] at hinf
  obtain ⟨q, hq1, hq2, hq3⟩ := infix_take needle (hay.drop s) _ hinf
  rw [List.drop_drop] at hq3
  exact inv (s + q) (by omega) (by omega) hq3

theorem split_reassemble (hay needle : List Nat) (s i : Nat) (hsi : s ≤ i)
    (hm : (hay.drop i).take needle.length = needle) :
    (hay.drop s).take (i - s) ++ needle ++ hay.drop (i + needle.length) = hay.drop s := by
  have e2 : hay.drop (i + needle.length) = (hay.drop i).drop needle.length := by
    rw [List.drop_drop]
  have e3 : hay.drop i = (hay.drop s).drop (i - s) := by
    rw [List.drop_drop, show s + (i - s) = i by omega]
  have e4 : needle ++ hay.drop (i + needle.length) = hay.drop i := by
    rw [e2]
    conv_lhs => lhs; rw [← hm]
    exact List.take_append_drop _ _
  rw [List.append_assoc, e4, e3, List.take_append_drop]

theorem loopPieces_spec (hay needle : List Nat) (hn : 0 < needle.length) :
    ∀ (fuel iter spanStart : Nat), spanStart ≤ iter → spanStart ≤ hay.length →
      hay.length + 1 ≤ fuel + iter →
      (∀ p, spanStart ≤ p → p < iter → (hay.drop p).take needle.length ≠ needle) →
      joinPieces needle ((loopPieces hay needle fuel iter spanStart).1 ++
          [hay.drop (loopPieces hay needle fuel iter spanStart).2]) = hay.drop spanStart ∧
      (∀ x ∈ (loopPieces hay needle fuel iter spanStart).1,
        ¬ needle <:+: x ++ needle.dropLast) ∧
      ¬ needle <:+: hay.drop (loopPieces hay needle fuel iter spanStart).2 := by
  intro fuel
  induction fuel with
  | zero =>
    intro iter s hsi hs hf inv
    simp only [loopPieces, List.nil_append, joinPieces, List.not_mem_nil, false_implies,
      implies_true, true_and]
    exact no_infix_tail hay needle s hs (fun p h1 h2 => inv p h1 (by omega))
  | succ fuel ih =>
    intro iter s hsi hs hf inv
    unfold loopPieces
    by_cases c1 : (iter : Int) ≤ (hay.length : Int) - (needle.length : Int)
    · rw [if_pos c1]
      by_cases c2 : (hay.drop iter).take needle.length = needle
      · rw [if_pos c2]
        simp only [if_pos hn]
        have e : iter + (needle.length - 1) + 1 = iter + needle.length := by omega
        rw [e]
        obtain ⟨j1, j2, j3⟩ := ih (iter + needle.length) (iter + needle.length) (le_refl _)
          (by omega) (by omega) (fun p h1 h2 => by omega)
        refine ⟨?_, ?_, j3⟩
        · rw [List.cons_append, joinPieces_cons _ _ _ (by simp), j1]
          exact split_reassemble hay needle s iter hsi c2
        · intro x hx
          rcases List.mem_cons.mp hx with rfl | hx2
          · exact no_infix_piece hay needle s iter hn hsi c2 inv
          · exact j2 x hx2
      · rw [if_neg c2]
        exact ih (iter + 1) s (by omega) hs (by omega) (fun p h1 h2 => by
          by_cases hp : p = iter
          · subst hp
            exact c2
          · exact inv p h1 (by omega))
    · rw [if_neg c1]
      simp only [List.nil_append, joinPieces, List.not_mem_nil, false_implies,
        implies_true, true_and]
      exact no_infix_tail hay needle s hs (fun p h1 h2 => inv p h1 (by omega))

theorem loopPieces_empty (hay : List Nat) :
    ∀ (fuel iter : Nat), 1 ≤ iter → hay.length + 1 ≤ fuel + iter →
      (loopPieces hay [] fuel iter (iter - 1)).1 = (hay.drop (iter - 1)).map fun b => [b] := by
  intro fuel
  induction fuel with
  | zero =>
    intro iter h1 hf
    rw [List.drop_of_length_le (by omega)]
    rfl
  | succ fuel ih =>
    intro iter h1 hf
    unfold loopPieces
    by_cases c1 : (iter : Int) ≤ (hay.length : Int) - (([] : List Nat).length : Int)
    · rw [if_pos c1, if_pos (by simp)]
      simp only [List.length_nil, Nat.lt_irrefl, if_false, Nat.add_zero]
      have hlt : iter - 1 < hay.length := by
        simp only [List.length_nil] at c1
        omega
      have := ih (iter + 1) (by omega) (by omega)
      rw [show iter + 1 - 1 = iter by omega] at this
      rw [this, show iter - (iter - 1) = 1 by omega]
      conv_rhs => rw [List.drop_eq_getElem_cons hlt]
      rw [List.map_cons, show iter - 1 + 1 = iter by omega]
      congr 1
      rw [List.drop_eq_getElem_cons hlt]
      rfl
    · rw [if_neg c1]
      simp only [List.length_nil] at c1
      rw [List.drop_of_length_le (by omega)]
      rfl
theorem storePieces_append (h : Nat) : ∀ (ps qs : List (List Nat)) (k : Int) (L : lua_State),
    storePieces h k (ps ++ qs) L = storePieces h (k + ps.length) qs (storePieces h k ps L) := by
  intro ps
  induction ps with
  | nil =>
    intro qs k L
    simp [storePieces]
  | cons p ps ih =>
    intro qs k L
    rw [List.cons_append, storePieces, ih, List.length_cons]
    conv_rhs => rw [storePieces]
    push_cast
    rw [show k + 1 + (ps.length : Int) = k + ((ps.length : Int) + 1) by ring]

theorem storePieces_readonly (h : Nat) : ∀ (ps : List (List Nat)) (k : Int) (L : lua_State),
    h < L.tables.length →
    (getTable (storePieces h k ps L) h).readonly = (getTable L h).readonly := by
  intro ps
  induction ps with
  | nil => intro k L _; rfl
  | cons p ps ih =>
    intro k L hh
    rw [storePieces, ih (k + 1) _ (by simp [setTable, hh]), getTable_setTable L h _ hh,
      luaH_setnum_readonly]

theorem luaL_checklstring_string (num2str : Int → String) (L : lua_State) (narg : Int)
    (s : String) (h : index2addr L narg = some (.string s)) :
    luaL_checklstring num2str L narg = .ok L (stringBytes s) := by
  simp [luaL_checklstring, lua_tolstring, h]

theorem luaL_optlstring_string (num2str : Int → String) (L : lua_State) (narg : Int)
    (d : List Nat) (s : String) (h : index2addr L narg = some (.string s)) :
    luaL_optlstring num2str L narg d = .ok L (stringBytes s) := by
  simp [luaL_optlstring, lua_isnoneornil, lua_type, h, ttype,
    luaL_checklstring_string num2str L narg s h]

theorem str_split_eval (num2str : Int → String) (L : lua_State) (hay needle : List Nat)
    (h1 : luaL_checklstring num2str L 1 = .ok L hay)
    (h2 : luaL_optlstring num2str L 2 [44] = .ok L needle) :
    str_split num2str L =
      .ok (storePieces L.tables.length 0
        (if needle.length > 0 then
          (loopPieces hay needle (hay.length + 1) (if needle.length = 0 then 1 else 0) 0).1 ++
            [hay.drop
              (loopPieces hay needle (hay.length + 1) (if needle.length = 0 then 1 else 0) 0).2]
         else (loopPieces hay needle (hay.length + 1) (if needle.length = 0 then 1 else 0) 0).1)
        (lua_createtable L)) 1 := by
  have ht : tableAt (lua_createtable L) (-1) = some L.tables.length := by
    simp [tableAt, index2addr, lua_createtable, push]
  have hr : (getTable (lua_createtable L) L.tables.length).readonly = false := by
    simp [getTable, lua_createtable, push, emptyTable]
  have hh : L.tables.length < (lua_createtable L).tables.length := by
    simp [lua_createtable, push]
  simp only [str_split, h1, h2, andThen_ok]
  rw [splitLoop_eq hay needle _ _ 0 0 _ _ ht hr hh, andThen_ok]
  simp only []
  by_cases c : needle.length > 0
  · rw [if_pos c, if_pos c]
    obtain ⟨s1, s2⟩ := storePieces_stack L.tables.length
      (loopPieces hay needle (hay.length + 1) (if needle.length = 0 then 1 else 0) 0).1 0
      (lua_createtable L)
    have ht2 : tableAt (storePieces L.tables.length 0
        (loopPieces hay needle (hay.length + 1) (if needle.length = 0 then 1 else 0) 0).1
        (lua_createtable L)) (-1) = some L.tables.length := by
      unfold tableAt index2addr at ht ⊢
      rw [s1]
      exact ht
    have hr2 : (getTable (storePieces L.tables.length 0
        (loopPieces hay needle (hay.length + 1) (if needle.length = 0 then 1 else 0) 0).1
        (lua_createtable L)) L.tables.length).readonly = false := by
      rw [storePieces_readonly _ _ _ _ hh, hr]
    rw [lua_settable_top _ _ _ _ ht2 hr2, andThen_ok, storePieces_append]
    simp only [storePieces, Int.zero_add]
    rw [List.take_of_length_le (by rw [List.length_drop])]
  · rw [if_neg c, if_neg c, andThen_ok]

theorem getD_set (l : List Nat) (a b v : Nat) :
    (l.set a v).getD b 0 = if a = b ∧ a < l.length then v else l.getD b 0 := by
  simp only [List.getD_eq_getElem?_getD, List.getElem?_set]
  by_cases h : a = b
  · subst h
    by_cases h2 : a < l.length
    · simp [h2]
    · simp [h2, List.getElem?_eq_none (not_lt.mp h2)]
  · simp [h]

theorem bytePos_lt (islittle : Bool) (size i : Nat) (h : i < size) :
    bytePos islittle size i < size := by
  unfold bytePos
  split <;> omega

theorem bytePos_inj (islittle : Bool) (size i j : Nat) (hi : i < size) (hj : j < size)
    (h : bytePos islittle size i = bytePos islittle size j) : i = j := by
  unfold bytePos at h
  split at h <;> omega

theorem packLoop_get (islittle : Bool) (size : Nat) (hs : size ≤ 16) :
    ∀ (cnt i n : Nat) (buff : List Nat), buff.length = 16 → i + cnt = size →
      (packLoop islittle size cnt i n buff).length = 16 ∧
      ∀ j, j < size →
        (packLoop islittle size cnt i n buff).getD (bytePos islittle size j) 0 =
          if i ≤ j then (n >>> (NB * (j - i + 1))) &&& MC
          else buff.getD (bytePos islittle size j) 0 := by
  intro cnt
  induction cnt with
  | zero =>
    intro i n buff hb hi
    refine ⟨hb, fun j hj => ?_⟩
    rw [if_neg (by omega)]
    rfl
  | succ cnt ih =>
    intro i n buff hb hi
    unfold packLoop
    obtain ⟨l1, l2⟩ := ih (i + 1) (n >>> NB)
      (buff.set (bytePos islittle size i) ((n >>> NB) &&& MC)) (by simp [hb]) (by omega)
    refine ⟨l1, fun j hj => ?_⟩
    rw [l2 j hj]
    by_cases c : i + 1 ≤ j
    · rw [if_pos c, if_pos (by omega), ← Nat.shiftRight_add]
      have e : NB + NB * (j - (i + 1) + 1) = NB * (j - i + 1) := by
        unfold NB
        omega
      rw [e]
    · rw [if_neg c, getD_set]
      by_cases c2 : i = j
      · subst c2
        rw [if_pos ⟨rfl, by rw [hb]; exact lt_of_lt_of_le (bytePos_lt _ _ _ hj) hs⟩,
          if_pos (le_refl _)]
        simp
      · rw [if_neg (fun h => c2 (bytePos_inj islittle size i j (by omega) hj h.1)),
          if_neg (by omega)]
theorem signLoop_get (islittle : Bool) (size : Nat) (hs : size ≤ 16) :
    ∀ (cnt i : Nat) (buff : List Nat), buff.length = 16 → i + cnt = size →
      (signLoop islittle size cnt i buff).length = 16 ∧
      ∀ j, j < size →
        (signLoop islittle size cnt i buff).getD (bytePos islittle size j) 0 =
          if i ≤ j then MC else buff.getD (bytePos islittle size j) 0 := by
  intro cnt
  induction cnt with
  | zero =>
    intro i buff hb hi
    refine ⟨hb, fun j hj => ?_⟩
    rw [if_neg (by omega)]
    rfl
  | succ cnt ih =>
    intro i buff hb hi
    unfold signLoop
    obtain ⟨l1, l2⟩ := ih (i + 1) (buff.set (bytePos islittle size i) MC) (by simp [hb])
      (by omega)
    refine ⟨l1, fun j hj => ?_⟩
    rw [l2 j hj]
    by_cases c : i + 1 ≤ j
    · rw [if_pos c, if_pos (by omega)]
    · rw [if_neg c, getD_set]
      by_cases c2 : i = j
      · subst c2
        rw [if_pos ⟨rfl, by rw [hb]; exact lt_of_lt_of_le (bytePos_lt _ _ _ hj) hs⟩,
          if_pos (le_refl _)]
      · rw [if_neg (fun h => c2 (bytePos_inj islittle size i j (by omega) hj h.1)),
          if_neg (by omega)]

theorem byte_of_shift (n j : Nat) : (n >>> (NB * j)) &&& MC = n / 256 ^ j % 256 := by
  unfold NB MC
  rw [Nat.shiftRight_eq_div_pow, Nat.pow_mul, show (255 : Nat) = 2 ^ 8 - 1 by decide,
    Nat.and_pow_two_sub_one_eq_mod]

theorem packint_bytes (b : luaL_Strbuf) (n : Nat) (islittle : Bool) (size : Nat) (neg : Bool)
    (h1 : 1 ≤ size) (h2 : size ≤ 16) (hn : n < 18446744073709551616) :
    ∃ bytes : List Nat, packint b n islittle size neg = b ++ bytes ∧ bytes.length = size ∧
      (∀ x ∈ bytes, x < 256) ∧
      ∀ j, j < size → bytes.getD (bytePos islittle size j) 0 =
        if 8 ≤ j then (if neg = true then 255 else 0) else n / 256 ^ j % 256 := by
  obtain ⟨p1, p2⟩ := packLoop_get islittle size h2 (size - 1) 1 n
    ((List.replicate MAXINTSIZE 0).set (bytePos islittle size 0) (n &&& MC))
    (by simp [MAXINTSIZE]) (by omega)
  have hall : ∀ j, j < size →
      (packLoop islittle size (size - 1) 1 n
        ((List.replicate MAXINTSIZE 0).set (bytePos islittle size 0) (n &&& MC))).getD
          (bytePos islittle size j) 0 = n / 256 ^ j % 256 := by
    intro j hj
    rw [p2 j hj]
    by_cases c : 1 ≤ j
    · rw [if_pos c, show j - 1 + 1 = j by omega, byte_of_shift]
    · have hj0 : j = 0 := by omega
      subst hj0
      rw [if_neg c, getD_set, if_pos ⟨rfl, by
        simp only [List.length_replicate, MAXINTSIZE]
        exact lt_of_lt_of_le (bytePos_lt _ _ _ hj) h2⟩]
      have := byte_of_shift n 0
      simpa using this
  have hfin : ∀ (buff : List Nat), buff.length = 16 →
      (∀ j, j < size → buff.getD (bytePos islittle size j) 0 =
        if 8 ≤ j then (if neg = true then 255 else 0) else n / 256 ^ j % 256) →
      ∃ bytes : List Nat, luaL_addlstring b (buff.take size) = b ++ bytes ∧
        bytes.length = size ∧ (∀ x ∈ bytes, x < 256) ∧
        ∀ j, j < size → bytes.getD (bytePos islittle size j) 0 =
          if 8 ≤ j then (if neg = true then 255 else 0) else n / 256 ^ j % 256 := by
    intro buff hb hget
    have htake : ∀ p, p < size → (buff.take size).getD p 0 = buff.getD p 0 := by
      intro p hp
      simp only [List.getD_eq_getElem?_getD, List.getElem?_take, if_pos hp]
    refine ⟨buff.take size, rfl, by rw [List.length_take, hb]; omega, ?_, ?_⟩
    · intro x hx
      obtain ⟨p, hp, rfl⟩ := List.getElem_of_mem hx
      have hp2 : p < size := by
        rw [List.length_take, hb] at hp
        omega
      have hform : (buff.take size)[p] = (buff.take size).getD p 0 := by
        rw [List.getD_eq_getElem?_getD, List.getElem?_eq_getElem hp]
        rfl
      obtain ⟨j, hj, hjp⟩ : ∃ j, j < size ∧ bytePos islittle size j = p := by
        cases islittle with
        | true => exact ⟨p, hp2, by simp [bytePos]⟩
        | false => exact ⟨size - 1 - p, by omega, by simp only [bytePos]; simp; omega⟩
      rw [hform, htake p hp2, ← hjp, hget j hj]
      split
      · split <;> decide
      · exact Nat.mod_lt _ (by decide)
    · intro j hj
      rw [htake _ (bytePos_lt _ _ _ hj), hget j hj]
  unfold packint
  simp only []
  by_cases c : neg = true ∧ size > SZINT
  · rw [if_pos c]
    obtain ⟨s1, s2⟩ := signLoop_get islittle size h2 (size - SZINT) SZINT _ p1
      (by unfold SZINT at c ⊢; omega)
    apply hfin _ s1
    intro j hj
    rw [s2 j hj]
    by_cases c8 : 8 ≤ j
    · rw [if_pos (by unfold SZINT; exact c8), if_pos c8, if_pos c.1]
      rfl
    · rw [if_neg (by unfold SZINT; exact c8), if_neg c8, hall j hj]
  · rw [if_neg c]
    apply hfin _ p1
    intro j hj
    rw [hall j hj]
    by_cases c8 : 8 ≤ j
    · rw [if_pos c8]
      have hz : n / 256 ^ j = 0 := by
        apply Nat.div_eq_of_lt
        calc n < 256 ^ 8 := hn
          _ ≤ 256 ^ j := Nat.pow_le_pow_right (by decide) c8
      rw [hz]
      by_cases cn : neg = true
      · exfalso
        exact c ⟨cn, by unfold SZINT; omega⟩
      · rw [if_neg cn]
    · rw [if_neg c8]
theorem digitsValue_congr (f g : Nat → Nat) :
    ∀ k, (∀ j, j < k → f j = g j) → digitsValue f k = digitsValue g k := by
  intro k
  induction k with
  | zero => intro _; rfl
  | succ k ih =>
    intro h
    simp only [digitsValue]
    rw [ih (fun j hj => h j (by omega)), h k (by omega)]

theorem digitsValue_bytes (n : Nat) : ∀ k, digitsValue (fun j => n / 256 ^ j % 256) k = n % 256 ^ k := by
  intro k
  induction k with
  | zero => simp [digitsValue, Nat.mod_one]
  | succ k ih =>
    simp only [digitsValue]
    rw [ih, Nat.mod_pow_succ, Nat.mul_comm]

theorem digitsValue_lt (f : Nat → Nat) :
    ∀ k, (∀ j, j < k → f j < 256) → digitsValue f k < 256 ^ k := by
  intro k
  induction k with
  | zero => intro _; simp [digitsValue]
  | succ k ih =>
    intro h
    simp only [digitsValue]
    have h1 := ih (fun j hj => h j (by omega))
    have h2 := h k (by omega)
    calc digitsValue f k + f k * 256 ^ k < 256 ^ k + f k * 256 ^ k := by omega
      _ = (f k + 1) * 256 ^ k := by ring
      _ ≤ 256 * 256 ^ k := Nat.mul_le_mul_right _ (by omega)
      _ = 256 ^ (k + 1) := by ring

theorem unpackLoop_eq (str : List Nat) (islittle : Bool) (size : Nat) :
    ∀ (k r : Nat), k ≤ 8 → r < 256 ^ (8 - k) →
      (∀ j, j < k → str.getD (bytePos islittle size j) 0 < 256) →
      unpackLoop str islittle size k r =
        r * 256 ^ k + digitsValue (fun j => str.getD (bytePos islittle size j) 0) k := by
  intro k
  induction k with
  | zero =>
    intro r _ _ _
    simp [unpackLoop, digitsValue]
  | succ k ih =>
    intro r hk hr hb
    have hbk := hb k (by omega)
    have hpow : (256 : Nat) ^ (8 - k) = 256 * 256 ^ (8 - (k + 1)) := by
      rw [show 8 - k = (8 - (k + 1)) + 1 by omega, pow_succ]
      ring
    have hr256 : r * 256 < 18446744073709551616 := by
      have h8 : (256 : Nat) ^ (8 - (k + 1)) ≤ 256 ^ 7 := Nat.pow_le_pow_right (by decide) (by omega)
      have : (256 : Nat) ^ 7 * 256 = 18446744073709551616 := by decide
      calc r * 256 < 256 ^ (8 - (k + 1)) * 256 := Nat.mul_lt_mul_of_pos_right hr (by decide)
        _ ≤ 256 ^ 7 * 256 := Nat.mul_le_mul_right _ h8
        _ = 18446744073709551616 := this
    have hstep : ((r <<< NB) % 18446744073709551616) ||| str.getD (bytePos islittle size k) 0 =
        256 * r + str.getD (bytePos islittle size k) 0 := by
      unfold NB
      rw [Nat.shiftLeft_eq, Nat.mod_eq_of_lt (by rw [show (2 : Nat) ^ 8 = 256 by decide]; exact hr256),
        Nat.mul_comm]
      exact (Nat.mul_add_lt_is_or (show str.getD (bytePos islittle size k) 0 < 2 ^ 8 from hbk) r).symm
    unfold unpackLoop
    simp only []
    rw [hstep, ih _ (by omega) (by rw [hpow]; omega) (fun j hj => hb j (by omega))]
    simp only [digitsValue]
    ring
theorem xor_sign_low (r m : Nat) (h : r < 2 ^ m) : r ^^^ 2 ^ m = r + 2 ^ m := by
  have e : r ^^^ 2 ^ m = 2 ^ m ||| r := by
    apply Nat.eq_of_testBit_eq
    intro j
    rw [Nat.testBit_xor, Nat.testBit_or, Nat.testBit_two_pow]
    by_cases c : m = j
    · subst c
      simp [Nat.testBit_lt_two_pow h]
    · simp [c]
  have := Nat.mul_add_lt_is_or h 1
  rw [Nat.mul_one] at this
  rw [e, ← this, Nat.add_comm]

theorem xor_sign_high (r m : Nat) (h1 : 2 ^ m ≤ r) (h2 : r < 2 ^ (m + 1)) :
    r ^^^ 2 ^ m = r - 2 ^ m := by
  have ht : r - 2 ^ m < 2 ^ m := by
    rw [pow_succ] at h2
    omega
  have e := xor_sign_low (r - 2 ^ m) m ht
  have e2 : r - 2 ^ m + 2 ^ m = r := by omega
  rw [e2] at e
  calc r ^^^ 2 ^ m = ((r - 2 ^ m) ^^^ 2 ^ m) ^^^ 2 ^ m := by rw [e]
    _ = r - 2 ^ m := by rw [Nat.xor_assoc, Nat.xor_self, Nat.xor_zero]

theorem fitLoop_spec (L : lua_State) (str : List Nat) (islittle : Bool) (size mask : Nat) :
    ∀ (cnt i : Nat),
      ((∀ j, i ≤ j → j < i + cnt → str.getD (bytePos islittle size j) 0 = mask) →
        fitLoop L str islittle size mask cnt i = .ok L ()) ∧
      ((∃ j, i ≤ j ∧ j < i + cnt ∧ str.getD (bytePos islittle size j) 0 ≠ mask) →
        fitLoop L str islittle size mask cnt i =
          .raise L (.error (pushfstringText doesNotFitFormat [.int size]))) := by
  intro cnt
  induction cnt with
  | zero =>
    intro i
    exact ⟨fun _ => rfl, fun ⟨j, h1, h2, _⟩ => by omega⟩
  | succ cnt ih =>
    intro i
    obtain ⟨i1, i2⟩ := ih (i + 1)
    unfold fitLoop
    by_cases c : str.getD (bytePos islittle size i) 0 ≠ mask
    · rw [if_pos c]
      exact ⟨fun h => absurd (h i (le_refl _) (by omega)) c, fun _ => rfl⟩
    · rw [if_neg c]
      refine ⟨fun h => i1 (fun j h1 h2 => h j (by omega) (by omega)), ?_⟩
      rintro ⟨j, h1, h2, h3⟩
      by_cases cj : j = i
      · subst cj
        exact absurd h3 c
      · exact i2 ⟨j, by omega, by omega, h3⟩
theorem unpackint_res (str : List Nat) (islittle : Bool) (size : Nat)
    (hb : ∀ j, j < size → str.getD (bytePos islittle size j) 0 < 256) :
    unpackLoop str islittle size (if size ≤ SZINT then size else SZINT) 0 =
      digitsValue (fun j => str.getD (bytePos islittle size j) 0)
        (if size ≤ SZINT then size else SZINT) := by
  have hk : (if size ≤ SZINT then size else SZINT) ≤ 8 := by
    unfold SZINT
    split <;> omega
  have hk2 : (if size ≤ SZINT then size else SZINT) ≤ size := by
    unfold SZINT
    split <;> omega
  rw [unpackLoop_eq str islittle size _ 0 hk (Nat.pos_pow_of_pos _ (by decide))
    (fun j hj => hb j (by omega))]
  simp

theorem toInt64_toUInt64 (n : Int) (h1 : -9223372036854775808 ≤ n)
    (h2 : n ≤ 9223372036854775807) : toInt64 ((toUInt64 n : Nat) : Int) = n := by
  unfold toInt64 toUInt64
  omega

theorem toUInt64_lt (n : Int) : toUInt64 n < 18446744073709551616 := by
  unfold toUInt64
  omega

theorem sign_extend (n : Int) (size : Nat) (h1 : 1 ≤ size) (h2 : size < 8)
    (hfit : -(2 ^ (size * 8 - 1) : Int) ≤ n ∧ n < 2 ^ (size * 8 - 1)) :
    toInt64 ((((toUInt64 n % 256 ^ size ^^^ (1 <<< (size * NB - 1)) % 18446744073709551616) +
      18446744073709551616 - (1 <<< (size * NB - 1)) % 18446744073709551616) %
        18446744073709551616 : Nat) : Int) = n := by
  have hm : (1 <<< (size * NB - 1)) % 18446744073709551616 = 2 ^ (size * 8 - 1) := by
    unfold NB
    rw [Nat.shiftLeft_eq, Nat.one_mul]
    apply Nat.mod_eq_of_lt
    calc 2 ^ (size * 8 - 1) < 2 ^ 64 := Nat.pow_lt_pow_right (by decide) (by omega)
      _ = 18446744073709551616 := by decide
  have hr : toUInt64 n % 256 ^ size < 2 ^ (size * 8 - 1 + 1) := by
    have : (256 : Nat) ^ size = 2 ^ (size * 8 - 1 + 1) := by
      rw [show size * 8 - 1 + 1 = 8 * size by omega, Nat.pow_mul]
    rw [← this]
    exact Nat.mod_lt _ (Nat.pos_pow_of_pos _ (by decide))
  rw [hm]
  have hx : (toUInt64 n % 256 ^ size < 2 ^ (size * 8 - 1) ∧
      (toUInt64 n % 256 ^ size) ^^^ 2 ^ (size * 8 - 1) =
        toUInt64 n % 256 ^ size + 2 ^ (size * 8 - 1)) ∨
      (2 ^ (size * 8 - 1) ≤ toUInt64 n % 256 ^ size ∧
      (toUInt64 n % 256 ^ size) ^^^ 2 ^ (size * 8 - 1) =
        toUInt64 n % 256 ^ size - 2 ^ (size * 8 - 1)) := by
    by_cases c : toUInt64 n % 256 ^ size < 2 ^ (size * 8 - 1)
    · exact Or.inl ⟨c, xor_sign_low _ _ c⟩
    · exact Or.inr ⟨not_lt.mp c, xor_sign_high _ _ (not_lt.mp c) hr⟩
  generalize (toUInt64 n % 256 ^ size) ^^^ 2 ^ (size * 8 - 1) = X at hx ⊢
  unfold toUInt64 at hx
  unfold toInt64
  interval_cases size <;>
    simp only [Nat.reduceMul, Nat.reduceSub, Nat.reducePow, Int.reducePow] at hfit hx ⊢ <;>
    omega

theorem unpack_pack_signed (L : lua_State) (b : luaL_Strbuf) (n : Int) (islittle : Bool)
    (size : Nat) (h1 : 1 ≤ size) (h2 : size ≤ 16)
    (hn1 : -9223372036854775808 ≤ n) (hn2 : n ≤ 9223372036854775807)
    (hfit : size < 8 → -(2 ^ (size * 8 - 1) : Int) ≤ n ∧ n < 2 ^ (size * 8 - 1)) :
    ∃ bytes : List Nat,
      packint b (toUInt64 n) islittle size (decide (n < 0)) = b ++ bytes ∧
      bytes.length = size ∧
      unpackint L bytes islittle size true = .ok L n ∧
      ∀ j, 8 ≤ j → j < size →
        bytes.getD (bytePos islittle size j) 0 = if n < 0 then 255 else 0 := by
  obtain ⟨bytes, e, hl, hx, hg⟩ := packint_bytes b (toUInt64 n) islittle size (decide (n < 0))
    h1 h2 (toUInt64_lt n)
  have hb : ∀ j, j < size → bytes.getD (bytePos islittle size j) 0 < 256 := by
    intro j hj
    rw [hg j hj]
    split
    · split <;> decide
    · exact Nat.mod_lt _ (by decide)
  have hres := unpackint_res bytes islittle size hb
  have hdv : digitsValue (fun j => bytes.getD (bytePos islittle size j) 0)
      (if size ≤ SZINT then size else SZINT) =
      toUInt64 n % 256 ^ (if size ≤ SZINT then size else SZINT) := by
    rw [← digitsValue_bytes]
    apply digitsValue_congr
    intro j hj
    have hj8 : j < 8 ∧ j < size := by
      unfold SZINT at hj
      split at hj <;> omega
    show bytes.getD (bytePos islittle size j) 0 = _
    rw [hg j hj8.2, if_neg (by omega)]
  rw [hdv] at hres
  refine ⟨bytes, e, hl, ?_, ?_⟩
  · unfold unpackint
    simp only []
    rw [hres]
    by_cases c1 : size < SZINT
    · rw [if_pos c1, if_pos True.intro, if_pos (by unfold SZINT at c1 ⊢; omega),
        sign_extend n size h1 (by unfold SZINT at c1; omega) (hfit (by unfold SZINT at c1; omega))]
    · rw [if_neg c1]
      have hmod : toUInt64 n % 256 ^ (if size ≤ SZINT then size else SZINT) = toUInt64 n := by
        have : (if size ≤ SZINT then size else SZINT) = 8 := by
          unfold SZINT at c1 ⊢
          split <;> omega
        rw [this]
        exact Nat.mod_eq_of_lt (toUInt64_lt n)
      rw [hmod, toInt64_toUInt64 n hn1 hn2]
      by_cases c2 : size > SZINT
      · rw [if_pos c2]
        have hfitl := (fitLoop_spec L bytes islittle size
          (if ¬ True ∨ n ≥ 0 then 0 else MC)
          (size - (if size ≤ SZINT then size else SZINT))
          (if size ≤ SZINT then size else SZINT)).1 (by
            intro j j1 j2
            have hj : 8 ≤ j ∧ j < size := by
              unfold SZINT at j1 j2 c2
              rw [if_neg (by omega)] at j1 j2
              omega
            rw [hg j hj.2, if_pos hj.1]
            by_cases cn : n < 0
            · rw [if_pos (decide_eq_true cn), if_neg (by
                intro h
                rcases h with h | h
                · exact h True.intro
                · omega)]
              rfl
            · rw [if_neg (by simpa using cn), if_pos (Or.inr (by omega))])
        rw [hfitl, andThen_ok]
      · rw [if_neg c2]
  · intro j j1 j2
    rw [hg j j2, if_pos j1]
    simp
theorem unpack_pack_unsigned (L : lua_State) (b : luaL_Strbuf) (n : Int) (islittle : Bool)
    (size : Nat) (h1 : 1 ≤ size) (h2 : size < 8) (hn1 : 0 ≤ n) (hn2 : n < 2 ^ (size * 8)) :
    ∃ bytes : List Nat,
      packint b (toUInt64 n) islittle size false = b ++ bytes ∧
      bytes.length = size ∧
      unpackint L bytes islittle size false = .ok L n := by
  obtain ⟨bytes, e, hl, hx, hg⟩ := packint_bytes b (toUInt64 n) islittle size false
    h1 (by omega) (toUInt64_lt n)
  have hb : ∀ j, j < size → bytes.getD (bytePos islittle size j) 0 < 256 := by
    intro j hj
    rw [hg j hj, if_neg (by omega)]
    exact Nat.mod_lt _ (by decide)
  have hres := unpackint_res bytes islittle size hb
  have hdv : digitsValue (fun j => bytes.getD (bytePos islittle size j) 0)
      (if size ≤ SZINT then size else SZINT) =
      toUInt64 n % 256 ^ (if size ≤ SZINT then size else SZINT) := by
    rw [← digitsValue_bytes]
    apply digitsValue_congr
    intro j hj
    have hj8 : j < 8 ∧ j < size := by
      unfold SZINT at hj
      split at hj <;> omega
    show bytes.getD (bytePos islittle size j) 0 = _
    rw [hg j hj8.2, if_neg (by omega)]
  rw [hdv] at hres
  refine ⟨bytes, e, hl, ?_⟩
  unfold unpackint
  simp only []
  rw [hres, if_pos (by unfold SZINT; omega), if_neg (by decide),
    if_pos (by unfold SZINT; omega)]
  have hv : toInt64 ((toUInt64 n % 256 ^ size : Nat) : Int) = n := by
    unfold toInt64 toUInt64
    interval_cases size <;>
      simp only [Nat.reduceMul, Nat.reducePow, Int.reducePow] at hn2 ⊢ <;> omega
  rw [hv]

theorem unpackint_fit (L : lua_State) (str : List Nat) (islittle : Bool) (size : Nat)
    (issigned : Bool) (h1 : 8 < size)
    (hb : ∀ j, j < size → str.getD (bytePos islittle size j) 0 < 256) :
    ((∀ j, 8 ≤ j → j < size → str.getD (bytePos islittle size j) 0 =
        if issigned = true ∧
          toInt64 ((digitsValue (fun j => str.getD (bytePos islittle size j) 0) 8 : Nat) : Int) < 0
        then 255 else 0) →
      unpackint L str islittle size issigned =
        .ok L (toInt64
          ((digitsValue (fun j => str.getD (bytePos islittle size j) 0) 8 : Nat) : Int))) ∧
    ((∃ j, 8 ≤ j ∧ j < size ∧ str.getD (bytePos islittle size j) 0 ≠
        if issigned = true ∧
          toInt64 ((digitsValue (fun j => str.getD (bytePos islittle size j) 0) 8 : Nat) : Int) < 0
        then 255 else 0) →
      unpackint L str islittle size issigned =
        .raise L (.error (pushfstringText doesNotFitFormat [.int size]))) := by
  have hres := unpackint_res str islittle size hb
  have hlim : (if size ≤ SZINT then size else SZINT) = 8 := by
    unfold SZINT
    rw [if_neg (by omega)]
  rw [hlim] at hres
  have hmask : (if ¬ issigned = true ∨
      toInt64 ((digitsValue (fun j => str.getD (bytePos islittle size j) 0) 8 : Nat) : Int) ≥ 0
      then 0 else MC) =
      if issigned = true ∧
        toInt64 ((digitsValue (fun j => str.getD (bytePos islittle size j) 0) 8 : Nat) : Int) < 0
      then 255 else 0 := by
    by_cases c : issigned = true ∧
        toInt64 ((digitsValue (fun j => str.getD (bytePos islittle size j) 0) 8 : Nat) : Int) < 0
    · rw [if_pos c, if_neg (by
        intro h
        rcases h with h | h
        · exact h c.1
        · exact absurd c.2 (not_lt.mpr h))]
      rfl
    · rw [if_neg c, if_pos (by
        by_cases ci : issigned = true
        · exact Or.inr (not_lt.mp (fun h => c ⟨ci, h⟩))
        · exact Or.inl ci)]
  have hu : unpackint L str islittle size issigned =
      (fitLoop L str islittle size
        (if issigned = true ∧
          toInt64 ((digitsValue (fun j => str.getD (bytePos islittle size j) 0) 8 : Nat) : Int) < 0
         then 255 else 0) (size - 8) 8).andThen fun L _ =>
        .ok L (toInt64
          ((digitsValue (fun j => str.getD (bytePos islittle size j) 0) 8 : Nat) : Int)) := by
    unfold unpackint
    simp only []
    rw [hlim, hres, if_neg (by unfold SZINT; omega), if_pos (by unfold SZINT; omega), hmask]
  obtain ⟨f1, f2⟩ := fitLoop_spec L str islittle size
    (if issigned = true ∧
      toInt64 ((digitsValue (fun j => str.getD (bytePos islittle size j) 0) 8 : Nat) : Int) < 0
     then 255 else 0) (size - 8) 8
  constructor
  · intro h
    rw [hu, f1 (fun j j1 j2 => h j j1 (by omega)), andThen_ok]
  · rintro ⟨j, j1, j2, j3⟩
    rw [hu, f2 ⟨j, j1, by omega, j3⟩, andThen_raise]
theorem getD_lt_of_all (str : List Nat) (k : Nat) (h : ∀ x ∈ str, x < 256) :
    str.getD k 0 < 256 := by
  rw [List.getD_eq_getElem?_getD]
  by_cases c : k < str.length
  · rw [List.getElem?_eq_getElem c]
    exact h _ (List.getElem_mem c)
  · rw [List.getElem?_eq_none (not_lt.mp c)]
    decide

theorem packKint_fits (L : lua_State) (b : luaL_Strbuf) (n : Int) (islittle : Bool)
    (size : Nat) (arg : Int)
    (hfit : size < 8 → -(2 ^ (size * 8 - 1) : Int) ≤ n ∧ n < 2 ^ (size * 8 - 1)) :
    packKint L b n islittle size arg =
      .ok L (packint b (toUInt64 n) islittle size (decide (n < 0))) := by
  unfold packKint
  by_cases c : size < SZINT
  · have hc := hfit c
    simp only [if_pos c, luaL_argcheck, NB]
    rw [if_pos (decide_eq_true hc), andThen_ok]
  · rw [if_neg c, andThen_ok]

theorem packKuint_fits (L : lua_State) (b : luaL_Strbuf) (n : Int) (islittle : Bool)
    (size : Nat) (arg : Int) (h1 : size < 8) (hn1 : 0 ≤ n) (hn2 : n < 2 ^ (size * 8)) :
    packKuint L b n islittle size arg =
      .ok L (packint b (toUInt64 n) islittle size false) := by
  unfold packKuint
  have hc : toUInt64 n < 2 ^ (size * NB) := by
    have e : toUInt64 n = n.toNat := by
      unfold toUInt64
      have : n < 18446744073709551616 := by
        have : (2 : Int) ^ (size * 8) ≤ 2 ^ 64 :=
          pow_le_pow_right₀ (by decide) (by omega)
        have e64 : (2 : Int) ^ 64 = 18446744073709551616 := by norm_num
        omega
      rw [Int.emod_eq_of_lt hn1 this]
    rw [e]
    unfold NB
    zify
    rw [Int.toNat_of_nonneg hn1]
    exact hn2
  rw [if_pos (show size < SZINT from h1)]
  simp only [luaL_argcheck]
  rw [if_pos (decide_eq_true hc), andThen_ok]

theorem moveStep_stack (L : lua_State) (src dst : Nat) (kf kt : Int) :
    (moveStep L src dst kf kt).stack = L.stack := rfl

theorem moveStep_length (L : lua_State) (src dst : Nat) (kf kt : Int) :
    (moveStep L src dst kf kt).tables.length = L.tables.length := by
  simp [moveStep, setTable]

theorem moveStep_other (L : lua_State) (src dst : Nat) (kf kt : Int) (h : Nat) (hne : h ≠ dst) :
    getTable (moveStep L src dst kf kt) h = getTable L h :=
  getTable_setTable_ne L dst h _ hne

theorem moveStep_dst (L : lua_State) (src dst : Nat) (kf kt : Int) (hv : dst < L.tables.length) :
    getTable (moveStep L src dst kf kt) dst =
      luaH_setnum (getTable L dst) kt (luaH_getnum (getTable L src) kf) :=
  getTable_setTable_self L dst _ hv

theorem moveStep_readonly (L : lua_State) (src dst : Nat) (kf kt : Int) :
    (getTable (moveStep L src dst kf kt) dst).readonly = (getTable L dst).readonly := by
  by_cases hv : dst < L.tables.length
  · rw [moveStep_dst L src dst kf kt hv, luaH_setnum_readonly]
  · have e : (moveStep L src dst kf kt).tables = L.tables := by
      simp only [moveStep, setTable]
      exact List.set_eq_of_length_le (not_lt.mp hv)
    simp only [getTable, e]

theorem rawStep_eq (L : lua_State) (srct dstt : Int) (src dst : Nat) (kf kt : Int)
    (hs : tableAt L srct = some src) (hd : tableAt L dstt = some dst) (hp : 0 < dstt)
    (hro : (getTable L dst).readonly = false) :
    lua_rawseti (lua_rawgeti L srct kf) dstt kt = .ok (moveStep L src dst kf kt) () := by
  unfold lua_rawgeti
  rw [hs]
  simp only []
  unfold lua_rawseti
  rw [tableAt_push _ hp hd]
  simp only []
  have hg : getTable (push L (luaH_getnum (getTable L src) kf)) dst = getTable L dst := rfl
  rw [hg, hro]
  simp only [Bool.false_eq_true, if_false]
  congr 1
  simp [push, setTable, moveStep]
theorem stepUp_tableAt (src dst : Nat) (f t : Int) (cnt i : Nat) (L : lua_State) :
    (stepUp src dst f t cnt i L).stack = L.stack ∧
    (stepUp src dst f t cnt i L).tables.length = L.tables.length ∧
    (getTable (stepUp src dst f t cnt i L) dst).readonly = (getTable L dst).readonly ∧
    ∀ h, h ≠ dst → getTable (stepUp src dst f t cnt i L) h = getTable L h := by
  induction cnt generalizing i L with
  | zero => exact ⟨rfl, rfl, rfl, fun _ _ => rfl⟩
  | succ c ih =>
    obtain ⟨a1, a2, a3, a4⟩ := ih (i + 1) (moveStep L src dst (f + i) (t + i))
    refine ⟨?_, ?_, ?_, ?_⟩
    · rw [stepUp, a1, moveStep_stack]
    · rw [stepUp, a2, moveStep_length]
    · rw [stepUp, a3, moveStep_readonly]
    · intro h hne
      rw [stepUp, a4 h hne, moveStep_other _ _ _ _ _ _ hne]

theorem stepDown_tableAt (src dst : Nat) (f t : Int) (m : Nat) (L : lua_State) :
    (stepDown src dst f t m L).stack = L.stack ∧
    (stepDown src dst f t m L).tables.length = L.tables.length ∧
    (getTable (stepDown src dst f t m L) dst).readonly = (getTable L dst).readonly ∧
    ∀ h, h ≠ dst → getTable (stepDown src dst f t m L) h = getTable L h := by
  induction m generalizing L with
  | zero => exact ⟨rfl, rfl, rfl, fun _ _ => rfl⟩
  | succ c ih =>
    obtain ⟨a1, a2, a3, a4⟩ := ih (moveStep L src dst (f + c) (t + c))
    refine ⟨?_, ?_, ?_, ?_⟩
    · rw [stepDown, a1, moveStep_stack]
    · rw [stepDown, a2, moveStep_length]
    · rw [stepDown, a3, moveStep_readonly]
    · intro h hne
      rw [stepDown, a4 h hne, moveStep_other _ _ _ _ _ _ hne]

theorem rawMoveUp_eq (srct dstt : Int) (src dst : Nat) (f t : Int) (hp : 0 < dstt)
    (cnt i : Nat) (L : lua_State)
    (hs : tableAt L srct = some src) (hd : tableAt L dstt = some dst)
    (hro : (getTable L dst).readonly = false) :
    rawMoveUp srct dstt f t cnt i L = .ok (stepUp src dst f t cnt i L) () := by
  induction cnt generalizing i L with
  | zero => rfl
  | succ c ih =>
    rw [rawMoveUp, rawStep_eq L srct dstt src dst (f + i) (t + i) hs hd hp hro, andThen_ok,
      stepUp]
    exact ih (i + 1) _ hs hd (by rw [moveStep_readonly, hro])

theorem rawMoveDown_eq (srct dstt : Int) (src dst : Nat) (f t : Int) (hp : 0 < dstt)
    (m : Nat) (L : lua_State)
    (hs : tableAt L srct = some src) (hd : tableAt L dstt = some dst)
    (hro : (getTable L dst).readonly = false) :
    rawMoveDown srct dstt f t m L = .ok (stepDown src dst f t m L) () := by
  induction m generalizing L with
  | zero => rfl
  | succ c ih =>
    rw [rawMoveDown, rawStep_eq L srct dstt src dst (f + c) (t + c) hs hd hp hro, andThen_ok,
      stepDown]
    exact ih _ hs hd (by rw [moveStep_readonly, hro])

theorem moveStep_get (L : lua_State) (src dst : Nat) (kf kt : Int) (hv : dst < L.tables.length)
    (key : TValue) :
    luaH_get (getTable (moveStep L src dst kf kt) dst) key =
      if key = .number kt then luaH_getnum (getTable L src) kf
      else luaH_get (getTable L dst) key := by
  rw [moveStep_dst L src dst kf kt hv, luaH_get_setnum]

theorem moveStep_src (L : lua_State) (src dst : Nat) (kf kt : Int) (hv : dst < L.tables.length)
    (k : Int) (hk : src ≠ dst ∨ k ≠ kt) :
    luaH_getnum (getTable (moveStep L src dst kf kt) src) k = luaH_getnum (getTable L src) k := by
  by_cases c : src = dst
  · subst c
    rw [moveStep_dst L src src kf kt hv, luaH_getnum_setnum, if_neg]
    rcases hk with hk | hk
    · exact absurd rfl hk
    · exact hk
  · rw [moveStep_other _ _ _ _ _ _ c]

theorem stepUp_spec (src dst : Nat) (f t : Int) (cnt i : Nat) (L : lua_State)
    (hv : dst < L.tables.length) (hdir : src ≠ dst ∨ t ≤ f ∨ f + ((i + cnt : Nat) : Int) ≤ t) :
    (∀ j : Nat, i ≤ j → j < i + cnt →
      luaH_getnum (getTable (stepUp src dst f t cnt i L) dst) (t + j) =
        luaH_getnum (getTable L src) (f + j)) ∧
    (∀ key : TValue, (∀ j : Nat, i ≤ j → j < i + cnt → key ≠ .number (t + j)) →
      luaH_get (getTable (stepUp src dst f t cnt i L) dst) key =
        luaH_get (getTable L dst) key) := by
  induction cnt generalizing i L with
  | zero =>
    exact ⟨fun j j1 j2 => absurd j2 (by omega), fun _ _ => rfl⟩
  | succ c ih =>
    obtain ⟨a, b⟩ := ih (i + 1) (moveStep L src dst (f + i) (t + i))
      (by rw [moveStep_length]; exact hv)
      (by
        rcases hdir with h | h | h
        · exact Or.inl h
        · exact Or.inr (Or.inl h)
        · exact Or.inr (Or.inr (by push_cast at h ⊢; omega)))
    constructor
    · intro j j1 j2
      rw [stepUp]
      by_cases c : j = i
      · subst c
        have e := b (.number (t + j)) (by
          intro j' h1 _ he
          injection he with he
          omega)
        rw [show luaH_getnum (getTable (stepUp src dst f t _ (j + 1)
            (moveStep L src dst (f + j) (t + j))) dst) (t + j) =
          luaH_get (getTable (stepUp src dst f t _ (j + 1)
            (moveStep L src dst (f + j) (t + j))) dst) (.number (t + j)) from rfl, e,
          moveStep_get L src dst _ _ hv, if_pos rfl]
      · rw [a j (by omega) (by omega)]
        apply moveStep_src L src dst _ _ hv
        rcases hdir with h | h | h
        · exact Or.inl h
        · exact Or.inr (by omega)
        · exact Or.inr (by push_cast at h; omega)
    · intro key hk
      rw [stepUp, b key (fun j j1 j2 => hk j (by omega) (by omega)),
        moveStep_get L src dst _ _ hv, if_neg (hk i (le_refl _) (by omega))]

theorem stepDown_spec (src dst : Nat) (f t : Int) (m : Nat) (L : lua_State)
    (hv : dst < L.tables.length) (hdir : src ≠ dst ∨ f ≤ t) :
    (∀ j : Nat, j < m →
      luaH_getnum (getTable (stepDown src dst f t m L) dst) (t + j) =
        luaH_getnum (getTable L src) (f + j)) ∧
    (∀ key : TValue, (∀ j : Nat, j < m → key ≠ .number (t + j)) →
      luaH_get (getTable (stepDown src dst f t m L) dst) key =
        luaH_get (getTable L dst) key) := by
  induction m generalizing L with
  | zero =>
    exact ⟨fun j j2 => absurd j2 (by omega), fun _ _ => rfl⟩
  | succ c ih =>
    obtain ⟨a, b⟩ := ih (moveStep L src dst (f + c) (t + c))
      (by rw [moveStep_length]; exact hv)
    constructor
    · intro j j2
      rw [stepDown]
      by_cases cj : j = c
      · subst cj
        have e := b (.number (t + j)) (by
          intro j' h1 he
          injection he with he
          omega)
        rw [show luaH_getnum (getTable (stepDown src dst f t j
            (moveStep L src dst (f + j) (t + j))) dst) (t + j) =
          luaH_get (getTable (stepDown src dst f t j
            (moveStep L src dst (f + j) (t + j))) dst) (.number (t + j)) from rfl, e,
          moveStep_get L src dst _ _ hv, if_pos rfl]
      · rw [a j (by omega)]
        apply moveStep_src L src dst _ _ hv
        rcases hdir with h | h
        · exact Or.inl h
        · exact Or.inr (by omega)
    · intro key hk
      rw [stepDown, b key (fun j j2 => hk j (by omega)),
        moveStep_get L src dst _ _ hv, if_neg (hk c (by omega))]
theorem copySlot_eq (L : lua_State) (src dst : Nat) (kf kt : Int)
    (h1 : 1 ≤ kf ∧ kf ≤ ((getTable L src).array.length : Int))
    (h2 : 1 ≤ kt ∧ kt ≤ ((getTable L dst).array.length : Int)) :
    copySlot L src dst (kf - 1) (kt - 1) = moveStep L src dst kf kt := by
  unfold copySlot moveStep luaH_setnum luaH_getnum
  rw [if_pos h1, if_pos h2]

theorem moveStep_arraylen (L : lua_State) (src dst : Nat) (kf kt : Int)
    (h2 : 1 ≤ kt ∧ kt ≤ ((getTable L dst).array.length : Int)) (h : Nat) :
    (getTable (moveStep L src dst kf kt) h).array.length = (getTable L h).array.length := by
  by_cases c : h = dst
  · subst c
    by_cases hv : h < L.tables.length
    · rw [moveStep_dst L src h kf kt hv]
      unfold luaH_setnum
      rw [if_pos h2]
      simp only [List.length_set]
    · have e : (moveStep L src h kf kt).tables = L.tables := by
        simp only [moveStep, setTable]
        exact List.set_eq_of_length_le (not_lt.mp hv)
      simp only [getTable, e]
  · rw [moveStep_other _ _ _ _ _ _ c]

theorem copyUp_eq (src dst : Nat) (f t : Int) (cnt i : Nat) (L : lua_State)
    (h1 : 1 ≤ f + i) (h2 : f + i + cnt - 1 ≤ ((getTable L src).array.length : Int))
    (h3 : 1 ≤ t + i) (h4 : t + i + cnt - 1 ≤ ((getTable L dst).array.length : Int)) :
    copyUp src dst f t cnt i L = stepUp src dst f t cnt i L := by
  induction cnt generalizing i L with
  | zero => rfl
  | succ c ih =>
    have hb : 1 ≤ t + i ∧ t + i ≤ ((getTable L dst).array.length : Int) := by
      push_cast at h4
      omega
    rw [copyUp, stepUp, copySlot_eq L src dst (f + i) (t + i) (by push_cast at h2; omega) hb]
    apply ih
    · push_cast
      omega
    · rw [moveStep_arraylen L src dst _ _ hb]
      push_cast at h2 ⊢
      omega
    · push_cast
      omega
    · rw [moveStep_arraylen L src dst _ _ hb]
      push_cast at h4 ⊢
      omega

theorem copyDown_eq (src dst : Nat) (f t : Int) (m : Nat) (L : lua_State)
    (h1 : 1 ≤ f) (h2 : f + m - 1 ≤ ((getTable L src).array.length : Int))
    (h3 : 1 ≤ t) (h4 : t + m - 1 ≤ ((getTable L dst).array.length : Int)) :
    copyDown src dst f t m L = stepDown src dst f t m L := by
  induction m generalizing L with
  | zero => rfl
  | succ c ih =>
    have hb : 1 ≤ t + c ∧ t + c ≤ ((getTable L dst).array.length : Int) := by
      push_cast at h4
      omega
    rw [copyDown, stepDown, copySlot_eq L src dst (f + c) (t + c) (by push_cast at h2; omega) hb]
    apply ih
    · rw [moveStep_arraylen L src dst _ _ hb]
      push_cast at h2 ⊢
      omega
    · rw [moveStep_arraylen L src dst _ _ hb]
      push_cast at h4 ⊢
      omega

theorem moveelements_paths (L : lua_State) (srct dstt : Int) (src dst : Nat) (f e t : Int)
    (hs : tableAt L srct = some src) (hd : tableAt L dstt = some dst) (hp : 0 < dstt)
    (hro : (getTable L dst).readonly = false)
    (hss : ((getTable L src).array.length : Int) ≤ 2147483647)
    (hds : ((getTable L dst).array.length : Int) ≤ 2147483647)
    (hf : -2147483648 ≤ f) (he : e ≤ 2147483647) (hfe : f ≤ e)
    (hn : e - f + 1 ≤ 2147483647)
    (ht1 : -2147483648 ≤ t) (ht2 : t + (e - f) ≤ 2147483647) :
    moveelements L srct dstt f e t =
      .ok (if t > e ∨ t ≤ f ∨ dst ≠ src then stepUp src dst f t (e - f + 1).toNat 0 L
        else stepDown src dst f t (e - f + 1).toNat L) () ∧
    moveelements L srct dstt f e t =
      (if t > e ∨ t ≤ f ∨ dst ≠ src then rawMoveUp srct dstt f t (e - f + 1).toNat 0 L
        else rawMoveDown srct dstt f t (e - f + 1).toNat L) := by
  have hup := rawMoveUp_eq srct dstt src dst f t hp (e - f + 1).toNat 0 L hs hd hro
  have hdown := rawMoveDown_eq srct dstt src dst f t hp (e - f + 1).toNat L hs hd hro
  have hgen : (if t > e ∨ t ≤ f ∨ dst ≠ src then rawMoveUp srct dstt f t (e - f + 1).toNat 0 L
        else rawMoveDown srct dstt f t (e - f + 1).toNat L) =
      .ok (if t > e ∨ t ≤ f ∨ dst ≠ src then stepUp src dst f t (e - f + 1).toNat 0 L
        else stepDown src dst f t (e - f + 1).toNat L) () := by
    split
    · exact hup
    · exact hdown
  rw [hgen, and_self]
  unfold moveelements
  simp only [hs, hd, Option.getD_some, hro, Bool.false_eq_true, if_false]
  split
  · rename_i hc
    obtain ⟨c1, c2, c3, c4⟩ := hc
    have b : 1 ≤ f ∧ e ≤ ((getTable L src).array.length : Int) ∧ 1 ≤ t ∧
        t + (e - f) ≤ ((getTable L dst).array.length : Int) := by
      unfold toUnsigned at c1 c2 c3 c4
      omega
    have hdir : (t > e ∨ t ≤ f ∨ dstt ≠ srct ∧ dst ≠ src) ↔ (t > e ∨ t ≤ f ∨ dst ≠ src) := by
      constructor
      · rintro (h | h | h)
        · exact Or.inl h
        · exact Or.inr (Or.inl h)
        · exact Or.inr (Or.inr h.2)
      · rintro (h | h | h)
        · exact Or.inl h
        · exact Or.inr (Or.inl h)
        · refine Or.inr (Or.inr ⟨?_, h⟩)
          intro hq
          rw [hq, hs] at hd
          injection hd with hd
          exact h hd.symm
    have hcast : (((e - f + 1).toNat : Nat) : Int) = e - f + 1 := Int.toNat_of_nonneg (by omega)
    by_cases cd : t > e ∨ t ≤ f ∨ dst ≠ src
    · rw [if_pos (hdir.mpr cd), if_pos cd,
        copyUp_eq src dst f t _ 0 L (by simpa using b.1) (by rw [hcast]; simp; omega)
          (by simpa using b.2.2.1) (by rw [hcast]; simp; omega)]
    · rw [if_neg (fun h => cd (hdir.mp h)), if_neg cd,
        copyDown_eq src dst f t _ L b.1 (by rw [hcast]; omega) b.2.2.1 (by rw [hcast]; omega)]
  · exact hgen
theorem tmove_resized (L : lua_State) (a2 : Nat) (nasize : Nat) (c : Prop) [Decidable c]
    (hg : c → (getTable L a2).array.length ≤ nasize) :
    (∀ idx, tableAt (if c then setTable L a2 (luaH_resizearray (getTable L a2) nasize) else L) idx =
      tableAt L idx) ∧
    (if c then setTable L a2 (luaH_resizearray (getTable L a2) nasize) else L).stack = L.stack ∧
    (if c then setTable L a2 (luaH_resizearray (getTable L a2) nasize) else L).tables.length =
      L.tables.length ∧
    (∀ h, h ≠ a2 →
      getTable (if c then setTable L a2 (luaH_resizearray (getTable L a2) nasize) else L) h =
        getTable L h) ∧
    (∀ h key,
      luaH_get (getTable (if c then setTable L a2 (luaH_resizearray (getTable L a2) nasize)
        else L) h) key = luaH_get (getTable L h) key) ∧
    (∀ h, (getTable (if c then setTable L a2 (luaH_resizearray (getTable L a2) nasize)
        else L) h).readonly = (getTable L h).readonly) ∧
    (∀ h, (getTable (if c then setTable L a2 (luaH_resizearray (getTable L a2) nasize)
        else L) h).array.length ≤ max (getTable L h).array.length nasize) := by
  by_cases hc : c
  · simp only [if_pos hc]
    have key : ∀ h, getTable (setTable L a2 (luaH_resizearray (getTable L a2) nasize)) h =
        getTable L h ∨
        (h = a2 ∧ getTable (setTable L a2 (luaH_resizearray (getTable L a2) nasize)) h =
          luaH_resizearray (getTable L a2) nasize) := by
      intro h
      by_cases ch : h = a2
      · subst ch
        by_cases hv : h < L.tables.length
        · exact Or.inr ⟨rfl, getTable_setTable_self L h _ hv⟩
        · left
          have e : (setTable L h (luaH_resizearray (getTable L h) nasize)).tables = L.tables := by
            simp only [setTable]
            exact List.set_eq_of_length_le (not_lt.mp hv)
          show (setTable L h (luaH_resizearray (getTable L h) nasize)).tables.getD h emptyTable =
            L.tables.getD h emptyTable
          rw [e]
      · exact Or.inl (getTable_setTable_ne L a2 h _ ch)
    refine ⟨fun _ => rfl, rfl, by simp [setTable], ?_, ?_, ?_, ?_⟩
    · intro h hne
      exact getTable_setTable_ne L a2 h _ hne
    · intro h k
      rcases key h with e | ⟨e1, e2⟩
      · rw [e]
      · rw [e2, e1, luaH_get_resizearray _ _ (hg hc)]
    · intro h
      rcases key h with e | ⟨e1, e2⟩
      · rw [e]
      · rw [e2, e1, luaH_resizearray_readonly]
    · intro h
      rcases key h with e | ⟨e1, e2⟩
      · rw [e]
        exact le_max_left _ _
      · rw [e2, luaH_resizearray_length _ _ (hg hc)]
        exact le_max_right _ _
  · rw [if_neg hc]
    exact ⟨fun _ => rfl, rfl, rfl, fun _ _ => rfl, fun _ _ => rfl, fun _ => rfl,
      fun _ => le_max_left _ _⟩

theorem tmove_eval (cvt2num : String → Option Int) (L : lua_State) (a1 a2 : Nat) (f e t : Int)
    (h1 : tableAt L 1 = some a1)
    (hf : lua_tointegerx cvt2num L 2 = some f) (he : lua_tointegerx cvt2num L 3 = some e)
    (ht : lua_tointegerx cvt2num L 4 = some t)
    (hd : tableAt L (if ! lua_isnoneornil L 5 then 5 else 1) = some a2)
    (hro : (getTable L a2).readonly = false) :
    (e < f → tmove cvt2num L = .ok (push L (.table a2)) 1) ∧
    (f ≤ e → (f > 0 ∨ e < INT_MAX + f) → t ≤ INT_MAX - (e - f + 1) + 1 →
      tmove cvt2num L =
        (moveelements
          (if t > 0 ∧ t - 1 ≤ ((getTable L a2).array.length : Int) ∧
              t - 1 + (e - f + 1) > ((getTable L a2).array.length : Int) then
            setTable L a2 (luaH_resizearray (getTable L a2) (t - 1 + (e - f + 1)).toNat)
           else L) 1 (if ! lua_isnoneornil L 5 then 5 else 1) f e t).andThen fun L1 _ =>
          .ok (push L1 ((index2addr L1 (if ! lua_isnoneornil L 5 then 5 else 1)).getD .nil))
            1) := by
  have c1 := luaL_checktype_table h1
  have c5 := luaL_checktype_table hd
  have hv := index2addr_of_tableAt hd
  have ci2 := luaL_checkinteger_some hf
  have ci3 := luaL_checkinteger_some he
  have ci4 := luaL_checkinteger_some ht
  refine ⟨?_, ?_⟩
  · intro hlt
    have hn : ¬ (e ≥ f) := by omega
    simp only [tmove, c1, ci2, ci3, ci4, c5, andThen_ok, if_neg hn, hv, Option.getD_some]
  · intro hle ha hb
    have hn : e ≥ f := hle
    simp only [tmove, c1, ci2, ci3, ci4, c5, andThen_ok, if_pos hn, luaL_argcheck,
      decide_eq_true ha, decide_eq_true hb, if_true, hd, Option.getD_some, hro,
      Bool.false_eq_true, if_false]
theorem index2addr_stack {L M : lua_State} (h : M.stack = L.stack) (idx : Int) :
    index2addr M idx = index2addr L idx := by
  unfold index2addr
  rw [h]

theorem tableAt_stack {L M : lua_State} (h : M.stack = L.stack) (idx : Int) :
    tableAt M idx = tableAt L idx := by
  unfold tableAt
  rw [index2addr_stack h]

theorem tmove_moved (cvt2num : String → Option Int) (L : lua_State) (a1 a2 : Nat) (f e t : Int)
    (h1 : tableAt L 1 = some a1)
    (hf : lua_tointegerx cvt2num L 2 = some f) (he : lua_tointegerx cvt2num L 3 = some e)
    (ht : lua_tointegerx cvt2num L 4 = some t)
    (hd : tableAt L (if ! lua_isnoneornil L 5 then 5 else 1) = some a2)
    (hv : a2 < L.tables.length) (hro : (getTable L a2).readonly = false)
    (hs1 : ((getTable L a1).array.length : Int) ≤ 2147483647)
    (hs2 : ((getTable L a2).array.length : Int) ≤ 2147483647)
    (hfr : -2147483648 ≤ f) (her : e ≤ 2147483647) (htr : -2147483648 ≤ t)
    (hfe : f ≤ e) (ha : f > 0 ∨ e < INT_MAX + f) (hb : t ≤ INT_MAX - (e - f + 1) + 1) :
    ∃ M : lua_State,
      tmove cvt2num L = .ok (push M (.table a2)) 1 ∧
      M.stack = L.stack ∧ M.tables.length = L.tables.length ∧
      (∀ h, h ≠ a2 → getTable M h = getTable L h) ∧
      (∀ i : Int, 0 ≤ i → i ≤ e - f →
        luaH_getnum (getTable M a2) (t + i) = luaH_getnum (getTable L a1) (f + i)) ∧
      (∀ key : TValue, (∀ i : Int, 0 ≤ i → i ≤ e - f → key ≠ .number (t + i)) →
        luaH_get (getTable M a2) key = luaH_get (getTable L a2) key) ∧
      (getTable M a2).readonly = false := by
  have hmax : INT_MAX = 2147483647 := rfl
  rw [hmax] at ha hb
  have hev := (tmove_eval cvt2num L a1 a2 f e t h1 hf he ht hd hro).2 hfe
    (by rw [hmax]; exact ha) (by rw [hmax]; exact hb)
  have hpos : (0 : Int) < (if ! lua_isnoneornil L 5 then 5 else 1) := by
    split <;> decide
  generalize (if ! lua_isnoneornil L 5 then (5 : Int) else 1) = tt at hd hev hpos
  obtain ⟨r1, r2, r3, r4, r5, r6, r7⟩ := tmove_resized L a2 (t - 1 + (e - f + 1)).toNat
    (t > 0 ∧ t - 1 ≤ ((getTable L a2).array.length : Int) ∧
      t - 1 + (e - f + 1) > ((getTable L a2).array.length : Int)) (by
      intro hc
      omega)
  generalize (if t > 0 ∧ t - 1 ≤ ((getTable L a2).array.length : Int) ∧
      t - 1 + (e - f + 1) > ((getTable L a2).array.length : Int) then
      setTable L a2 (luaH_resizearray (getTable L a2) (t - 1 + (e - f + 1)).toNat)
     else L) = R at hev r1 r2 r3 r4 r5 r6 r7
  have hb1 : ((getTable R a1).array.length : Int) ≤ 2147483647 := by
    have := r7 a1
    have := le_max_iff.mp this
    omega
  have hb2 : ((getTable R a2).array.length : Int) ≤ 2147483647 := by
    have := r7 a2
    have := le_max_iff.mp this
    omega
  have hp := (moveelements_paths R 1 tt a1 a2 f e t (by rw [r1, h1]) (by rw [r1, hd]) hpos
    (by rw [r6, hro]) hb1 hb2 hfr her hfe (by omega) htr (by omega)).1
  rw [hp, andThen_ok] at hev
  have hcast : (((e - f + 1).toNat : Nat) : Int) = e - f + 1 := Int.toNat_of_nonneg (by omega)
  have hvR : a2 < R.tables.length := by rw [r3]; exact hv
  have hsrc : ∀ k, luaH_getnum (getTable R a1) k = luaH_getnum (getTable L a1) k :=
    fun k => r5 a1 (.number k)
  by_cases cd : t > e ∨ t ≤ f ∨ a2 ≠ a1
  · rw [if_pos cd] at hev
    obtain ⟨q1, q2, q3, q4⟩ := stepUp_tableAt a1 a2 f t (e - f + 1).toNat 0 R
    obtain ⟨s1, s2⟩ := stepUp_spec a1 a2 f t (e - f + 1).toNat 0 R hvR (by
      rcases cd with h | h | h
      · exact Or.inr (Or.inr (by rw [Nat.zero_add, hcast]; omega))
      · exact Or.inr (Or.inl h)
      · exact Or.inl (Ne.symm h))
    refine ⟨_, ?_, by rw [q1, r2], by rw [q2, r3], ?_, ?_, ?_, by rw [q3, r6, hro]⟩
    · rw [hev, index2addr_stack (q1.trans r2), index2addr_of_tableAt hd]
      rfl
    · intro h hne
      rw [q4 h hne, r4 h hne]
    · intro i i1 i2
      have := s1 i.toNat (Nat.zero_le _) (by omega)
      rw [Int.toNat_of_nonneg i1] at this
      rw [this, hsrc]
    · intro key hk
      rw [s2 key (fun j _ j2 => hk j (by omega) (by omega)), r5]
  · rw [if_neg cd] at hev
    obtain ⟨q1, q2, q3, q4⟩ := stepDown_tableAt a1 a2 f t (e - f + 1).toNat R
    obtain ⟨s1, s2⟩ := stepDown_spec a1 a2 f t (e - f + 1).toNat R hvR (by
      right
      by_contra hc
      exact cd (Or.inr (Or.inl (by omega))))
    refine ⟨_, ?_, by rw [q1, r2], by rw [q2, r3], ?_, ?_, ?_, by rw [q3, r6, hro]⟩
    · rw [hev, index2addr_stack (q1.trans r2), index2addr_of_tableAt hd]
      rfl
    · intro h hne
      rw [q4 h hne, r4 h hne]
    · intro i i1 i2
      have := s1 i.toNat (by omega)
      rw [Int.toNat_of_nonneg i1] at this
      rw [this, hsrc]
    · intro key hk
      rw [s2 key (fun j j2 => hk j (by omega) (by omega)), r5]
theorem tmove_empty (cvt2num : String → Option Int) (L : lua_State) (a1 a2 : Nat) (f e t : Int)
    (h1 : tableAt L 1 = some a1)
    (hf : lua_tointegerx cvt2num L 2 = some f) (he : lua_tointegerx cvt2num L 3 = some e)
    (ht : lua_tointegerx cvt2num L 4 = some t)
    (hd : tableAt L (if ! lua_isnoneornil L 5 then 5 else 1) = some a2) (hlt : e < f) :
    tmove cvt2num L = .ok (push L (.table a2)) 1 := by
  have c1 := luaL_checktype_table h1
  have c5 := luaL_checktype_table hd
  have hv := index2addr_of_tableAt hd
  have ci2 := luaL_checkinteger_some hf
  have ci3 := luaL_checkinteger_some he
  have ci4 := luaL_checkinteger_some ht
  have hn : ¬ (e ≥ f) := by omega
  simp only [tmove, c1, ci2, ci3, ci4, c5, andThen_ok, if_neg hn, hv, Option.getD_some]

theorem slot_eq_getElem (a : List TValue) (k : Nat) (h : k < a.length) :
    slot a k = a[k] := by
  unfold slot
  rw [List.getD_eq_getElem?_getD, List.getElem?_eq_getElem h]
  rfl

theorem swapA_length (a : List TValue) (i j : Nat) : (swapA a i j).length = a.length := by
  simp [swapA]

theorem slot_swapA (a : List TValue) (i j k : Nat) (hi : i < a.length) (hj : j < a.length) :
    slot (swapA a i j) k =
      if k = j then slot a i else if k = i then slot a j else slot a k := by
  unfold swapA slot
  simp only [List.getD_eq_getElem?_getD, List.getElem?_set, List.length_set]
  by_cases c1 : k = j
  · subst c1
    simp [hj]
  · by_cases c2 : k = i
    · subst c2
      have : ¬ j = k := fun h => c1 h.symm
      simp [hi, this, c1]
    · have h1 : ¬ j = k := fun h => c1 h.symm
      have h2 : ¬ i = k := fun h => c2 h.symm
      simp [h1, h2, c1, c2]

theorem count_getElem_le (a : List TValue) (i : Nat) (hi : i < a.length) (x : TValue) :
    (if a[i] == x then 1 else 0) ≤ a.count x := by
  by_cases c : a[i] == x
  · rw [if_pos c]
    have hx : a[i] = x := by simpa using c
    have : x ∈ a := hx ▸ List.getElem_mem hi
    exact List.count_pos_iff.mpr this
  · rw [if_neg c]
    exact Nat.zero_le _

theorem swapA_perm (a : List TValue) (i j : Nat) (hi : i < a.length) (hj : j < a.length) :
    List.Perm (swapA a i j) a := by
  rw [List.perm_iff_count]
  intro x
  unfold swapA
  rw [List.count_set _ _ _ _ (by rw [List.length_set]; exact hj), List.count_set _ _ _ _ hi,
    slot_eq_getElem a i hi, slot_eq_getElem a j hj]
  have h1 := count_getElem_le a i hi x
  have e : ∀ (hs : j < (a.set i a[j]).length), (a.set i a[j])[j] = a[j] := by
    intro hs
    rw [List.getElem_set]
    split
    · rfl
    · rfl
  rw [e]
  omega
theorem Moved_refl (a : List TValue) (l u : Nat) : Moved a a l u :=
  ⟨rfl, List.Perm.refl a, fun _ _ => rfl⟩

theorem Moved_trans {a b c : List TValue} {l u : Nat} (h1 : Moved a b l u) (h2 : Moved b c l u) :
    Moved a c l u :=
  ⟨h2.1.trans h1.1, h2.2.1.trans h1.2.1, fun k hk => (h2.2.2 k hk).trans (h1.2.2 k hk)⟩

theorem Moved_mono {a b : List TValue} {l u l1 u1 : Nat} (h : Moved a b l1 u1) (hl : l ≤ l1)
    (hu : u1 ≤ u) : Moved a b l u :=
  ⟨h.1, h.2.1, fun k hk => h.2.2 k (by omega)⟩

theorem Moved_swap (a : List TValue) (l u i j : Nat) (hi : l ≤ i ∧ i ≤ u) (hj : l ≤ j ∧ j ≤ u)
    (hil : i < a.length) (hjl : j < a.length) : Moved a (swapA a i j) l u := by
  refine ⟨swapA_length a i j, swapA_perm a i j hil hjl, ?_⟩
  intro k hk
  rw [slot_swapA a i j k hil hjl, if_neg (by omega), if_neg (by omega)]

theorem take_eq_of_slot (a b : List TValue) (n : Nat) (hlen : b.length = a.length)
    (h : ∀ k, k < n → slot b k = slot a k) : b.take n = a.take n := by
  apply List.ext_getElem
  · simp [hlen]
  · intro i h1 h2
    rw [List.length_take] at h1 h2
    rw [List.getElem_take, List.getElem_take]
    have := h i (by omega)
    rw [slot_eq_getElem b i (by omega), slot_eq_getElem a i (by omega)] at this
    exact this

theorem drop_eq_of_slot (a b : List TValue) (n : Nat) (hlen : b.length = a.length)
    (h : ∀ k, n ≤ k → slot b k = slot a k) : b.drop n = a.drop n := by
  apply List.ext_getElem
  · simp [hlen]
  · intro i h1 h2
    rw [List.length_drop] at h1 h2
    rw [List.getElem_drop, List.getElem_drop]
    have := h (n + i) (by omega)
    rw [slot_eq_getElem b (n + i) (by omega), slot_eq_getElem a (n + i) (by omega)] at this
    exact this

theorem Moved_middle {a b : List TValue} {l u : Nat} (h : Moved a b l u) :
    List.Perm ((b.drop l).take (u + 1 - l)) ((a.drop l).take (u + 1 - l)) := by
  obtain ⟨hlen, hp, hf⟩ := h
  have e1 : b.take l = a.take l := take_eq_of_slot a b l hlen (fun k hk => hf k (Or.inl hk))
  have e2 : (b.drop l).drop (u + 1 - l) = (a.drop l).drop (u + 1 - l) := by
    rw [List.drop_drop, List.drop_drop]
    by_cases c : l ≤ u + 1
    · exact drop_eq_of_slot a b _ hlen (fun k hk => hf k (Or.inr (by omega)))
    · exact drop_eq_of_slot a b _ hlen (fun k hk => hf k (Or.inr (by omega)))
  have p1 : List.Perm (a.take l ++ b.drop l) (a.take l ++ a.drop l) := by
    have e : a.take l ++ b.drop l = b := by rw [← e1, List.take_append_drop]
    rw [e, List.take_append_drop]
    exact hp
  have p2 := (List.perm_append_left_iff (a.take l)).mp p1
  have p3 : List.Perm ((b.drop l).take (u + 1 - l) ++ (a.drop l).drop (u + 1 - l))
      ((a.drop l).take (u + 1 - l) ++ (a.drop l).drop (u + 1 - l)) := by
    have e : (b.drop l).take (u + 1 - l) ++ (a.drop l).drop (u + 1 - l) = b.drop l := by
      rw [← e2, List.take_append_drop]
    rw [e, List.take_append_drop]
    exact p2
  exact (List.perm_append_right_iff _).mp p3

theorem slot_mem_middle (a : List TValue) (l u k : Nat) (h1 : l ≤ k) (h2 : k ≤ u)
    (h3 : k < a.length) : slot a k ∈ (a.drop l).take (u + 1 - l) := by
  rw [List.mem_iff_getElem]
  refine ⟨k - l, by rw [List.length_take, List.length_drop]; omega, ?_⟩
  rw [List.getElem_take, List.getElem_drop, slot_eq_getElem a k h3]
  congr 1
  omega

theorem mem_middle_slot (a : List TValue) (l u : Nat) (x : TValue)
    (h : x ∈ (a.drop l).take (u + 1 - l)) :
    ∃ k, l ≤ k ∧ k ≤ u ∧ k < a.length ∧ slot a k = x := by
  rw [List.mem_iff_getElem] at h
  obtain ⟨i, hi, e⟩ := h
  rw [List.length_take, List.length_drop] at hi
  rw [List.getElem_take, List.getElem_drop] at e
  refine ⟨l + i, by omega, by omega, by omega, ?_⟩
  rw [slot_eq_getElem a (l + i) (by omega)]
  exact e

theorem Moved_forall {a b : List TValue} {l u : Nat} (h : Moved a b l u) (hu : u < a.length)
    (Q : TValue → Prop) (hq : ∀ k, l ≤ k → k ≤ u → Q (slot a k)) :
    ∀ k, l ≤ k → k ≤ u → Q (slot b k) := by
  intro k k1 k2
  have m1 := slot_mem_middle b l u k k1 k2 (by rw [h.1]; omega)
  have m2 := (Moved_middle h).mem_iff.mp m1
  obtain ⟨k', a1, a2, _, a4⟩ := mem_middle_slot a l u _ m2
  rw [← a4]
  exact hq k' a1 a2
theorem swo_asymm {E : TValue → Prop} {lt : TValue → TValue → Bool} (hs : StrictWeakOrder E lt)
    {x y : TValue} (hx : E x) (hy : E y) (h : lt x y = true) : lt y x = false := by
  cases hyx : lt y x with
  | false => rfl
  | true =>
    have := hs.trans x y x hx hy hx h hyx
    rw [hs.irrefl x hx] at this
    exact absurd this (by decide)

theorem swo_le_trans {E : TValue → Prop} {lt : TValue → TValue → Bool}
    (hs : StrictWeakOrder E lt) {x y z : TValue} (hx : E x) (hy : E y) (hz : E z)
    (h1 : lt y x = false) (h2 : lt z y = false) : lt z x = false := by
  cases hzx : lt z x with
  | false => rfl
  | true =>
    cases hxy : lt x y with
    | true =>
      have := hs.trans z x y hz hx hy hzx hxy
      rw [h2] at this
      exact absurd this (by decide)
    | false =>
      cases hyz : lt y z with
      | true =>
        have := hs.trans y z x hy hz hx hyz hzx
        rw [h1] at this
        exact absurd this (by decide)
      | false =>
        have := (hs.incomp x y z hx hy hz hxy h1 hyz h2).2
        rw [hzx] at this
        exact absurd this (by decide)

theorem getTable_withArray (L : lua_State) (h : Nat) (a : List TValue)
    (hv : h < L.tables.length) :
    getTable (withArray L h a) h = { getTable L h with array := a } :=
  getTable_setTable_self L h _ hv

theorem withArray_withArray (L : lua_State) (h : Nat) (a b : List TValue)
    (hv : h < L.tables.length) : withArray (withArray L h a) h b = withArray L h b := by
  have e := getTable_withArray L h a hv
  unfold withArray at e ⊢
  rw [e]
  simp only [setTable, List.set_set]

theorem list_set_self (l : List LuaTable) (i : Nat) (hi : i < l.length) : l.set i l[i] = l := by
  apply List.ext_getElem
  · simp
  · intro k h1 h2
    rw [List.getElem_set]
    split
    · rename_i hk
      subst hk
      rfl
    · rfl

theorem withArray_self (L : lua_State) (h : Nat) (hv : h < L.tables.length) :
    withArray L h (getTable L h).array = L := by
  have e : L.tables.getD h emptyTable = L.tables[h] := by
    rw [List.getD_eq_getElem?_getD, List.getElem?_eq_getElem hv]
    rfl
  have e2 : L.tables.set h { getTable L h with array := (getTable L h).array } = L.tables := by
    show L.tables.set h (L.tables.getD h emptyTable) = L.tables
    rw [e]
    exact list_set_self L.tables h hv
  unfold withArray setTable
  rw [e2]

theorem withArray_stack (L : lua_State) (h : Nat) (a : List TValue) :
    (withArray L h a).stack = L.stack := rfl

theorem withArray_other (L : lua_State) (h : Nat) (a : List TValue) (k : Nat) (hk : k ≠ h) :
    getTable (withArray L h a) k = getTable L k :=
  getTable_setTable_ne L h k _ hk

theorem sort_swap_eq (L : lua_State) (h : Nat) (a : List TValue) (i j : Nat)
    (hv : h < L.tables.length) :
    sort_swap (withArray L h a) h i j = withArray L h (swapA a i j) := by
  have e := getTable_withArray L h a hv
  unfold sort_swap
  simp only [e]
  unfold withArray swapA slot
  simp only [setTable, List.set_set]

theorem sort_less_eq (pred : SortPredicate) (E : TValue → Prop) (lt : TValue → TValue → Bool)
    (L : lua_State) (h : Nat) (hp : PurePredicate pred L h E lt) (a : List TValue) (i j : Nat)
    (hv : h < L.tables.length) (hi : E (slot a i)) (hj : E (slot a j)) :
    sort_less (withArray L h a) h i j pred =
      .ok (withArray L h a) (lt (slot a i) (slot a j)) := by
  have e := getTable_withArray L h a hv
  unfold sort_less
  simp only [e]
  rw [show a.getD i TValue.nil = slot a i from rfl, show a.getD j TValue.nil = slot a j from rfl,
    hp _ _ _ hi hj, andThen_ok, e]
  simp
theorem slot_swapA_off (a : List TValue) (l x n k : Nat) (hx : l + x < a.length)
    (hn : l + n < a.length) :
    slot (swapA a (l + x) (l + n)) (l + k) =
      if k = n then slot a (l + x) else if k = x then slot a (l + n) else slot a (l + k) := by
  rw [slot_swapA a _ _ _ hx hn]
  by_cases c1 : k = n
  · rw [if_pos (by omega), if_pos c1]
  · rw [if_neg (by omega), if_neg c1]
    by_cases c2 : k = x
    · rw [if_pos (by omega), if_pos c2]
    · rw [if_neg (by omega), if_neg c2]

theorem siftInv_swap {E : TValue → Prop} {lt : TValue → TValue → Bool}
    (hs : StrictWeakOrder E lt) (a : List TValue) (l c r x n : Nat)
    (hlen : l + c ≤ a.length) (hE : ∀ k, k < c → E (slot a (l + k))) (hr : r ≤ x)
    (hn : n = 2 * x + 1 ∨ n = 2 * x + 2) (hnc : n < c)
    (F1 : lt (slot a (l + x)) (slot a (l + n)) = true)
    (F2 : ∀ o, o < c → o = 2 * x + 1 ∨ o = 2 * x + 2 → o ≠ n →
      lt (slot a (l + n)) (slot a (l + o)) = false)
    (hinv : siftInv lt a l c r x) : siftInv lt (swapA a (l + x) (l + n)) l c r n := by
  obtain ⟨i1, i2⟩ := hinv
  have hxl : l + x < a.length := by omega
  have hnl : l + n < a.length := by omega
  have hb := fun k => slot_swapA_off a l x n k hxl hnl
  have hnx : n ≠ x := by omega
  have F3 := swo_asymm hs (hE x (by omega)) (hE n hnc) F1
  constructor
  · intro p ch hp hpn hch hcc
    rw [hb p, hb ch, if_neg hpn]
    by_cases cpx : p = x
    · subst cpx
      rw [if_pos rfl]
      by_cases cn : ch = n
      · rw [if_pos cn]
        exact F3
      · rw [if_neg cn, if_neg (by omega)]
        exact F2 ch hch hcc cn
    · rw [if_neg cpx, if_neg (by omega)]
      by_cases cx : ch = x
      · rw [if_pos cx]
        exact i2 p n hp (by omega) hnc (by omega)
      · rw [if_neg cx]
        exact i1 p ch hp cpx hch hcc
  · intro px ch hp hpx hch hcc
    have e : px = x := by omega
    subst e
    rw [hb px, hb ch, if_neg (by omega), if_pos rfl, if_neg (by omega), if_neg (by omega)]
    exact i1 n ch (by omega) hnx hch hcc
theorem swapA_E {E : TValue → Prop} (a : List TValue) (l c x n : Nat)
    (hlen : l + c ≤ a.length) (hx : x < c) (hn : n < c)
    (hE : ∀ k, k < c → E (slot a (l + k))) :
    ∀ k, k < c → E (slot (swapA a (l + x) (l + n)) (l + k)) := by
  intro k hk
  rw [slot_swapA_off a l x n k (by omega) (by omega)]
  split
  · exact hE x hx
  · split
    · exact hE n hn
    · exact hE k hk

theorem siftLoop_spec (pred : SortPredicate) (E : TValue → Prop)
    (lt : TValue → TValue → Bool) (hs : StrictWeakOrder E lt)
    (L : lua_State) (h : Nat) (hp : PurePredicate pred L h E lt)
    (hv : h < L.tables.length) (l c r : Nat) :
    ∀ (fuel : Nat) (a : List TValue) (x : Nat), c ≤ fuel + x → r ≤ x → x < c →
      l + c ≤ a.length → (∀ k, k < c → E (slot a (l + k))) → siftInv lt a l c r x →
      ∃ (b : List TValue) (y : Nat),
        siftLoop pred h l c fuel (withArray L h a) x = .ok (withArray L h b) y ∧
        Moved a b l (l + c - 1) ∧ y < c ∧ r ≤ y ∧ siftInv lt b l c r y ∧
        (y * 2 + 2 < c → ∀ ch, ch < c → ch = 2 * y + 1 ∨ ch = 2 * y + 2 →
          lt (slot b (l + y)) (slot b (l + ch)) = false) := by
  intro fuel
  induction fuel with
  | zero =>
    intro a x h1 _ h3
    omega
  | succ fuel ih =>
    intro a x h1 hr hx hlen hE hinv
    rw [siftLoop]
    by_cases hc : x * 2 + 2 < c
    · rw [if_pos hc]
      simp only []
      have e1 : x * 2 + 1 = 2 * x + 1 := by omega
      have e2 : x * 2 + 2 = 2 * x + 2 := by omega
      rw [e1, e2]
      have Ex := hE x hx
      have El := hE (2 * x + 1) (by omega)
      have Er := hE (2 * x + 2) (by omega)
      rw [sort_less_eq pred E lt L h hp a _ _ hv Ex El, andThen_ok]
      have down : ∀ n o, (n = 2 * x + 1 ∧ o = 2 * x + 2) ∨ (n = 2 * x + 2 ∧ o = 2 * x + 1) →
          lt (slot a (l + x)) (slot a (l + n)) = true →
          lt (slot a (l + n)) (slot a (l + o)) = false →
          ∃ (b : List TValue) (y : Nat),
            siftLoop pred h l c fuel (sort_swap (withArray L h a) h (l + x) (l + n)) n =
              .ok (withArray L h b) y ∧
            Moved a b l (l + c - 1) ∧ y < c ∧ r ≤ y ∧ siftInv lt b l c r y ∧
            (y * 2 + 2 < c → ∀ ch, ch < c → ch = 2 * y + 1 ∨ ch = 2 * y + 2 →
              lt (slot b (l + y)) (slot b (l + ch)) = false) := by
        intro n o hn F1 F2
        have hnc : n < c := by omega
        rw [sort_swap_eq L h a _ _ hv]
        obtain ⟨b, y, q1, q2, q3, q4, q5, q6⟩ := ih (swapA a (l + x) (l + n)) n (by omega)
          (by omega) hnc (by rw [swapA_length]; exact hlen)
          (swapA_E a l c x n hlen hx hnc hE)
          (siftInv_swap hs a l c r x n hlen hE hr (by omega) hnc F1 (by
            intro o1 _ h2 h3
            have : o1 = o := by omega
            rw [this]
            exact F2) hinv)
        refine ⟨b, y, q1, ?_, q3, q4, q5, q6⟩
        exact Moved_trans (Moved_swap a l (l + c - 1) (l + x) (l + n) (by omega) (by omega)
          (by omega) (by omega)) q2
      cases hb1 : lt (slot a (l + x)) (slot a (l + (2 * x + 1))) with
      | false =>
        simp only [Bool.false_eq_true, if_false]
        rw [sort_less_eq pred E lt L h hp a _ _ hv Ex Er, andThen_ok]
        cases hb2 : lt (slot a (l + x)) (slot a (l + (2 * x + 2))) with
        | false =>
          simp only [Bool.false_eq_true, if_false, if_true]
          refine ⟨a, x, rfl, Moved_refl a _ _, hx, hr, hinv, ?_⟩
          intro _ ch _ hch
          rcases hch with e | e
          · rw [e]
            exact hb1
          · rw [e]
            exact hb2
        | true =>
          simp only [if_true]
          rw [if_neg (by omega)]
          apply down (2 * x + 2) (2 * x + 1) (Or.inr ⟨rfl, rfl⟩) hb2
          cases hrl : lt (slot a (l + (2 * x + 2))) (slot a (l + (2 * x + 1))) with
          | false => rfl
          | true =>
            have := hs.trans _ _ _ Ex Er El hb2 hrl
            rw [hb1] at this
            exact absurd this (by decide)
      | true =>
        simp only [if_true]
        rw [sort_less_eq pred E lt L h hp a _ _ hv El Er, andThen_ok]
        cases hb2 : lt (slot a (l + (2 * x + 1))) (slot a (l + (2 * x + 2))) with
        | false =>
          simp only [Bool.false_eq_true, if_false]
          rw [if_neg (by omega)]
          exact down (2 * x + 1) (2 * x + 2) (Or.inl ⟨rfl, rfl⟩) hb1 hb2
        | true =>
          simp only [if_true]
          rw [if_neg (by omega)]
          exact down (2 * x + 2) (2 * x + 1) (Or.inr ⟨rfl, rfl⟩)
            (hs.trans _ _ _ Ex El Er hb1 hb2) (swo_asymm hs El Er hb2)
    · rw [if_neg hc]
      exact ⟨a, x, rfl, Moved_refl a _ _, hx, hr, hinv, fun hcc => absurd hcc hc⟩

theorem heapFrom_of_siftInv {lt : TValue → TValue → Bool} {a : List TValue} {l c r y : Nat}
    (hinv : siftInv lt a l c r y)
    (hy : ∀ ch, ch < c → ch = 2 * y + 1 ∨ ch = 2 * y + 2 →
      lt (slot a (l + y)) (slot a (l + ch)) = false) : heapFrom lt a l c r := by
  intro p ch hp hch hcc
  by_cases c1 : p = y
  · subst c1
    exact hy ch hch hcc
  · exact hinv.1 p ch hp c1 hch hcc

theorem sort_siftheap_spec (pred : SortPredicate) (E : TValue → Prop)
    (lt : TValue → TValue → Bool) (hs : StrictWeakOrder E lt)
    (L : lua_State) (h : Nat) (hp : PurePredicate pred L h E lt)
    (hv : h < L.tables.length) (l u r : Nat) (a : List TValue)
    (hlu : l ≤ u) (hu : u < a.length) (hr : r < u - l + 1)
    (hE : ∀ k, l ≤ k → k ≤ u → E (slot a k))
    (hinv : siftInv lt a l (u - l + 1) r r) :
    ∃ b : List TValue,
      sort_siftheap (withArray L h a) h l u pred r = .ok (withArray L h b) () ∧
      Moved a b l u ∧ heapFrom lt b l (u - l + 1) r := by
  have hE1 : ∀ k, k < u - l + 1 → E (slot a (l + k)) := fun k hk => hE _ (by omega) (by omega)
  obtain ⟨b, y, q1, q2, q3, q4, q5, q6⟩ := siftLoop_spec pred E lt hs L h hp hv l (u - l + 1) r
    (u - l + 1) a r (by omega) (le_refl _) hr (by omega) hE1 hinv
  have hlast : l + (u - l + 1) - 1 = u := by omega
  rw [hlast] at q2
  have hEb : ∀ k, k < u - l + 1 → E (slot b (l + k)) := fun k hk =>
    Moved_forall q2 hu E hE (l + k) (by omega) (by omega)
  have hbl : b.length = a.length := q2.1
  unfold sort_siftheap
  simp only []
  rw [q1, andThen_ok]
  by_cases c1 : y * 2 + 1 = u - l + 1 - 1
  · rw [if_pos c1]
    have e1 : y * 2 + 1 = 2 * y + 1 := by omega
    rw [e1, sort_less_eq pred E lt L h hp b _ _ hv (hEb y q3) (hEb (2 * y + 1) (by omega)),
      andThen_ok]
    cases hb1 : lt (slot b (l + y)) (slot b (l + (2 * y + 1))) with
    | false =>
      simp only [Bool.false_eq_true, if_false]
      refine ⟨b, rfl, q2, heapFrom_of_siftInv q5 ?_⟩
      intro ch hch hcc
      have : ch = 2 * y + 1 := by omega
      rw [this]
      exact hb1
    | true =>
      simp only [if_true]
      rw [sort_swap_eq L h b _ _ hv]
      refine ⟨_, rfl, Moved_trans q2 (Moved_swap b l u _ _ (by omega) (by omega) (by omega)
        (by omega)), ?_⟩
      have hi := siftInv_swap hs b l (u - l + 1) r y (2 * y + 1) (by omega) hEb q4
        (Or.inl rfl) (by omega) hb1 (by
          intro o h1 h2 h3
          omega) q5
      apply heapFrom_of_siftInv hi
      intro ch hch hcc
      omega
  · rw [if_neg c1]
    refine ⟨b, rfl, q2, heapFrom_of_siftInv q5 ?_⟩
    intro ch hch hcc
    by_cases c2 : y * 2 + 2 < u - l + 1
    · exact q6 c2 ch hch hcc
    · omega
theorem heapBuild_spec (pred : SortPredicate) (E : TValue → Prop)
    (lt : TValue → TValue → Bool) (hs : StrictWeakOrder E lt)
    (L : lua_State) (h : Nat) (hp : PurePredicate pred L h E lt)
    (hv : h < L.tables.length) (l u : Nat) (hlu : l ≤ u) :
    ∀ (k : Nat) (a : List TValue), k ≤ u - l + 1 → u < a.length →
      (∀ i, l ≤ i → i ≤ u → E (slot a i)) → heapFrom lt a l (u - l + 1) k →
      ∃ b : List TValue,
        heapBuild pred h l u k (withArray L h a) = .ok (withArray L h b) () ∧
        Moved a b l u ∧ heapFrom lt b l (u - l + 1) 0 := by
  intro k
  induction k with
  | zero =>
    intro a _ _ _ hh
    exact ⟨a, rfl, Moved_refl a l u, hh⟩
  | succ k ih =>
    intro a hk hu hE hh
    have hinv : siftInv lt a l (u - l + 1) k k := by
      constructor
      · intro p ch h1 h2 h3 h4
        exact hh p ch (by omega) h3 h4
      · intro px ch h1 h2
        omega
    obtain ⟨b, q1, q2, q3⟩ := sort_siftheap_spec pred E lt hs L h hp hv l u k a hlu hu
      (by omega) hE hinv
    obtain ⟨b2, r1, r2, r3⟩ := ih b (by omega) (by rw [q2.1]; exact hu)
      (Moved_forall q2 hu E hE) q3
    refine ⟨b2, ?_, Moved_trans q2 r2, r3⟩
    rw [heapBuild, q1, andThen_ok, r1]

theorem heap_top {E : TValue → Prop} {lt : TValue → TValue → Bool}
    (hs : StrictWeakOrder E lt) (a : List TValue) (l c : Nat)
    (hE : ∀ k, k < c → E (slot a (l + k))) (hh : heapFrom lt a l c 0) :
    ∀ k, k < c → lt (slot a l) (slot a (l + k)) = false := by
  intro k
  induction k using Nat.strong_induction_on with
  | _ k ih =>
    intro hk
    by_cases c0 : k = 0
    · subst c0
      exact hs.irrefl _ (hE 0 hk)
    · have hpar : k = 2 * ((k - 1) / 2) + 1 ∨ k = 2 * ((k - 1) / 2) + 2 := by omega
      have h1 := hh ((k - 1) / 2) k (Nat.zero_le _) hk hpar
      have h2 := ih ((k - 1) / 2) (by omega) (by omega)
      exact swo_le_trans hs (hE k hk) (hE ((k - 1) / 2) (by omega)) (hE 0 (by omega)) h1 h2
theorem heapDrain_spec (pred : SortPredicate) (E : TValue → Prop)
    (lt : TValue → TValue → Bool) (hs : StrictWeakOrder E lt)
    (L : lua_State) (h : Nat) (hp : PurePredicate pred L h E lt)
    (hv : h < L.tables.length) (l u : Nat) :
    ∀ (k : Nat) (a : List TValue), l + k ≤ u → u < a.length →
      (∀ i, l ≤ i → i ≤ u → E (slot a i)) → heapFrom lt a l (k + 1) 0 →
      sortedRange lt a (l + k + 1) u →
      (∀ x y, l ≤ x → x ≤ l + k → l + k < y → y ≤ u → lt (slot a y) (slot a x) = false) →
      ∃ b : List TValue,
        heapDrain pred h l k (withArray L h a) = .ok (withArray L h b) () ∧
        Moved a b l u ∧ sortedRange lt b l u := by
  intro k
  induction k with
  | zero =>
    intro a _ _ _ _ hsort hcross
    refine ⟨a, rfl, Moved_refl a l u, ?_⟩
    intro i j h1 h2 h3
    by_cases c : i = l
    · subst c
      exact hcross i j (le_refl _) (by omega) (by omega) h3
    · exact hsort i j (by omega) h2 h3
  | succ k ih =>
    intro a hk hu hE hh hsort hcross
    have hl0 : l < a.length := by omega
    have hl1 : l + (k + 1) < a.length := by omega
    have hsw := fun i => slot_swapA a l (l + (k + 1)) i hl0 hl1
    have hm1 : Moved a (swapA a l (l + (k + 1))) l u :=
      Moved_swap a l u l (l + (k + 1)) (by omega) (by omega) hl0 hl1
    have hE1 := Moved_forall hm1 hu E hE
    have hlen1 : (swapA a l (l + (k + 1))).length = a.length := swapA_length _ _ _
    have hcnt : l + (k + 1) - 1 - l + 1 = k + 1 := by omega
    have hinv : siftInv lt (swapA a l (l + (k + 1))) l (l + (k + 1) - 1 - l + 1) 0 0 := by
      rw [hcnt]
      constructor
      · intro p ch _ h2 h3 h4
        rw [hsw (l + p), hsw (l + ch), if_neg (show ¬ l + p = l + (k + 1) by omega),
          if_neg (show ¬ l + p = l by omega), if_neg (show ¬ l + ch = l + (k + 1) by omega),
          if_neg (show ¬ l + ch = l by omega)]
        exact hh p ch (Nat.zero_le _) (by omega) h4
      · intro px ch _ h2
        omega
    obtain ⟨b, q1, q2, q3⟩ := sort_siftheap_spec pred E lt hs L h hp hv l (l + (k + 1) - 1) 0
      (swapA a l (l + (k + 1))) (by omega) (by omega) (by omega)
      (fun i i1 i2 => hE1 i i1 (by omega)) hinv
    rw [hcnt] at q3
    have hm2 : Moved (swapA a l (l + (k + 1))) b l u := Moved_mono q2 (le_refl _) (by omega)
    have hEa : ∀ i, i < k + 1 + 1 → E (slot a (l + i)) :=
      fun i hi => hE (l + i) (by omega) (by omega)
    have htop := heap_top hs a l (k + 1 + 1) hEa hh
    have hcross2 : ∀ x y, l ≤ x → x ≤ l + k → l + k < y → y ≤ u →
        lt (slot b y) (slot b x) = false := by
      intro x y x1 x2 y1 y2
      have hy : slot b y = slot (swapA a l (l + (k + 1))) y := q2.2.2 y (Or.inr (by omega))
      rw [hy]
      refine Moved_forall q2 (by rw [hlen1]; omega)
        (fun z => lt (slot (swapA a l (l + (k + 1))) y) z = false) ?_ x x1 (by omega)
      intro x' x1' x2'
      show lt (slot (swapA a l (l + (k + 1))) y) (slot (swapA a l (l + (k + 1))) x') = false
      have hx' : ¬ x' = l + (k + 1) := by omega
      have hyl : ¬ y = l := by omega
      rw [hsw y, hsw x', if_neg hx', if_neg hyl]
      by_cases cy : y = l + (k + 1)
      · rw [if_pos cy]
        by_cases cx : x' = l
        · rw [if_pos cx]
          exact htop (k + 1) (by omega)
        · rw [if_neg cx]
          have := htop (x' - l) (by omega)
          rw [show l + (x' - l) = x' by omega] at this
          exact this
      · rw [if_neg cy]
        by_cases cx : x' = l
        · rw [if_pos cx]
          exact hcross (l + (k + 1)) y (by omega) (le_refl _) (by omega) y2
        · rw [if_neg cx]
          exact hcross x' y x1' (by omega) (by omega) y2
    have hsort2 : sortedRange lt b (l + k + 1) u := by
      intro i j i1 i2 j2
      have hjn : ¬ j = l + (k + 1) := by omega
      have hjl : ¬ j = l := by omega
      have hil : ¬ i = l := by omega
      rw [q2.2.2 i (Or.inr (by omega)), q2.2.2 j (Or.inr (by omega)), hsw i, hsw j,
        if_neg hjn, if_neg hjl]
      by_cases ci : i = l + (k + 1)
      · rw [if_pos ci]
        exact hcross l j (le_refl _) (by omega) (by omega) j2
      · rw [if_neg ci, if_neg hil]
        exact hsort i j (by omega) i2 j2
    obtain ⟨b2, r1, r2, r3⟩ := ih b (by omega) (by rw [hm2.1, hlen1]; exact hu)
      (Moved_forall hm2 (by rw [hlen1]; exact hu) E hE1) q3 hsort2 hcross2
    refine ⟨b2, ?_, Moved_trans hm1 (Moved_trans hm2 r2), r3⟩
    rw [heapDrain, sort_swap_eq L h a _ _ hv, q1, andThen_ok, r1]

theorem sort_heap_spec (pred : SortPredicate) (E : TValue → Prop)
    (lt : TValue → TValue → Bool) (hs : StrictWeakOrder E lt)
    (L : lua_State) (h : Nat) (hp : PurePredicate pred L h E lt)
    (hv : h < L.tables.length) (l u : Nat) (a : List TValue)
    (hlu : l ≤ u) (hu : u < a.length) (hE : ∀ i, l ≤ i → i ≤ u → E (slot a i)) :
    ∃ b : List TValue,
      sort_heap (withArray L h a) h l u pred = .ok (withArray L h b) () ∧
      Moved a b l u ∧ sortedRange lt b l u := by
  obtain ⟨b, q1, q2, q3⟩ := heapBuild_spec pred E lt hs L h hp hv l u hlu ((u - l + 1) / 2) a
    (by omega) hu hE (by
      intro p ch h1 h2 h3
      omega)
  have hk : u - l + 1 - 1 + 1 = u - l + 1 := by omega
  obtain ⟨b2, r1, r2, r3⟩ := heapDrain_spec pred E lt hs L h hp hv l u (u - l + 1 - 1) b
    (by omega) (by rw [q2.1]; exact hu) (Moved_forall q2 hu E hE) (by rw [hk]; exact q3)
    (by
      intro i j i1 _ j2
      omega)
    (by
      intro x y _ _ y1 y2
      omega)
  refine ⟨b2, ?_, Moved_trans q2 r2, r3⟩
  unfold sort_heap
  simp only []
  rw [q1, andThen_ok, r1]
theorem scanUp_spec (pred : SortPredicate) (E : TValue → Prop)
    (lt : TValue → TValue → Bool) (hs : StrictWeakOrder E lt)
    (L : lua_State) (h : Nat) (hp : PurePredicate pred L h E lt)
    (hv : h < L.tables.length) (a : List TValue) (p u : Nat)
    (hpu : p < u) (hEp : E (slot a p)) :
    ∀ (fuel i : Nat), i < p → p ≤ fuel + i → (∀ k, i < k → k ≤ p → E (slot a k)) →
      ∃ i1 : Nat,
        scanUp pred h p u fuel (withArray L h a) i = .ok (withArray L h a) i1 ∧
        i < i1 ∧ i1 ≤ p ∧ lt (slot a i1) (slot a p) = false ∧
        ∀ k, i < k → k < i1 → lt (slot a k) (slot a p) = true := by
  intro fuel
  induction fuel with
  | zero =>
    intro i h1 h2
    omega
  | succ fuel ih =>
    intro i h1 h2 hE
    rw [scanUp, sort_less_eq pred E lt L h hp a _ _ hv (hE (i + 1) (by omega) (by omega)) hEp,
      andThen_ok]
    cases hb : lt (slot a (i + 1)) (slot a p) with
    | false =>
      simp only [Bool.false_eq_true, if_false]
      exact ⟨i + 1, rfl, by omega, by omega, hb, fun k k1 k2 => absurd k2 (by omega)⟩
    | true =>
      simp only [if_true]
      have hne : i + 1 ≠ p := by
        intro e
        rw [e, hs.irrefl _ hEp] at hb
        exact absurd hb (by decide)
      rw [if_neg (by omega)]
      obtain ⟨i1, q1, q2, q3, q4, q5⟩ := ih (i + 1) (by omega) (by omega)
        (fun k k1 k2 => hE k (by omega) k2)
      refine ⟨i1, q1, by omega, q3, q4, ?_⟩
      intro k k1 k2
      by_cases c : k = i + 1
      · rw [c]
        exact hb
      · exact q5 k (by omega) k2

theorem scanDown_spec (pred : SortPredicate) (E : TValue → Prop)
    (lt : TValue → TValue → Bool)
    (L : lua_State) (h : Nat) (hp : PurePredicate pred L h E lt)
    (hv : h < L.tables.length) (a : List TValue) (p l s : Nat)
    (hls : l ≤ s) (hEp : E (slot a p)) (hstop : lt (slot a p) (slot a s) = false) :
    ∀ (fuel j : Nat), s < j → j ≤ fuel + s → (∀ k, s ≤ k → k < j → E (slot a k)) →
      ∃ j1 : Nat,
        scanDown pred h p l fuel (withArray L h a) j = .ok (withArray L h a) j1 ∧
        j1 < j ∧ s ≤ j1 ∧ lt (slot a p) (slot a j1) = false ∧
        ∀ k, j1 < k → k < j → lt (slot a p) (slot a k) = true := by
  intro fuel
  induction fuel with
  | zero =>
    intro j h1 h2
    omega
  | succ fuel ih =>
    intro j h1 h2 hE
    rw [scanDown, sort_less_eq pred E lt L h hp a _ _ hv hEp (hE (j - 1) (by omega) (by omega)),
      andThen_ok]
    cases hb : lt (slot a p) (slot a (j - 1)) with
    | false =>
      simp only [Bool.false_eq_true, if_false]
      exact ⟨j - 1, rfl, by omega, by omega, hb, fun k k1 k2 => absurd k2 (by omega)⟩
    | true =>
      simp only [if_true]
      have hne : j - 1 ≠ s := by
        intro e
        rw [e, hstop] at hb
        exact absurd hb (by decide)
      rw [if_neg (by omega)]
      obtain ⟨j1, q1, q2, q3, q4, q5⟩ := ih (j - 1) (by omega) (by omega)
        (fun k k1 k2 => hE k k1 (by omega))
      refine ⟨j1, q1, by omega, q3, q4, ?_⟩
      intro k k1 k2
      by_cases c : k = j - 1
      · rw [c]
        exact hb
      · exact q5 k k1 (by omega)
theorem partitionLoop_spec (pred : SortPredicate) (E : TValue → Prop)
    (lt : TValue → TValue → Bool) (hs : StrictWeakOrder E lt)
    (L : lua_State) (h : Nat) (hp : PurePredicate pred L h E lt)
    (hv : h < L.tables.length) (l u : Nat) (P : TValue) :
    ∀ (fuel : Nat) (a : List TValue) (i j : Nat), u < a.length → slot a (u - 1) = P →
      l ≤ i → i + 1 < u → i ≤ j → l < j → j ≤ u - 1 → u - 1 ≤ fuel + i →
      (∀ k, l ≤ k → k ≤ u → E (slot a k)) →
      (∀ k, l ≤ k → k ≤ i → lt P (slot a k) = false) →
      (∀ k, j ≤ k → k ≤ u → lt (slot a k) P = false) →
      ∃ (b : List TValue) (i1 j1 : Nat),
        partitionLoop pred h (u - 1) l u fuel (withArray L h a) i j =
          .ok (withArray L h b) (i1, j1) ∧
        Moved a b l u ∧ slot b (u - 1) = P ∧ l < i1 ∧ i1 ≤ u - 1 ∧
        (∀ k, l ≤ k → k < i1 → lt P (slot b k) = false) ∧
        (∀ k, i1 ≤ k → k ≤ u → lt (slot b k) P = false) := by
  intro fuel
  induction fuel with
  | zero =>
    intro a i j _ _ _ h4 _ _ _ h8
    omega
  | succ fuel ih =>
    intro a i j hu hP hli hip hij hlj hjp hfuel hE hlow hhigh
    have hEp : E (slot a (u - 1)) := hE _ (by omega) (by omega)
    have EP : E P := hP ▸ hEp
    obtain ⟨i1, q1, q2, q3, q4, q5⟩ := scanUp_spec pred E lt hs L h hp hv a (u - 1) u (by omega)
      hEp (u - i) i (by omega) (by omega) (fun k k1 k2 => hE k (by omega) (by omega))
    have hstop : lt (slot a (u - 1)) (slot a (if i < j then i else i - 1)) = false := by
      rw [hP]
      split
      · exact hlow i hli (le_refl _)
      · exact hlow (i - 1) (by omega) (by omega)
    have hsl : l ≤ (if i < j then i else i - 1) := by
      split <;> omega
    have hsj : (if i < j then i else i - 1) < j := by
      split <;> omega
    have hsi : (if i < j then i else i - 1) ≤ i := by
      split <;> omega
    obtain ⟨j1, r1, r2, r3, r4, r5⟩ := scanDown_spec pred E lt L h hp hv a (u - 1) l
      (if i < j then i else i - 1) hsl hEp hstop (j - l) j hsj (by omega)
      (fun k k1 k2 => hE k (by omega) (by omega))
    rw [hP] at q4 q5 r4 r5
    rw [partitionLoop, q1, andThen_ok, r1, andThen_ok]
    have lowMid : ∀ k, l ≤ k → k < i1 → lt P (slot a k) = false := by
      intro k k1 k2
      by_cases c : k ≤ i
      · exact hlow k k1 c
      · exact swo_asymm hs (hE k k1 (by omega)) EP (q5 k (by omega) k2)
    have highMid : ∀ k, j1 < k → k ≤ u → lt (slot a k) P = false := by
      intro k k1 k2
      by_cases c : j ≤ k
      · exact hhigh k c k2
      · exact swo_asymm hs EP (hE k (by omega) k2) (r5 k k1 (by omega))
    by_cases c : j1 < i1
    · rw [if_pos c]
      refine ⟨a, i1, j1, rfl, Moved_refl a l u, hP, by omega, q3, lowMid, ?_⟩
      intro k k1 k2
      exact highMid k (by omega) k2
    · rw [if_neg c, sort_swap_eq L h a _ _ hv]
      have hi1 : i1 < a.length := by omega
      have hj1 : j1 < a.length := by omega
      have hsw := fun k => slot_swapA a i1 j1 k hi1 hj1
      have hm : Moved a (swapA a i1 j1) l u :=
        Moved_swap a l u i1 j1 (by omega) (by omega) hi1 hj1
      obtain ⟨b, i2, j2, s1, s2, s3, s4, s5, s6, s7⟩ := ih (swapA a i1 j1) i1 j1
        (by rw [swapA_length]; exact hu)
        (by rw [hsw, if_neg (by omega), if_neg (by omega)]; exact hP)
        (by omega) (by omega) (by omega) (by omega) (by omega) (by omega)
        (Moved_forall hm hu E hE)
        (by
          intro k k1 k2
          rw [hsw k]
          by_cases ck : k = j1
          · rw [if_pos ck]
            have e : i1 = j1 := by omega
            rw [e]
            exact r4
          · rw [if_neg ck]
            by_cases ci : k = i1
            · rw [if_pos ci]
              exact r4
            · rw [if_neg ci]
              exact lowMid k k1 (by omega))
        (by
          intro k k1 k2
          rw [hsw k]
          by_cases ck : k = j1
          · rw [if_pos ck]
            exact q4
          · rw [if_neg ck, if_neg (by omega)]
            exact highMid k (by omega) k2)
      exact ⟨b, i2, j2, s1, Moved_trans hm s2, s3, by omega, s5, s6, s7⟩
theorem sorted_join {E : TValue → Prop} {lt : TValue → TValue → Bool}
    (hs : StrictWeakOrder E lt) (c : List TValue) (l u i : Nat)
    (hE : ∀ k, l ≤ k → k ≤ u → E (slot c k))
    (hL : sortedRange lt c l (i - 1)) (hR : sortedRange lt c (i + 1) u)
    (hlow : ∀ k, l ≤ k → k < i → lt (slot c i) (slot c k) = false)
    (hhigh : ∀ k, i < k → k ≤ u → lt (slot c k) (slot c i) = false)
    (hli : l ≤ i) (hiu : i ≤ u) : sortedRange lt c l u := by
  intro x y x1 x2 y2
  by_cases c1 : y < i
  · exact hL x y x1 x2 (by omega)
  · by_cases c2 : i < x
    · exact hR x y (by omega) x2 y2
    · by_cases c3 : y = i
      · rw [c3]
        exact hlow x x1 (by omega)
      · by_cases c4 : x = i
        · rw [c4]
          exact hhigh y (by omega) y2
        · exact swo_le_trans hs (hE x x1 (by omega)) (hE i hli hiu) (hE y (by omega) y2)
            (hlow x x1 (by omega)) (hhigh y (by omega) y2)

theorem first_swap_eq {E : TValue → Prop} {lt : TValue → TValue → Bool}
    (hs : StrictWeakOrder E lt) (L : lua_State) (h : Nat) (hv : h < L.tables.length)
    (a : List TValue) (l u : Nat) (hlu : l < u) (hu : u < a.length)
    (hE : ∀ k, l ≤ k → k ≤ u → E (slot a k)) :
    ∃ a1 : List TValue,
      (if lt (slot a u) (slot a l) = true then sort_swap (withArray L h a) h u l
        else withArray L h a) = withArray L h a1 ∧
      Moved a a1 l u ∧ lt (slot a1 u) (slot a1 l) = false := by
  cases hb : lt (slot a u) (slot a l) with
  | false =>
    simp only [Bool.false_eq_true, if_false]
    exact ⟨a, rfl, Moved_refl a l u, hb⟩
  | true =>
    simp only [if_true]
    refine ⟨swapA a u l, sort_swap_eq L h a u l hv,
      Moved_swap a l u u l (by omega) (by omega) hu (by omega), ?_⟩
    rw [slot_swapA a u l u hu (by omega), slot_swapA a u l l hu (by omega),
      if_neg (show ¬ u = l by omega), if_pos rfl, if_pos rfl]
    exact swo_asymm hs (hE u (by omega) (le_refl _)) (hE l (le_refl _) (by omega)) hb

theorem median_eq (pred : SortPredicate) {E : TValue → Prop} {lt : TValue → TValue → Bool}
    (hs : StrictWeakOrder E lt) (L : lua_State) (h : Nat) (hp : PurePredicate pred L h E lt)
    (hv : h < L.tables.length) (a : List TValue) (l m u : Nat) (hlm : l < m) (hmu : m < u)
    (hu : u < a.length) (hE : ∀ k, l ≤ k → k ≤ u → E (slot a k))
    (h0 : lt (slot a u) (slot a l) = false) :
    ∃ a2 : List TValue,
      (if lt (slot a m) (slot a l) = true then Step.ok (sort_swap (withArray L h a) h m l) ()
        else (sort_less (withArray L h a) h u m pred).andThen fun L b2 =>
          if b2 = true then Step.ok (sort_swap L h m u) () else Step.ok L ()) =
        .ok (withArray L h a2) () ∧
      Moved a a2 l u ∧ lt (slot a2 m) (slot a2 l) = false ∧
      lt (slot a2 u) (slot a2 m) = false := by
  have El := hE l (le_refl _) (by omega)
  have Em := hE m (by omega) (by omega)
  have Eu := hE u (by omega) (le_refl _)
  have hml : m < a.length := by omega
  have hll : l < a.length := by omega
  cases hb1 : lt (slot a m) (slot a l) with
  | true =>
    simp only [if_true]
    refine ⟨swapA a m l, by rw [sort_swap_eq L h a m l hv],
      Moved_swap a l u m l (by omega) (by omega) hml hll, ?_, ?_⟩
    · rw [slot_swapA a m l m hml hll, slot_swapA a m l l hml hll,
        if_neg (show ¬ m = l by omega), if_pos rfl, if_pos rfl]
      exact swo_asymm hs Em El hb1
    · rw [slot_swapA a m l u hml hll, slot_swapA a m l m hml hll,
        if_neg (show ¬ u = l by omega), if_neg (show ¬ u = m by omega),
        if_neg (show ¬ m = l by omega), if_pos rfl]
      exact h0
  | false =>
    simp only [Bool.false_eq_true, if_false]
    rw [sort_less_eq pred E lt L h hp a _ _ hv Eu Em, andThen_ok]
    cases hb2 : lt (slot a u) (slot a m) with
    | false =>
      simp only [Bool.false_eq_true, if_false]
      exact ⟨a, rfl, Moved_refl a l u, hb1, hb2⟩
    | true =>
      simp only [if_true]
      refine ⟨swapA a m u, by rw [sort_swap_eq L h a m u hv],
        Moved_swap a l u m u (by omega) (by omega) hml hu, ?_, ?_⟩
      · rw [slot_swapA a m u m hml hu, slot_swapA a m u l hml hu,
          if_neg (show ¬ m = u by omega), if_pos rfl, if_neg (show ¬ l = u by omega),
          if_neg (show ¬ l = m by omega)]
        exact h0
      · rw [slot_swapA a m u u hml hu, slot_swapA a m u m hml hu, if_pos rfl,
          if_neg (show ¬ m = u by omega), if_pos rfl]
        exact swo_asymm hs Eu Em hb2

theorem join_left_right {E : TValue → Prop} {lt : TValue → TValue → Bool}
    (hs : StrictWeakOrder E lt) (a b c : List TValue) (l u i : Nat) (hli : l < i) (hiu : i < u)
    (hu : u < a.length) (hE : ∀ k, l ≤ k → k ≤ u → E (slot a k))
    (hlow : ∀ k, l ≤ k → k < i → lt (slot a i) (slot a k) = false)
    (hhigh : ∀ k, i < k → k ≤ u → lt (slot a k) (slot a i) = false)
    (h1 : Moved a b l (i - 1)) (h2 : Moved b c (i + 1) u)
    (sL : sortedRange lt b l (i - 1)) (sR : sortedRange lt c (i + 1) u) :
    Moved a c l u ∧ sortedRange lt c l u := by
  have hm : Moved a c l u :=
    Moved_trans (Moved_mono h1 (le_refl _) (by omega)) (Moved_mono h2 (by omega) (le_refl _))
  have hci : slot c i = slot a i := by
    rw [h2.2.2 i (Or.inl (by omega)), h1.2.2 i (Or.inr (by omega))]
  refine ⟨hm, sorted_join hs c l u i (Moved_forall hm hu E hE) ?_ sR ?_ ?_ (by omega)
    (by omega)⟩
  · intro x y x1 x2 y2
    rw [h2.2.2 x (Or.inl (by omega)), h2.2.2 y (Or.inl (by omega))]
    exact sL x y x1 x2 y2
  · intro k k1 k2
    rw [hci, h2.2.2 k (Or.inl (by omega))]
    exact Moved_forall h1 (by omega) (fun z => lt (slot a i) z = false)
      (fun k k1 k2 => hlow k k1 (by omega)) k k1 (by omega)
  · intro k k1 k2
    rw [hci]
    refine Moved_forall h2 (by rw [h1.1]; exact hu) (fun z => lt z (slot a i) = false) ?_ k
      (by omega) k2
    intro k k1 k2
    show lt (slot b k) (slot a i) = false
    rw [h1.2.2 k (Or.inr (by omega))]
    exact hhigh k (by omega) k2

theorem join_right_left {E : TValue → Prop} {lt : TValue → TValue → Bool}
    (hs : StrictWeakOrder E lt) (a b c : List TValue) (l u i : Nat) (hli : l < i) (hiu : i < u)
    (hu : u < a.length) (hE : ∀ k, l ≤ k → k ≤ u → E (slot a k))
    (hlow : ∀ k, l ≤ k → k < i → lt (slot a i) (slot a k) = false)
    (hhigh : ∀ k, i < k → k ≤ u → lt (slot a k) (slot a i) = false)
    (h1 : Moved a b (i + 1) u) (h2 : Moved b c l (i - 1))
    (sR : sortedRange lt b (i + 1) u) (sL : sortedRange lt c l (i - 1)) :
    Moved a c l u ∧ sortedRange lt c l u := by
  have hm : Moved a c l u :=
    Moved_trans (Moved_mono h1 (by omega) (le_refl _)) (Moved_mono h2 (le_refl _) (by omega))
  have hci : slot c i = slot a i := by
    rw [h2.2.2 i (Or.inr (by omega)), h1.2.2 i (Or.inl (by omega))]
  refine ⟨hm, sorted_join hs c l u i (Moved_forall hm hu E hE) sL ?_ ?_ ?_ (by omega)
    (by omega)⟩
  · intro x y x1 x2 y2
    rw [h2.2.2 x (Or.inr (by omega)), h2.2.2 y (Or.inr (by omega))]
    exact sR x y x1 x2 y2
  · intro k k1 k2
    rw [hci]
    refine Moved_forall h2 (by rw [h1.1]; omega) (fun z => lt (slot a i) z = false) ?_ k
      k1 (by omega)
    intro k k1 k2
    show lt (slot a i) (slot b k) = false
    rw [h1.2.2 k (Or.inl (by omega))]
    exact hlow k k1 (by omega)
  · intro k k1 k2
    rw [hci, h2.2.2 k (Or.inr (by omega))]
    exact Moved_forall h1 hu (fun z => lt z (slot a i) = false)
      (fun k k1 k2 => hhigh k (by omega) k2) k (by omega) k2
theorem sort_rec_spec (pred : SortPredicate) (E : TValue → Prop)
    (lt : TValue → TValue → Bool) (hs : StrictWeakOrder E lt)
    (L : lua_State) (h : Nat) (hp : PurePredicate pred L h E lt)
    (hv : h < L.tables.length) :
    ∀ (fuel : Nat) (a : List TValue) (l u limit : Nat), u ≤ l ∨ u + 1 ≤ fuel + l →
      u < a.length → (∀ k, l ≤ k → k ≤ u → E (slot a k)) →
      ∃ b : List TValue,
        sort_rec pred h fuel (withArray L h a) l u limit = .ok (withArray L h b) () ∧
        Moved a b l u ∧ sortedRange lt b l u := by
  intro fuel
  induction fuel with
  | zero =>
    intro a l u limit hf _ _
    refine ⟨a, rfl, Moved_refl a l u, ?_⟩
    intro i j i1 i2 j2
    omega
  | succ fuel ih =>
    intro a l u limit hf hu hE
    by_cases hlu : l < u
    swap
    · refine ⟨a, by rw [sort_rec, if_neg hlu], Moved_refl a l u, ?_⟩
      intro i j i1 i2 j2
      omega
    by_cases hlim : limit = 0
    · obtain ⟨b, q1, q2, q3⟩ := sort_heap_spec pred E lt hs L h hp hv l u a (by omega) hu hE
      exact ⟨b, by rw [sort_rec, if_pos hlu, if_pos hlim, q1], q2, q3⟩
    rw [sort_rec, if_pos hlu, if_neg hlim,
      sort_less_eq pred E lt L h hp a _ _ hv (hE u (by omega) (le_refl _))
        (hE l (le_refl _) (by omega)), andThen_ok]
    simp only []
    obtain ⟨a1, e1, m1, p1⟩ := first_swap_eq hs L h hv a l u hlu hu hE
    rw [e1]
    have hE1 := Moved_forall m1 hu E hE
    have hu1 : u < a1.length := by rw [m1.1]; exact hu
    by_cases c1 : u - l = 1
    · rw [if_pos c1]
      refine ⟨a1, rfl, m1, ?_⟩
      intro i j i1 i2 j2
      have ei : i = l := by omega
      have ej : j = u := by omega
      rw [ei, ej]
      exact p1
    rw [if_neg c1]
    have hmid : (u - l) >>> 1 = (u - l) / 2 := by
      rw [Nat.shiftRight_eq_div_pow]
    rw [hmid]
    have hlm : l < l + (u - l) / 2 := by omega
    have hmu : l + (u - l) / 2 < u := by omega
    generalize l + (u - l) / 2 = m at hlm hmu
    rw [sort_less_eq pred E lt L h hp a1 _ _ hv (hE1 m (by omega) (by omega))
      (hE1 l (le_refl _) (by omega)), andThen_ok]
    obtain ⟨a2, e2, m2, p2, p3⟩ := median_eq pred hs L h hp hv a1 l m u hlm hmu hu1 hE1 p1
    rw [e2, andThen_ok]
    have hE2 := Moved_forall m2 hu1 E hE1
    have hu2 : u < a2.length := by rw [m2.1]; exact hu1
    have m12 := Moved_trans m1 m2
    by_cases c2 : u - l = 2
    · rw [if_pos c2]
      refine ⟨a2, rfl, m12, ?_⟩
      have em : m = l + 1 := by omega
      subst em
      intro i j i1 i2 j2
      by_cases ci : i = l
      · by_cases cj : j = l + 1
        · rw [ci, cj]
          exact p2
        · have ej : j = u := by omega
          rw [ci, ej]
          exact swo_le_trans hs (hE2 l (le_refl _) (by omega)) (hE2 (l + 1) (by omega) (by omega))
            (hE2 u (by omega) (le_refl _)) p2 p3
      · have ei : i = l + 1 := by omega
        have ej : j = u := by omega
        rw [ei, ej]
        exact p3
    rw [if_neg c2, sort_swap_eq L h a2 _ _ hv]
    have hml : m < a2.length := by omega
    have hpl : u - 1 < a2.length := by omega
    have hsw := fun k => slot_swapA a2 m (u - 1) k hml hpl
    have m3 : Moved a2 (swapA a2 m (u - 1)) l u :=
      Moved_swap a2 l u m (u - 1) (by omega) (by omega) hml hpl
    have hE3 := Moved_forall m3 hu2 E hE2
    have hu3 : u < (swapA a2 m (u - 1)).length := by rw [swapA_length]; exact hu2
    have hP : slot (swapA a2 m (u - 1)) (u - 1) = slot a2 m := by
      rw [hsw, if_pos rfl]
    obtain ⟨b, i1, j1, q1, q2, q3, q4, q5, q6, q7⟩ := partitionLoop_spec pred E lt hs L h hp hv
      l u (slot a2 m) (u - l) (swapA a2 m (u - 1)) l (u - 1) hu3 hP (le_refl _) (by omega)
      (by omega) (by omega) (le_refl _) (by omega) hE3
      (by
        intro k k1 k2
        have ek : k = l := by omega
        rw [ek, hsw, if_neg (show ¬ l = u - 1 by omega), if_neg (show ¬ l = m by omega)]
        exact p2)
      (by
        intro k k1 k2
        rw [hsw]
        by_cases ck : k = u - 1
        · rw [if_pos ck]
          exact hs.irrefl _ (hE2 m (by omega) (by omega))
        · have ek : k = u := by omega
          rw [if_neg ck, ek, if_neg (show ¬ u = m by omega)]
          exact p3)
    rw [q1, andThen_ok]
    simp only []
    rw [sort_swap_eq L h b _ _ hv]
    have hub : u < b.length := by rw [q2.1]; exact hu3
    have hEb := Moved_forall q2 hu3 E hE3
    have hsb := fun k => slot_swapA b (u - 1) i1 k (show u - 1 < b.length by omega)
      (show i1 < b.length by omega)
    have m4 : Moved b (swapA b (u - 1) i1) l u :=
      Moved_swap b l u (u - 1) i1 (by omega) (by omega) (by omega) (by omega)
    have hE4 := Moved_forall m4 hub E hEb
    have hu4 : u < (swapA b (u - 1) i1).length := by rw [swapA_length]; exact hub
    have hpiv : slot (swapA b (u - 1) i1) i1 = slot a2 m := by
      rw [hsb, if_pos rfl, q3]
    have hlow4 : ∀ k, l ≤ k → k < i1 →
        lt (slot (swapA b (u - 1) i1) i1) (slot (swapA b (u - 1) i1) k) = false := by
      intro k k1 k2
      rw [hpiv, hsb k, if_neg (show ¬ k = i1 by omega), if_neg (show ¬ k = u - 1 by omega)]
      exact q6 k k1 k2
    have hhigh4 : ∀ k, i1 < k → k ≤ u →
        lt (slot (swapA b (u - 1) i1) k) (slot (swapA b (u - 1) i1) i1) = false := by
      intro k k1 k2
      rw [hpiv, hsb k, if_neg (show ¬ k = i1 by omega)]
      by_cases ck : k = u - 1
      · rw [if_pos ck]
        exact q7 i1 (le_refl _) (by omega)
      · rw [if_neg ck]
        exact q7 k (by omega) k2
    have mall : Moved a (swapA b (u - 1) i1) l u :=
      Moved_trans m12 (Moved_trans m3 (Moved_trans q2 m4))
    by_cases c3 : i1 - l < u - i1
    · rw [if_pos c3]
      obtain ⟨b5, r1, r2, r3⟩ := ih (swapA b (u - 1) i1) l (i1 - 1)
        (limit >>> 1 + limit >>> 2) (by omega) (by omega)
        (fun k k1 k2 => hE4 k k1 (by omega))
      obtain ⟨b6, s1, s2, s3⟩ := ih b5 (i1 + 1) u (limit >>> 1 + limit >>> 2) (by omega)
        (by rw [r2.1]; exact hu4)
        (fun k k1 k2 => Moved_forall (Moved_mono r2 (le_refl l) (show i1 - 1 ≤ u by omega)) hu4
          E hE4 k (by omega) k2)
      rw [r1, andThen_ok, s1]
      obtain ⟨j1, j2⟩ := join_left_right hs _ b5 b6 l u i1 (by omega) (by omega) hu4 hE4 hlow4
        hhigh4 r2 s2 r3 s3
      exact ⟨b6, rfl, Moved_trans mall j1, j2⟩
    · rw [if_neg c3]
      obtain ⟨b5, r1, r2, r3⟩ := ih (swapA b (u - 1) i1) (i1 + 1) u
        (limit >>> 1 + limit >>> 2) (by omega) hu4
        (fun k k1 k2 => hE4 k (by omega) k2)
      obtain ⟨b6, s1, s2, s3⟩ := ih b5 l (i1 - 1) (limit >>> 1 + limit >>> 2) (by omega)
        (by rw [r2.1]; omega)
        (fun k k1 k2 => Moved_forall (Moved_mono r2 (show l ≤ i1 + 1 by omega) (le_refl u)) hu4
          E hE4 k k1 (by omega))
      rw [r1, andThen_ok, s1]
      obtain ⟨j1, j2⟩ := join_right_left hs _ b5 b6 l u i1 (by omega) (by omega) hu4 hE4 hlow4
        hhigh4 r2 s2 r3 s3
      exact ⟨b6, rfl, Moved_trans mall j1, j2⟩
theorem mem_take_slot (a : List TValue) (n k : Nat) (hk : k < n) (hn : n ≤ a.length) :
    slot a k ∈ a.take n := by
  rw [List.mem_iff_getElem]
  refine ⟨k, by rw [List.length_take]; omega, ?_⟩
  rw [List.getElem_take, slot_eq_getElem a k (by omega)]

theorem sortedPermutation_of_moved {lt : TValue → TValue → Bool} {a b : List TValue} {n : Nat}
    (hn : 0 < n) (hm : Moved a b 0 (n - 1)) (hsort : sortedRange lt b 0 (n - 1)) :
    SortedPermutation lt a b n := by
  refine ⟨hm.1, ?_, ?_, ?_⟩
  · have := Moved_middle hm
    rw [show n - 1 + 1 - 0 = n by omega, List.drop_zero, List.drop_zero] at this
    exact this
  · exact drop_eq_of_slot a b n hm.1 (fun k hk => hm.2.2 k (Or.inr (by omega)))
  · intro i j i1 j1
    exact hsort i j (Nat.zero_le _) i1 (by omega)

theorem numberLess_swo (E : TValue → Prop) (hE : ∀ x, E x → ∃ n : Int, x = .number n) :
    StrictWeakOrder E numberLess := by
  constructor
  · intro x hx
    obtain ⟨n, rfl⟩ := hE x hx
    simp [numberLess]
  · intro x y z hx hy hz
    obtain ⟨a, rfl⟩ := hE x hx
    obtain ⟨b, rfl⟩ := hE y hy
    obtain ⟨c, rfl⟩ := hE z hz
    simp only [numberLess, decide_eq_true_eq]
    omega
  · intro x y z hx hy hz
    obtain ⟨a, rfl⟩ := hE x hx
    obtain ⟨b, rfl⟩ := hE y hy
    obtain ⟨c, rfl⟩ := hE z hz
    simp only [numberLess, decide_eq_false_iff_not]
    omega

theorem lessNumbers_pure (L : lua_State) (h : Nat) (E : TValue → Prop) :
    PurePredicate lessNumbers L h E numberLess :=
  fun _ _ _ _ _ => rfl

theorem sort_range_spec (pred : SortPredicate) (lt : TValue → TValue → Bool)
    (L : lua_State) (h : Nat) (hv : h < L.tables.length) (n : Nat) (hn0 : 0 < n)
    (hn : n ≤ (getTable L h).array.length)
    (hp : PurePredicate pred L h (fun x => x ∈ (getTable L h).array.take n) lt)
    (hs : StrictWeakOrder (fun x => x ∈ (getTable L h).array.take n) lt) :
    (∀ fuel limit, n ≤ fuel →
      ∃ b : List TValue, sort_rec pred h fuel L 0 (n - 1) limit = .ok (withArray L h b) () ∧
        SortedPermutation lt (getTable L h).array b n) ∧
    (∃ b : List TValue, sort_heap L h 0 (n - 1) pred = .ok (withArray L h b) () ∧
      SortedPermutation lt (getTable L h).array b n) := by
  have hE : ∀ k, 0 ≤ k → k ≤ n - 1 →
      (fun x => x ∈ (getTable L h).array.take n) (slot (getTable L h).array k) :=
    fun k _ k2 => mem_take_slot _ n k (by omega) hn
  constructor
  · intro fuel limit hf
    obtain ⟨b, q1, q2, q3⟩ := sort_rec_spec pred _ lt hs L h hp hv fuel (getTable L h).array 0
      (n - 1) limit (by omega) (by omega) hE
    rw [withArray_self L h hv] at q1
    exact ⟨b, q1, sortedPermutation_of_moved hn0 q2 q3⟩
  · obtain ⟨b, q1, q2, q3⟩ := sort_heap_spec pred _ lt hs L h hp hv 0 (n - 1)
      (getTable L h).array (Nat.zero_le _) (by omega) hE
    rw [withArray_self L h hv] at q1
    exact ⟨b, q1, sortedPermutation_of_moved hn0 q2 q3⟩
theorem tsort_eval (luaV_lessthan : SortPredicate)
    (luaD_call : lua_State → TValue → List TValue → Step (List TValue)) (L : lua_State) (h : Nat)
    (ht : tableAt L 1 = some h) (hro : (getTable L h).readonly = false)
    (harg : lua_isnoneornil L 2 = true ∨ lua_type L 2 = .LUA_TFUNCTION) :
    tsort luaV_lessthan luaD_call L =
      (if luaH_getn (getTable L h) > 0 then
        sort_rec (if lua_isnoneornil L 2 = true then luaV_lessthan else sort_func luaD_call) h
          (luaH_getn (getTable L h)) (lua_settop L 2) 0 (luaH_getn (getTable L h) - 1)
          (luaH_getn (getTable L h))
       else .ok (lua_settop L 2) ()).andThen fun L _ => .ok L 0 := by
  unfold tsort
  rw [luaL_checktype_table ht, andThen_ok]
  simp only [ht, Option.getD_some, hro, Bool.false_eq_true, if_false]
  by_cases c : lua_isnoneornil L 2 = true
  · simp only [c, Bool.not_true, Bool.false_eq_true, if_false, if_true, andThen_ok]
  · have hf : lua_type L 2 = .LUA_TFUNCTION := by
      rcases harg with h1 | h1
      · exact absurd h1 c
      · exact h1
    have hc : luaL_checktype L 2 .LUA_TFUNCTION = .ok L () := by
      simp [luaL_checktype, hf]
    simp only [Bool.not_eq_true] at c
    simp only [c, Bool.not_false, if_true, hc, andThen_ok, Bool.false_eq_true, if_false]

theorem tsort_spec (luaV_lessthan : SortPredicate)
    (luaD_call : lua_State → TValue → List TValue → Step (List TValue)) (L : lua_State) (h : Nat)
    (lt : TValue → TValue → Bool)
    (ht : tableAt L 1 = some h) (hv : h < L.tables.length)
    (harg : lua_isnoneornil L 2 = true ∨ lua_type L 2 = .LUA_TFUNCTION)
    (hn : luaH_getn (getTable L h) ≤ (getTable L h).array.length)
    (hp : PurePredicate (if lua_isnoneornil L 2 = true then luaV_lessthan else sort_func luaD_call)
      (lua_settop L 2) h (fun x => x ∈ (getTable L h).array.take (luaH_getn (getTable L h))) lt)
    (hs : StrictWeakOrder
      (fun x => x ∈ (getTable L h).array.take (luaH_getn (getTable L h))) lt)
    (hro : (getTable L h).readonly = false) :
    ∃ b : List TValue,
      tsort luaV_lessthan luaD_call L = .ok (withArray (lua_settop L 2) h b) 0 ∧
      SortedPermutation lt (getTable L h).array b (luaH_getn (getTable L h)) := by
  have hv1 : h < (lua_settop L 2).tables.length := hv
  rw [tsort_eval luaV_lessthan luaD_call L h ht hro harg]
  by_cases hn0 : luaH_getn (getTable L h) > 0
  · rw [if_pos hn0]
    obtain ⟨b, q1, q2⟩ := (sort_range_spec
      (if lua_isnoneornil L 2 = true then luaV_lessthan else sort_func luaD_call) lt
      (lua_settop L 2) h hv1 (luaH_getn (getTable L h)) hn0 hn hp hs).1 _
      (luaH_getn (getTable L h)) (le_refl _)
    exact ⟨b, by rw [q1, andThen_ok], q2⟩
  · rw [if_neg hn0, andThen_ok]
    have h0 : luaH_getn (getTable L h) = 0 := by omega
    refine ⟨(getTable L h).array, ?_, ?_⟩
    · have := withArray_self (lua_settop L 2) h hv1
      rw [show (getTable (lua_settop L 2) h).array = (getTable L h).array from rfl] at this
      rw [this]
    · rw [h0]
      exact ⟨rfl, List.Perm.refl _, rfl, fun i j _ j1 => absurd j1 (by omega)⟩

theorem stringLess_swo (E : TValue → Prop) (hE : ∀ x, E x → ∃ s : String, x = .string s) :
    StrictWeakOrder E stringLess := by
  refine ⟨?_, ?_, ?_⟩
  · intro x hx
    obtain ⟨a, rfl⟩ := hE x hx
    simp only [stringLess, decide_eq_false_iff_not]
    exact lt_irrefl a
  · intro x y z hx hy hz
    obtain ⟨a, rfl⟩ := hE x hx
    obtain ⟨b, rfl⟩ := hE y hy
    obtain ⟨c, rfl⟩ := hE z hz
    simp only [stringLess, decide_eq_true_eq]
    exact fun h1 h2 => lt_trans h1 h2
  · intro x y z hx hy hz
    obtain ⟨a, rfl⟩ := hE x hx
    obtain ⟨b, rfl⟩ := hE y hy
    obtain ⟨c, rfl⟩ := hE z hz
    simp only [stringLess, decide_eq_false_iff_not]
    intro h1 h2 h3 h4
    have e1 : a = b := le_antisymm (not_lt.mp h2) (not_lt.mp h1)
    have e2 : b = c := le_antisymm (not_lt.mp h4) (not_lt.mp h3)
    rw [e1, e2]
    exact ⟨lt_irrefl c, lt_irrefl c⟩

theorem swo_flip {E : TValue → Prop} {lt : TValue → TValue → Bool} (hs : StrictWeakOrder E lt) :
    StrictWeakOrder E (fun x y => lt y x) := by
  refine ⟨fun x hx => hs.irrefl x hx, ?_, ?_⟩
  · intro x y z hx hy hz h1 h2
    exact hs.trans z y x hz hy hx h2 h1
  · intro x y z hx hy hz h1 h2 h3 h4
    have := hs.incomp x y z hx hy hz h2 h1 h4 h3
    exact ⟨this.2, this.1⟩

theorem sort_func_callGreater (M : lua_State) (x y : TValue)
    (hf : M.stack.getD 1 .nil = .function 7) :
    sort_func callGreater M x y = .ok M (numberGreater x y) := by
  unfold sort_func callGreater numberGreater
  rw [hf, if_pos rfl, andThen_ok]
  show (match (TValue.boolean (numberLess y x)) with
    | .nil => Step.ok M false
    | .boolean false => Step.ok M false
    | _ => Step.ok M true) = Step.ok M (numberLess y x)
  cases numberLess y x <;> rfl

theorem bytesLess_iff : ∀ s t : List Char, bytesLess s t = true ↔ s < t := by
  intro s
  induction s with
  | nil =>
    intro t
    cases t with
    | nil => simp [bytesLess]
    | cons b t => simp [bytesLess, List.nil_lt_cons]
  | cons a s ih =>
    intro t
    cases t with
    | nil =>
      simp only [bytesLess, Bool.false_eq_true, false_iff]
      exact not_lt_of_lt (List.nil_lt_cons a s)
    | cons b t =>
      by_cases e : a = b
      · subst e
        simp only [bytesLess, if_true]
        exact (ih t).trans List.Lex.cons_iff.symm
      · simp only [bytesLess, if_neg e, decide_eq_true_eq]
        refine ⟨List.Lex.rel, fun h => ?_⟩
        cases h with
        | cons h1 => exact absurd rfl e
        | rel h1 => exact h1

theorem bytesLess_eq (s t : String) : bytesLess s.toList t.toList = decide (s < t) := by
  rw [Bool.eq_iff_iff, bytesLess_iff, decide_eq_true_eq, String.lt_iff_toList_lt]

theorem lessDefault_string (M : lua_State) (s t : String) :
    lessDefault M (.string s) (.string t) = .ok M (decide (s < t)) := by
  show Step.ok M (bytesLess s.toList t.toList) = _
  rw [bytesLess_eq]

/-- C1 (as amended): on a read-only table `table.insert(t, v)`, `table.insert(t, pos, v)` with
an integer `pos`, `table.sort(t)` and `table.clear(t)` always raise 'attempt to modify a
readonly table'; `table.remove(t [, pos])` raises it when `1 <= pos <= #t` and returns no
value without raising otherwise; `table.move(src, f, e, pos, t)` with the read-only `t` as
destination raises it when `f <= e` and both argument checks pass, and returns `t` without
raising when `e < f`. -/
theorem readonly_table_calls (cvt2num : String → Option Int) (luaV_lessthan : SortPredicate)
    (luaD_call : lua_State → TValue → List TValue → Step (List TValue))
    (L : lua_State) (h : Nat)
    (ht : tableAt L 1 = some h) (hro : (getTable L h).readonly = true) :
    (lua_gettop L = 2 →
      tinsert cvt2num L = .raise L (.runerror "attempt to modify a readonly table")) ∧
    (lua_gettop L = 3 → ∀ pos, lua_tointegerx cvt2num L 2 = some pos →
      tinsert cvt2num L = .raise L (.runerror "attempt to modify a readonly table")) ∧
    (∀ pos, luaL_optinteger cvt2num L 2 (lua_objlen L 1) = .ok L pos →
      (1 ≤ pos ∧ pos ≤ lua_objlen L 1 →
        tremove cvt2num L =
          .raise (lua_rawgeti L 1 pos) (.runerror "attempt to modify a readonly table")) ∧
      (¬ (1 ≤ pos ∧ pos ≤ lua_objlen L 1) → tremove cvt2num L = .ok L 0)) ∧
    tsort luaV_lessthan luaD_call L =
      .raise L (.runerror "attempt to modify a readonly table") ∧
    tclear L = .raise L (.runerror "attempt to modify a readonly table") ∧
    (∀ (M : lua_State) (f e t : Int), lua_type M 1 = .LUA_TTABLE →
      lua_tointegerx cvt2num M 2 = some f → lua_tointegerx cvt2num M 3 = some e →
      lua_tointegerx cvt2num M 4 = some t →
      tableAt M (if ! lua_isnoneornil M 5 then 5 else 1) = some h →
      (getTable M h).readonly = true →
      (e < f → tmove cvt2num M = .ok (push M (.table h)) 1) ∧
      (f ≤ e → (f > 0 ∨ e < INT_MAX + f) → t ≤ INT_MAX - (e - f + 1) + 1 →
        tmove cvt2num M = .raise M (.runerror "attempt to modify a readonly table"))) := by
  rw [← readonlyMessage_eq]
  obtain ⟨i2, i3, _⟩ := tinsert_frozen cvt2num ht hro
  refine ⟨i2, i3, (tremove_frozen cvt2num ht hro).1, tsort_frozen _ _ ht hro,
    tclear_frozen ht hro, ?_⟩
  intro M f e t m1 mf me mt md mro
  obtain ⟨a, b, _, _⟩ := tmove_frozen cvt2num m1 mf me mt md mro
  exact ⟨a, b⟩

/-- Witness of `readonly_table_calls`: the calls on a read-only table holding 10, 20. -/
theorem readonly_table_calls_witness :
    tinsert (fun _ => none) (frozenCall [.number 5]) =
      .raise (frozenCall [.number 5]) (.runerror "attempt to modify a readonly table") ∧
    tinsert (fun _ => none) (frozenCall [.number 1, .number 5]) =
      .raise (frozenCall [.number 1, .number 5])
        (.runerror "attempt to modify a readonly table") ∧
    tremove (fun _ => none) (frozenCall []) =
      .raise (frozenCall [.number 20]) (.runerror "attempt to modify a readonly table") ∧
    tremove (fun _ => none) (frozenCall [.number 7]) = .ok (frozenCall [.number 7]) 0 ∧
    tsort noCompare noCall (frozenCall []) =
      .raise (frozenCall []) (.runerror "attempt to modify a readonly table") ∧
    tclear (frozenCall []) =
      .raise (frozenCall []) (.runerror "attempt to modify a readonly table") ∧
    tmove (fun _ => none) (frozenCall [.number 1, .number 2, .number 1]) =
      .raise (frozenCall [.number 1, .number 2, .number 1])
        (.runerror "attempt to modify a readonly table") ∧
    tmove (fun _ => none) (frozenCall [.number 2, .number 1, .number 1]) =
      .ok (frozenCall [.number 2, .number 1, .number 1, .table 0]) 1 :=
  ⟨(readonly_table_calls (fun _ => none) noCompare noCall (frozenCall [.number 5]) 0
      (by decide) (by decide)).1 (by decide),
    (readonly_table_calls (fun _ => none) noCompare noCall (frozenCall [.number 1, .number 5]) 0
      (by decide) (by decide)).2.1 (by decide) 1 (by decide),
    ((readonly_table_calls (fun _ => none) noCompare noCall (frozenCall []) 0
      (by decide) (by decide)).2.2.1 2 (by decide)).1 (by decide),
    ((readonly_table_calls (fun _ => none) noCompare noCall (frozenCall [.number 7]) 0
      (by decide) (by decide)).2.2.1 7 (by decide)).2 (by decide),
    (readonly_table_calls (fun _ => none) noCompare noCall (frozenCall []) 0
      (by decide) (by decide)).2.2.2.1,
    (readonly_table_calls (fun _ => none) noCompare noCall (frozenCall []) 0
      (by decide) (by decide)).2.2.2.2.1,
    ((readonly_table_calls (fun _ => none) noCompare noCall (frozenCall []) 0
      (by decide) (by decide)).2.2.2.2.2 (frozenCall [.number 1, .number 2, .number 1]) 1 2 1
      (by decide) (by decide) (by decide) (by decide) (by decide) (by decide)).2
      (by decide) (by decide) (by decide),
    ((readonly_table_calls (fun _ => none) noCompare noCall (frozenCall []) 0
      (by decide) (by decide)).2.2.2.2.2 (frozenCall [.number 2, .number 1, .number 1]) 2 1 1
      (by decide) (by decide) (by decide) (by decide) (by decide) (by decide)).1
      (by decide)⟩

/-- C1 as stated fails: on a read-only empty table `table.remove(t)` returns no value and
raises nothing, and `table.move(t, 1, 0, 1)`, whose range is empty, returns the table and
raises nothing. -/
theorem readonly_table_calls_counterexample :
    tableAt (frozenEmptyCall []) 1 = some 0 ∧
    (getTable (frozenEmptyCall []) 0).readonly = true ∧
    tremove (fun _ => none) (frozenEmptyCall []) = .ok (frozenEmptyCall []) 0 ∧
    tmove (fun _ => none) (frozenEmptyCall [.number 1, .number 0, .number 1]) =
      .ok (frozenEmptyCall [.number 1, .number 0, .number 1, .table 0]) 1 := by
  decide

/-- C2: read-only violations are all-or-nothing.  When the table a call would modify is
read-only (the first argument of `table.insert`, `table.remove`, `table.sort`,
`table.clear`, the destination of `table.move`) and the call raises the read-only error,
every table object, hence the array part, hash part and array size of that table, is
what it was before the call. -/
theorem readonly_violation_all_or_nothing (cvt2num : String → Option Int)
    (luaV_lessthan : SortPredicate)
    (luaD_call : lua_State → TValue → List TValue → Step (List TValue))
    (L : lua_State) (h : Nat)
    (ht : tableAt L 1 = some h) (hro : (getTable L h).readonly = true) :
    (∀ R, tinsert cvt2num L = .raise R (.runerror "attempt to modify a readonly table") →
      R.tables = L.tables ∧ getTable R h = getTable L h) ∧
    (∀ R, tremove cvt2num L = .raise R (.runerror "attempt to modify a readonly table") →
      R.tables = L.tables ∧ getTable R h = getTable L h) ∧
    (∀ R, tsort luaV_lessthan luaD_call L =
        .raise R (.runerror "attempt to modify a readonly table") →
      R.tables = L.tables ∧ getTable R h = getTable L h) ∧
    (∀ R, tclear L = .raise R (.runerror "attempt to modify a readonly table") →
      R.tables = L.tables ∧ getTable R h = getTable L h) ∧
    (∀ (M R : lua_State), tableAt M (if ! lua_isnoneornil M 5 then 5 else 1) = some h →
      (getTable M h).readonly = true →
      tmove cvt2num M = .raise R (.runerror "attempt to modify a readonly table") →
      R.tables = M.tables ∧ getTable R h = getTable M h) := by
  have both : ∀ {A B : lua_State}, A.tables = B.tables →
      A.tables = B.tables ∧ getTable A h = getTable B h := by
    intro A B hab
    exact ⟨hab, by simp [getTable, hab]⟩
  refine ⟨?_, ?_, ?_, ?_, ?_⟩
  · intro R hR
    have := (tinsert_frozen cvt2num ht hro).2.2
    rw [hR] at this
    exact both (by simpa [Step.state] using congrArg lua_State.tables this)
  · intro R hR
    have := (tremove_frozen cvt2num ht hro).2
    rw [hR] at this
    exact both this
  · intro R hR
    rw [tsort_frozen _ _ ht hro] at hR
    injection hR with hL _
    exact both (by rw [hL])
  · intro R hR
    rw [tclear_frozen ht hro] at hR
    injection hR with hL _
    exact both (by rw [hL])
  · intro M R md mro hR
    have := tmove_frozen_tables cvt2num md mro
    rw [hR] at this
    exact both this

/-- Witness of `readonly_violation_all_or_nothing`: `table.remove(t)` on a read-only table
holding 10, 20 raises and leaves the table as it was. -/
theorem readonly_violation_all_or_nothing_witness :
    tremove (fun _ => none) (frozenCall []) =
      .raise (frozenCall [.number 20]) (.runerror "attempt to modify a readonly table") ∧
    (frozenCall [.number 20]).tables = (frozenCall []).tables ∧
    getTable (frozenCall [.number 20]) 0 = frozenTable ∧
    tmove (fun _ => none) (frozenCall [.number 1, .number 2, .number 3]) =
      .raise (frozenCall [.number 1, .number 2, .number 3])
        (.runerror "attempt to modify a readonly table") :=
  ⟨by decide,
    ((readonly_violation_all_or_nothing (fun _ => none) noCompare noCall (frozenCall []) 0
      (by decide) (by decide)).2.1 (frozenCall [.number 20]) (by decide)).1,
    ((readonly_violation_all_or_nothing (fun _ => none) noCompare noCall (frozenCall []) 0
      (by decide) (by decide)).2.1 (frozenCall [.number 20]) (by decide)).2,
    by decide⟩

/-- C3: `pcall(f, a1..ak)` on a running thread returns `n + 1` values, true followed by the
results `v1..vn` of `f` in order, when the protected call returns them (status 0), and
exactly the two values false and `E` when `f` raises the error object `E`; the
continuation `luaB_pcallcont` produces the same two shapes. -/
theorem pcall_result_shape (run : TValue → List TValue → CallOutcome) (L : lua_State)
    (f : TValue) (args : List TValue)
    (hstack : L.stack = f :: args) (hrun : L.status = .LUA_OK) :
    (∀ vs, run f args = .returns vs →
      ∃ R, luaB_pcally run L = .ok R ((vs.length : Int) + 1) ∧
        results R ((vs.length : Int) + 1) = .boolean true :: vs) ∧
    (∀ st E, st ≠ .LUA_OK → run f args = .throws st E →
      ∃ R, luaB_pcally run L = .ok R 2 ∧ results R 2 = [.boolean false, E]) ∧
    (∀ (M : lua_State) (vs : List TValue), M.stack = vs →
      ∃ R, luaB_pcallcont M .LUA_OK = .ok R ((vs.length : Int) + 1) ∧
        results R ((vs.length : Int) + 1) = .boolean true :: vs) ∧
    (∀ (M : lua_State) (st : lua_Status) (pre : List TValue) (E : TValue), st ≠ .LUA_OK →
      M.stack = pre ++ [E] →
      ∃ R, luaB_pcallcont M st = .ok R 2 ∧ results R 2 = [.boolean false, E]) := by
  have hany : luaL_checkany L 1 = .ok L () := by
    simp [luaL_checkany, lua_type, index2addr, hstack]
    cases f <;> simp [ttype]
  refine ⟨?_, ?_, ?_, ?_⟩
  · intro vs hr
    have hp : luaD_pcall run L = (.LUA_OK, { L with stack := vs }) := by
      simp [luaD_pcall, hstack, hr]
    refine ⟨lua_insert (push { L with stack := vs } (.boolean true)) 1, ?_, ?_⟩
    · simp only [luaB_pcally, hany, andThen_ok, hp, hrun]
      simp [lua_gettop, lua_insert_push_one]
    · apply results_append _ [] _ _ (by simp [lua_insert_push_one])
      simp
  · intro st E hst hr
    have hp : luaD_pcall run L = (st, { L with stack := [E] }) := by
      simp [luaD_pcall, hstack, hr]
    refine ⟨lua_insert (push { L with stack := [E] } (.boolean false)) 1, ?_, ?_⟩
    · simp only [luaB_pcally, hany, andThen_ok, hp]
      simp [hst, lua_gettop, lua_insert_push_one]
    · apply results_append _ [] _ _ (by simp [lua_insert_push_one])
      simp
  · intro M vs hM
    refine ⟨lua_insert (push M (.boolean true)) 1, ?_, ?_⟩
    · simp [luaB_pcallcont, lua_gettop, lua_insert_push_one, hM]
    · apply results_append _ [] _ _ (by simp [lua_insert_push_one, hM])
      simp
  · intro M st pre E hst hM
    refine ⟨lua_insert (push M (.boolean false)) (-2), ?_, ?_⟩
    · simp [luaB_pcallcont, hst]
    · exact results_append _ pre _ _ (lua_insert_push_neg2 M pre E _ hM) (by simp)

/-- Witness of `pcall_result_shape`: a function that returns 1, 2, 1, 2 and one that raises
`boom`. -/
theorem pcall_result_shape_witness :
    (∃ R, luaB_pcally sampleRun (runningThread [.function 1, .number 1, .number 2]) =
        .ok R 5 ∧
      results R 5 = [.boolean true, .number 1, .number 2, .number 1, .number 2]) ∧
    (∃ R, luaB_pcally sampleRun (runningThread [.function 2, .number 1]) = .ok R 2 ∧
      results R 2 = [.boolean false, .string "boom"]) :=
  ⟨(pcall_result_shape sampleRun (runningThread [.function 1, .number 1, .number 2])
      (.function 1) [.number 1, .number 2] rfl rfl).1 [.number 1, .number 2, .number 1, .number 2]
      (by decide),
    (pcall_result_shape sampleRun (runningThread [.function 2, .number 1])
      (.function 2) [.number 1] rfl rfl).2.1 .LUA_ERRRUN (.string "boom") (by decide)
      (by decide)⟩

/-- C4 (as amended): `coroutine.resume(co, ...)`, entered with a resumable coroutine whose
stack has room for the arguments.  When the coroutine yields or returns `r` values and the
resumer's stack has room for `r + 1` values (`r + 1 <= LUA_MINSTACK` or `lua_checkstack`
succeeds), resume returns `r + 1` values, true followed by those `r` values in their order.
When the coroutine errors with the error value `E` on top of its stack, resume returns
exactly the two values false and `E`.  When the coroutine cannot be resumed (its status is
not Suspended), resume returns exactly false and the message 'cannot resume <status>
coroutine'.  In none of these cases is an error raised in the resumer. -/
theorem resume_result_shape (cfg : Config) (lua_resume : Resume) (L co : lua_State)
    (cov : TValue) (args : List TValue) (hstack : L.stack = cov :: args) :
    (∀ st C vs, (co.status = .LUA_YIELD ∨ lua_costatus L co = .LUA_COSUS) →
      (args ≠ [] → lua_checkstack cfg co (args.length : Int) = true) →
      (args = [] → ¬ (cfg.LuauCoroCheckStack = true ∧ co.stack.length > cfg.LUAI_MAXCSTACK)) →
      lua_resume { co with stack := co.stack ++ args, singlestep := L.singlestep }
        { L with stack := [cov] } (args.length : Int) = (st, C) →
      (st = .LUA_OK ∨ st = .LUA_YIELD) → C.stack = vs →
      ((vs.length : Int) + 1 ≤ (cfg.LUA_MINSTACK : Int) ∨
        lua_checkstack cfg { L with stack := [cov] } ((vs.length : Int) + 1) = true) →
      ∃ R, coresumey cfg lua_resume L (some co) =
          .ok R ((vs.length : Int) + 1, some { C with stack := [] }) ∧
        results R ((vs.length : Int) + 1) = .boolean true :: vs ∧
        R.stack = cov :: .boolean true :: vs) ∧
    (∀ st C pre E, (co.status = .LUA_YIELD ∨ lua_costatus L co = .LUA_COSUS) →
      (args ≠ [] → lua_checkstack cfg co (args.length : Int) = true) →
      (args = [] → ¬ (cfg.LuauCoroCheckStack = true ∧ co.stack.length > cfg.LUAI_MAXCSTACK)) →
      lua_resume { co with stack := co.stack ++ args, singlestep := L.singlestep }
        { L with stack := [cov] } (args.length : Int) = (st, C) →
      st ≠ .LUA_OK → st ≠ .LUA_YIELD → st ≠ .LUA_BREAK → C.stack = pre ++ [E] →
      ∃ R, coresumey cfg lua_resume L (some co) = .ok R (2, some { C with stack := pre }) ∧
        results R 2 = [.boolean false, E] ∧
        R.stack = [cov, .boolean false, E]) ∧
    (co.status ≠ .LUA_YIELD → lua_costatus L co ≠ .LUA_COSUS →
      ∃ R, coresumey cfg lua_resume L (some co) = .ok R (2, some co) ∧
        results R 2 = [.boolean false, .string ("cannot resume " ++
          statnames (lua_costatus L co).toNat ++ " coroutine")]) := by
  have hlen : ((L.stack.length : Int) - 1) = (args.length : Int) := by simp [hstack]
  refine ⟨?_, ?_, ?_⟩
  · intro st C vs hres hargs hnone hrun hst hvs hroom
    subst hvs
    have henter := auxresume_enter cfg lua_resume L co cov args hstack hres hargs hnone
    simp only [hlen, hrun, hst, if_true] at henter
    by_cases hz : C.stack = []
    · have h0 : C.stack.length = 0 := by simp [hz]
      have hC : ({ C with stack := [] } : lua_State) = C := by
        cases C
        simp_all
      simp only [h0, Nat.cast_zero, ne_eq, not_true_eq_false, if_false] at henter
      rw [hz]
      refine ⟨lua_insert (push { L with stack := [cov] } (.boolean true)) (-(0 + 1)), ?_, ?_, ?_⟩
      · simp only [coresumey, hlen, henter, andThen_ok, CO_STATUS_BREAK, coresumefinish, hC]
        simp
      · have := lua_insert_push_neg { L with stack := [cov] } [cov] [] (.boolean true) rfl
        exact results_append _ [cov] _ _ this (by simp)
      · exact lua_insert_push_neg { L with stack := [cov] } [cov] [] (.boolean true) rfl
    · have hnz : ((C.stack.length : Nat) : Int) ≠ 0 := by
        have : C.stack.length ≠ 0 := by simpa using hz
        omega
      have hchk : ¬ ((C.stack.length : Int) + 1 > (cfg.LUA_MINSTACK : Int) ∧
          (! lua_checkstack cfg { L with stack := [cov] } ((C.stack.length : Int) + 1)) = true) := by
        rintro ⟨h1, h2⟩
        rcases hroom with h | h
        · omega
        · rw [h] at h2
          exact absurd h2 (by decide)
      simp only [ne_eq, hnz, not_false_eq_true, if_true, hchk, if_false, lua_xmove_all] at henter
      have hstk : ({ ({ L with stack := [cov] } : lua_State) with
          stack := ({ L with stack := [cov] } : lua_State).stack ++ C.stack } : lua_State).stack =
          [cov] ++ C.stack := rfl
      refine ⟨lua_insert (push { ({ L with stack := [cov] } : lua_State) with
        stack := ({ L with stack := [cov] } : lua_State).stack ++ C.stack } (.boolean true))
        (-((C.stack.length : Int) + 1)), ?_, ?_, ?_⟩
      · have hr0 : ¬ ((C.stack.length : Int) < 0) := by omega
        have hbrk : ¬ ((C.stack.length : Int) = CO_STATUS_BREAK) := by
          simp only [CO_STATUS_BREAK]
          omega
        simp only [coresumey, hlen, henter, andThen_ok, hbrk, if_false, coresumefinish, hr0]
      · have := lua_insert_push_neg _ [cov] C.stack (.boolean true) hstk
        exact results_append _ [cov] _ _ this (by simp)
      · exact lua_insert_push_neg _ [cov] C.stack (.boolean true) hstk
  · intro st C pre E hres hargs hnone hrun h1 h2 h3 hC
    have henter := auxresume_enter cfg lua_resume L co cov args hstack hres hargs hnone
    simp only [hlen, hrun, h1, h2, h3, or_self, if_false, lua_xmove_one C _ pre E hC] at henter
    have hstk : ({ ({ L with stack := [cov] } : lua_State) with
        stack := ({ L with stack := [cov] } : lua_State).stack ++ [E] } : lua_State).stack =
        [cov] ++ [E] := rfl
    refine ⟨lua_insert (push { ({ L with stack := [cov] } : lua_State) with
        stack := ({ L with stack := [cov] } : lua_State).stack ++ [E] } (.boolean false)) (-2),
      ?_, ?_, ?_⟩
    · simp only [coresumey, hlen, henter, andThen_ok, CO_STATUS_ERROR, CO_STATUS_BREAK,
        coresumefinish]
      simp
    · exact results_append _ [cov] _ _ (lua_insert_push_neg2 _ [cov] E _ hstk) (by simp)
    · exact lua_insert_push_neg2 _ [cov] E _ hstk
  · intro hy hs
    have haux : auxresume cfg lua_resume L co ((L.stack.length : Int) - 1) =
        .ok (push L (.string ("cannot resume " ++ statnames (lua_costatus L co).toNat ++
          " coroutine"))) (CO_STATUS_ERROR, co) := by
      simp only [auxresume, ne_eq, hy, not_false_eq_true, hs, and_self, if_true,
        statnames_resume]
    refine ⟨lua_insert (push (push L (.string ("cannot resume " ++
      statnames (lua_costatus L co).toNat ++ " coroutine"))) (.boolean false)) (-2), ?_, ?_⟩
    · simp only [coresumey, haux, andThen_ok, CO_STATUS_ERROR, CO_STATUS_BREAK, coresumefinish]
      simp
    · exact results_append _ L.stack _ _ (lua_insert_push_neg2 _ L.stack _ _ rfl) (by simp)
/-- Witness of `resume_result_shape`: a fresh coroutine resumed with the argument 10 yields
11 and 12, and resume returns true, 11, 12; one that fails with `boom` makes resume return
false, `boom`; a finished one makes resume return false and the message. -/
theorem resume_result_shape_witness :
    (∃ R, coresumey defaultConfig yieldTwo (runningThread [.thread 1, .number 10])
        (some (coroutineThread [.function 7] .LUA_OK 0)) =
        .ok R (3, some (coroutineThread [] .LUA_YIELD 0)) ∧
      results R 3 = [.boolean true, .number 11, .number 12] ∧
      R.stack = [.thread 1, .boolean true, .number 11, .number 12]) ∧
    (∃ R, coresumey defaultConfig failBoom (runningThread [.thread 1, .number 10])
        (some (coroutineThread [.function 7] .LUA_OK 0)) =
        .ok R (2, some (coroutineThread [.function 7, .number 10] .LUA_ERRRUN 0)) ∧
      results R 2 = [.boolean false, .string "boom"] ∧
      R.stack = [.thread 1, .boolean false, .string "boom"]) ∧
    (∃ R, coresumey defaultConfig yieldTwo (runningThread [.thread 1, .number 10])
        (some (coroutineThread [] .LUA_OK 0)) = .ok R (2, some (coroutineThread [] .LUA_OK 0)) ∧
      results R 2 = [.boolean false, .string "cannot resume dead coroutine"]) :=
  ⟨(resume_result_shape defaultConfig yieldTwo (runningThread [.thread 1, .number 10])
      (coroutineThread [.function 7] .LUA_OK 0) (.thread 1) [.number 10] rfl).1
      .LUA_YIELD (coroutineThread [.number 11, .number 12] .LUA_YIELD 0)
      [.number 11, .number 12] (by decide) (fun _ => by decide) (fun h => by cases h) rfl
      (by decide) rfl (by decide),
    (resume_result_shape defaultConfig failBoom (runningThread [.thread 1, .number 10])
      (coroutineThread [.function 7] .LUA_OK 0) (.thread 1) [.number 10] rfl).2.1
      .LUA_ERRRUN (coroutineThread [.function 7, .number 10, .string "boom"] .LUA_ERRRUN 0)
      [.function 7, .number 10] (.string "boom") (by decide) (fun _ => by decide)
      (fun h => by cases h) rfl (by decide) (by decide) (by decide) rfl,
    (resume_result_shape defaultConfig yieldTwo (runningThread [.thread 1, .number 10])
      (coroutineThread [] .LUA_OK 0) (.thread 1) [.number 10] rfl).2.2
      (by decide) (by decide)⟩

/-- C4 as stated fails for a large `r`: with the limits of luaconf.h
(`LUAI_MAXCSTACK` = 8000, `LUA_MINSTACK` = 20), when the resumed coroutine, which is
suspended, returns 7999 values with status 0, `coroutine.resume(co)` does not return 8000
values; it raises 'too many results to resume' in the resumer. -/
theorem resume_result_shape_counterexample :
    lua_costatus (runningThread [.thread 1]) (coroutineThread [.function 7] .LUA_OK 0) =
      .LUA_COSUS ∧
    (returnMany (coroutineThread [.function 7] .LUA_OK 0) (runningThread [.thread 1]) 0).1 =
      .LUA_OK ∧
    (returnMany (coroutineThread [.function 7] .LUA_OK 0)
      (runningThread [.thread 1]) 0).2.stack.length = 7999 ∧
    coresumey defaultConfig returnMany (runningThread [.thread 1])
        (some (coroutineThread [.function 7] .LUA_OK 0)) =
      .raise (runningThread [.thread 1]) (.error "too many results to resume") := by
  have hl : (List.replicate 7999 (TValue.number 0)).length = 7999 := List.length_replicate _ _
  refine ⟨by decide, rfl, hl, ?_⟩
  have hmsg : tooManyResults = "too many results to resume" := by decide
  rw [← hmsg]
  refine coresumey_results_overflow defaultConfig returnMany (runningThread [.thread 1])
    (coroutineThread [.function 7] .LUA_OK 0) (.thread 1) rfl (by decide) (by decide)
    { coroutineThread [.function 7] .LUA_OK 0 with stack := List.replicate 7999 (.number 0) }
    rfl ?_ ?_ ?_
  · show 0 < (List.replicate 7999 (TValue.number 0)).length
    rw [hl]
    decide
  · show (((List.replicate 7999 (TValue.number 0)).length : Nat) : Int) + 1 > ((20 : Nat) : Int)
    rw [hl]
    decide
  · show lua_checkstack defaultConfig (runningThread [.thread 1])
      ((((List.replicate 7999 (TValue.number 0)).length : Nat) : Int) + 1) = false
    rw [hl]
    decide

/-- C5: resuming a thread that is not Suspended fails with 'cannot resume <status>
coroutine'.  For every coroutine whose status is running, normal, dead-finished or
dead-errored (the running thread having `L->status` 0), `auxresume` returns
`CO_STATUS_ERROR` with exactly that message pushed on the resumer's stack, where <status>
is the name `coroutine.status` reports: 'running', 'normal', or 'dead' for both dead states.
The result does not depend on `lua_resume`, and the coroutine, its stack included, is
unchanged. -/
theorem resume_non_suspended (cfg : Config) (lua_resume : Resume) (L co : lua_State)
    (narg : Int) (hwf : co.tid = L.tid → co.status = .LUA_OK)
    (hs : lua_costatus L co ≠ .LUA_COSUS) :
    auxresume cfg lua_resume L co narg =
      .ok (push L (.string ("cannot resume " ++ statnames (lua_costatus L co).toNat ++
        " coroutine"))) (CO_STATUS_ERROR, co) ∧
    costatus L (some co) = .ok (push L (.string (statnames (lua_costatus L co).toNat))) 1 ∧
    (lua_costatus L co = .LUA_CORUN → statnames (lua_costatus L co).toNat = "running") ∧
    (lua_costatus L co = .LUA_CONOR → statnames (lua_costatus L co).toNat = "normal") ∧
    (lua_costatus L co = .LUA_COFIN → statnames (lua_costatus L co).toNat = "dead") ∧
    (lua_costatus L co = .LUA_COERR → statnames (lua_costatus L co).toNat = "dead") := by
  have hy := status_ne_yield_of_costatus L co hwf hs
  refine ⟨?_, rfl, ?_, ?_, ?_, ?_⟩
  · simp only [auxresume, ne_eq, hy, not_false_eq_true, hs, and_self, if_true, statnames_resume]
  · intro h; rw [h]; decide
  · intro h; rw [h]; decide
  · intro h; rw [h]; decide
  · intro h; rw [h]; decide

/-- Witness of `resume_non_suspended`: a finished coroutine (status 0, no frames, empty
stack) cannot be resumed, whatever `lua_resume` would do. -/
theorem resume_non_suspended_witness :
    lua_costatus (runningThread [.thread 1, .number 5]) (coroutineThread [] .LUA_OK 0) =
      .LUA_COFIN ∧
    auxresume defaultConfig failBoom (runningThread [.thread 1, .number 5])
        (coroutineThread [] .LUA_OK 0) 1 =
      .ok (runningThread [.thread 1, .number 5, .string "cannot resume dead coroutine"])
        (-1, coroutineThread [] .LUA_OK 0) :=
  ⟨by decide,
    (resume_non_suspended defaultConfig failBoom (runningThread [.thread 1, .number 5])
      (coroutineThread [] .LUA_OK 0) 1 (by decide) (by decide)).1⟩

/-- Claim C6, amended: `coroutine.close(co)` raises 'cannot close <status> coroutine' if and
only if the status of `co` is running or normal.  For a Suspended, Dead-finished or
Dead-errored coroutine it does not raise and resets the thread; it returns the single value
true when `co->status` was `LUA_OK` or `LUA_YIELD`, and otherwise, when the error value is
there, the two values false and the error value: the value on top of the coroutine's stack,
or, under the flag `LuauStackLimit`, the fixed message of a memory error or of an error in
error handling.  When the errored coroutine's stack is empty and no fixed message applies,
nothing is moved: only false is pushed. -/
theorem close_contract (cfg : Config) (L co : lua_State) :
    ((∃ R e, coclose cfg L (some co) = .raise R e) ↔
      (lua_costatus L co = .LUA_CORUN ∨ lua_costatus L co = .LUA_CONOR)) ∧
    (lua_costatus L co = .LUA_CORUN →
      coclose cfg L (some co) = .raise L (.error "cannot close running coroutine")) ∧
    (lua_costatus L co = .LUA_CONOR →
      coclose cfg L (some co) = .raise L (.error "cannot close normal coroutine")) ∧
    (lua_costatus L co ≠ .LUA_CORUN → lua_costatus L co ≠ .LUA_CONOR →
      (co.status = .LUA_OK ∨ co.status = .LUA_YIELD) →
      ∃ R C, coclose cfg L (some co) = .ok R (1, some C) ∧
        results R 1 = [.boolean true] ∧
        R.stack = L.stack ++ [.boolean true] ∧
        C.stack = [] ∧ C.status = .LUA_OK ∧ C.nci = 0) ∧
    (lua_costatus L co ≠ .LUA_CORUN → lua_costatus L co ≠ .LUA_CONOR →
      ¬ (co.status = .LUA_OK ∨ co.status = .LUA_YIELD) →
      lua_costatus L co = .LUA_COERR ∧
      ∀ E, (if cfg.LuauStackLimit = true ∧ co.status = .LUA_ERRMEM then
              E = .string cfg.LUA_MEMERRMSG
            else if cfg.LuauStackLimit = true ∧ co.status = .LUA_ERRERR then
              E = .string cfg.LUA_ERRERRMSG
            else co.stack.getLast? = some E) →
        ∃ R C, coclose cfg L (some co) = .ok R (2, some C) ∧
          results R 2 = [.boolean false, E] ∧
          R.stack = L.stack ++ [.boolean false, E] ∧
          C.stack = [] ∧ C.status = .LUA_OK ∧ C.nci = 0) ∧
    (lua_costatus L co ≠ .LUA_CORUN → lua_costatus L co ≠ .LUA_CONOR →
      ¬ (co.status = .LUA_OK ∨ co.status = .LUA_YIELD) →
      ¬ (cfg.LuauStackLimit = true ∧ (co.status = .LUA_ERRMEM ∨ co.status = .LUA_ERRERR)) →
      co.stack = [] →
      ∃ R C n, coclose cfg L (some co) = .ok R (n, some C) ∧
        R.stack = L.stack ++ [.boolean false] ∧
        C.stack = [] ∧ C.status = .LUA_OK ∧ C.nci = 0) := by
  have hnot : ∀ s : lua_CoStatus, (s ≠ .LUA_COFIN ∧ s ≠ .LUA_COERR ∧ s ≠ .LUA_COSUS) ↔
      (s = .LUA_CORUN ∨ s = .LUA_CONOR) := by
    intro s; cases s <;> simp
  have hraise : (lua_costatus L co = .LUA_CORUN ∨ lua_costatus L co = .LUA_CONOR) →
      coclose cfg L (some co) = .raise L (.error ("cannot close " ++
        statnames (lua_costatus L co).toNat ++ " coroutine")) := by
    intro h
    have h' := (hnot _).mpr h
    simp only [coclose, ne_eq, h', not_false_eq_true, and_self, if_true, statnames_close]
  have hok : ¬ (lua_costatus L co = .LUA_CORUN ∨ lua_costatus L co = .LUA_CONOR) →
      ∃ R v, coclose cfg L (some co) = .ok R v := by
    intro h
    have h' : ¬ (lua_costatus L co ≠ .LUA_COFIN ∧ lua_costatus L co ≠ .LUA_COERR ∧
        lua_costatus L co ≠ .LUA_COSUS) := fun hh => h ((hnot _).mp hh)
    simp only [coclose, if_neg h']
    split
    · exact ⟨_, _, rfl⟩
    · exact ⟨_, _, rfl⟩
  refine ⟨⟨?_, ?_⟩, ?_, ?_, ?_, ?_, ?_⟩
  · rintro ⟨R, e, hR⟩
    by_contra h
    obtain ⟨R', v, hv⟩ := hok h
    rw [hv] at hR
    exact Step.noConfusion hR
  · intro h
    exact ⟨_, _, hraise h⟩
  · intro h
    rw [hraise (Or.inl h), h]
    rfl
  · intro h
    rw [hraise (Or.inr h), h]
    rfl
  · intro h1 h2 hst
    have h' : ¬ (lua_costatus L co ≠ .LUA_COFIN ∧ lua_costatus L co ≠ .LUA_COERR ∧
        lua_costatus L co ≠ .LUA_COSUS) := by
      intro hh
      rcases (hnot _).mp hh with h | h
      · exact h1 h
      · exact h2 h
    refine ⟨push L (.boolean true), lua_resetthread co, ?_, ?_, rfl, rfl, rfl, rfl⟩
    · simp only [coclose, if_neg h', if_pos hst]
    · simp [results, push]
  · intro h1 h2 hst
    have h' : ¬ (lua_costatus L co ≠ .LUA_COFIN ∧ lua_costatus L co ≠ .LUA_COERR ∧
        lua_costatus L co ≠ .LUA_COSUS) := by
      intro hh
      rcases (hnot _).mp hh with h | h
      · exact h1 h
      · exact h2 h
    have hne : co.status ≠ .LUA_OK ∧ co.status ≠ .LUA_YIELD := by
      constructor
      · intro h; exact hst (Or.inl h)
      · intro h; exact hst (Or.inr h)
    have herr : lua_costatus L co = .LUA_COERR := by
      have hid : ¬ co.tid = L.tid := by
        intro hid
        apply h1
        simp [lua_costatus, hid]
      by_cases hb : co.status = .LUA_BREAK
      · exfalso
        apply h2
        simp [lua_costatus, hid, hb]
      · simp [lua_costatus, hid, hne.1, hne.2, hb]
    refine ⟨herr, ?_⟩
    intro E hE
    have hres : ∀ R : lua_State, R.stack = L.stack ++ [.boolean false, E] →
        results R 2 = [.boolean false, E] := by
      intro R hR
      exact results_append R L.stack _ 2 hR (by simp)
    simp only [coclose, if_neg h', if_neg hst]
    by_cases hf : cfg.LuauStackLimit = true
    · by_cases hm : co.status = .LUA_ERRMEM
      · simp only [hf, hm, and_self, if_true] at hE ⊢
        subst hE
        exact ⟨_, _, rfl, hres _ (by simp [push]), by simp [push], rfl, rfl, rfl⟩
      · by_cases he : co.status = .LUA_ERRERR
        · simp only [hf, hm, he, and_false, and_self, if_true, if_false] at hE ⊢
          subst hE
          refine ⟨_, _, rfl, hres _ ?_, ?_, rfl, rfl, rfl⟩ <;> simp [push]
        · simp only [hf, hm, he, and_false, if_false] at hE ⊢
          obtain ⟨pre, hpre⟩ : ∃ pre, co.stack = pre ++ [E] := by
            refine ⟨co.stack.dropLast, ?_⟩
            exact (List.dropLast_append_getLast? E hE).symm
          have htop : lua_gettop co ≠ 0 := by simp [lua_gettop, hpre]
          rw [if_pos htop, lua_xmove_one co _ pre E hpre]
          refine ⟨_, _, rfl, hres _ ?_, ?_, rfl, rfl, rfl⟩ <;> simp [push]
    · have hf' : cfg.LuauStackLimit = false := by simpa using hf
      simp only [hf', Bool.false_eq_true, false_and, if_false] at hE ⊢
      obtain ⟨pre, hpre⟩ : ∃ pre, co.stack = pre ++ [E] := by
        refine ⟨co.stack.dropLast, ?_⟩
        exact (List.dropLast_append_getLast? E hE).symm
      have htop : lua_gettop co ≠ 0 := by simp [lua_gettop, hpre]
      rw [if_pos htop, lua_xmove_one co _ pre E hpre]
      refine ⟨_, _, rfl, hres _ ?_, ?_, rfl, rfl, rfl⟩ <;> simp [push]
  · intro h1 h2 hst hfix hempty
    have h' : ¬ (lua_costatus L co ≠ .LUA_COFIN ∧ lua_costatus L co ≠ .LUA_COERR ∧
        lua_costatus L co ≠ .LUA_COSUS) := by
      intro hh
      rcases (hnot _).mp hh with h | h
      · exact h1 h
      · exact h2 h
    have htop : ¬ (lua_gettop co ≠ 0) := by simp [lua_gettop, hempty]
    simp only [coclose, if_neg h', if_neg hst]
    by_cases hf : cfg.LuauStackLimit = true
    · have hm : ¬ co.status = .LUA_ERRMEM := fun h => hfix ⟨hf, Or.inl h⟩
      have he : ¬ co.status = .LUA_ERRERR := fun h => hfix ⟨hf, Or.inr h⟩
      simp only [hf, if_true, if_neg hm, if_neg he, if_neg htop]
      exact ⟨_, _, _, rfl, by simp [push], rfl, rfl, rfl⟩
    · have hf' : cfg.LuauStackLimit = false := by simpa using hf
      simp only [hf', Bool.false_eq_true, if_false, if_neg htop]
      exact ⟨_, _, _, rfl, by simp [push], rfl, rfl, rfl⟩

/-- Witness of `close_contract`: closing the running thread raises; closing a yielded
coroutine returns true; closing an errored coroutine that holds the error value `boom`
returns false and `boom`. -/
theorem close_contract_witness :
    coclose defaultConfig (runningThread [.thread 0]) (some (runningThread [.thread 0])) =
      .raise (runningThread [.thread 0]) (.error "cannot close running coroutine") ∧
    (∃ R C, coclose defaultConfig (runningThread [.thread 1])
        (some (coroutineThread [.number 1] .LUA_YIELD 1)) = .ok R (1, some C) ∧
      results R 1 = [.boolean true] ∧ R.stack = [.thread 1, .boolean true] ∧
      C.stack = [] ∧ C.status = .LUA_OK ∧ C.nci = 0) ∧
    (∃ R C, coclose defaultConfig (runningThread [.thread 1])
        (some (coroutineThread [.string "boom"] .LUA_ERRRUN 1)) = .ok R (2, some C) ∧
      results R 2 = [.boolean false, .string "boom"] ∧
      R.stack = [.thread 1, .boolean false, .string "boom"] ∧
      C.stack = [] ∧ C.status = .LUA_OK ∧ C.nci = 0) :=
  ⟨(close_contract defaultConfig (runningThread [.thread 0]) (runningThread [.thread 0])).2.1
      (by decide),
    (close_contract defaultConfig (runningThread [.thread 1])
      (coroutineThread [.number 1] .LUA_YIELD 1)).2.2.2.1 (by decide) (by decide) (by decide),
    ((close_contract defaultConfig (runningThread [.thread 1])
      (coroutineThread [.string "boom"] .LUA_ERRRUN 1)).2.2.2.2.1 (by decide) (by decide)
      (by decide)).2 (.string "boom") (by decide)⟩

/-- Counterexample to C6 as stated: an errored coroutine whose stack is empty is
Dead-errored, yet `coroutine.close` pushes only false; the two values it hands back are the
thread argument and false, not false and an error value. -/
theorem close_contract_counterexample :
    lua_costatus (runningThread [.thread 1]) (coroutineThread [] .LUA_ERRRUN 1) = .LUA_COERR ∧
    coclose defaultConfig (runningThread [.thread 1])
        (some (coroutineThread [] .LUA_ERRRUN 1)) =
      .ok (push (runningThread [.thread 1]) (.boolean false))
        (2, some (lua_resetthread (coroutineThread [] .LUA_ERRRUN 1))) ∧
    results (push (runningThread [.thread 1]) (.boolean false)) 2 =
      [.thread 1, .boolean false] ∧
    ¬ ∃ E, results (push (runningThread [.thread 1]) (.boolean false)) 2 =
      [.boolean false, E] := by
  refine ⟨by decide, by decide, by decide, ?_⟩
  rintro ⟨E, hE⟩
  have h2 : results (push (runningThread [.thread 1]) (.boolean false)) 2 =
      [.thread 1, .boolean false] := by decide
  rw [h2] at hE
  injection hE with h1 _
  exact TValue.noConfusion h1


/-- C7: typed buffer accessors are bounds-checked exactly.  For every buffer of length
`len <= 2^31 - 1` and every 32-bit signed `offset`, each integer accessor of byte width `w`
(1, 2 or 4: readi8 .. readu32 and the matching writes) and each floating-point accessor
(`w` = 4 for f32, `w` = 8 for f64) raises 'buffer access out of bounds' if and only if
`offset < 0` or `offset + w > len`, and completes otherwise; every negative offset is
rejected and the 64-bit sum of the comparison stays below 2^64. -/
theorem buffer_access_bounds (buf : List Nat) (offset : Int)
    (hlen : buf.length ≤ 2147483647)
    (hoff : -2147483648 ≤ offset ∧ offset ≤ 2147483647) :
    (∀ T, T ∈ [int8_t, uint8_t, int16_t, uint16_t, int32_t, uint32_t] →
      (buffer_readinteger T buf offset = .raise buf (.error "buffer access out of bounds") ↔
        (offset < 0 ∨ offset + (T.size : Int) > (buf.length : Int))) ∧
      ((∃ v, buffer_readinteger T buf offset = .ok buf v) ↔
        ¬ (offset < 0 ∨ offset + (T.size : Int) > (buf.length : Int))) ∧
      (∀ value,
        (buffer_writeinteger T buf offset value =
            .raise buf (.error "buffer access out of bounds") ↔
          (offset < 0 ∨ offset + (T.size : Int) > (buf.length : Int))) ∧
        ((∃ b, buffer_writeinteger T buf offset value = .ok b ()) ↔
          ¬ (offset < 0 ∨ offset + (T.size : Int) > (buf.length : Int))))) ∧
    (∀ w : Nat, w = 4 ∨ w = 8 →
      (buffer_readfp w buf offset = .raise buf (.error "buffer access out of bounds") ↔
        (offset < 0 ∨ offset + (w : Int) > (buf.length : Int))) ∧
      ((∃ v, buffer_readfp w buf offset = .ok buf v) ↔
        ¬ (offset < 0 ∨ offset + (w : Int) > (buf.length : Int))) ∧
      (∀ storage,
        (buffer_writefp w buf offset storage =
            .raise buf (.error "buffer access out of bounds") ↔
          (offset < 0 ∨ offset + (w : Int) > (buf.length : Int))) ∧
        ((∃ b, buffer_writefp w buf offset storage = .ok b ()) ↔
          ¬ (offset < 0 ∨ offset + (w : Int) > (buf.length : Int))))) ∧
    (∀ w : Nat, w = 1 ∨ w = 2 ∨ w = 4 ∨ w = 8 →
      (offset < 0 → isoutofbounds offset buf.length w = true) ∧
      toUnsigned offset + w < 18446744073709551616) := by
  rw [← outOfBounds_eq]
  have hb : ∀ w : Nat, w ≤ 8 →
      (isoutofbounds offset buf.length w = true ↔
        (offset < 0 ∨ offset + (w : Int) > (buf.length : Int))) :=
    fun w hw => (isoutofbounds_iff offset buf.length w hlen hoff (by omega)).1
  have hf : ∀ w : Nat, w ≤ 8 →
      (isoutofbounds offset buf.length w = false ↔
        ¬ (offset < 0 ∨ offset + (w : Int) > (buf.length : Int))) := by
    intro w hw
    rw [← hb w hw]
    simp
  refine ⟨?_, ?_, ?_⟩
  · intro T hT
    have hw : T.size ≤ 8 := by
      simp only [List.mem_cons, List.mem_singleton, List.not_mem_nil, or_false] at hT
      rcases hT with rfl | rfl | rfl | rfl | rfl | rfl <;> decide
    obtain ⟨r1, r2⟩ := readinteger_cases T buf offset
    refine ⟨⟨?_, ?_⟩, ⟨?_, ?_⟩, ?_⟩
    · intro h
      by_contra hc
      obtain ⟨v, hv⟩ := r2 ((hf _ hw).mpr hc)
      rw [hv] at h
      exact BufStep.noConfusion h
    · intro h
      exact r1 ((hb _ hw).mpr h)
    · rintro ⟨v, hv⟩ hc
      rw [r1 ((hb _ hw).mpr hc)] at hv
      exact BufStep.noConfusion hv
    · intro hc
      exact r2 ((hf _ hw).mpr hc)
    · intro value
      obtain ⟨w1, w2⟩ := writeinteger_cases T buf offset value
      refine ⟨⟨?_, ?_⟩, ⟨?_, ?_⟩⟩
      · intro h
        by_contra hc
        rw [w2 ((hf _ hw).mpr hc)] at h
        exact BufStep.noConfusion h
      · intro h
        exact w1 ((hb _ hw).mpr h)
      · rintro ⟨b, hv⟩ hc
        rw [w1 ((hb _ hw).mpr hc)] at hv
        exact BufStep.noConfusion hv
      · intro hc
        exact ⟨_, w2 ((hf _ hw).mpr hc)⟩
  · intro w hw4
    have hw : w ≤ 8 := by omega
    obtain ⟨r1, r2⟩ := readfp_cases w buf offset
    refine ⟨⟨?_, ?_⟩, ⟨?_, ?_⟩, ?_⟩
    · intro h
      by_contra hc
      rw [r2 ((hf _ hw).mpr hc)] at h
      exact BufStep.noConfusion h
    · intro h
      exact r1 ((hb _ hw).mpr h)
    · rintro ⟨v, hv⟩ hc
      rw [r1 ((hb _ hw).mpr hc)] at hv
      exact BufStep.noConfusion hv
    · intro hc
      exact ⟨_, r2 ((hf _ hw).mpr hc)⟩
    · intro storage
      obtain ⟨w1, w2⟩ := writefp_cases w buf offset storage
      refine ⟨⟨?_, ?_⟩, ⟨?_, ?_⟩⟩
      · intro h
        by_contra hc
        rw [w2 ((hf _ hw).mpr hc)] at h
        exact BufStep.noConfusion h
      · intro h
        exact w1 ((hb _ hw).mpr h)
      · rintro ⟨b, hv⟩ hc
        rw [w1 ((hb _ hw).mpr hc)] at hv
        exact BufStep.noConfusion hv
      · intro hc
        exact ⟨_, w2 ((hf _ hw).mpr hc)⟩
  · intro w hw4
    have hw : w ≤ 8 := by omega
    exact ⟨fun h => (hb w hw).mpr (Or.inl h),
      (isoutofbounds_iff offset buf.length w hlen hoff (by omega)).2⟩

/-- Witness of `buffer_access_bounds`: on a 4-byte buffer `readi16` at offset 2 completes and
`readu32` at offset 1 and at offset -1 raise. -/
theorem buffer_access_bounds_witness :
    (∃ v, buffer_readinteger int16_t [1, 2, 255, 255] 2 = .ok [1, 2, 255, 255] v) ∧
    buffer_readinteger uint32_t [1, 2, 255, 255] 1 =
      .raise [1, 2, 255, 255] (.error "buffer access out of bounds") ∧
    buffer_readinteger uint32_t [1, 2, 255, 255] (-1) =
      .raise [1, 2, 255, 255] (.error "buffer access out of bounds") :=
  ⟨(((buffer_access_bounds [1, 2, 255, 255] 2 (by decide) (by decide)).1 int16_t
      (by decide)).2.1).mpr (by decide),
    (((buffer_access_bounds [1, 2, 255, 255] 1 (by decide) (by decide)).1 uint32_t
      (by decide)).1).mpr (by decide),
    (((buffer_access_bounds [1, 2, 255, 255] (-1) (by decide) (by decide)).1 uint32_t
      (by decide)).1).mpr (by decide)⟩

/-- C8: sub-bit-field buffer access is bounds-checked exactly.  For every buffer of length
`len` (at most `INT_MAX`, the limit asserted by lbuflib.cpp), every bit offset `o` in the
`int64_t` range and every 32-bit signed bit count `c`, `buffer.readbits` and
`buffer.writebits` raise if and only if `o < 0`, or `c < 0` or `c > 32`, or
`o + c > 8 * len`; the message is 'buffer access out of bounds' for a negative offset,
else 'bit count is out of range of [0; 32]' for a bad count, else 'buffer access out of
bounds'; a zero-width access at `o = 8 * len` is accepted. -/
theorem buffer_bits_bounds (buf : List Nat) (o c : Int) (hlen : buf.length ≤ 2147483647)
    (ho : -9223372036854775808 ≤ o ∧ o ≤ 9223372036854775807)
    (hc : -2147483648 ≤ c ∧ c ≤ 2147483647) :
    ((∃ e, buffer_readbits buf o c = .raise buf e) ↔
      (o < 0 ∨ c < 0 ∨ c > 32 ∨ o + c > 8 * (buf.length : Int))) ∧
    ((∃ v, buffer_readbits buf o c = .ok buf v) ↔
      ¬ (o < 0 ∨ c < 0 ∨ c > 32 ∨ o + c > 8 * (buf.length : Int))) ∧
    (∀ value, ((∃ e, buffer_writebits buf o c value = .raise buf e) ↔
        (o < 0 ∨ c < 0 ∨ c > 32 ∨ o + c > 8 * (buf.length : Int))) ∧
      ((∃ b, buffer_writebits buf o c value = .ok b ()) ↔
        ¬ (o < 0 ∨ c < 0 ∨ c > 32 ∨ o + c > 8 * (buf.length : Int))) ∧
      (o < 0 → buffer_writebits buf o c value =
        .raise buf (.error "buffer access out of bounds")) ∧
      (0 ≤ o → (c < 0 ∨ c > 32) → buffer_writebits buf o c value =
        .raise buf (.error "bit count is out of range of [0; 32]")) ∧
      (0 ≤ o → 0 ≤ c → c ≤ 32 → o + c > 8 * (buf.length : Int) →
        buffer_writebits buf o c value = .raise buf (.error "buffer access out of bounds"))) ∧
    (o < 0 → buffer_readbits buf o c = .raise buf (.error "buffer access out of bounds")) ∧
    (0 ≤ o → (c < 0 ∨ c > 32) → buffer_readbits buf o c =
      .raise buf (.error "bit count is out of range of [0; 32]")) ∧
    (0 ≤ o → 0 ≤ c → c ≤ 32 → o + c > 8 * (buf.length : Int) →
      buffer_readbits buf o c = .raise buf (.error "buffer access out of bounds")) ∧
    (∃ v, buffer_readbits buf (8 * (buf.length : Int)) 0 = .ok buf v) ∧
    (∀ value, ∃ b, buffer_writebits buf (8 * (buf.length : Int)) 0 value = .ok b ()) := by
  rw [← outOfBounds_eq, ← bitCountRange_eq]
  obtain ⟨k1, k2, k3, k4⟩ := bitsCheck_cases buf.length o c hlen ho hc
  have hr : ∀ e, bitsCheck buf.length o c = some e → buffer_readbits buf o c = .raise buf e := by
    intro e he
    simp only [buffer_readbits, he]
  have hw : ∀ value e, bitsCheck buf.length o c = some e →
      buffer_writebits buf o c value = .raise buf e := by
    intro value e he
    simp only [buffer_writebits, he]
  have hrn : bitsCheck buf.length o c = none → ∃ v, buffer_readbits buf o c = .ok buf v := by
    intro he
    simp only [buffer_readbits, he]
    exact ⟨_, rfl⟩
  have hwn : ∀ value, bitsCheck buf.length o c = none →
      ∃ b, buffer_writebits buf o c value = .ok b () := by
    intro value he
    simp only [buffer_writebits, he]
    exact ⟨_, rfl⟩
  have hsome : (o < 0 ∨ c < 0 ∨ c > 32 ∨ o + c > 8 * (buf.length : Int)) →
      ∃ e, bitsCheck buf.length o c = some e := by
    intro h
    by_cases h0 : o < 0
    · exact ⟨_, k1 h0⟩
    · by_cases h1 : c < 0 ∨ c > 32
      · exact ⟨_, k2 (by omega) h1⟩
      · exact ⟨_, k3 (by omega) (by omega) (by omega) (by omega)⟩
  have hnone : ¬ (o < 0 ∨ c < 0 ∨ c > 32 ∨ o + c > 8 * (buf.length : Int)) →
      bitsCheck buf.length o c = none := by
    intro h
    exact k4 (by omega) (by omega) (by omega) (by omega)
  have zero : bitsCheck buf.length (8 * (buf.length : Int)) 0 = none :=
    (bitsCheck_cases buf.length (8 * (buf.length : Int)) 0 hlen (by omega) (by omega)).2.2.2
      (by omega) (by omega) (by omega) (by omega)
  refine ⟨⟨?_, ?_⟩, ⟨?_, ?_⟩, ?_, ?_, ?_, ?_, ?_, ?_⟩
  · rintro ⟨e, he⟩
    by_contra hcon
    obtain ⟨v, hv⟩ := hrn (hnone hcon)
    rw [hv] at he
    exact BufStep.noConfusion he
  · intro h
    obtain ⟨e, he⟩ := hsome h
    exact ⟨e, hr e he⟩
  · rintro ⟨v, hv⟩ hcon
    obtain ⟨e, he⟩ := hsome hcon
    rw [hr e he] at hv
    exact BufStep.noConfusion hv
  · intro h
    exact hrn (hnone h)
  · intro value
    refine ⟨⟨?_, ?_⟩, ⟨?_, ?_⟩, ?_, ?_, ?_⟩
    · rintro ⟨e, he⟩
      by_contra hcon
      obtain ⟨v, hv⟩ := hwn value (hnone hcon)
      rw [hv] at he
      exact BufStep.noConfusion he
    · intro h
      obtain ⟨e, he⟩ := hsome h
      exact ⟨e, hw value e he⟩
    · rintro ⟨v, hv⟩ hcon
      obtain ⟨e, he⟩ := hsome hcon
      rw [hw value e he] at hv
      exact BufStep.noConfusion hv
    · intro h
      exact hwn value (hnone h)
    · intro h
      exact hw value _ (k1 h)
    · intro h0 h
      exact hw value _ (k2 h0 h)
    · intro h0 h1 h2 h3
      exact hw value _ (k3 h0 h1 h2 h3)
  · intro h
    exact hr _ (k1 h)
  · intro h0 h
    exact hr _ (k2 h0 h)
  · intro h0 h1 h2 h3
    exact hr _ (k3 h0 h1 h2 h3)
  · simp only [buffer_readbits, zero]
    exact ⟨_, rfl⟩
  · intro value
    simp only [buffer_writebits, zero]
    exact ⟨_, rfl⟩

/-- Witness of `buffer_bits_bounds`: on a 2-byte buffer a zero-width read at bit 16 is
accepted, a 1-bit read there raises, a 33-bit read raises with the bit-count message, and a
read at bit -1 raises. -/
theorem buffer_bits_bounds_witness :
    (∃ v, buffer_readbits [255, 15] 16 0 = .ok [255, 15] v) ∧
    buffer_readbits [255, 15] 16 1 = .raise [255, 15] (.error "buffer access out of bounds") ∧
    buffer_readbits [255, 15] 0 33 =
      .raise [255, 15] (.error "bit count is out of range of [0; 32]") ∧
    buffer_readbits [255, 15] (-1) 33 =
      .raise [255, 15] (.error "buffer access out of bounds") :=
  ⟨(buffer_bits_bounds [255, 15] 16 0 (by decide) (by decide) (by decide)).2.1.mpr (by decide),
    (buffer_bits_bounds [255, 15] 16 1 (by decide) (by decide) (by decide)).2.2.2.2.2.1
      (by decide) (by decide) (by decide) (by decide),
    (buffer_bits_bounds [255, 15] 0 33 (by decide) (by decide) (by decide)).2.2.2.2.1
      (by decide) (by decide),
    (buffer_bits_bounds [255, 15] (-1) 33 (by decide) (by decide) (by decide)).2.2.2.1
      (by decide)⟩

/-- C9: a buffer's size is immutable and writes are local.  For every buffer (of length at
most `INT_MAX`) and decoded arguments in the range of their C types, each mutating operation
(the integer writes, `writef32`, `writef64`, `writestring`, `copy`, `fill`, `writebits`)
leaves the length of the buffer unchanged, whether it completes or raises; a successful
integer write of byte width `w` at `offset` leaves every byte outside
`[offset, offset + w)` as it was and stores there the low `8 * w` bits of the value in
little-endian order; and a write that raises leaves every byte as it was. -/
theorem buffer_writes_local (buf : List Nat) (hlen : buf.length ≤ 2147483647) :
    (∀ T, T ∈ [int8_t, uint8_t, int16_t, uint16_t, int32_t, uint32_t] →
      ∀ offset value, isInt32 offset →
        (buffer_writeinteger T buf offset value).buffer.length = buf.length) ∧
    (∀ w : Nat, w = 4 ∨ w = 8 → ∀ offset storage, isInt32 offset →
      (buffer_writefp w buf offset storage).buffer.length = buf.length) ∧
    (∀ offset val count, isInt32 offset → (∀ c, count = some c → isInt32 c) →
      (buffer_writestring buf offset val count).buffer.length = buf.length) ∧
    (∀ toffset sbuf soffset size, isInt32 toffset → sbuf.length ≤ 2147483647 →
      (∀ s, soffset = some s → isInt32 s) → (∀ s, size = some s → isInt32 s) →
      (buffer_copy buf toffset sbuf soffset size).buffer.length = buf.length) ∧
    (∀ offset value size, isInt32 offset → (∀ s, size = some s → isInt32 s) →
      (buffer_fill buf offset value size).buffer.length = buf.length) ∧
    (∀ o c value, -9223372036854775808 ≤ o ∧ o ≤ 9223372036854775807 → isInt32 c →
      (buffer_writebits buf o c value).buffer.length = buf.length) ∧
    (∀ T, T ∈ [int8_t, uint8_t, int16_t, uint16_t, int32_t, uint32_t] →
      ∀ offset value b, isInt32 offset → buffer_writeinteger T buf offset value = .ok b () →
        0 ≤ offset ∧ offset + (T.size : Int) ≤ (buf.length : Int) ∧
        (∀ i : Nat, i < offset.toNat ∨ offset.toNat + T.size ≤ i → b[i]? = buf[i]?) ∧
        (∀ j : Nat, j < T.size →
          b[offset.toNat + j]? = some (value % 2 ^ (8 * T.size) / 256 ^ j % 256))) ∧
    (∀ T offset value b e, buffer_writeinteger T buf offset value = .raise b e → b = buf) ∧
    (∀ w offset storage b e, buffer_writefp w buf offset storage = .raise b e → b = buf) ∧
    (∀ offset val count b e, buffer_writestring buf offset val count = .raise b e → b = buf) ∧
    (∀ toffset sbuf soffset size b e,
      buffer_copy buf toffset sbuf soffset size = .raise b e → b = buf) ∧
    (∀ offset value size b e, buffer_fill buf offset value size = .raise b e → b = buf) ∧
    (∀ o c value b e, buffer_writebits buf o c value = .raise b e → b = buf) := by
  refine ⟨?_, ?_, ?_, ?_, ?_, ?_, ?_, ?_, ?_, ?_, ?_, ?_, ?_⟩
  · intro T hT offset value hoff
    exact writeinteger_length T buf offset value hlen hoff (sixTypes_size T hT)
  · intro w hw offset storage hoff
    exact writefp_length w buf offset storage hlen hoff (by omega)
  · intro offset val count hoff hc
    exact writestring_length buf offset val count hlen hoff hc
  · intro toffset sbuf soffset size hoff hs hso hsz
    exact copy_length buf toffset sbuf soffset size hlen hs hoff hso hsz
  · intro offset value size hoff hsz
    exact fill_length buf offset value size hlen hoff hsz
  · intro o c value ho hc
    exact writebits_length buf o c value hlen ho hc
  · intro T hT offset value b hoff hok
    obtain ⟨w1, w2⟩ := writeinteger_cases T buf offset value
    have hT8 := sixTypes_size T hT
    cases hb : isoutofbounds offset buf.length T.size with
    | true =>
      rw [w1 hb] at hok
      exact BufStep.noConfusion hok
    | false =>
      rw [w2 hb] at hok
      injection hok with hbuf _
      subst hbuf
      have hin := isoutofbounds_false offset buf.length T.size hlen hoff (by omega) hb
      refine ⟨hin.1, by omega, ?_, ?_⟩
      · intro i hi
        apply writeBytes_get_outside
        · rw [toLittleEndian_length]; exact hin.2
        · rw [toLittleEndian_length]; exact hi
      · intro j hj
        rw [writeBytes_get_inside _ _ _ _ (by omega) (by rw [toLittleEndian_length]; exact hj),
          toLittleEndian_get _ _ _ hj]
  · intro T offset value b e h
    unfold buffer_writeinteger at h
    split at h
    · injection h with hb _
      exact hb.symm
    · exact BufStep.noConfusion h
  · intro w offset storage b e h
    unfold buffer_writefp at h
    split at h
    · injection h with hb _
      exact hb.symm
    · exact BufStep.noConfusion h
  · intro offset val count b e h
    unfold buffer_writestring at h
    simp only at h
    split at h
    · injection h with hb _
      exact hb.symm
    · split at h
      · injection h with hb _
        exact hb.symm
      · split at h
        · injection h with hb _
          exact hb.symm
        · exact BufStep.noConfusion h
  · intro toffset sbuf soffset size b e h
    unfold buffer_copy at h
    simp only at h
    split at h
    · injection h with hb _
      exact hb.symm
    · split at h
      · injection h with hb _
        exact hb.symm
      · split at h
        · injection h with hb _
          exact hb.symm
        · exact BufStep.noConfusion h
  · intro offset value size b e h
    unfold buffer_fill at h
    simp only at h
    split at h
    · injection h with hb _
      exact hb.symm
    · split at h
      · injection h with hb _
        exact hb.symm
      · exact BufStep.noConfusion h
  · intro o c value b e h
    unfold buffer_writebits at h
    split at h
    · injection h with hb _
      exact hb.symm
    · exact BufStep.noConfusion h

/-- Witness of `buffer_writes_local`: `writei16` of 0x12345678 at offset 1 of a 4-byte buffer
stores 0x78, 0x56 there and nothing else; `writei32` at offset 1 raises and stores
nothing. -/
theorem buffer_writes_local_witness :
    buffer_writeinteger int16_t [1, 2, 255, 255] 1 305419896 = .ok [1, 120, 86, 255] () ∧
    ([1, 120, 86, 255] : List Nat)[1 + 0]? = some (305419896 % 2 ^ 16 / 256 ^ 0 % 256) ∧
    ([1, 120, 86, 255] : List Nat)[3]? = ([1, 2, 255, 255] : List Nat)[3]? ∧
    (buffer_writeinteger int32_t [1, 2, 255, 255] 1 305419896).buffer.length = 4 ∧
    (∀ b e, buffer_writeinteger int32_t [1, 2, 255, 255] 1 305419896 = .raise b e →
      b = [1, 2, 255, 255]) :=
  ⟨by decide,
    ((buffer_writes_local [1, 2, 255, 255] (by decide)).2.2.2.2.2.2.1 int16_t (by decide) 1
      305419896 [1, 120, 86, 255] (by decide) (by decide)).2.2.2 0 (by decide),
    ((buffer_writes_local [1, 2, 255, 255] (by decide)).2.2.2.2.2.2.1 int16_t (by decide) 1
      305419896 [1, 120, 86, 255] (by decide) (by decide)).2.2.1 3 (by decide),
    (buffer_writes_local [1, 2, 255, 255] (by decide)).1 int32_t (by decide) 1 305419896
      (by decide),
    (buffer_writes_local [1, 2, 255, 255] (by decide)).2.2.2.2.2.2.2.1 int32_t 1 305419896⟩

/-- C10 (as amended): for every table `t` that is not read-only and is a gap-free sequence
with elements at `1..N`, `#t = N`; `table.insert(t, v)` with a non-nil `v` returns no value,
stores `v` at index `N + 1` and changes no other entry of `t` nor any other table, so that
`t` is the sequence `1..N+1` of length `N + 1`; and for `N >= 1`, `table.remove(t)` returns
the old `t[N]`, sets `t[N]` to nil and changes no other entry, so that `t` is the sequence
`1..N-1` of length `N - 1`. -/
theorem table_length_contract (cvt2num : String → Option Int) (L : lua_State) (h N : Nat)
    (hvalid : h < L.tables.length) (hrw : (getTable L h).readonly = false)
    (hseq : isSequence (getTable L h) N) :
    luaH_getn (getTable L h) = N ∧
    (∀ v, L.stack = [.table h, v] → v ≠ .nil →
      ∃ R, tinsert cvt2num L = .ok R 0 ∧
        luaH_get (getTable R h) (.number ((N : Int) + 1)) = v ∧
        (∀ k, k ≠ .number ((N : Int) + 1) →
          luaH_get (getTable R h) k = luaH_get (getTable L h) k) ∧
        (∀ h', h' ≠ h → getTable R h' = getTable L h') ∧
        isSequence (getTable R h) (N + 1) ∧
        luaH_getn (getTable R h) = N + 1) ∧
    (L.stack = [.table h] → 1 ≤ N →
      ∃ R, tremove cvt2num L = .ok R 1 ∧
        R.stack.getLast? = some (luaH_getnum (getTable L h) N) ∧
        luaH_get (getTable R h) (.number (N : Int)) = .nil ∧
        (∀ k, k ≠ .number (N : Int) →
          luaH_get (getTable R h) k = luaH_get (getTable L h) k) ∧
        (∀ h', h' ≠ h → getTable R h' = getTable L h') ∧
        isSequence (getTable R h) (N - 1) ∧
        luaH_getn (getTable R h) = N - 1) := by
  have hlen := luaH_getn_of_isSequence _ _ hseq
  refine ⟨hlen, ?_, ?_⟩
  · intro v hstack hv
    refine ⟨_, tinsert_append cvt2num L h v hstack hrw, ?_⟩
    have hR : getTable { setTable L h
        (luaH_setnum (getTable L h) ((luaH_getn (getTable L h) : Int) + 1) v) with
        stack := [TValue.table h] } h =
        luaH_setnum (getTable L h) ((N : Int) + 1) v := by
      rw [hlen]
      exact getTable_setTable_self L h _ hvalid
    have hO : ∀ h', h' ≠ h → getTable { setTable L h
        (luaH_setnum (getTable L h) ((luaH_getn (getTable L h) : Int) + 1) v) with
        stack := [TValue.table h] } h' = getTable L h' :=
      fun h' hne => getTable_setTable_ne L h h' _ hne
    rw [hR]
    have hs := isSequence_insert _ N v hv hseq
    refine ⟨?_, ?_, hO, hs, luaH_getn_of_isSequence _ _ hs⟩
    · rw [luaH_get_setnum, if_pos rfl]
    · intro k hk
      rw [luaH_get_setnum, if_neg hk]
  · intro hstack hN
    have hN' : 1 ≤ luaH_getn (getTable L h) := by rw [hlen]; exact hN
    refine ⟨_, tremove_last cvt2num L h hstack hrw hN', ?_⟩
    have hR : getTable { setTable L h
        (luaH_setnum (getTable L h) (luaH_getn (getTable L h) : Int) .nil) with
        stack := [TValue.table h,
          luaH_getnum (getTable L h) (luaH_getn (getTable L h) : Int)] } h =
        luaH_setnum (getTable L h) (N : Int) .nil := by
      rw [hlen]
      exact getTable_setTable_self L h _ hvalid
    have hO : ∀ h', h' ≠ h → getTable { setTable L h
        (luaH_setnum (getTable L h) (luaH_getn (getTable L h) : Int) .nil) with
        stack := [TValue.table h,
          luaH_getnum (getTable L h) (luaH_getn (getTable L h) : Int)] } h' =
        getTable L h' :=
      fun h' hne => getTable_setTable_ne L h h' _ hne
    rw [hR]
    have hs := isSequence_remove _ N hN hseq
    refine ⟨?_, ?_, ?_, hO, hs, luaH_getn_of_isSequence _ _ hs⟩
    · simp [hlen]
    · rw [luaH_get_setnum, if_pos rfl]
    · intro k hk
      rw [luaH_get_setnum, if_neg hk]

/-- Witness of `table_length_contract`: the writable table holding 10, 20, 30 is a sequence of
length 3; `table.insert(t, 40)` makes its length 4 and `table.remove(t)` returns 30 and makes
its length 2. -/
theorem table_length_contract_witness :
    luaH_getn (getTable (sequenceCall []) 0) = 3 ∧
    (∃ R, tinsert (fun _ => none) (sequenceCall [.number 40]) = .ok R 0 ∧
      luaH_get (getTable R 0) (.number 4) = .number 40 ∧ luaH_getn (getTable R 0) = 4) ∧
    (∃ R, tremove (fun _ => none) (sequenceCall []) = .ok R 1 ∧
      R.stack.getLast? = some (.number 30) ∧ luaH_getn (getTable R 0) = 2) :=
  ⟨(table_length_contract (fun _ => none) (sequenceCall []) 0 3 (by decide) (by decide)
      isSequence_sequenceCall).1,
    (((table_length_contract (fun _ => none) (sequenceCall [.number 40]) 0 3 (by decide)
      (by decide) isSequence_sequenceCall).2.1 (.number 40) rfl (by decide)).imp
      fun _ hR => ⟨hR.1, hR.2.1, hR.2.2.2.2.2⟩),
    (((table_length_contract (fun _ => none) (sequenceCall []) 0 3 (by decide)
      (by decide) isSequence_sequenceCall).2.2 rfl (by decide)).imp
      fun _ hR => ⟨hR.1, hR.2.1, hR.2.2.2.2.2.2⟩)⟩

/-- C10 as stated fails for a read-only table: the read-only table holding 10, 20 is a gap-free
sequence of length 2, yet `table.insert(t, 30)` raises and stores nothing, and
`table.remove(t)` raises and leaves `t[2]` in place. -/
theorem table_length_contract_counterexample :
    isSequence (getTable (frozenCall [.number 30]) 0) 2 ∧
    tinsert (fun _ => none) (frozenCall [.number 30]) =
      .raise (frozenCall [.number 30]) (.runerror "attempt to modify a readonly table") ∧
    tremove (fun _ => none) (frozenCall []) =
      .raise (frozenCall [.number 20]) (.runerror "attempt to modify a readonly table") ∧
    luaH_get (getTable (frozenCall [.number 20]) 0) (.number 2) = .number 20 :=
  ⟨isSequence_frozenTable, by decide, by decide, by decide⟩

/-- C11 (as amended): type-name resolution, for a `global_State` initialised by `luaT_init`
and a value `v` passed as first argument.  `typeof(v)` pushes the name computed by
`luaT_objtypenamestr`, read as a C string, and `type(v)` pushes the canonical name of the tag
of `v` whatever metatable `v` has.  The name of `luaT_objtypenamestr` is: for a userdata not
made by `newproxy` that has a metatable, the string under `__type` of that metatable, or the
canonical name when there is none; for a light userdata whose tag has a registered name, that
name; for every other value (every table, whatever its own metatable holds, a `newproxy`
userdata, a userdata without metatable, the remaining types) the string under `__type` of the
per-type metatable of `global_State`, or the canonical name when there is none. -/
theorem typeof_resolution (cfg : TagConfig) (g : global_State) (L : lua_State) (v : TValue)
    (hg : luaT_init g = g) (hv : index2addr L 1 = some v) :
    luaB_typeof cfg g L = .ok (push L (.string (getstr (luaT_objtypenamestr cfg g L v)))) 1 ∧
    luaB_type L = .ok (push L (.string (luaT_typenames (ttype v).tag.toNat))) 1 ∧
    (∀ u mt, v = .userdata u →
        (g.udata.getD u { tag := 0, metatable := none }).metatable = some mt →
        (g.udata.getD u { tag := 0, metatable := none }).tag ≠ cfg.UTAG_PROXY →
        luaT_objtypenamestr cfg g L v = typeNameThrough L (some mt) v) ∧
    (∀ u, v = .userdata u →
        ((g.udata.getD u { tag := 0, metatable := none }).metatable = none ∨
         (g.udata.getD u { tag := 0, metatable := none }).tag = cfg.UTAG_PROXY) →
        luaT_objtypenamestr cfg g L v =
          typeNameThrough L (g.mt.getD (ttype v).tag.toNat none) v) ∧
    (∀ name, ttype v = .LUA_TLIGHTUSERDATA →
        toUnsigned (cfg.lightuserdatatag v) < cfg.LUA_LUTAG_LIMIT →
        g.lightuserdataname.getD (cfg.lightuserdatatag v).toNat none = some name →
        luaT_objtypenamestr cfg g L v = name) ∧
    (ttype v = .LUA_TLIGHTUSERDATA →
        (cfg.LUA_LUTAG_LIMIT ≤ toUnsigned (cfg.lightuserdatatag v) ∨
         g.lightuserdataname.getD (cfg.lightuserdatatag v).toNat none = none) →
        luaT_objtypenamestr cfg g L v =
          typeNameThrough L (g.mt.getD (ttype v).tag.toNat none) v) ∧
    (ttype v ≠ .LUA_TUSERDATA → ttype v ≠ .LUA_TLIGHTUSERDATA →
        luaT_objtypenamestr cfg g L v =
          typeNameThrough L (g.mt.getD (ttype v).tag.toNat none) v) := by
  have hty : lua_type L 1 = ttype v := by simp only [lua_type, hv]
  have hnone : ttype v ≠ .LUA_TNONE := by
    cases v <;> simp only [ttype] <;> decide
  refine ⟨?_, ?_, objtypenamestr_cases cfg g L hg v⟩
  · simp only [luaB_typeof, luaL_checkany, hty, if_neg hnone, andThen_ok, luaL_typename, hv,
      luaT_objtypename]
  · simp only [luaB_type, luaL_checkany, hty, if_neg hnone, andThen_ok, lua_typename]

/-- Witness of `typeof_resolution`: a userdata with tag 1 whose metatable holds `Foo` under
`__type` is reported as `Foo` by `typeof` and as `userdata` by `type`. -/
theorem typeof_resolution_witness :
    luaT_init sampleGlobal = sampleGlobal ∧
    index2addr (typedFrame (.userdata 0)) 1 = some (.userdata 0) ∧
    luaB_typeof sampleTagConfig sampleGlobal (typedFrame (.userdata 0)) =
      .ok (push (typedFrame (.userdata 0)) (.string "Foo")) 1 ∧
    luaB_type (typedFrame (.userdata 0)) =
      .ok (push (typedFrame (.userdata 0)) (.string "userdata")) 1 :=
  ⟨by decide, by decide,
    (typeof_resolution sampleTagConfig sampleGlobal (typedFrame (.userdata 0)) (.userdata 0)
      (by decide) (by decide)).1.trans (by decide),
    (typeof_resolution sampleTagConfig sampleGlobal (typedFrame (.userdata 0)) (.userdata 0)
      (by decide) (by decide)).2.1.trans (by decide)⟩

/-- C11 as stated fails for a table: the table at address 0 has a metatable that holds the
string `Foo` under `__type`, yet `typeof` reports `table`; and a `newproxy` userdata with the
same metatable is reported as `userdata`. -/
theorem typeof_resolution_counterexample :
    luaT_gettmbyobj sampleGlobal (typedFrame (.table 0)) (.table 0) .TM_TYPE = .string "Foo" ∧
    luaT_objtypenamestr sampleTagConfig sampleGlobal (typedFrame (.table 0)) (.table 0) =
      "table" ∧
    luaB_typeof sampleTagConfig sampleGlobal (typedFrame (.table 0)) =
      .ok (push (typedFrame (.table 0)) (.string "table")) 1 ∧
    luaT_gettmbyobj sampleGlobal (typedFrame (.userdata 1)) (.userdata 1) .TM_TYPE =
      .string "Foo" ∧
    luaB_typeof sampleTagConfig sampleGlobal (typedFrame (.userdata 1)) =
      .ok (push (typedFrame (.userdata 1)) (.string "userdata")) 1 := by
  decide

/-- C12: `table.freeze(t)` for the table `t` at address `h`, passed as first argument.  When
`t` is not read-only and its metatable (if any) has no `__metatable` field, freeze returns one
value, `t` itself, having set the read-only flag of `t` and changed nothing else in `t` or in
any other table; afterwards, in every frame over that heap whose first argument is `t`,
`table.isfrozen(t)` returns true and `table.insert(t, v)` raises.  When `t` is already
read-only freeze raises the argument error 'table is already frozen' in an unchanged state,
and when `t` is writable but its metatable holds a non-nil `__metatable` field it raises the
argument error 'table has a protected metatable'; the heap, and so the flag, is unchanged in
both error cases. -/
theorem freeze_contract (cvt2num : String → Option Int) (g : global_State) (L : lua_State)
    (h : Nat) (ht : tableAt L 1 = some h) (hh : h < L.tables.length) :
    ((getTable L h).readonly = false →
      ((getTable L h).metatable = none ∨
        ∃ m, (getTable L h).metatable = some m ∧
          luaH_getstr (getTable L m) "__metatable" = .nil) →
      ∃ R, tfreeze g L = .ok R 1 ∧ results R 1 = [.table h] ∧
        R = push (setTable L h { getTable L h with readonly := true }) (.table h) ∧
        getTable R h = { getTable L h with readonly := true } ∧
        (∀ k, k ≠ h → getTable R k = getTable L k) ∧
        (∀ F : lua_State, F.tables = R.tables → tableAt F 1 = some h →
          tisfrozen F = .ok (push F (.boolean true)) 1 ∧
          (lua_gettop F = 2 →
            tinsert cvt2num F = .raise F (.runerror "attempt to modify a readonly table")))) ∧
    ((getTable L h).readonly = true →
      tfreeze g L = .raise L (.argerror 1 "table is already frozen")) ∧
    ((getTable L h).readonly = false →
      ∀ m, (getTable L h).metatable = some m →
        luaH_getstr (getTable L m) "__metatable" ≠ .nil →
        tfreeze g L =
          .raise (push L (luaH_getstr (getTable L m) "__metatable"))
            (.argerror 1 "table has a protected metatable") ∧
        (tfreeze g L).state.tables = L.tables) := by
  have h1 : luaL_checktype L 1 .LUA_TTABLE = .ok L () := luaL_checktype_table ht
  have hmsg1 : alreadyFrozen = "table is already frozen" := by decide
  have hmsg2 : protectedMetatable = "table has a protected metatable" := by decide
  have hfield : metatableField = "__metatable" := by decide
  have hgf := luaL_getmetafield_table g "__metatable" ht
  refine ⟨?_, ?_, ?_⟩
  · intro hro hmt
    have hfld : luaL_getmetafield g L 1 "__metatable" = (false, L) := by
      rcases hmt with hm | ⟨m, hm, hnil⟩
      · exact hgf.1 hm
      · rw [hgf.2 m hm, if_pos hnil]
    have hi := index2addr_of_tableAt ht
    have hR : tfreeze g L =
        .ok (push (setTable L h { getTable L h with readonly := true }) (.table h)) 1 := by
      simp only [tfreeze, h1, andThen_ok, luaL_argcheck, lua_getreadonly, ht, hro, hfield, hfld,
        Bool.not_false, if_true, lua_setreadonly, lua_pushvalue]
      have : index2addr (setTable L h { getTable L h with readonly := true }) 1 =
          some (.table h) := hi
      rw [this]
      rfl
    refine ⟨_, hR, ?_, rfl, ?_, ?_, ?_⟩
    · simp [results, push]
    · exact getTable_setTable_self L h _ hh
    · intro k hk
      exact getTable_setTable_ne L h k _ hk
    · intro F hF hFt
      have hFro : (getTable F h).readonly = true := by
        have : getTable F h = getTable (setTable L h { getTable L h with readonly := true }) h := by
          simp only [getTable, hF, push]
        rw [this, getTable_setTable_self L h _ hh]
      constructor
      · simp only [tisfrozen, luaL_checktype_table hFt, andThen_ok, lua_getreadonly, hFt, hFro]
      · intro htop
        rw [← readonlyMessage_eq]
        exact (tinsert_frozen cvt2num hFt hFro).1 htop
  · intro hro
    simp only [tfreeze, h1, andThen_ok, luaL_argcheck, lua_getreadonly, ht, hro, hmsg1,
      Bool.not_true, Bool.false_eq_true, if_false, andThen_raise]
  · intro hro m hm hnn
    have hfld : luaL_getmetafield g L 1 "__metatable" =
        (true, push L (luaH_getstr (getTable L m) "__metatable")) := by
      rw [hgf.2 m hm, if_neg hnn]
    have hR : tfreeze g L =
        .raise (push L (luaH_getstr (getTable L m) "__metatable"))
          (.argerror 1 "table has a protected metatable") := by
      simp only [tfreeze, h1, andThen_ok, luaL_argcheck, lua_getreadonly, ht, hro, hfield, hfld,
        hmsg2, Bool.not_false, if_true, Bool.not_true, Bool.false_eq_true, if_false,
        andThen_raise]
    exact ⟨hR, by rw [hR]; rfl⟩

/-- Witness of `freeze_contract`: the scenario of the spec.  The table holding 1, 2, 3, 4 is
frozen; `table.isfrozen` then returns true and `table.insert(t, 5)` raises; freezing it again
raises, and so does freezing a table whose metatable holds `__metatable`. -/
theorem freeze_contract_witness :
    tfreeze sampleGlobal (freezeFrame false (some 1) []) =
      .ok (push (freezeFrame true (some 1) []) (.table 0)) 1 ∧
    tisfrozen (freezeFrame true (some 1) []) =
      .ok (push (freezeFrame true (some 1) []) (.boolean true)) 1 ∧
    tinsert (fun _ => none) (freezeFrame true (some 1) [.number 5]) =
      .raise (freezeFrame true (some 1) [.number 5])
        (.runerror "attempt to modify a readonly table") ∧
    tfreeze sampleGlobal (freezeFrame true (some 1) []) =
      .raise (freezeFrame true (some 1) []) (.argerror 1 "table is already frozen") ∧
    tfreeze sampleGlobal (freezeFrame false (some 2) []) =
      .raise (push (freezeFrame false (some 2) []) (.boolean false))
        (.argerror 1 "table has a protected metatable") := by
  obtain ⟨R, hR, -, hRe, -, -, hF⟩ :=
    (freeze_contract (fun _ => none) sampleGlobal (freezeFrame false (some 1) []) 0
      (by decide) (by decide)).1 (by decide) (Or.inr ⟨1, by decide, by decide⟩)
  have hT : R.tables = (freezeFrame true (some 1) []).tables := by rw [hRe]; decide
  refine ⟨?_, ?_, ?_, ?_, ?_⟩
  · rw [hR, hRe]; decide
  · exact (hF (freezeFrame true (some 1) []) hT.symm (by decide)).1
  · exact (hF (freezeFrame true (some 1) [.number 5]) hT.symm (by decide)).2 (by decide)
  · exact (freeze_contract (fun _ => none) sampleGlobal (freezeFrame true (some 1) []) 0
      (by decide) (by decide)).2.1 (by decide)
  · exact ((freeze_contract (fun _ => none) sampleGlobal (freezeFrame false (some 2) []) 0
      (by decide) (by decide)).2.2 (by decide) 2 (by decide) (by decide)).1

/-- Claim C14, amended: `luaL_argerrorL(L, narg, msg)` always raises a message that names the
argument position `#narg` and contains `msg`.  The message is the position of
`luaL_where(L, 1)` followed by 'invalid argument #narg to 'F' (msg)' when the running
function is a native closure with a debug name, where `F` is that debug name, or the current
namecall method name when the debug name is `__namecall`; and followed by 'invalid argument
#narg (msg)' when no name is available: no active call frame, a script closure, a null debug
name, or `__namecall` with no method name recorded.  The position is '<chunk>:<line>: ' when
the frame at level 1 exists and runs a script function at a line above 0, and is empty
otherwise.  `caller` is the frame at level 1; the message is the string on top of the stack
when the error is thrown. -/
theorem argerror_message {α : Type} (cfg : DebugConfig) (caller : CallInfo) (L : lua_State)
    (ci : CallInfo) (namecall : Option String) (narg : Int) (extramsg : String) :
    (∀ d, 0 < L.nci → ci.func.isC = true → ci.func.debugname = some d → d ≠ "__namecall" →
      (luaL_argerrorL cfg caller L ci namecall narg extramsg : Step α) =
        .raise (push L (.string (luaL_where cfg L caller 1 ++
            ("invalid argument #" ++ toString narg ++ " to '" ++ d ++ "' (" ++ extramsg ++ ")"))))
          (.error ("invalid argument #" ++ toString narg ++ " to '" ++ d ++ "' (" ++
            extramsg ++ ")"))) ∧
    (∀ nm, 0 < L.nci → ci.func.isC = true → ci.func.debugname = some "__namecall" →
      namecall = some nm →
      (luaL_argerrorL cfg caller L ci namecall narg extramsg : Step α) =
        .raise (push L (.string (luaL_where cfg L caller 1 ++
            ("invalid argument #" ++ toString narg ++ " to '" ++ getstr nm ++ "' (" ++
              extramsg ++ ")"))))
          (.error ("invalid argument #" ++ toString narg ++ " to '" ++ getstr nm ++
            "' (" ++ extramsg ++ ")"))) ∧
    ((L.nci = 0 ∨ ci.func.isC = false ∨ ci.func.debugname = none ∨
        (ci.func.debugname = some "__namecall" ∧ namecall = none)) →
      (luaL_argerrorL cfg caller L ci namecall narg extramsg : Step α) =
        .raise (push L (.string (luaL_where cfg L caller 1 ++
            ("invalid argument #" ++ toString narg ++ " (" ++ extramsg ++ ")"))))
          (.error ("invalid argument #" ++ toString narg ++ " (" ++ extramsg ++ ")"))) ∧
    (∃ a b : String,
      (luaL_argerrorL cfg caller L ci namecall narg extramsg : Step α) =
        .raise (push L (.string (luaL_where cfg L caller 1 ++
            (a ++ "#" ++ toString narg ++ b ++ extramsg ++ ")"))))
          (.error (a ++ "#" ++ toString narg ++ b ++ extramsg ++ ")"))) ∧
    (1 < L.nci → caller.func.isC = false → 0 < currentline caller →
      luaL_where cfg L caller 1 =
        cfg.luaO_chunkid cfg.LUA_IDSIZE caller.func.p.source ++ ":" ++
          toString (currentline caller) ++ ": ") ∧
    ((L.nci ≤ 1 ∨ caller.func.isC = true ∨ currentline caller ≤ 0) →
      luaL_where cfg L caller 1 = "") := by
  have hname : namecallName = "__namecall" := by decide
  have hnamed : ∀ f, currfuncname L ci namecall = some f →
      (luaL_argerrorL cfg caller L ci namecall narg extramsg : Step α) =
        .raise (push L (.string (luaL_where cfg L caller 1 ++
            ("invalid argument #" ++ toString narg ++ " to '" ++ f ++ "' (" ++ extramsg ++ ")"))))
          (.error ("invalid argument #" ++ toString narg ++ " to '" ++ f ++ "' (" ++
            extramsg ++ ")")) := by
    intro f hf
    simp only [luaL_argerrorL, hf, luaL_errorL, pushfstringText_argNamed]
  have hplain : currfuncname L ci namecall = none →
      (luaL_argerrorL cfg caller L ci namecall narg extramsg : Step α) =
        .raise (push L (.string (luaL_where cfg L caller 1 ++
            ("invalid argument #" ++ toString narg ++ " (" ++ extramsg ++ ")"))))
          (.error ("invalid argument #" ++ toString narg ++ " (" ++ extramsg ++ ")")) := by
    intro hf
    simp only [luaL_argerrorL, hf, luaL_errorL, pushfstringText_argPlain]
  refine ⟨?_, ?_, ?_, ?_, ?_, ?_⟩
  · intro d hci hc hd hne
    apply hnamed
    simp only [currfuncname, if_pos hci, hc, if_true, hd, hname, if_neg hne]
  · intro nm hci hc hd hnm
    apply hnamed
    simp only [currfuncname, if_pos hci, hc, if_true, hd, hname, hnm, Option.map_some']
  · intro h
    apply hplain
    rcases h with h | h | h | ⟨h, hn⟩
    · simp only [currfuncname, h, Nat.lt_irrefl, if_false]
    · by_cases hci : 0 < L.nci
      · simp only [currfuncname, if_pos hci, h, Bool.false_eq_true, if_false]
      · simp only [currfuncname, if_neg hci]
    · by_cases hci : 0 < L.nci
      · cases hc : ci.func.isC
        · simp only [currfuncname, if_pos hci, hc, Bool.false_eq_true, if_false]
        · simp only [currfuncname, if_pos hci, hc, if_true, h]
      · simp only [currfuncname, if_neg hci]
    · by_cases hci : 0 < L.nci
      · cases hc : ci.func.isC
        · simp only [currfuncname, if_pos hci, hc, Bool.false_eq_true, if_false]
        · simp only [currfuncname, if_pos hci, hc, if_true, h, hname, hn, Option.map_none']
      · simp only [currfuncname, if_neg hci]
  · cases hf : currfuncname L ci namecall with
    | none =>
      refine ⟨"invalid argument ", " (", ?_⟩
      rw [hplain hf]
      simp only [String.append_assoc]
      rfl
    | some f =>
      refine ⟨"invalid argument ", " to '" ++ f ++ "' (", ?_⟩
      rw [hnamed f hf]
      simp only [String.append_assoc]
      rfl
  · intro hn hc hl
    simp only [luaL_where, lua_getinfo, if_pos hn, auxgetinfo, hc,
      Bool.false_eq_true, if_false, isLua, Bool.not_false, if_true, pushfstringText_where]
    exact if_pos hl
  · intro h
    by_cases hn : 1 < L.nci
    · have hl' : ¬ (if isLua caller = true then currentline caller else -1) > 0 := by
        rcases h with h | h | h
        · omega
        · simp only [isLua, h, Bool.not_true, Bool.false_eq_true, if_false]
          omega
        · cases hc : caller.func.isC
          · simp only [isLua, hc, Bool.not_false, if_true]
            omega
          · simp only [isLua, hc, Bool.not_true, Bool.false_eq_true, if_false]
            omega
      simp only [luaL_where, lua_getinfo, if_pos hn, auxgetinfo, if_neg hl']
    · simp only [luaL_where, lua_getinfo, if_neg hn]

/-- Witness of `argerror_message`: in the native function `insert`, entered with no frame
below it, the error for argument 2 is 'invalid argument #2 to 'insert' (number expected)'; in
a method call of `Clone` it names `Clone`; in a script frame no name is given. -/
theorem argerror_message_witness :
    (luaL_argerrorL sampleDebugConfig scriptFrame (runningThread [])
        (nativeFrame (some "insert")) none 2 "number expected" : Step Unit) =
      .raise (push (runningThread [])
          (.string "invalid argument #2 to 'insert' (number expected)"))
        (.error "invalid argument #2 to 'insert' (number expected)") ∧
    (luaL_argerrorL sampleDebugConfig scriptFrame (runningThread [])
        (nativeFrame (some "__namecall")) (some "Clone") 2 "number expected" : Step Unit) =
      .raise (push (runningThread [])
          (.string "invalid argument #2 to 'Clone' (number expected)"))
        (.error "invalid argument #2 to 'Clone' (number expected)") ∧
    (luaL_argerrorL sampleDebugConfig scriptFrame (runningThread []) scriptFrame none 2
        "number expected" : Step Unit) =
      .raise (push (runningThread []) (.string "invalid argument #2 (number expected)"))
        (.error "invalid argument #2 (number expected)") ∧
    luaL_where sampleDebugConfig calledThread scriptFrame 1 = "main:12: " :=
  ⟨((@argerror_message Unit sampleDebugConfig scriptFrame (runningThread [])
      (nativeFrame (some "insert")) none 2
      "number expected").1 "insert" (by decide) (by decide) (by decide) (by decide)).trans
      (by decide),
    ((@argerror_message Unit sampleDebugConfig scriptFrame (runningThread [])
      (nativeFrame (some "__namecall")) (some "Clone") 2
      "number expected").2.1 "Clone" (by decide) (by decide) (by decide) (by decide)).trans
      (by decide),
    ((@argerror_message Unit sampleDebugConfig scriptFrame (runningThread []) scriptFrame none 2
      "number expected").2.2.1 (Or.inr (Or.inl (by decide)))).trans (by decide),
    ((@argerror_message Unit sampleDebugConfig scriptFrame calledThread scriptFrame none 2
      "number expected").2.2.2.2.1 (by decide) (by decide) (by decide)).trans (by decide)⟩

/-- Counterexample to C14 as stated: the native function `insert`, called from line 12 of
the script chunk `main`, raises for argument 2 the message 'main:12: invalid argument #2 to
'insert' (number expected)', which is not 'invalid argument #2 to 'insert' (number
expected)'. -/
theorem argerror_message_counterexample :
    (luaL_argerrorL sampleDebugConfig scriptFrame calledThread (nativeFrame (some "insert"))
        none 2 "number expected" : Step Unit) =
      .raise (push calledThread
          (.string "main:12: invalid argument #2 to 'insert' (number expected)"))
        (.error "invalid argument #2 to 'insert' (number expected)") ∧
    "main:12: invalid argument #2 to 'insert' (number expected)" ≠
      "invalid argument #2 to 'insert' (number expected)" := by
  refine ⟨by decide, by decide⟩

/-- C15: runtime errors carry a `source:line: ` header exactly when raised from scripted
code.  `pusherror`, and with it `luaG_pusherror` and `luaG_runerror` (which pushes the message
it has formatted and throws), pushes `chunkid:line: message`, built from the chunk id of the
source of the running function and its current line, when the current call frame is a script
function; when the frame is a native function it pushes the message unchanged.  The pushed
string is the headed one if and only if the frame is a script function. -/
theorem runerror_source_line {α : Type} (cfg : DebugConfig) (ci : CallInfo) (L : lua_State)
    (msg fmt : String) (args : List FmtArg) :
    (isLua ci = true →
      pusherror cfg ci L msg =
        push L (.string (cfg.luaO_chunkid cfg.LUA_IDSIZE ci.func.p.source ++ ":" ++
          toString (luaG_getline ci.func.p ci.pc) ++ ": " ++ msg))) ∧
    (isLua ci = false → pusherror cfg ci L msg = push L (.string msg)) ∧
    (pusherror cfg ci L msg =
        push L (.string (cfg.luaO_chunkid cfg.LUA_IDSIZE ci.func.p.source ++ ":" ++
          toString (luaG_getline ci.func.p ci.pc) ++ ": " ++ msg)) ↔ isLua ci = true) ∧
    luaG_pusherror cfg ci L msg = pusherror cfg ci L msg ∧
    (luaG_runerrorL cfg ci L fmt args : Step α) =
      .raise (pusherror cfg ci L (vsnprintf cfg.LUA_BUFFERSIZE fmt args))
        (.runerror (vsnprintf cfg.LUA_BUFFERSIZE fmt args)) := by
  have hyes : isLua ci = true →
      pusherror cfg ci L msg =
        push L (.string (cfg.luaO_chunkid cfg.LUA_IDSIZE ci.func.p.source ++ ":" ++
          toString (luaG_getline ci.func.p ci.pc) ++ ": " ++ msg)) := by
    intro h
    simp only [pusherror, h, if_true, pushfstringText_sourceLine, currentline]
  have hno : isLua ci = false → pusherror cfg ci L msg = push L (.string msg) := by
    intro h
    simp only [pusherror, h, Bool.false_eq_true, if_false]
  refine ⟨hyes, hno, ⟨?_, hyes⟩, rfl, rfl⟩
  intro heq
  cases hl : isLua ci
  · rw [hno hl] at heq
    have h2 := congrArg String.length (push_string_inj L _ _ heq)
    simp only [String.length_append] at h2
    have h3 : ": ".length = 2 := by decide
    omega
  · rfl

/-- Witness of `runerror_source_line`: in a script frame of chunk `main` on line 12 the message
`boom` is pushed as `main:12: boom`; in a native frame it is pushed as `boom`. -/
theorem runerror_source_line_witness :
    isLua scriptFrame = true ∧ isLua (nativeFrame none) = false ∧
    pusherror sampleDebugConfig scriptFrame (runningThread []) "boom" =
      runningThread [.string "main:12: boom"] ∧
    pusherror sampleDebugConfig (nativeFrame none) (runningThread []) "boom" =
      runningThread [.string "boom"] :=
  ⟨by decide, by decide,
    ((@runerror_source_line Unit sampleDebugConfig scriptFrame (runningThread []) "boom" ""
      []).1 (by decide)).trans (by decide),
    ((@runerror_source_line Unit sampleDebugConfig (nativeFrame none) (runningThread [])
      "boom" "" []).2.1 (by decide)).trans (by decide)⟩

/-- C17: heap validation enforces the tri-color invariant.  If a heap passes `luaC_validate`
then for every object `f` that the validation visits (the objects of the pages and the main
thread): when `f` is dead the collector state is `GCSsweep`; when `f` is live, every reference
checked from `f` to a collectable object `t` (table array entries and non-nil hash entries,
metatables, closure environment, upvalues and prototype, prototype constants and
sub-prototypes, upvalue values) has `t` not dead and, whenever `keepinvariant(g)` holds, not
(`f` black and `t` white); and when `f` is a live table each hash node `i` below `sizenode`
has `i + gnext(node)` within `[0, sizenode)`. -/
theorem validate_tricolor (m : GCMacros) (g : GCGlobal) (heap : GCHeap)
    (hpass : luaC_validate m g heap = true) (a : Nat)
    (ha : a ∈ heap.pages ∨ a = g.mainthread) :
    (m.isdead g (heap.deref a).marked = true → g.gcstate = .GCSsweep) ∧
    (m.isdead g (heap.deref a).marked = false →
      (∀ t ∈ checkedRefs (heap.deref a),
        m.isdead g (heap.deref t).marked = false ∧
        (m.keepinvariant g = true →
          ¬ (m.isblack (heap.deref a).marked = true ∧
             m.iswhite (heap.deref t).marked = true))) ∧
      (∀ h, (heap.deref a).payload = .table h → ∀ i, i < 1 <<< h.lsizenode →
        0 ≤ (i : Int) + (h.node.getD i dummynode).next ∧
        (i : Int) + (h.node.getD i dummynode).next < ((1 <<< h.lsizenode : Nat) : Int))) := by
  have hv := validateobj_of_validate hpass a ha
  constructor
  · intro hdead
    simp only [validateobj, hdead, if_true, decide_eq_true_eq] at hv
    exact hv
  · intro hlive
    constructor
    · intro t ht
      exact validateobjref_spec (validateobj_refs hv hlive t ht)
    · intro h hp i hi
      exact validateobj_nodes hv hlive hp i hi

/-- Witness of `validate_tricolor`: the sample heap passes the validation in the propagate
phase; its gray table refers to a live white string, and its two hash nodes link within the
node array. -/
theorem validate_tricolor_witness :
    luaC_validate sampleMacros sampleGCGlobal sampleHeap = true ∧
    checkedRefs (sampleHeap.deref 1) = [2, 2] ∧
    sampleMacros.isdead sampleGCGlobal (sampleHeap.deref 2).marked = false ∧
    ¬ (sampleMacros.isblack (sampleHeap.deref 1).marked = true ∧
       sampleMacros.iswhite (sampleHeap.deref 2).marked = true) :=
  ⟨by decide, by decide,
    (((validate_tricolor sampleMacros sampleGCGlobal sampleHeap (by decide) 1
      (Or.inl (by decide))).2 (by decide)).1 2 (by decide)).1,
    (((validate_tricolor sampleMacros sampleGCGlobal sampleHeap (by decide) 1
      (Or.inl (by decide))).2 (by decide)).1 2 (by decide)).2 (by decide)⟩

/-- C18: the absent-metamethod cache is sound and local.  For every metatable `events` (its
cache a byte) and every event up to `TM_EQ`: when `events` has no non-nil entry under `ename`,
`luaT_gettm` returns NULL, sets bit `1 << event` of `tmcache`, leaves every other bit as it
was and leaves the table entries unchanged; otherwise it returns that entry and leaves the
table and its cache unchanged.  It returns NULL exactly when the entry is absent, so it never
sets a cache bit for a metamethod that is present. -/
theorem tmcache_sound (events : Events) (event : TMS) (ename : String)
    (hev : event.toNat ≤ TMS.TM_EQ.toNat) (hbyte : events.tmcache < 256) :
    (luaH_getstr events.h ename = .nil →
      (luaT_gettm events event ename).1 = none ∧
      (luaT_gettm events event ename).2.h = events.h ∧
      (luaT_gettm events event ename).2.tmcache = events.tmcache ||| 2 ^ event.toNat ∧
      (luaT_gettm events event ename).2.tmcache.testBit event.toNat = true ∧
      (∀ i, i ≠ event.toNat →
        (luaT_gettm events event ename).2.tmcache.testBit i = events.tmcache.testBit i)) ∧
    (luaH_getstr events.h ename ≠ .nil →
      luaT_gettm events event ename = (some (luaH_getstr events.h ename), events)) ∧
    ((luaT_gettm events event ename).1 = none ↔ luaH_getstr events.h ename = .nil) ∧
    ((luaT_gettm events event ename).2.tmcache ≠ events.tmcache →
      luaH_getstr events.h ename = .nil) := by
  have he : event.toNat ≤ 7 := hev
  have hnilIff : ∀ v : TValue, ttisnil v = true ↔ v = .nil := by
    intro v; cases v <;> simp [ttisnil]
  have hpos : luaH_getstr events.h ename = .nil →
      luaT_gettm events event ename =
        (none, { events with tmcache := events.tmcache ||| 2 ^ event.toNat }) := by
    intro hnil
    simp only [luaT_gettm, hnil, ttisnil, if_true, tmcache_bit _ _ hbyte he]
  have hneg : luaH_getstr events.h ename ≠ .nil →
      luaT_gettm events event ename = (some (luaH_getstr events.h ename), events) := by
    intro hnn
    have : ttisnil (luaH_getstr events.h ename) = false := by
      cases hb : ttisnil (luaH_getstr events.h ename)
      · rfl
      · exact absurd ((hnilIff _).mp hb) hnn
    simp only [luaT_gettm, this, Bool.false_eq_true, if_false]
  refine ⟨?_, hneg, ?_, ?_⟩
  · intro hnil
    rw [hpos hnil]
    refine ⟨rfl, rfl, rfl, ?_, ?_⟩
    · simp [Nat.testBit_or, Nat.testBit_two_pow_self]
    · intro i hi
      simp only [Nat.testBit_or, Nat.testBit_two_pow]
      simp [Ne.symm hi]
  · constructor
    · intro hnone
      by_contra hnn
      rw [hneg hnn] at hnone
      exact absurd hnone (by simp)
    · intro hnil
      rw [hpos hnil]
  · intro hch
    by_contra hnn
    rw [hneg hnn] at hch
    exact hch rfl

/-- Witness of `tmcache_sound`: on the sample metatable a lookup of `__eq` returns NULL and
sets bit 7 of the cache (6 becomes 134), while a lookup of `__index` returns the stored
function and leaves the cache at 6. -/
theorem tmcache_sound_witness :
    TMS.TM_EQ.toNat ≤ TMS.TM_EQ.toNat ∧ sampleEvents.tmcache < 256 ∧
    luaT_gettm sampleEvents .TM_EQ "__eq" = (none, { sampleEvents with tmcache := 134 }) ∧
    luaT_gettm sampleEvents .TM_INDEX "__index" = (some (.function 7), sampleEvents) :=
  ⟨by decide, by decide, by decide,
    (tmcache_sound sampleEvents .TM_INDEX "__index" (by decide) (by decide)).2.1 (by decide)⟩

/-- C19: the decoded name tables equal the documented ones.  For every type tag `i` in 0..10
`luaT_typenames(i)` is entry `i` of the commented-out array of type names, and for every
metamethod index `i` in 0..20 `luaT_eventname(i)` is entry `i` of the commented-out array of
event names: `scrypt` applied to each encoded literal yields the name at the same position. -/
theorem name_tables_decoded :
    (List.range 11).map luaT_typenames =
      ["nil", "boolean", "userdata", "number", "vector", "string", "table", "function",
       "userdata", "thread", "buffer"] ∧
    (List.range 21).map luaT_eventname =
      ["__index", "__newindex", "__mode", "__namecall", "__call", "__iter", "__len", "__eq",
       "__add", "__sub", "__mul", "__div", "__idiv", "__mod", "__pow", "__unm", "__lt", "__le",
       "__concat", "__type", "__metatable"] ∧
    typenamesVector.length = LUA_T_COUNT ∧ eventnameVector.length = TM_N := by
  decide

/-- C20: `utf8_decode` is a strict validator.  For every NUL-terminated byte string it returns
a non-NULL result exactly when the bytes at the start form a well-formed shortest-form UTF-8
encoding (`wellFormed`): a byte below 0x80, or a lead byte followed by 1, 2 or 3 continuation
bytes whose decoded value `v` is above 0x7F, 0x7FF or 0xFFFF respectively, at most 0x10FFFF
and not in 0xD800..0xDFFF; on success it yields `v` and a pointer advanced by the length of
the sequence.  So it rejects a stray continuation byte, overlong encodings, surrogates, values
above 0x10FFFF and sequences of 5 or more bytes. -/
theorem utf8_decode_strict (s : List Nat) (hs : ∀ b ∈ s, b < 256) :
    utf8_decode s = wellFormed s ∧
    ((utf8_decode s ≠ none) ↔ (wellFormed s ≠ none)) ∧
    (0x80 ≤ byteAt s 0 → byteAt s 0 < 0xC0 → utf8_decode s = none) ∧
    (0xF8 ≤ byteAt s 0 → utf8_decode s = none) ∧
    (∀ v n, utf8_decode s = some (v, n) →
      1 ≤ n ∧ n ≤ 4 ∧ v ≤ 0x10FFFF ∧ ¬ (0xD800 ≤ v ∧ v ≤ 0xDFFF) ∧
      (n = 1 → v = byteAt s 0 ∧ v < 0x80) ∧ (n = 2 → 0x7F < v) ∧ (n = 3 → 0x7FF < v) ∧
      (n = 4 → 0xFFFF < v)) := by
  have heq := utf8_decode_eq s hs
  refine ⟨heq, by rw [heq], ?_, ?_, ?_⟩
  · intro h1 h2
    rw [heq]
    unfold wellFormed
    simp only
    rw [if_neg (by omega), if_neg (by omega), if_neg (by omega), if_neg (by omega)]
  · intro h1
    rw [heq]
    unfold wellFormed
    simp only
    rw [if_neg (by omega), if_neg (by omega), if_neg (by omega), if_neg (by omega)]
  · intro v n h
    rw [heq] at h
    unfold wellFormed at h
    simp only at h
    split_ifs at h with c0 c2 k2 c3 k3 c4 k4 <;>
      simp only [Option.some.injEq, Prod.mk.injEq, reduceCtorEq] at h
    · obtain ⟨hv, hn⟩ := h
      subst hn hv
      omega
    · obtain ⟨hv, hn⟩ := h
      have hok := scalarOk_spec 1 _ (Or.inl rfl) k2.2
      rw [hv] at hok
      omega
    · obtain ⟨hv, hn⟩ := h
      have hok := scalarOk_spec 2 _ (Or.inr (Or.inl rfl)) k3.2.2
      rw [hv] at hok
      omega
    · obtain ⟨hv, hn⟩ := h
      have hok := scalarOk_spec 3 _ (Or.inr (Or.inr rfl)) k4.2.2.2
      rw [hv] at hok
      omega

/-- Witness of `utf8_decode_strict`: the three bytes E2 82 AC decode to 0x20AC with the pointer
advanced by 3; the overlong pair C0 80, the surrogate ED A0 80, the value above 0x10FFFF
F4 90 80 80 and a stray continuation byte are rejected. -/
theorem utf8_decode_strict_witness :
    (∀ b ∈ [0xE2, 0x82, 0xAC], b < 256) ∧
    utf8_decode [0xE2, 0x82, 0xAC] = some (0x20AC, 3) ∧
    utf8_decode [0xC0, 0x80] = none ∧ utf8_decode [0xED, 0xA0, 0x80] = none ∧
    utf8_decode [0xF4, 0x90, 0x80, 0x80] = none ∧ utf8_decode [0x80] = none :=
  ⟨by decide,
    (utf8_decode_strict [0xE2, 0x82, 0xAC] (by decide)).1.trans (by decide),
    by decide, by decide, by decide,
    (utf8_decode_strict [0x80] (by decide)).2.2.1 (by decide) (by decide)⟩

/-- C21: UTF-8 encode/decode round trip.  For every code point `x ≤ 0x10FFFF` outside
0xD800..0xDFFF, `luaO_utf8esc` puts `n` bytes at the end of the buffer, with `n = 1` if
`x < 0x80`, 2 if `x < 0x800`, 3 if `x < 0x10000` and 4 otherwise, and `utf8_decode` on those
`n` bytes yields `x` with the pointer advanced by `n`.  On a frame of integer arguments
`utf8.char` raises the argument error `value out of range` exactly when one of them is below
0 or above 0x10FFFF; on a single argument in range it pushes the `n` bytes as a string. -/
theorem utf8_char_roundtrip (cvt2num : String → Option Int) (buff : List Nat) (L : lua_State)
    (codes : List Int) (hb : buff.length = UTF8BUFFSZ) (hL : L.stack = codes.map .number) :
    (∀ x : Nat, x ≤ 0x10FFFF → ¬ (0xD800 ≤ x ∧ x ≤ 0xDFFF) →
      (luaO_utf8esc buff x).2 =
        (if x < 0x80 then 1 else if x < 0x800 then 2 else if x < 0x10000 then 3 else 4) ∧
      utf8_decode (((luaO_utf8esc buff x).1.drop (UTF8BUFFSZ - (luaO_utf8esc buff x).2)).take
        (luaO_utf8esc buff x).2) = some (x, (luaO_utf8esc buff x).2)) ∧
    ((∃ k, utfchar cvt2num buff L = .raise L (.argerror k valueOutOfRange)) ↔
      ∃ c ∈ codes, c < 0 ∨ 0x10FFFF < c) ∧
    valueOutOfRange = "value out of range" ∧
    (∀ x : Int, codes = [x] → 0 ≤ x → x ≤ 0x10FFFF →
      utfchar cvt2num buff L =
        .ok (lua_pushlstring L
          (((luaO_utf8esc buff x.toNat).1.drop (UTF8BUFFSZ - (luaO_utf8esc buff x.toNat).2)).take
            (luaO_utf8esc buff x.toNat).2)) 1) := by
  have hidx := index2addr_numbers L codes hL
  have hn : lua_gettop L = codes.length := by
    unfold lua_gettop
    rw [hL, List.length_map]
  have hsingle : ∀ x : Int, codes = [x] → utfchar cvt2num buff L =
      if 0 ≤ x ∧ x ≤ 0x10FFFF then
        .ok (lua_pushlstring L
          (((luaO_utf8esc buff x.toNat).1.drop (UTF8BUFFSZ - (luaO_utf8esc buff x.toNat).2)).take
            (luaO_utf8esc buff x.toNat).2)) 1
      else .raise L (.argerror 1 valueOutOfRange) := by
    intro x hx
    subst hx
    have h1 : index2addr L 1 = some (.number x) := by
      have := hidx 0 (by simp)
      simpa using this
    have hn1 : lua_gettop L = 1 := by rw [hn]; rfl
    simp only [utfchar, hn1, if_true, buffutfchar_number cvt2num L 1 buff x h1]
    by_cases c : 0 ≤ x ∧ x ≤ 0x10FFFF
    · simp only [if_pos c, andThen_ok]
    · simp only [if_neg c, andThen_raise]
  refine ⟨fun x hx hs => utf8esc_roundtrip buff hb x hx hs, ?_, valueOutOfRange_eq, ?_⟩
  · by_cases h1 : codes.length = 1
    · obtain ⟨x, rfl⟩ := List.length_eq_one.mp h1
      rw [hsingle x rfl]
      by_cases c : 0 ≤ x ∧ x ≤ 0x10FFFF
      · rw [if_pos c]
        constructor
        · rintro ⟨k, hk⟩
          cases hk
        · rintro ⟨d, hd, hbad⟩
          rw [List.mem_singleton] at hd
          subst hd
          omega
      · rw [if_neg c]
        exact ⟨fun _ => ⟨x, List.mem_singleton.mpr rfl, by omega⟩, fun _ => ⟨1, rfl⟩⟩
    · obtain ⟨p1, p2⟩ := utfcharLoop_spec cvt2num L codes 1 buff luaL_buffinit hidx
      have hu : utfchar cvt2num buff L =
          (utfcharLoop cvt2num codes.length 1 L buff luaL_buffinit).andThen
            fun L b => .ok (luaL_pushresult L b) 1 := by
        simp only [utfchar, hn, if_neg h1]
      rw [hu]
      constructor
      · rintro ⟨k, hk⟩
        by_contra hno
        have hall : ∀ c ∈ codes, 0 ≤ c ∧ c ≤ 0x10FFFF := by
          intro c hc
          by_contra hbad
          exact hno ⟨c, hc, by omega⟩
        obtain ⟨bytes, hb2⟩ := p1 hall
        rw [hb2, andThen_ok] at hk
        cases hk
      · intro hbad
        obtain ⟨k, hk⟩ := p2 hbad
        exact ⟨k, by rw [hk, andThen_raise]⟩
  · intro x hx x0 x1
    rw [hsingle x hx, if_pos ⟨x0, x1⟩]

/-- Witness of `utf8_char_roundtrip`: on the frame `(0x20AC)`, `utf8.char` pushes the three
bytes E2 82 AC, which `utf8_decode` reads back as 0x20AC. -/
theorem utf8_char_roundtrip_witness :
    (List.replicate 8 0).length = UTF8BUFFSZ ∧
    (runningThread [.number 0x20AC]).stack = [(0x20AC : Int)].map .number ∧
    (luaO_utf8esc (List.replicate 8 0) 0x20AC).2 = 3 ∧
    utf8_decode [0xE2, 0x82, 0xAC] = some (0x20AC, 3) ∧
    utfchar (fun _ => none) (List.replicate 8 0) (runningThread [.number 0x20AC]) =
      .ok (lua_pushlstring (runningThread [.number 0x20AC]) [0xE2, 0x82, 0xAC]) 1 :=
  ⟨rfl, rfl,
    ((utf8_char_roundtrip (fun _ => none) (List.replicate 8 0) (runningThread [.number 0x20AC])
      [0x20AC] rfl rfl).1 0x20AC (by decide) (by decide)).1,
    by decide,
    (utf8_char_roundtrip (fun _ => none) (List.replicate 8 0) (runningThread [.number 0x20AC])
      [0x20AC] rfl rfl).2.2.2 0x20AC rfl (by decide) (by decide)⟩

/-- Claim C22, amended: `table.sort` sorts a table that is not read-only.  For a table whose
length `n` does not exceed its array part and a comparison (the default `luaV_lessthan`, or
the function in slot 2 called through `sort_func`) that, while the table is sorted, is pure
on the `n` elements and a strict weak order on them, `tsort` returns without raising, and
afterwards the first `n` array slots are a permutation of the original elements with no
positions `i < j` such that `a[j] < a[i]`, the other slots being untouched; the same result
is reached by `sort_rec` for every depth limit and by `sort_heap` alone.  This includes the
default `<` on numbers and on strings: when no function is passed, the elements are numbers
(strings) and `luaV_lessthan` compares two numbers (strings) by `<`, the table is sorted by
`<`.  On a read-only table `tsort` raises 'attempt to modify a readonly table' and leaves the
table as it was.  `sort_rec` with depth limit 0 is `sort_heap`. -/
theorem table_sort_sorts (luaV_lessthan : SortPredicate)
    (luaD_call : lua_State → TValue → List TValue → Step (List TValue)) (L : lua_State) (h : Nat)
    (ht : tableAt L 1 = some h) (hv : h < L.tables.length)
    (hn : luaH_getn (getTable L h) ≤ (getTable L h).array.length) :
    (∀ lt : TValue → TValue → Bool,
      (lua_isnoneornil L 2 = true ∨ lua_type L 2 = .LUA_TFUNCTION) →
      PurePredicate (if lua_isnoneornil L 2 = true then luaV_lessthan else sort_func luaD_call)
        (lua_settop L 2) h
        (fun x => x ∈ (getTable L h).array.take (luaH_getn (getTable L h))) lt →
      StrictWeakOrder (fun x => x ∈ (getTable L h).array.take (luaH_getn (getTable L h))) lt →
      ((getTable L h).readonly = false →
        ∃ b : List TValue,
          tsort luaV_lessthan luaD_call L = .ok (withArray (lua_settop L 2) h b) 0 ∧
          SortedPermutation lt (getTable L h).array b (luaH_getn (getTable L h))) ∧
      (0 < luaH_getn (getTable L h) → ∀ fuel limit, luaH_getn (getTable L h) ≤ fuel →
        ∃ b : List TValue,
          sort_rec (if lua_isnoneornil L 2 = true then luaV_lessthan else sort_func luaD_call) h
            fuel (lua_settop L 2) 0 (luaH_getn (getTable L h) - 1) limit =
            .ok (withArray (lua_settop L 2) h b) () ∧
          SortedPermutation lt (getTable L h).array b (luaH_getn (getTable L h))) ∧
      (0 < luaH_getn (getTable L h) →
        ∃ b : List TValue,
          sort_heap (lua_settop L 2) h 0 (luaH_getn (getTable L h) - 1)
            (if lua_isnoneornil L 2 = true then luaV_lessthan else sort_func luaD_call) =
            .ok (withArray (lua_settop L 2) h b) () ∧
          SortedPermutation lt (getTable L h).array b (luaH_getn (getTable L h)))) ∧
    (lua_isnoneornil L 2 = true → (getTable L h).readonly = false →
      (∀ x, x ∈ (getTable L h).array.take (luaH_getn (getTable L h)) →
        ∃ k : Int, x = .number k) →
      (∀ (b : List TValue) (x y : Int),
        luaV_lessthan (withArray (lua_settop L 2) h b) (.number x) (.number y) =
          .ok (withArray (lua_settop L 2) h b) (decide (x < y))) →
      ∃ b : List TValue,
        tsort luaV_lessthan luaD_call L = .ok (withArray (lua_settop L 2) h b) 0 ∧
        SortedPermutation numberLess (getTable L h).array b (luaH_getn (getTable L h))) ∧
    (lua_isnoneornil L 2 = true → (getTable L h).readonly = false →
      (∀ x, x ∈ (getTable L h).array.take (luaH_getn (getTable L h)) →
        ∃ s : String, x = .string s) →
      (∀ (b : List TValue) (x y : String),
        luaV_lessthan (withArray (lua_settop L 2) h b) (.string x) (.string y) =
          .ok (withArray (lua_settop L 2) h b) (decide (x < y))) →
      ∃ b : List TValue,
        tsort luaV_lessthan luaD_call L = .ok (withArray (lua_settop L 2) h b) 0 ∧
        SortedPermutation stringLess (getTable L h).array b (luaH_getn (getTable L h))) ∧
    ((getTable L h).readonly = true →
      tsort luaV_lessthan luaD_call L = .raise L (.runerror readonlyMessage)) ∧
    (∀ (M : lua_State) (fuel l u : Nat), l < u →
      sort_rec (if lua_isnoneornil L 2 = true then luaV_lessthan else sort_func luaD_call) h
        (fuel + 1) M l u 0 =
        sort_heap M h l u
          (if lua_isnoneornil L 2 = true then luaV_lessthan else sort_func luaD_call)) := by
  have hv1 : h < (lua_settop L 2).tables.length := hv
  refine ⟨?_, ?_, ?_, fun hro => tsort_frozen luaV_lessthan luaD_call ht hro, ?_⟩
  · intro lt harg hp hs
    have hrange := fun hn0 => sort_range_spec
      (if lua_isnoneornil L 2 = true then luaV_lessthan else sort_func luaD_call) lt
      (lua_settop L 2) h hv1 (luaH_getn (getTable L h)) hn0 hn hp hs
    exact ⟨fun hro => tsort_spec luaV_lessthan luaD_call L h lt ht hv harg hn hp hs hro,
      fun hn0 => (hrange hn0).1, fun hn0 => (hrange hn0).2⟩
  · intro hnone hro hnum hless
    refine tsort_spec luaV_lessthan luaD_call L h numberLess ht hv (Or.inl hnone) hn ?_
      (numberLess_swo _ hnum) hro
    rw [if_pos hnone]
    intro b x y hx hy
    obtain ⟨p, rfl⟩ := hnum x hx
    obtain ⟨q, rfl⟩ := hnum y hy
    exact hless b p q
  · intro hnone hro hstr hless
    refine tsort_spec luaV_lessthan luaD_call L h stringLess ht hv (Or.inl hnone) hn ?_
      (stringLess_swo _ hstr) hro
    rw [if_pos hnone]
    intro b x y hx hy
    obtain ⟨p, rfl⟩ := hstr x hx
    obtain ⟨q, rfl⟩ := hstr y hy
    exact hless b p q
  · intro M fuel l u hlu
    rw [sort_rec, if_pos hlu, if_pos rfl]

/-- Witness of `table_sort_sorts`: `table.sort(a, f)` on `a = {3, 1, 2}`, with `f` a function
that the interpreter runs as `>` and that is the only value it can call, leaves `{3, 2, 1}`;
`table.sort(a)` with the default comparison leaves `{1, 2, 3}`; and `table.sort` on
`{"b", "c", "a"}` leaves `{"a", "b", "c"}`. -/
theorem table_sort_sorts_witness :
    tableAt sortSampleBy 1 = some 0 ∧ lua_type sortSampleBy 2 = .LUA_TFUNCTION ∧
    luaH_getn (getTable sortSampleBy 0) = 3 ∧
    (∃ b : List TValue,
      tsort lessDefault callGreater sortSampleBy =
        .ok (withArray (lua_settop sortSampleBy 2) 0 b) 0 ∧
      SortedPermutation numberGreater [.number 3, .number 1, .number 2] b 3 ∧
      b = [.number 3, .number 2, .number 1]) ∧
    (∃ b : List TValue,
      tsort lessDefault callGreater (sortSample false) =
        .ok (withArray (lua_settop (sortSample false) 2) 0 b) 0 ∧
      SortedPermutation numberLess [.number 3, .number 1, .number 2] b 3 ∧
      b = [.number 1, .number 2, .number 3]) ∧
    (∃ b : List TValue,
      tsort lessDefault callGreater sortSampleStrings =
        .ok (withArray (lua_settop sortSampleStrings 2) 0 b) 0 ∧
      SortedPermutation stringLess [.string "b", .string "c", .string "a"] b 3 ∧
      b = [.string "a", .string "b", .string "c"]) := by
  have hn3 : luaH_getn (getTable sortSampleBy 0) = 3 := by decide
  have hm3 : luaH_getn (getTable (sortSample false) 0) = 3 := by decide
  have hs3 : luaH_getn (getTable sortSampleStrings 0) = 3 := by decide
  have hE : ∀ x, x ∈ (getTable sortSampleBy 0).array.take
      (luaH_getn (getTable sortSampleBy 0)) → ∃ n : Int, x = .number n := by
    intro x hx
    rw [hn3] at hx
    have hx2 : x ∈ [TValue.number 3, TValue.number 1, TValue.number 2] := hx
    simp only [List.mem_cons, List.mem_singleton, List.not_mem_nil, or_false] at hx2
    rcases hx2 with e | e | e
    · exact ⟨3, e⟩
    · exact ⟨1, e⟩
    · exact ⟨2, e⟩
  have hF : ∀ x, x ∈ (getTable (sortSample false) 0).array.take
      (luaH_getn (getTable (sortSample false) 0)) → ∃ n : Int, x = .number n := hE
  have hS : ∀ x, x ∈ (getTable sortSampleStrings 0).array.take
      (luaH_getn (getTable sortSampleStrings 0)) → ∃ s : String, x = .string s := by
    intro x hx
    rw [hs3] at hx
    have hx2 : x ∈ [TValue.string "b", TValue.string "c", TValue.string "a"] := hx
    simp only [List.mem_cons, List.mem_singleton, List.not_mem_nil, or_false] at hx2
    rcases hx2 with e | e | e
    · exact ⟨"b", e⟩
    · exact ⟨"c", e⟩
    · exact ⟨"a", e⟩
  obtain ⟨b, q1, q2⟩ := ((table_sort_sorts lessDefault callGreater sortSampleBy 0
    (by decide) (by decide) (by decide)).1 numberGreater (Or.inr (by decide))
    (by
      rw [if_neg (by decide)]
      intro b x y _ _
      exact sort_func_callGreater _ x y rfl)
    (swo_flip (numberLess_swo _ hE))).1 (by decide)
  obtain ⟨c, r1, r2⟩ := (table_sort_sorts lessDefault callGreater (sortSample false) 0
    (by decide) (by decide) (by decide)).2.1 (by decide) (by decide) hF
    (fun _ _ _ => rfl)
  obtain ⟨d, s1, s2⟩ := (table_sort_sorts lessDefault callGreater sortSampleStrings 0
    (by decide) (by decide) (by decide)).2.2.1 (by decide) (by decide) hS
    (fun _ x y => lessDefault_string _ x y)
  rw [hn3] at q2
  rw [hm3] at r2
  rw [hs3] at s2
  refine ⟨by decide, by decide, hn3, ⟨b, q1, q2, ?_⟩, ⟨c, r1, r2, ?_⟩, ⟨d, s1, s2, ?_⟩⟩
  · have e2 : tsort lessDefault callGreater sortSampleBy =
        .ok (withArray (lua_settop sortSampleBy 2) 0
          [.number 3, .number 2, .number 1]) 0 := by decide
    rw [e2] at q1
    injection q1 with q1 _
    exact (congrArg (fun M => (getTable M 0).array) q1).symm
  · have e2 : tsort lessDefault callGreater (sortSample false) =
        .ok (withArray (lua_settop (sortSample false) 2) 0
          [.number 1, .number 2, .number 3]) 0 := by decide
    rw [e2] at r1
    injection r1 with r1 _
    exact (congrArg (fun M => (getTable M 0).array) r1).symm
  · have e2 : tsort lessDefault callGreater sortSampleStrings =
        .ok (withArray (lua_settop sortSampleStrings 2) 0
          [.string "a", .string "b", .string "c"]) 0 := by decide
    rw [e2] at s1
    injection s1 with s1 _
    exact (congrArg (fun M => (getTable M 0).array) s1).symm

/-- Counterexample to C22 as stated: `table.sort(a)` on a frozen `a = {3, 1, 2}` with the
order of the numbers raises 'attempt to modify a readonly table' and leaves `a[2] < a[1]`. -/
theorem table_sort_sorts_counterexample :
    luaH_getn (getTable (sortSample true) 0) ≤ (getTable (sortSample true) 0).array.length ∧
    tsort lessNumbers noCall (sortSample true) =
      .raise (sortSample true) (.runerror "attempt to modify a readonly table") ∧
    numberLess (slot (getTable (tsort lessNumbers noCall (sortSample true)).state 0).array 1)
      (slot (getTable (tsort lessNumbers noCall (sortSample true)).state 0).array 0) = true := by
  refine ⟨by decide, by decide, by decide⟩

/-- Claim C23, amended: `table.move(a1, f, e, t, a2)` has memmove semantics on a destination
that is not read-only.  For tables `a1`, `a2` (possibly the same) and `int`s `f`, `e`, `t`:
when `e < f` nothing is moved and `a2` is returned; when `f ≤ e`, the two argument checks
pass and `a2` is not read-only, the call returns `a2`, every `i` in `0 .. e - f` has
`a2[t + i]` equal to the value `a1[f + i]` had before the call, every other entry of `a2`
and every other table are unchanged; on a read-only `a2` the call raises instead; and on
every state `moveelements`, whichever path it takes, gives the result of its generic
`lua_rawgeti` / `lua_rawseti` loop. -/
theorem table_move_memmove (cvt2num : String → Option Int) (L : lua_State) (a1 a2 : Nat)
    (f e t : Int)
    (h1 : tableAt L 1 = some a1)
    (hf : lua_tointegerx cvt2num L 2 = some f) (he : lua_tointegerx cvt2num L 3 = some e)
    (ht : lua_tointegerx cvt2num L 4 = some t)
    (hd : tableAt L (if ! lua_isnoneornil L 5 then 5 else 1) = some a2)
    (hv : a2 < L.tables.length)
    (hs1 : ((getTable L a1).array.length : Int) ≤ INT_MAX)
    (hs2 : ((getTable L a2).array.length : Int) ≤ INT_MAX)
    (hfr : INT_MIN ≤ f ∧ f ≤ INT_MAX) (her : INT_MIN ≤ e ∧ e ≤ INT_MAX)
    (htr : INT_MIN ≤ t ∧ t ≤ INT_MAX) :
    (e < f → tmove cvt2num L = .ok (push L (.table a2)) 1) ∧
    (f ≤ e → (f > 0 ∨ e < INT_MAX + f) → t ≤ INT_MAX - (e - f + 1) + 1 →
      (getTable L a2).readonly = false →
      ∃ M : lua_State,
        tmove cvt2num L = .ok (push M (.table a2)) 1 ∧
        M.stack = L.stack ∧
        (∀ h, h ≠ a2 → getTable M h = getTable L h) ∧
        (∀ i : Int, 0 ≤ i → i ≤ e - f →
          luaH_getnum (getTable M a2) (t + i) = luaH_getnum (getTable L a1) (f + i)) ∧
        (∀ key : TValue, (∀ i : Int, 0 ≤ i → i ≤ e - f → key ≠ .number (t + i)) →
          luaH_get (getTable M a2) key = luaH_get (getTable L a2) key)) ∧
    (f ≤ e → (f > 0 ∨ e < INT_MAX + f) → t ≤ INT_MAX - (e - f + 1) + 1 →
      (getTable L a2).readonly = true →
      tmove cvt2num L = .raise L (.runerror readonlyMessage)) ∧
    (∀ R : lua_State, ∀ tt : Int, 0 < tt → tableAt R 1 = some a1 → tableAt R tt = some a2 →
      (getTable R a2).readonly = false →
      ((getTable R a1).array.length : Int) ≤ INT_MAX →
      ((getTable R a2).array.length : Int) ≤ INT_MAX →
      f ≤ e → (f > 0 ∨ e < INT_MAX + f) → t ≤ INT_MAX - (e - f + 1) + 1 →
      moveelements R 1 tt f e t =
        if t > e ∨ t ≤ f ∨ a2 ≠ a1 then rawMoveUp 1 tt f t (e - f + 1).toNat 0 R
        else rawMoveDown 1 tt f t (e - f + 1).toNat R) := by
  have hmax : INT_MAX = 2147483647 := rfl
  have hmin : INT_MIN = -2147483648 := rfl
  rw [hmax] at hs1 hs2
  rw [hmax, hmin] at hfr her htr
  refine ⟨tmove_empty cvt2num L a1 a2 f e t h1 hf he ht hd, ?_, ?_, ?_⟩
  · intro hfe ha hb hro
    obtain ⟨M, m1, m2, -, m4, m5, m6, -⟩ := tmove_moved cvt2num L a1 a2 f e t h1 hf he ht hd hv
      hro hs1 hs2 hfr.1 her.2 htr.1 hfe ha hb
    exact ⟨M, m1, m2, m4, m5, m6⟩
  · intro hfe ha hb hro
    exact (tmove_frozen cvt2num (lua_type_of_tableAt h1) hf he ht hd hro).2.1 hfe ha hb
  · intro R tt hp r1 r2 r3 r4 r5 hfe ha hb
    rw [hmax] at r4 r5 ha hb
    exact (moveelements_paths R 1 tt a1 a2 f e t r1 r2 hp r3 r4 r5 hfr.1 her.2 hfe
      (by omega) htr.1 (by omega)).2

/-- Witness of `table_move_memmove`: `table.move(a, 1, 3, 2)` on `a = {1, 2, 3, 4, 5}`, whose
ranges overlap, leaves `{1, 1, 2, 3, 5}` and returns `a`. -/
theorem table_move_memmove_witness :
    tableAt (moveSample false) 1 = some 0 ∧
    lua_tointegerx (fun _ => none) (moveSample false) 2 = some 1 ∧
    lua_tointegerx (fun _ => none) (moveSample false) 3 = some 3 ∧
    lua_tointegerx (fun _ => none) (moveSample false) 4 = some 2 ∧
    ∃ M : lua_State,
      tmove (fun _ => none) (moveSample false) = .ok (push M (.table 0)) 1 ∧
      luaH_getnum (getTable M 0) 1 = .number 1 ∧ luaH_getnum (getTable M 0) 2 = .number 1 ∧
      luaH_getnum (getTable M 0) 3 = .number 2 ∧ luaH_getnum (getTable M 0) 4 = .number 3 ∧
      luaH_getnum (getTable M 0) 5 = .number 5 := by
  refine ⟨by decide, by decide, by decide, by decide, ?_⟩
  obtain ⟨M, m1, -, -, m4, m5⟩ := (table_move_memmove (fun _ => none) (moveSample false) 0 0 1 3 2
    (by decide) (by decide) (by decide) (by decide) (by decide) (by decide) (by decide)
    (by decide) (by decide) (by decide) (by decide)).2.1 (by decide) (by decide) (by decide)
    (by decide)
  have k1 := m5 (.number 1) (by
    intro i i1 _ he
    injection he with he
    omega)
  have k5 := m5 (.number 5) (by
    intro i _ i2 he
    injection he with he
    omega)
  exact ⟨M, m1, k1, m4 0 (by decide) (by decide), m4 1 (by decide) (by decide),
    m4 2 (by decide) (by decide), k5⟩

/-- Counterexample to C23 as stated: `table.move(a, 1, 3, 2)` on a frozen `a = {1, 2, 3, 4, 5}`
passes the argument checks, raises 'attempt to modify a readonly table', returns nothing and
leaves `a[2]`, which would have to be the old `a[1]`, unchanged. -/
theorem table_move_memmove_counterexample :
    ((1 : Int) > 0 ∨ (3 : Int) < INT_MAX + 1) ∧ (2 : Int) ≤ INT_MAX - (3 - 1 + 1) + 1 ∧
    tmove (fun _ => none) (moveSample true) =
      .raise (moveSample true) (.runerror "attempt to modify a readonly table") ∧
    luaH_getnum (getTable (tmove (fun _ => none) (moveSample true)).state 0) 2 ≠
      luaH_getnum (getTable (moveSample true) 0) 1 := by
  refine ⟨by decide, by decide, by decide, by decide⟩

/-- Claim C24: integer pack/unpack round trip.  For every size `1 .. 16`, both
endiannesses and every signed 64-bit `n` that fits the size, the case `Kint` of `str_pack`
adds the `size` bytes of `packint (n, islittle, size, n < 0)` and `unpackint` with
`issigned = true` reads `n` back from them, the bytes beyond the eighth being `0xFF` for a
negative `n` and `0` otherwise; for `size < 8` and `0 ≤ n < 2^(8 size)` the case `Kuint`
packs and `unpackint` with `issigned = false` reads `n` back; and on any `size > 8` bytes
`unpackint` raises '%d-byte integer does not fit into Lua Integer' exactly when one of the
extra bytes differs from the sign extension of the low eight bytes, and returns their
value otherwise. -/
theorem pack_unpack_roundtrip (L : lua_State) (b : luaL_Strbuf) (islittle : Bool)
    (size : Nat) (arg : Int) (h1 : 1 ≤ size) (h2 : size ≤ 16) :
    (∀ n : Int, -9223372036854775808 ≤ n → n ≤ 9223372036854775807 →
      (size < 8 → -(2 ^ (size * 8 - 1) : Int) ≤ n ∧ n < 2 ^ (size * 8 - 1)) →
      ∃ bytes : List Nat,
        packint b (toUInt64 n) islittle size (decide (n < 0)) = b ++ bytes ∧
        packKint L b n islittle size arg = .ok L (b ++ bytes) ∧
        bytes.length = size ∧
        unpackint L bytes islittle size true = .ok L n ∧
        ∀ j, 8 ≤ j → j < size →
          bytes.getD (bytePos islittle size j) 0 = if n < 0 then 255 else 0) ∧
    (∀ n : Int, size < 8 → 0 ≤ n → n < 2 ^ (size * 8) →
      ∃ bytes : List Nat,
        packint b (toUInt64 n) islittle size false = b ++ bytes ∧
        packKuint L b n islittle size arg = .ok L (b ++ bytes) ∧
        bytes.length = size ∧
        unpackint L bytes islittle size false = .ok L n) ∧
    (∀ str : List Nat, str.length = size → (∀ x ∈ str, x < 256) → 8 < size →
      (unpackint L str islittle size true =
          .raise L (.error (pushfstringText doesNotFitFormat [.int size])) ↔
        ∃ j, 8 ≤ j ∧ j < size ∧ str.getD (bytePos islittle size j) 0 ≠
          if toInt64
            ((digitsValue (fun j => str.getD (bytePos islittle size j) 0) 8 : Nat) : Int) < 0
          then 255 else 0) ∧
      ((∀ j, 8 ≤ j → j < size → str.getD (bytePos islittle size j) 0 =
          if toInt64
            ((digitsValue (fun j => str.getD (bytePos islittle size j) 0) 8 : Nat) : Int) < 0
          then 255 else 0) →
        unpackint L str islittle size true =
          .ok L (toInt64
            ((digitsValue (fun j => str.getD (bytePos islittle size j) 0) 8 : Nat) : Int)))) ∧
    doesNotFitFormat = "%d-byte integer does not fit into Lua Integer" := by
  refine ⟨?_, ?_, ?_, by decide⟩
  · intro n hn1 hn2 hfit
    obtain ⟨bytes, e, hl, hu, hx⟩ := unpack_pack_signed L b n islittle size h1 h2 hn1 hn2 hfit
    refine ⟨bytes, e, ?_, hl, hu, hx⟩
    rw [packKint_fits L b n islittle size arg hfit, e]
  · intro n hs hn1 hn2
    obtain ⟨bytes, e, hl, hu⟩ := unpack_pack_unsigned L b n islittle size h1 hs hn1 hn2
    refine ⟨bytes, e, ?_, hl, hu⟩
    rw [packKuint_fits L b n islittle size arg hs hn1 hn2, e]
  · intro str _ hb h8
    obtain ⟨f1, f2⟩ := unpackint_fit L str islittle size true h8
      (fun j _ => getD_lt_of_all str _ hb)
    simp only [true_and] at f1 f2
    refine ⟨⟨?_, f2⟩, f1⟩
    intro hr
    by_contra hno
    have hall : ∀ j, 8 ≤ j → j < size → str.getD (bytePos islittle size j) 0 =
        if toInt64
          ((digitsValue (fun j => str.getD (bytePos islittle size j) 0) 8 : Nat) : Int) < 0
        then 255 else 0 := by
      intro j j1 j2
      by_contra hne
      exact hno ⟨j, j1, j2, hne⟩
    rw [f1 hall] at hr
    cases hr

/-- Witness of `pack_unpack_roundtrip`: `-2` packed big-endian into 10 bytes is two `0xFF`
bytes of sign extension followed by the eight bytes of the value, and reads back as `-2`;
with one extra byte changed the read raises. -/
theorem pack_unpack_roundtrip_witness :
    1 ≤ 10 ∧ 10 ≤ 16 ∧
    packint [] (toUInt64 (-2)) false 10 true =
      [255, 255, 255, 255, 255, 255, 255, 255, 255, 254] ∧
    unpackint (runningThread []) [255, 255, 255, 255, 255, 255, 255, 255, 255, 254]
      false 10 true = .ok (runningThread []) (-2) ∧
    unpackint (runningThread []) [255, 0, 255, 255, 255, 255, 255, 255, 255, 254]
      false 10 true =
      .raise (runningThread []) (.error "10-byte integer does not fit into Lua Integer") := by
  obtain ⟨hs, -, hr, -⟩ := pack_unpack_roundtrip (runningThread []) [] false 10 1
    (by decide) (by decide)
  obtain ⟨bytes, e, -, -, hu, -⟩ := hs (-2) (by decide) (by decide) (by decide)
  have e2 : packint [] (toUInt64 (-2)) false 10 true =
      [255, 255, 255, 255, 255, 255, 255, 255, 255, 254] := by decide
  have d : decide ((-2 : Int) < 0) = true := by decide
  rw [d, e2, List.nil_append] at e
  subst e
  refine ⟨by decide, by decide, e2, hu, ?_⟩
  have ht : pushfstringText doesNotFitFormat [.int ((10 : Nat) : Int)] =
      "10-byte integer does not fit into Lua Integer" := by decide
  rw [← ht]
  exact ((hr [255, 0, 255, 255, 255, 255, 255, 255, 255, 254] (by decide)
    (by decide) (by decide)).1).2 ⟨8, by decide, by decide, by decide⟩

/-- C25: `string.split` round trip.  On a frame whose arguments are the strings `s` and
`sep`, `str_split` returns one table holding the pieces `p1 .. pk` under the keys `1 .. k`
and nothing else.  For a non-empty `sep` (NUL bytes are bytes like any other): `k ≥ 1`; the
pieces joined with `sep` between neighbours give `s`; no piece contains `sep`; every match is
the leftmost one after the previous match, that is, `sep` does not occur in a piece followed
by `sep` without its last byte; and when `sep` is longer than `s` the only piece is `s`.
For an empty `sep` the pieces are the individual bytes of `s` (none for an empty `s`). -/
theorem split_roundtrip (num2str : Int → String) (L : lua_State) (s sep : String)
    (a1 : index2addr L 1 = some (.string s)) (a2 : index2addr L 2 = some (.string sep)) :
    ∃ (pieces : List (List Nat)) (L1 : lua_State),
      str_split num2str L = .ok L1 1 ∧
      L1.stack = L.stack ++ [.table L.tables.length] ∧
      (∀ i : Int, luaH_getnum (getTable L1 L.tables.length) i =
        if 1 ≤ i ∧ i ≤ pieces.length then
          .string (String.mk ((pieces.getD (i - 1).toNat []).map Char.ofNat))
        else .nil) ∧
      (stringBytes sep ≠ [] →
        pieces ≠ [] ∧ joinPieces (stringBytes sep) pieces = stringBytes s ∧
        (∀ p ∈ pieces, ¬ stringBytes sep <:+: p) ∧
        (∀ p ∈ pieces.dropLast, ¬ stringBytes sep <:+: p ++ (stringBytes sep).dropLast) ∧
        ((stringBytes s).length < (stringBytes sep).length → pieces = [stringBytes s])) ∧
      (stringBytes sep = [] → pieces = (stringBytes s).map fun b => [b]) := by
  have h1 := luaL_checklstring_string num2str L 1 s a1
  have h2 := luaL_optlstring_string num2str L 2 [44] sep a2
  have hev := str_split_eval num2str L (stringBytes s) (stringBytes sep) h1 h2
  generalize stringBytes s = hay at hev ⊢
  generalize stringBytes sep = needle at hev ⊢
  have hh : L.tables.length < (lua_createtable L).tables.length := by
    simp [lua_createtable, push]
  generalize hP : (if needle.length > 0 then
      (loopPieces hay needle (hay.length + 1) (if needle.length = 0 then 1 else 0) 0).1 ++
        [hay.drop
          (loopPieces hay needle (hay.length + 1) (if needle.length = 0 then 1 else 0) 0).2]
      else (loopPieces hay needle (hay.length + 1)
        (if needle.length = 0 then 1 else 0) 0).1) = P at hev
  refine ⟨P, _, hev, ?_, ?_, ?_, ?_⟩
  · rw [(storePieces_stack _ _ _ _).1]
    simp [lua_createtable, push]
  · intro i
    rw [storePieces_getnum _ _ _ _ hh i]
    have he : luaH_getnum (getTable (lua_createtable L) L.tables.length) i = .nil := by
      simp [getTable, lua_createtable, push, emptyTable, luaH_getnum, nodeGet]
    rw [he]
    by_cases c : 1 ≤ i ∧ (i : Int) ≤ (P.length : Int)
    · rw [if_pos c, if_pos (by omega), show i - 0 - 1 = i - 1 by ring]
    · rw [if_neg c, if_neg (by omega)]
  · intro hne
    have hn : 0 < needle.length := List.length_pos.mpr hne
    rw [if_pos hn, if_neg (by omega)] at hP
    subst hP
    obtain ⟨j1, j2, j3⟩ := loopPieces_spec hay needle hn (hay.length + 1) 0 0 (le_refl _)
      (Nat.zero_le _) (by omega) (fun p h1 h2 => by omega)
    refine ⟨by simp, j1, ?_, ?_, ?_⟩
    · intro p hp hinf
      rcases List.mem_append.mp hp with hp1 | hp2
      · exact j2 p hp1 (List.IsInfix.trans hinf (List.infix_append' [] p needle.dropLast))
      · rw [List.mem_singleton] at hp2
        subst hp2
        exact j3 hinf
    · intro p hp
      rw [List.dropLast_concat] at hp
      exact j2 p hp
    · intro hlt
      have hc : ¬ (((0 : Nat) : Int) ≤ (hay.length : Int) - (needle.length : Int)) := by
        push_cast
        omega
      simp only [loopPieces, hc, if_false, List.nil_append, List.drop_zero]
  · intro he
    subst he
    simp only [List.length_nil, Nat.lt_irrefl, if_false, if_true] at hP
    subst hP
    exact loopPieces_empty hay (hay.length + 1) 1 (le_refl _) (by omega)

/-- Witness of `split_roundtrip`: `string.split("aaa", "aa")` stores the empty string under
key 1 and `"a"` under key 2; the match is the leftmost one. -/
theorem split_roundtrip_witness :
    index2addr (runningThread [.string "aaa", .string "aa"]) 1 = some (.string "aaa") ∧
    index2addr (runningThread [.string "aaa", .string "aa"]) 2 = some (.string "aa") ∧
    ∃ L1 : lua_State, str_split toString (runningThread [.string "aaa", .string "aa"]) =
        .ok L1 1 ∧
      luaH_getnum (getTable L1 0) 1 = .string "" ∧ luaH_getnum (getTable L1 0) 2 = .string "a" ∧
      luaH_getnum (getTable L1 0) 3 = .nil := by
  refine ⟨by decide, by decide, ?_⟩
  obtain ⟨pieces, L1, e, -, -, -, -⟩ := split_roundtrip toString
    (runningThread [.string "aaa", .string "aa"]) "aaa" "aa" (by decide) (by decide)
  refine ⟨L1, e, ?_⟩
  have e2 : str_split toString (runningThread [.string "aaa", .string "aa"]) =
      .ok { stack := [.string "aaa", .string "aa", .table 0],
            tables := [{ array := [.string "", .string "a"], node := [], readonly := false,
                         metatable := none }],
            status := .LUA_OK, nci := 1, tid := 0, singlestep := false } 1 := by decide
  rw [e2] at e
  cases e
  decide

/-- C26: the shifts of `bit32` are 32-bit arithmetic.  For a 32-bit unsigned `x` and an
integer `i` with -2^31 < i < 2^31, `bit32.lshift(x, i)` returns `(x * 2^i) mod 2^32` when
`0 ≤ i < 32`, `floor(x / 2^(-i))` when `-32 < i < 0` and 0 when `|i| ≥ 32`; and
`bit32.rshift(x, i)` returns what `bit32.lshift(x, -i)` returns. -/
theorem bit32_shifts (cvt2num : String → Option Int) (L : lua_State) (x i : Int)
    (hx0 : 0 ≤ x) (hx1 : x < 4294967296) (hi0 : -2147483648 < i) (hi1 : i < 2147483648)
    (h1 : index2addr L 1 = some (.number x)) (h2 : index2addr L 2 = some (.number i)) :
    ∃ r : Int, b_lshift cvt2num L = .ok (push L (.number r)) 1 ∧
      (0 ≤ i → i < 32 → r = (x * 2 ^ i.toNat) % 4294967296) ∧
      (-32 < i → i < 0 → r = x / 2 ^ (-i).toNat) ∧
      (32 ≤ i ∨ i ≤ -32 → r = 0) ∧
      ∀ L2 : lua_State, index2addr L2 1 = some (.number x) →
        index2addr L2 2 = some (.number (-i)) →
        ∃ r2 : Int, b_lshift cvt2num L2 = .ok (push L2 (.number r2)) 1 ∧
          b_rshift cvt2num L = .ok (push L (.number r2)) 1 := by
  obtain ⟨n, rfl⟩ := Int.eq_ofNat_of_zero_le hx0
  have hn : n < 4294967296 := by omega
  have hu : toUnsigned (n : Int) = n := by rw [toUnsigned_natCast]; exact Nat.mod_eq_of_lt hn
  have hl : ∀ (M : lua_State) (j : Int), -2147483648 < j → j < 2147483648 →
      index2addr M 1 = some (.number (n : Int)) →
      index2addr M 2 = some (.number j) → b_lshift cvt2num M = b_shift M n j := by
    intro M j j0 j1 m1 m2
    have hj : luai_num2int j = j := luai_num2int_eq (by unfold INT_MIN INT_MAX; omega)
    simp only [b_lshift, luaL_checkunsigned_number m1, luaL_checkinteger_number m2, andThen_ok,
      hu, hj]
  have hr : b_rshift cvt2num L = b_shift L n (-i) := by
    have ht : toInt32 (-i) = -i := by unfold toInt32; omega
    have hj : luai_num2int i = i := luai_num2int_eq (by unfold INT_MIN INT_MAX; omega)
    simp only [b_rshift, luaL_checkunsigned_number h1, luaL_checkinteger_number h2, andThen_ok,
      hu, hj, ht]
  have hval : ∀ (M : lua_State) (j : Int), -2147483648 < j → j < 2147483648 →
      ∃ r : Int, b_shift M n j = .ok (push M (.number r)) 1 ∧
        (0 ≤ j → j < 32 → r = ((n : Int) * 2 ^ j.toNat) % 4294967296) ∧
        (-32 < j → j < 0 → r = (n : Int) / 2 ^ (-j).toNat) ∧
        (32 ≤ j ∨ j ≤ -32 → r = 0) := by
    intro M j j0 j1
    by_cases c1 : 32 ≤ j ∨ j ≤ -32
    · exact ⟨0, b_shift_zero M n j j0 j1 c1, fun a b => by omega, fun a b => by omega,
        fun _ => rfl⟩
    · by_cases c2 : 0 ≤ j
      · exact ⟨_, b_shift_left M n j c2 (by omega), fun _ _ => rfl, fun a b => by omega,
          fun c => absurd c c1⟩
      · exact ⟨_, b_shift_right M n j hn (by omega) (by omega), fun a b => by omega,
          fun _ _ => rfl, fun c => absurd c c1⟩
  obtain ⟨r, e, p1, p2, p3⟩ := hval L i hi0 hi1
  refine ⟨r, (hl L i hi0 hi1 h1 h2).trans e, p1, p2, p3, ?_⟩
  intro L2 m1 m2
  obtain ⟨r3, e3, q1, q2, q3⟩ := hval L (-i) (by omega) (by omega)
  obtain ⟨s2, f2, t1, t2, t3⟩ := hval L2 (-i) (by omega) (by omega)
  have hsame : r3 = s2 := by
    by_cases c1 : 32 ≤ -i ∨ -i ≤ -32
    · rw [q3 c1, t3 c1]
    · by_cases c2 : 0 ≤ -i
      · rw [q1 c2 (by omega), t1 c2 (by omega)]
      · rw [q2 (by omega) (by omega), t2 (by omega) (by omega)]
  exact ⟨s2, (hl L2 (-i) (by omega) (by omega) m1 m2).trans f2, by rw [hr, e3, hsame]⟩

/-- Witness of `bit32_shifts`: on the frame `(0xF0000001, 4)`, `bit32.lshift` pushes 16. -/
theorem bit32_shifts_witness :
    index2addr (runningThread [.number 4026531841, .number 4]) 1 = some (.number 4026531841) ∧
    index2addr (runningThread [.number 4026531841, .number 4]) 2 = some (.number 4) ∧
    b_lshift (fun _ => none) (runningThread [.number 4026531841, .number 4]) =
      .ok (push (runningThread [.number 4026531841, .number 4]) (.number 16)) 1 := by
  refine ⟨by decide, by decide, ?_⟩
  obtain ⟨r, e, p1, -⟩ := bit32_shifts (fun _ => none)
    (runningThread [.number 4026531841, .number 4]) 4026531841 4 (by decide) (by decide)
    (by decide) (by decide) (by decide) (by decide)
  rw [e, p1 (by decide) (by decide)]
  rfl

/-- Claim C27, amended: `bit32.arshift` is an arithmetic right shift for a displacement that
is an `int`.  For a 32-bit unsigned `x` whose top bit is set and `i ≥ 0` it returns
`floor((x - 2^32) / 2^i) mod 2^32` when `i < 32` and 0xFFFFFFFF when `32 ≤ i < 2^31`; for
`x` with the top bit clear, or for negative `i`, it returns what `bit32.rshift(x, i)`
returns. -/
theorem bit32_arshift (cvt2num : String → Option Int) (L : lua_State) (x i : Int)
    (hx0 : 0 ≤ x) (hx1 : x < 4294967296)
    (h1 : index2addr L 1 = some (.number x)) (h2 : index2addr L 2 = some (.number i)) :
    (2147483648 ≤ x → 0 ≤ i → i < 32 →
      b_arshift cvt2num L =
        .ok (push L (.number (((x - 4294967296) / 2 ^ i.toNat) % 4294967296))) 1) ∧
    (2147483648 ≤ x → 32 ≤ i → i < 2147483648 →
      b_arshift cvt2num L = .ok (push L (.number 4294967295)) 1) ∧
    (x < 2147483648 ∨ i < 0 → b_arshift cvt2num L = b_rshift cvt2num L) := by
  obtain ⟨n, rfl⟩ := Int.eq_ofNat_of_zero_le hx0
  have hn : n < 4294967296 := by omega
  have hu : toUnsigned (n : Int) = n := by rw [toUnsigned_natCast]; exact Nat.mod_eq_of_lt hn
  have hr : b_rshift cvt2num L = b_shift L n (toInt32 (-luai_num2int i)) := by
    simp only [b_rshift, luaL_checkunsigned_number h1, luaL_checkinteger_number h2, andThen_ok,
      hu]
  have ha : b_arshift cvt2num L =
      if luai_num2int i < 0 ∨ n &&& shl 1 (NBITS - 1) = 0 then
        b_shift L n (toInt32 (-luai_num2int i))
      else .ok (lua_pushunsigned L
        (if luai_num2int i ≥ NBITS then ALLONES
         else trim (shr n (luai_num2int i) ||| bnot (shr (bnot 0) (luai_num2int i))))) 1 := by
    simp only [b_arshift, luaL_checkunsigned_number h1, luaL_checkinteger_number h2, andThen_ok,
      hu]
  refine ⟨?_, ?_, ?_⟩
  · intro t0 i0 i1
    have hj : luai_num2int i = i := luai_num2int_eq (by unfold INT_MIN INT_MAX; omega)
    rw [hj] at ha
    have hc : ¬ (i < 0 ∨ n &&& shl 1 (NBITS - 1) = 0) := by
      rw [topBit_clear n hn]; omega
    obtain ⟨k, rfl⟩ := Int.eq_ofNat_of_zero_le i0
    rw [ha, if_neg hc, if_neg (show ¬ ((k : Int) ≥ NBITS) by unfold NBITS; omega)]
    unfold lua_pushunsigned
    rw [arshift_value n k (by omega) hn (by omega), Int.toNat_ofNat]
  · intro t0 i0 i1
    have hj : luai_num2int i = i := luai_num2int_eq (by unfold INT_MIN INT_MAX; omega)
    rw [hj] at ha
    have hc : ¬ (i < 0 ∨ n &&& shl 1 (NBITS - 1) = 0) := by
      rw [topBit_clear n hn]; omega
    rw [ha, if_neg hc, if_pos (show i ≥ NBITS by unfold NBITS; omega)]
    rfl
  · intro c
    have hc : luai_num2int i < 0 ∨ n &&& shl 1 (NBITS - 1) = 0 := by
      rw [topBit_clear n hn]
      by_cases r : INT_MIN ≤ i ∧ i ≤ INT_MAX
      · rw [luai_num2int_eq r]
        omega
      · rw [luai_num2int_out r]
        left
        decide
    rw [ha, if_pos hc, hr]

/-- Witness of `bit32_arshift`: on the frame `(0xF0000001, 4)`, `bit32.arshift` pushes
0xFF000000. -/
theorem bit32_arshift_witness :
    index2addr (runningThread [.number 4026531841, .number 4]) 1 = some (.number 4026531841) ∧
    index2addr (runningThread [.number 4026531841, .number 4]) 2 = some (.number 4) ∧
    b_arshift (fun _ => none) (runningThread [.number 4026531841, .number 4]) =
      .ok (push (runningThread [.number 4026531841, .number 4]) (.number 4278190080)) 1 :=
  ⟨by decide, by decide,
    ((bit32_arshift (fun _ => none) (runningThread [.number 4026531841, .number 4])
      4026531841 4 (by decide) (by decide) (by decide) (by decide)).1
      (by decide) (by decide) (by decide)).trans (by decide)⟩

/-- Counterexample to C27 as stated: `bit32.arshift(0x80000000, 2147483648)` has the top bit
set and `i ≥ 32`, but the displacement does not fit the `int` that `luaL_checkinteger`
returns; the converted displacement is negative and the call pushes `x` itself, not
0xFFFFFFFF. -/
theorem bit32_arshift_counterexample :
    (2147483648 : Int) ≤ 2147483648 ∧ (32 : Int) ≤ 2147483648 ∧
    b_arshift (fun _ => none) (runningThread [.number 2147483648, .number 2147483648]) =
      .ok (push (runningThread [.number 2147483648, .number 2147483648])
        (.number 2147483648)) 1 ∧
    b_arshift (fun _ => none) (runningThread [.number 2147483648, .number 2147483648]) ≠
      .ok (push (runningThread [.number 2147483648, .number 2147483648])
        (.number 4294967295)) 1 := by
  refine ⟨by decide, by decide, by decide, by decide⟩

/-- C28: field laws of `bit32.extract` and `bit32.replace`.  For 32-bit `n` and `v` and a
field with `0 ≤ f`, `1 ≤ w`, `f + w ≤ 32`: `extract(n, f, w)` returns
`floor(n / 2^f) mod 2^w`; `replace(n, v, f, w)` returns a 32-bit `r` such that
`extract(r, f, w)` returns `v mod 2^w`, no bit of `r` outside positions `f .. f+w-1` differs
from the bit of `n`, and `extract` over any field disjoint from it returns the same for `r`
as for `n`.  The full-width field `f = 0`, `w = 32` is included. -/
theorem extract_replace_laws (cvt2num : String → Option Int) (n v f w : Int)
    (hn0 : 0 ≤ n) (hn1 : n < 4294967296) (hv0 : 0 ≤ v) (hv1 : v < 4294967296)
    (hf : 0 ≤ f) (hw : 1 ≤ w) (hfw : f + w ≤ 32) :
    (∀ L : lua_State, index2addr L 1 = some (.number n) → index2addr L 2 = some (.number f) →
      index2addr L 3 = some (.number w) →
      b_extract cvt2num L = .ok (push L (.number (n / 2 ^ f.toNat % 2 ^ w.toNat))) 1) ∧
    (∀ L : lua_State, index2addr L 1 = some (.number n) → index2addr L 2 = some (.number v) →
      index2addr L 3 = some (.number f) → index2addr L 4 = some (.number w) →
      ∃ r : Int, b_replace cvt2num L = .ok (push L (.number r)) 1 ∧ 0 ≤ r ∧ r < 4294967296 ∧
        (∀ L2 : lua_State, index2addr L2 1 = some (.number r) →
          index2addr L2 2 = some (.number f) → index2addr L2 3 = some (.number w) →
          b_extract cvt2num L2 = .ok (push L2 (.number (v % 2 ^ w.toNat))) 1) ∧
        (∀ k : Nat, (k : Int) < f ∨ f + w ≤ (k : Int) → r.toNat.testBit k = n.toNat.testBit k) ∧
        (∀ f2 w2 : Int, 0 ≤ f2 → 1 ≤ w2 → f2 + w2 ≤ 32 → f2 + w2 ≤ f ∨ f + w ≤ f2 →
          ∀ L3 L4 : lua_State, index2addr L3 1 = some (.number r) →
            index2addr L3 2 = some (.number f2) → index2addr L3 3 = some (.number w2) →
            index2addr L4 1 = some (.number n) →
            index2addr L4 2 = some (.number f2) → index2addr L4 3 = some (.number w2) →
            ∃ e : Int, b_extract cvt2num L3 = .ok (push L3 (.number e)) 1 ∧
              b_extract cvt2num L4 = .ok (push L4 (.number e)) 1)) := by
  obtain ⟨n, rfl⟩ := Int.eq_ofNat_of_zero_le hn0
  obtain ⟨v, rfl⟩ := Int.eq_ofNat_of_zero_le hv0
  obtain ⟨f, rfl⟩ := Int.eq_ofNat_of_zero_le hf
  obtain ⟨w, rfl⟩ := Int.eq_ofNat_of_zero_le (le_trans (by decide) hw)
  have hn : n < 4294967296 := by omega
  have hv : v < 4294967296 := by omega
  have h1 : 1 ≤ w := by omega
  have h2 : f + w ≤ 32 := by omega
  refine ⟨?_, ?_⟩
  · intro L a1 a2 a3
    rw [b_extract_value cvt2num L n f w hn h1 h2 a1 a2 a3]
    simp only [Int.toNat_ofNat]
    push_cast
    rfl
  · intro L a1 a2 a3 a4
    have hlt := replace_lt n v f w hn
    refine ⟨_, b_replace_value cvt2num L n v f w hn hv h1 h2 a1 a2 a3 a4, by omega, by omega,
      ?_, ?_, ?_⟩
    · intro L2 b1 b2 b3
      rw [b_extract_value cvt2num L2 _ f w hlt h1 h2 b1 b2 b3, replace_field n v f w hn h2]
      simp only [Int.toNat_ofNat]
      push_cast
      rfl
    · intro k hk
      rw [Int.toNat_ofNat, Int.toNat_ofNat, replace_testBit n v f w hn h2, if_neg (by omega)]
    · intro f2 w2 g0 g1 g2 gd L3 L4 b1 b2 b3 c1 c2 c3
      obtain ⟨f2, rfl⟩ := Int.eq_ofNat_of_zero_le g0
      obtain ⟨w2, rfl⟩ := Int.eq_ofNat_of_zero_le (le_trans (by decide) g1)
      refine ⟨_, b_extract_value cvt2num L3 _ f2 w2 hlt (by omega) (by omega) b1 b2 b3, ?_⟩
      rw [b_extract_value cvt2num L4 n f2 w2 hn (by omega) (by omega) c1 c2 c3,
        replace_other n v f w f2 w2 hn h2 (by omega)]

/-- Witness of `extract_replace_laws`: the full-width field `f = 0`, `w = 32`, on the frame
`(0xF0000AB1, 0, 32)`: `bit32.extract` pushes 0xF0000AB1. -/
theorem extract_replace_laws_witness :
    b_extract (fun _ => none) (runningThread [.number 4026534577, .number 0, .number 32]) =
      .ok (push (runningThread [.number 4026534577, .number 0, .number 32])
        (.number 4026534577)) 1 :=
  ((extract_replace_laws (fun _ => none) 4026534577 4660 0 32 (by decide) (by decide)
    (by decide) (by decide) (by decide) (by decide) (by decide)).1
    (runningThread [.number 4026534577, .number 0, .number 32]) (by decide) (by decide)
    (by decide)).trans (by decide)

/-- C29: `fieldargs` at the field `f = 2147483647`, `w = 1` (as in
`bit32.extract(0, 2147483647, 1)`).  Both argument checks pass, the 32-bit sum `f + w` wraps
to -2147483648, which is not above `NBITS`, and `fieldargs` returns the pair
`(2147483647, 1)` instead of raising: `bit32.extract` goes on to shift by 2147483647 and
returns normally. -/
theorem fieldargs_sum_wraps :
    toInt32 (2147483647 + 1) = -2147483648 ∧
    fieldargs (fun _ => none) (runningThread [.number 0, .number 2147483647, .number 1]) 2 =
      .ok (runningThread [.number 0, .number 2147483647, .number 1]) (2147483647, 1) ∧
    ∃ L : lua_State,
      b_extract (fun _ => none) (runningThread [.number 0, .number 2147483647, .number 1]) =
        .ok L 1 := by
  refine ⟨by decide, by decide, ⟨_, rfl⟩⟩

end Luau
